import Mathlib

/-!
# MSVDX command dispatch and firmware messaging (`psb_msvdx.c`)

A shallow embedding of the host side of the MSVDX video-decode driver:
the host-to-firmware ring (`psb_mtx_send`), the sub-message walker
(`psb_msvdx_send`), command validation and patching
(`psb_msvdx_map_command`) and submission (`psb_submit_video_cmdbuf`).

Conventions.
* C `uint32_t` values are natural numbers; arithmetic that can overflow is
  reduced modulo `2 ^ 32` explicitly.
* Memory reached through a `void *` is a list of little-endian 32-bit words
  together with a byte offset; reads outside the list give `0`.
* MMIO registers are named fields of `Dev`; the VEC local RAM that holds the
  rings is the byte-addressed map `Dev.vlr`.
* Loops and the self-call in `psb_mtx_send` are driven by a fuel argument;
  `none` stands for a run that does not return.
-/

namespace Msvdx

/-! ## Machine integers and errno values -/

/-- Modulus of `uint32_t`. -/
def U32 : Nat := 4294967296

/-- Subtraction of `uint32_t` values. -/
def sub32 (a b : Nat) : Nat := (a + U32 - b % U32) % U32

/-- Errno `EINVAL`. -/
def EINVAL : Int := 22
/-- Errno `ENOMEM`. -/
def ENOMEM : Int := 12
/-- Errno `EBUSY`. -/
def EBUSY : Int := 16
/-- Errno `EFAULT`. -/
def EFAULT : Int := 14

/-- Page size of the platform (x86, 4 KiB pages). -/
def PAGE_SIZE : Nat := 4096

/-! ## Word memory -/

/-- A 32-bit load at byte offset `b` from a list of little-endian words.
An aligned load returns the word; an unaligned one combines the two words it
straddles. -/
def rd32 (m : List Nat) (b : Nat) : Nat :=
  if b % 4 = 0 then m.getD (b / 4) 0
  else (m.getD (b / 4) 0 / 2 ^ (8 * (b % 4))
        + m.getD (b / 4 + 1) 0 * 2 ^ (32 - 8 * (b % 4))) % U32

/-- A 32-bit store at byte offset `b`. -/
def wr32 (m : List Nat) (b v : Nat) : List Nat :=
  if b % 4 = 0 then m.set (b / 4) (v % U32)
  else
    let k := 8 * (b % 4)
    let lo := m.getD (b / 4) 0
    let hi := m.getD (b / 4 + 1) 0
    (m.set (b / 4) (lo % 2 ^ k + (v % 2 ^ (32 - k)) * 2 ^ k)).set (b / 4 + 1)
      (hi / 2 ^ k * 2 ^ k + (v % U32) / 2 ^ (32 - k))

/-- A message field: the 32-bit word of the message that holds it (byte
offset divided by four), the position of its lowest bit in that word, and its
width in bits. -/
structure Field where
  word : Nat
  shift : Nat
  width : Nat
deriving DecidableEq, Repr

/-- The bits of field `f` in the word `w`. -/
def getBits (w : Nat) (f : Field) : Nat := (w / 2 ^ f.shift) % 2 ^ f.width

/-- Modelled from the spec: the field-read macro of `psb_msvdx.h`, which is
not part of the sources at hand. The wire format is little-endian 32-bit
words with every field at a fixed position; the read extracts the field's
bits from its word. -/
def MEMIO_READ_FIELD (m : List Nat) (off : Nat) (f : Field) : Nat :=
  getBits (rd32 m (off + 4 * f.word)) f

/-- The word `w` with the bits of field `f` replaced by `v` (truncated to the
field's width). -/
def setBits (w : Nat) (f : Field) (v : Nat) : Nat :=
  w % 2 ^ f.shift + (v % 2 ^ f.width) * 2 ^ f.shift
    + w / 2 ^ (f.shift + f.width) * 2 ^ (f.shift + f.width)

/-- Modelled from the spec: the field-write macro of `psb_msvdx.h`, which is
not part of the sources at hand: a read-modify-write of the word that holds
the field, leaving the other bits of the word as they are. -/
def MEMIO_WRITE_FIELD (m : List Nat) (off : Nat) (f : Field) (v : Nat) : List Nat :=
  wr32 m (off + 4 * f.word) (setBits (rd32 m (off + 4 * f.word)) f v)

/-! ## Constants of `psb_msvdx.h`

The header is not part of the sources at hand; its constants and field
positions are parameters of the development. -/

/-- Constants and field layouts taken from `psb_msvdx.h`, and the hardware
revision predicates. -/
structure Layout where
  FWRK_GENMSG_SIZE : Field
  FWRK_GENMSG_ID : Field
  FWRK_GENMSG_HEADER_SIZE : Nat
  FWRK_PADMSG_SIZE : Nat
  FWRK_MSGID_PADDING : Nat
  VA_MSGID_RENDER : Nat
  VA_MSGID_DEBLOCK : Nat
  VA_MSGID_OOLD_MFLD : Nat
  VA_MSGID_DEBLOCK_MFLD : Nat
  FW_VA_RENDER_SIZE : Nat
  FW_VA_DEBLOCK_SIZE : Nat
  FW_VA_RENDER_FENCE_VALUE : Field
  FW_VA_RENDER_MMUPTD : Field
  FW_VA_DECODE_MSG_ID : Field
  FW_DEVA_DECODE_FLAGS : Field
  FW_VA_DECODE_MMUPTD : Field
  FW_DEVA_INVALIDATE_MMU : Nat
  /-- Member `flags` of `FW_VA_DEBLOCK_MSG`. -/
  deblock_flags : Field
  /-- Member `header.bits.msg_type` of `FW_VA_DEBLOCK_MSG`. -/
  deblock_msg_type : Field
  /-- Member `header.bits.msg_fence` of `FW_VA_DEBLOCK_MSG`. -/
  deblock_msg_fence : Field
  /-- Member `mmu_context.bits.mmu_ptd` of `FW_VA_DEBLOCK_MSG`. -/
  deblock_mmu_ptd : Field
  /-- Value of `clk_enable_all`. -/
  clk_enable_all : Nat
  /-- Truth of `IS_MDFLD(dev) && IS_FW_UPDATED`. -/
  mdfld_fw_updated : Bool
  /-- Truth of `IS_D0(dev)`. -/
  is_d0 : Bool
  VA_MSGID_CMD_HW_PANIC : Nat
  VA_MSGID_CMD_FAILED : Nat
  VA_MSGID_CMD_COMPLETED : Nat
  FW_VA_HW_PANIC_FENCE_VALUE : Field
  FW_VA_CMD_FAILED_FENCE_VALUE : Field
  FW_DEVA_CMD_FAILED_MSG_ID : Field
  FW_VA_CMD_COMPLETED_FLAGS : Field
  FW_VA_CMD_COMPLETED_MSG_ID : Field
  FW_VA_CMD_COMPLETED_FENCE_VALUE : Field
  FW_VA_RENDER_HOST_INT : Nat
  MSVDX_RESET_NEEDS_REUPLOAD_FW : Nat
  MSVDX_RESET_NEEDS_INIT_FW : Nat
  /-- Truth of `IS_CTP(gpDrmDevice)`. -/
  is_ctp : Bool
  PSB_PMPOLICY_NOPM : Nat
  PSB_PMPOLICY_POWERDOWN : Nat
  MSVDX_INTERRUPT_STATUS_CR_MMU_FAULT_IRQ_MASK : Nat
  MSVDX_INTERRUPT_STATUS_CR_MTX_IRQ_MASK : Nat
  MSVDX_MMU_CONTROL0_CR_MMU_PAUSE_MASK : Nat
deriving DecidableEq, Repr

/-! ## Device state -/

/-- One entry of the command queue (`struct psb_msvdx_cmd_queue`). -/
structure CmdQueueEntry where
  cmd : List Nat
  cmd_size : Nat
  sequence : Nat
deriving DecidableEq, Repr

/-- Calls made on collaborators, in the order they happen. -/
inductive Event where
  | kmap
  | kunmap
  | gl3_global_invalidation
  | fence_error (sequence : Nat)
  | fence_handler
  | power_island_down
  /-- A queued entry is reported failed while the queue is flushed. -/
  | queue_entry_failed (sequence : Nat)
  /-- The call `schedule_delayed_work(&dev_priv->scheduler.msvdx_suspend_wq, 0)`. -/
  | schedule_suspend
deriving DecidableEq, Repr

/-- The part of `drm_psb_private` / `msvdx_private` and of the MSVDX register
file that the code at hand touches. -/
structure Dev where
  /-- Register `MSVDX_MAN_CLK_ENABLE`. -/
  MSVDX_MAN_CLK_ENABLE : Nat := 0
  /-- Register `MSVDX_COMMS_TO_MTX_BUF_SIZE`: size in the low half, offset in
  the high half. -/
  MSVDX_COMMS_TO_MTX_BUF_SIZE : Nat := 0
  MSVDX_COMMS_TO_MTX_RD_INDEX : Nat := 0
  MSVDX_COMMS_TO_MTX_WRT_INDEX : Nat := 0
  MSVDX_COMMS_TO_HOST_BUF_SIZE : Nat := 0
  MSVDX_COMMS_TO_HOST_RD_INDEX : Nat := 0
  MSVDX_COMMS_TO_HOST_WRT_INDEX : Nat := 0
  /-- VEC local RAM, by byte address. -/
  vlr : Nat → Nat := fun _ => 0
  /-- Number of writes of `1` to `MSVDX_MTX_KICK`. -/
  mtx_kicks : Nat := 0
  /-- Number of word stores into the host-to-firmware ring (bookkeeping only,
  never read by the code). -/
  ring_stores : Nat := 0
  msvdx_busy : Nat := 0
  msvdx_needs_reset : Nat := 0
  msvdx_fw_loaded : Nat := 0
  msvdx_queue : List CmdQueueEntry := []
  msvdx_current_sequence : Nat := 0
  msvdx_last_sequence : Nat := 0
  /-- Value of `dev_priv->sequence[PSB_ENGINE_VIDEO]`. -/
  sequence : Nat := 0
  /-- Value of the atomic `dev_priv->msvdx_mmu_invaldc`. -/
  msvdx_mmu_invaldc : Nat := 0
  /-- Result of `psb_get_default_pd_addr(dev_priv->mmu)`. -/
  default_pd_addr : Nat := 0
  vec_local_mem_saved : Nat := 0
  vec_local_mem_data : List Nat := []
  fw_status : Nat := 0
  /-- Calls made on collaborators so far, oldest first. -/
  trace : List Event := []
  /-- The static message buffer `buf[128]` of `psb_msvdx_mtx_interrupt`, which
  keeps its contents from one call to the next. -/
  mtx_interrupt_buf : List Nat := List.replicate 128 0
  /-- The global `drm_msvdx_pmpolicy`. -/
  drm_msvdx_pmpolicy : Nat := 0
  /-- Register `MSVDX_MMU_CONTROL0`, as last written. -/
  MSVDX_MMU_CONTROL0 : Nat := 0
  /-- Register `MSVDX_INTERRUPT_CLEAR`, as last written. -/
  MSVDX_INTERRUPT_CLEAR : Nat := 0
  /-- Register `MSVDX_MTX_ENABLE`, as last written. -/
  MSVDX_MTX_ENABLE : Nat := 0
  msvdx_hw_busy : Nat := 0
  /-- The memory that lies behind the static array `pad_msg` of
  `psb_mtx_send`, word by word: word `k` is what a read of
  `pad_msg[FWRK_PADMSG_SIZE + k]` returns. The source does not determine it,
  and no function at hand writes it under this name. -/
  pad_msg_behind : Nat → Nat := fun _ => 0

/-! ## The host-to-firmware ring: `psb_mtx_send` -/

/-- Size in words of a message, as `psb_mtx_send` computes it:
`(MEMIO_READ_FIELD(msg, FWRK_GENMSG_SIZE) + 3) / 4`. -/
def msg_num_of (L : Layout) (msg : List Nat) (off : Nat) : Nat :=
  ((MEMIO_READ_FIELD msg off L.FWRK_GENMSG_SIZE + 3) % U32) / 4

/-- Capacity of the host-to-firmware ring in words: the low 16 bits of the
size register. -/
def to_mtx_capacity (s : Dev) : Nat := s.MSVDX_COMMS_TO_MTX_BUF_SIZE % 65536

/-- Byte offset of the ring in VEC local RAM: the high half of the size
register plus `0x2000`. -/
def to_mtx_offset (s : Dev) : Nat := (s.MSVDX_COMMS_TO_MTX_BUF_SIZE / 65536 + 8192) % U32

/-- Address `buf_offset + (widx << 2)`. -/
def ring_addr (buf_offset widx : Nat) : Nat := (buf_offset + (widx * 4) % U32) % U32

/-- The free-word count of lines 496-499. -/
def words_free (buf_size ridx widx : Nat) : Nat :=
  if widx ≥ ridx then sub32 (sub32 buf_size (sub32 widx ridx)) 1
  else sub32 (sub32 ridx widx) 1

/-- The copy loop of lines 507-513: `n` words of the message, starting with
word `i`, are stored at `widx`, which wraps to `0` on reaching `buf_size`.
Returns the RAM, the final `widx` and the number of stores. -/
def ring_copy (msg : List Nat) (off buf_offset buf_size : Nat) :
    Nat → Nat → (Nat → Nat) → Nat → (Nat → Nat) × Nat
  | 0, _, vlr, widx => (vlr, widx)
  | n + 1, i, vlr, widx =>
    let a := ring_addr buf_offset widx
    let v := rd32 msg (off + 4 * i)
    let vlr1 : Nat → Nat := fun x => if x = a then v else vlr x
    let widx1 := (widx + 1) % U32
    let widx2 := if buf_size = widx1 then 0 else widx1
    ring_copy msg off buf_offset buf_size n (i + 1) vlr1 widx2

/-- The static array `pad_msg[FWRK_PADMSG_SIZE]` after lines 488-491. Only
these two fields of the array are ever written, so its other bits are the
zeros it starts with. What the self-call reads past the end of the array is
not in this list: see `pad_msg_memory`. -/
def pad_msg (L : Layout) (buf_size widx : Nat) : List Nat :=
  MEMIO_WRITE_FIELD
    (MEMIO_WRITE_FIELD (List.replicate L.FWRK_PADMSG_SIZE 0) 0 L.FWRK_GENMSG_SIZE
      ((sub32 buf_size widx * 4) % U32))
    0 L.FWRK_GENMSG_ID L.FWRK_MSGID_PADDING

/-- What the self-call of line 492 reads through the pointer `pad_msg`: the
`FWRK_PADMSG_SIZE` words of the array, followed by the memory behind it. The
copy loop of the self-call takes as many words as the size field of the pad
message says, `buf_size - widx` at most, with no check against the length of
the array; `behind k` is the word at `pad_msg[FWRK_PADMSG_SIZE + k]`. -/
def pad_msg_memory (L : Layout) (behind : Nat → Nat) (buf_size widx : Nat) : List Nat :=
  pad_msg L buf_size widx ++ (List.range (sub32 buf_size widx)).map behind

/-- Lines 496-532 of `psb_mtx_send`: the free-space check, the copy into the
ring, the store of the write index and the kick. `BUG_ON` is taken to fall
through to the error return that follows it. -/
def mtx_send_commit (L : Layout) (s : Dev) (msg : List Nat) (off msg_num ridx widx
    buf_size buf_offset : Nat) : Dev × Int :=
  if msg_num > words_free buf_size ridx widx then (s, -EINVAL)
  else
    let r := ring_copy msg off buf_offset buf_size msg_num 0 s.vlr widx
    ({ s with vlr := r.1
              ring_stores := s.ring_stores + msg_num
              MSVDX_COMMS_TO_MTX_WRT_INDEX := r.2
              MSVDX_MAN_CLK_ENABLE := L.clk_enable_all
              mtx_kicks := s.mtx_kicks + 1 }, 0)

/-- Function `psb_mtx_send`: `msg` at byte offset `off` is the message. The
fuel bounds the depth of the self-call that sends the pad message. -/
def psb_mtx_send (L : Layout) : Nat → Dev → List Nat → Nat → Option (Dev × Int)
  | 0, _, _, _ => none
  | fuel + 1, s0, msg, off =>
    let s := { s0 with MSVDX_MAN_CLK_ENABLE := L.clk_enable_all }
    let msg_num := msg_num_of L msg off
    let buf_size := to_mtx_capacity s
    if msg_num > buf_size then some (s, -EINVAL)
    else
      let ridx := s.MSVDX_COMMS_TO_MTX_RD_INDEX
      let widx := s.MSVDX_COMMS_TO_MTX_WRT_INDEX
      let buf_offset := to_mtx_offset s
      if (widx + msg_num) % U32 > buf_size then
        if ridx = 0 then some (s, -EINVAL)
        else
          match psb_mtx_send L fuel s (pad_msg_memory L s0.pad_msg_behind buf_size widx) 0 with
          | none => none
          | some (s1, _) =>
            some (mtx_send_commit L s1 msg off msg_num ridx
              s1.MSVDX_COMMS_TO_MTX_WRT_INDEX buf_size buf_offset)
      else
        some (mtx_send_commit L s msg off msg_num ridx widx buf_size buf_offset)

/-! ## Walking a command buffer: `psb_msvdx_send` -/

/-- Function `psb_msvdx_send`: the buffer `mem` is walked from byte offset
`off`, `cmd_size` bytes remaining, and each sub-message is handed to
`psb_mtx_send` (which runs with fuel `F`). The first argument after `F`
bounds the number of loop iterations. -/
def psb_msvdx_send (L : Layout) (F : Nat) : Nat → Dev → List Nat → Nat → Nat → Option (Dev × Int)
  | 0, _, _, _, _ => none
  | fuel + 1, s, mem, off, cmd_size =>
    if cmd_size > 0 then
      let cur_cmd_size := MEMIO_READ_FIELD mem off L.FWRK_GENMSG_SIZE
      if cur_cmd_size > cmd_size then some (s, -EINVAL)
      else
        match psb_mtx_send L F s mem off with
        | none => none
        | some (s1, ret) =>
          if ret ≠ 0 then some (s1, ret)
          else psb_msvdx_send L F fuel s1 mem (off + cur_cmd_size) (cmd_size - cur_cmd_size)
    else some (s, 0)

/-- Function `psb_msvdx_dequeue_send`. -/
def psb_msvdx_dequeue_send (L : Layout) (F : Nat) (s : Dev) : Option (Dev × Int) :=
  match s.msvdx_queue with
  | [] => some ({ s with msvdx_busy := 0 }, -EINVAL)
  | msvdx_cmd :: rest =>
    match psb_msvdx_send L F F { s with msvdx_queue := rest } msvdx_cmd.cmd 0
        msvdx_cmd.cmd_size with
    | none => none
    | some (s1, ret) => some (s1, if ret ≠ 0 then -EINVAL else 0)

/-! ## Validation and patching: `psb_msvdx_map_command` -/

/-- The operation `atomic_cmpxchg(&dev_priv->msvdx_mmu_invaldc, 1, 0)`: the
old value is returned, and the flag becomes `0` when it was `1`. -/
def cmpxchg_mmu_invaldc (s : Dev) : Dev × Nat :=
  (if s.msvdx_mmu_invaldc = 1 then { s with msvdx_mmu_invaldc := 0 } else s,
   s.msvdx_mmu_invaldc)

/-- Lines 139-169: the patches applied to an accepted render message at byte
offset `off`. -/
def patch_render (L : Layout) (s : Dev) (mem : List Nat) (off sequence : Nat) :
    Dev × List Nat :=
  let mem1 :=
    if L.mdfld_fw_updated then MEMIO_WRITE_FIELD mem off L.FW_VA_DECODE_MSG_ID sequence
    else MEMIO_WRITE_FIELD mem off L.FW_VA_RENDER_FENCE_VALUE sequence
  let mmu_ptd := s.default_pd_addr
  let c := cmpxchg_mmu_invaldc s
  let s1 := c.1
  let msvdx_mmu_invalid := c.2
  let r : Dev × List Nat × Nat :=
    if msvdx_mmu_invalid = 1 then
      if ¬ L.mdfld_fw_updated then (s1, mem1, mmu_ptd ||| 1)
      else
        let flags := MEMIO_READ_FIELD mem1 off L.FW_DEVA_DECODE_FLAGS
        let flags := flags ||| L.FW_DEVA_INVALIDATE_MMU
        ({ s1 with trace := s1.trace ++ [Event.gl3_global_invalidation] },
          MEMIO_WRITE_FIELD mem1 off L.FW_DEVA_DECODE_FLAGS flags, mmu_ptd)
    else (s1, mem1, mmu_ptd)
  let s2 := r.1
  let mem2 := r.2.1
  let mmu_ptd := r.2.2
  if L.mdfld_fw_updated then
    let context_id := MEMIO_READ_FIELD mem2 off L.FW_VA_DECODE_MMUPTD
    let mmu_ptd := mmu_ptd ||| (context_id &&& 255)
    (s2, MEMIO_WRITE_FIELD mem2 off L.FW_VA_DECODE_MMUPTD mmu_ptd)
  else (s2, MEMIO_WRITE_FIELD mem2 off L.FW_VA_RENDER_MMUPTD mmu_ptd)

/-- Lines 184-201: the patches applied to an accepted deblock message at byte
offset `off`; `cur_cmd_id` is the id read from its header. -/
def patch_deblock (L : Layout) (s : Dev) (mem : List Nat) (off sequence cur_cmd_id : Nat) :
    Dev × List Nat :=
  let mmu_ptd := s.default_pd_addr
  let c := cmpxchg_mmu_invaldc s
  let s1 := c.1
  let msvdx_mmu_invalid := c.2
  let mem1 :=
    if msvdx_mmu_invalid = 1 then
      let flags := MEMIO_READ_FIELD mem off L.deblock_flags
      let flags := flags ||| L.FW_DEVA_INVALIDATE_MMU
      MEMIO_WRITE_FIELD mem off L.deblock_flags flags
    else mem
  let mem2 := MEMIO_WRITE_FIELD mem1 off L.deblock_msg_type
    ((sub32 cur_cmd_id L.VA_MSGID_DEBLOCK_MFLD + L.VA_MSGID_DEBLOCK) % U32)
  let mem3 := MEMIO_WRITE_FIELD mem2 off L.deblock_msg_fence (sequence % 65536)
  (s1, MEMIO_WRITE_FIELD mem3 off L.deblock_mmu_ptd (mmu_ptd / 256))

/-- How the validation loop of `psb_msvdx_map_command` is left. -/
inductive LoopExit where
  /-- The loop condition became false: every sub-message was accepted. -/
  | finished
  /-- A `goto out` with the given `ret`. -/
  | goto_out (ret : Int)
  /-- The `return -EINVAL` of line 109, which does not pass through `out`. -/
  | returned (ret : Int)
deriving DecidableEq, Repr

/-- The loop of lines 107-215. `off` is `cmd - cmd_start` in bytes. -/
def map_command_loop (L : Layout) (sequence : Nat) :
    Nat → Dev → List Nat → Nat → Nat → Option (Dev × List Nat × LoopExit)
  | 0, _, _, _, _ => none
  | fuel + 1, s, mem, off, cmd_size_remaining =>
    if cmd_size_remaining > 0 then
      if cmd_size_remaining < L.FWRK_GENMSG_HEADER_SIZE then
        some (s, mem, LoopExit.returned (-EINVAL))
      else
        let cur_cmd_size := MEMIO_READ_FIELD mem off L.FWRK_GENMSG_SIZE
        let cur_cmd_id := MEMIO_READ_FIELD mem off L.FWRK_GENMSG_ID
        if cur_cmd_size % 4 ≠ 0 then some (s, mem, LoopExit.goto_out (-EINVAL))
        else if cur_cmd_size > cmd_size_remaining then
          some (s, mem, LoopExit.goto_out (-EINVAL))
        else if cur_cmd_id = L.VA_MSGID_RENDER then
          if cur_cmd_size ≠ L.FW_VA_RENDER_SIZE then
            some (s, mem, LoopExit.goto_out (-EINVAL))
          else
            let r := patch_render L s mem off sequence
            map_command_loop L sequence fuel r.1 r.2 (off + cur_cmd_size)
              (cmd_size_remaining - cur_cmd_size)
        else if cur_cmd_id = L.VA_MSGID_OOLD_MFLD ∨ cur_cmd_id = L.VA_MSGID_DEBLOCK_MFLD then
          if cur_cmd_size ≠ L.FW_VA_DEBLOCK_SIZE then
            some (s, mem, LoopExit.goto_out (-EINVAL))
          else
            let r := patch_deblock L s mem off sequence cur_cmd_id
            map_command_loop L sequence fuel r.1 r.2 (off + cur_cmd_size)
              (cmd_size_remaining - cur_cmd_size)
        else some (s, mem, LoopExit.goto_out (-EINVAL))
    else some (s, mem, LoopExit.finished)

/-- The effect of `memcpy(cmd_copy, cmd_start, cmd_size)` into the zeroed
allocation of `cmd_size` bytes: the first `cmd_size` bytes of `mem`, as
words. -/
def copy_bytes (mem : List Nat) (cmd_size : Nat) : List Nat :=
  (List.range (cmd_size / 4)).map (fun i => mem.getD i 0)
    ++ (if cmd_size % 4 = 0 then []
        else [mem.getD (cmd_size / 4) 0 % 2 ^ (8 * (cmd_size % 4))])

/-- What `psb_msvdx_map_command` leaves behind: the device state, the
contents of the mapped command buffer, the return value, and the copy stored
through `msvdx_cmd` (if one was made). -/
structure MapResult where
  dev : Dev
  mem : List Nat
  ret : Int
  copy : Option (List Nat)

/-- Function `psb_msvdx_map_command`. `mem` is the mapped page from
`cmd_start` on; `kmap_ret` is what `ttm_bo_kmap` returns and `alloc_ok` tells
whether `kzalloc` succeeds. `F` is the fuel for the loops. -/
def psb_msvdx_map_command (L : Layout) (F : Nat) (s : Dev) (mem : List Nat)
    (cmd_offset cmd_size : Nat) (kmap_ret : Int) (alloc_ok : Bool) (sequence : Nat)
    (copy_cmd : Bool) : Option MapResult :=
  let cmd_page_offset := cmd_offset % PAGE_SIZE
  if cmd_size > PAGE_SIZE ∨ cmd_size + cmd_page_offset > PAGE_SIZE then
    some ⟨s, mem, -EINVAL, none⟩
  else if kmap_ret ≠ 0 then some ⟨s, mem, kmap_ret, none⟩
  else
    let s := { s with trace := s.trace ++ [Event.kmap] }
    match map_command_loop L sequence F s mem 0 cmd_size with
    | none => none
    | some (s1, mem1, LoopExit.returned ret) => some ⟨s1, mem1, ret, none⟩
    | some (s1, mem1, LoopExit.goto_out ret) =>
      some ⟨{ s1 with trace := s1.trace ++ [Event.kunmap] }, mem1, ret, none⟩
    | some (s1, mem1, LoopExit.finished) =>
      if copy_cmd then
        if ¬ alloc_ok then
          some ⟨{ s1 with trace := s1.trace ++ [Event.kunmap] }, mem1, -ENOMEM, none⟩
        else
          some ⟨{ s1 with trace := s1.trace ++ [Event.kunmap] }, mem1, 0,
            some (copy_bytes mem1 cmd_size)⟩
      else
        match psb_msvdx_send L F F s1 mem1 0 cmd_size with
        | none => none
        | some (s2, ret) =>
          some ⟨{ s2 with trace := s2.trace ++ [Event.kunmap] }, mem1,
            if ret ≠ 0 then -EINVAL else 0, none⟩

/-! ## Submission: `psb_submit_video_cmdbuf` -/

/-- Collaborators whose code is not part of the sources at hand. Each is a
function on the device state; the integer is the return value. -/
structure Collab where
  psb_msvdx_reset : Dev → Dev × Int
  psb_msvdx_init : Dev → Dev
  psb_setup_fw : Dev → Dev × Int
  /-- Constant `VEC_LOCAL_MEM_BYTE_SIZE`. -/
  VEC_LOCAL_MEM_BYTE_SIZE : Nat
  /-- Constant `VEC_LOCAL_MEM_OFFSET`. -/
  VEC_LOCAL_MEM_OFFSET : Nat

/-- Lines 277-279: the saved words are stored back into VEC local RAM. -/
def restore_vec_local_mem (C : Collab) (s : Dev) : Nat → Nat :=
  fun a =>
    if C.VEC_LOCAL_MEM_OFFSET ≤ a ∧ (a - C.VEC_LOCAL_MEM_OFFSET) % 4 = 0
        ∧ (a - C.VEC_LOCAL_MEM_OFFSET) / 4 < C.VEC_LOCAL_MEM_BYTE_SIZE / 4 then
      s.vec_local_mem_data.getD ((a - C.VEC_LOCAL_MEM_OFFSET) / 4) 0
    else s.vlr a

/-- Lines 260-285: the reset taken when `msvdx_needs_reset` is set. The
second component is `some ret` when the function returns from here. -/
def submit_reset (L : Layout) (C : Collab) (s : Dev) : Dev × Option Int :=
  if s.msvdx_needs_reset ≠ 0 then
    let r : Dev × Option Int :=
      if ¬ L.is_d0 then
        let q := C.psb_msvdx_reset s
        if q.2 ≠ 0 then (q.1, some (-EBUSY)) else (q.1, none)
      else (s, none)
    match r.2 with
    | some e => (r.1, some e)
    | none =>
      let s2 := C.psb_msvdx_init { r.1 with msvdx_needs_reset := 0, msvdx_busy := 0 }
      if s2.vec_local_mem_saved ≠ 0 then
        ({ s2 with vlr := restore_vec_local_mem C s2, vec_local_mem_saved := 0 }, none)
      else (s2, none)
  else (s, none)

/-- Lines 287-301: the firmware is loaded when it is not yet. The second
component is `some ret` when the function returns from here. -/
def submit_load_fw (C : Collab) (s : Dev) : Dev × Option Int :=
  if s.msvdx_fw_loaded = 0 then
    let q := C.psb_setup_fw s
    if q.2 ≠ 0 then (q.1, some (-EFAULT))
    else ({ q.1 with msvdx_fw_loaded := 1 }, none)
  else (s, none)

/-- What `psb_submit_video_cmdbuf` leaves behind: the device state, the
contents of the client's command buffer and the return value. -/
structure SubmitResult where
  dev : Dev
  mem : List Nat
  ret : Int

/-- Function `psb_submit_video_cmdbuf`. `alloc_entry_ok` and `alloc_copy_ok`
tell whether the two `kzalloc` calls of the queueing path succeed. The spin
lock and the bookkeeping of `last_msvdx_ctx` are left out: the model is
sequential and has no video contexts. -/
def psb_submit_video_cmdbuf (L : Layout) (C : Collab) (F : Nat) (s : Dev) (mem : List Nat)
    (cmd_offset cmd_size : Nat) (kmap_ret : Int) (alloc_entry_ok alloc_copy_ok : Bool) :
    Option SubmitResult :=
  let sequence := s.sequence
  match submit_reset L C s with
  | (s1, some e) => some ⟨s1, mem, e⟩
  | (s1, none) =>
    match submit_load_fw C s1 with
    | (s2, some e) => some ⟨s2, mem, e⟩
    | (s2, none) =>
      if s2.msvdx_busy = 0 then
        match psb_msvdx_map_command L F { s2 with msvdx_busy := 1 } mem cmd_offset cmd_size
            kmap_ret true sequence false with
        | none => none
        | some r => some ⟨r.dev, r.mem, r.ret⟩
      else
        if ¬ alloc_entry_ok then some ⟨s2, mem, -ENOMEM⟩
        else
          match psb_msvdx_map_command L F s2 mem cmd_offset cmd_size kmap_ret alloc_copy_ok
              sequence true with
          | none => none
          | some r =>
            if r.ret ≠ 0 then some ⟨r.dev, r.mem, r.ret⟩
            else
              let msvdx_cmd : CmdQueueEntry :=
                { cmd := r.copy.getD [], cmd_size := cmd_size, sequence := sequence }
              let s3 := { r.dev with msvdx_queue := r.dev.msvdx_queue ++ [msvdx_cmd] }
              if s3.msvdx_busy = 0 then
                match psb_msvdx_dequeue_send L F { s3 with msvdx_busy := 1 } with
                | none => none
                | some (s4, _) => some ⟨s4, r.mem, r.ret⟩
              else some ⟨s3, r.mem, r.ret⟩

/-! ## The firmware-to-host ring: `psb_msvdx_mtx_interrupt` -/

/-- Capacity of the firmware-to-host ring in words: the low 16 bits of the
size register. -/
def to_host_capacity (s : Dev) : Nat := s.MSVDX_COMMS_TO_HOST_BUF_SIZE % 65536

/-- Byte offset of the firmware-to-host ring in VEC local RAM: the high half
of the size register plus `0x2000`. -/
def to_host_offset (s : Dev) : Nat := (s.MSVDX_COMMS_TO_HOST_BUF_SIZE / 65536 + 8192) % U32

/-- The reads of lines 573-588: `n` times, the ring word at `ridx` is stored
in `buf[ofs]`, `ofs` goes up by one, and `ridx` goes up by one and back to `0`
on reaching `buf_size`. The array has 128 words and the code does not check
`ofs` against that; a store past the array is left out here. -/
def to_host_copy (vlr : Nat → Nat) (buf_offset buf_size : Nat) :
    Nat → Nat → List Nat → Nat → List Nat × Nat
  | 0, _, buf, ridx => (buf, ridx)
  | n + 1, ofs, buf, ridx =>
    let buf1 := buf.set ofs (vlr (ring_addr buf_offset ridx))
    let ridx1 := (ridx + 1) % U32
    let ridx2 := if ridx1 ≥ buf_size then 0 else ridx1
    to_host_copy vlr buf_offset buf_size n (ofs + 1) buf1 ridx2

/-- Lines 567-591: one message is copied from the ring into `buf` and the
read index is moved past it. The first word is read before the length is
known; the remaining `num - 1` words follow. -/
def to_host_read (L : Layout) (s : Dev) : Dev :=
  let ridx := s.MSVDX_COMMS_TO_HOST_RD_INDEX
  let buf_size := to_host_capacity s
  let buf_offset := to_host_offset s
  let c0 := to_host_copy s.vlr buf_offset buf_size 1 0 s.mtx_interrupt_buf ridx
  let num := msg_num_of L c0.1 0
  let c := to_host_copy s.vlr buf_offset buf_size (num - 1) 1 c0.1 c0.2
  { s with mtx_interrupt_buf := c.1, MSVDX_COMMS_TO_HOST_RD_INDEX := c.2 }

/-- The call `psb_fence_error(dev, PSB_ENGINE_VIDEO, sequence,
_PSB_FENCE_TYPE_EXE, DRM_CMD_FAILED)`, recorded in the trace. -/
def psb_fence_error (s : Dev) (sequence : Nat) : Dev :=
  { s with trace := s.trace ++ [Event.fence_error sequence] }

/-- The call `psb_fence_handler(dev, PSB_ENGINE_VIDEO)`, recorded in the
trace. -/
def psb_fence_handler (s : Dev) : Dev :=
  { s with trace := s.trace ++ [Event.fence_handler] }

/-- Modelled from the spec: the body of `psb_msvdx_flush_cmd_queue` is not
part of the sources at hand. The spec has the fault path flush the entire
command queue, every pending entry being failed and not retried, with the
queue empty and the busy flag cleared afterwards. Each entry is reported
failed once, in queue order. -/
def psb_msvdx_flush_cmd_queue (s : Dev) : Dev :=
  { s with trace := s.trace ++ s.msvdx_queue.map (fun e => Event.queue_entry_failed e.sequence)
           msvdx_queue := []
           msvdx_busy := 0 }

/-- Lines 597-677: the cases `VA_MSGID_CMD_HW_PANIC` and `VA_MSGID_CMD_FAILED`
of the `switch`, for the message in `buf` whose id is `msg_id`. -/
def mtx_interrupt_fault (L : Layout) (s : Dev) (buf : List Nat) (msg_id : Nat) : Dev :=
  let fence :=
    if msg_id = L.VA_MSGID_CMD_HW_PANIC then MEMIO_READ_FIELD buf 0 L.FW_VA_HW_PANIC_FENCE_VALUE
    else MEMIO_READ_FIELD buf 0 L.FW_VA_CMD_FAILED_FENCE_VALUE
  let fence :=
    if L.mdfld_fw_updated then MEMIO_READ_FIELD buf 0 L.FW_DEVA_CMD_FAILED_MSG_ID else fence
  let s1 :=
    if L.is_d0 then
      { s with msvdx_needs_reset := s.msvdx_needs_reset |||
          (L.MSVDX_RESET_NEEDS_REUPLOAD_FW ||| L.MSVDX_RESET_NEEDS_INIT_FW) }
    else { s with msvdx_needs_reset := 1 }
  let s2 :=
    if msg_id = L.VA_MSGID_CMD_HW_PANIC then
      let diff := sub32 s1.msvdx_current_sequence s1.sequence
      if diff > 268435455 then
        { s1 with msvdx_current_sequence := (s1.msvdx_current_sequence + 1) % U32 }
      else s1
    else { s1 with msvdx_current_sequence := fence }
  let s3 := psb_fence_error s2 s2.msvdx_current_sequence
  let s4 := psb_msvdx_flush_cmd_queue s3
  { s4 with fw_status := 1 }

/-- Lines 678-705: the case `VA_MSGID_CMD_COMPLETED` of the `switch`. The
value that `psb_msvdx_dequeue_send` returns is not looked at. -/
def mtx_interrupt_completed (L : Layout) (F : Nat) (s : Dev) (buf : List Nat) : Option Dev :=
  let flags := MEMIO_READ_FIELD buf 0 L.FW_VA_CMD_COMPLETED_FLAGS
  let fence :=
    if L.mdfld_fw_updated then MEMIO_READ_FIELD buf 0 L.FW_VA_CMD_COMPLETED_MSG_ID
    else MEMIO_READ_FIELD buf 0 L.FW_VA_CMD_COMPLETED_FENCE_VALUE
  let s1 := psb_fence_handler { s with msvdx_current_sequence := fence }
  if flags &&& L.FW_VA_RENDER_HOST_INT ≠ 0 then
    match psb_msvdx_dequeue_send L F s1 with
    | none => none
    | some (s2, _) => some s2
  else some s1

/-- Lines 596-709: the `switch` on the id of the message in `buf`. Every case
ends at the label `done`; the result is the state there. -/
def mtx_interrupt_dispatch (L : Layout) (F : Nat) (s : Dev) (buf : List Nat) : Option Dev :=
  let msg_id := MEMIO_READ_FIELD buf 0 L.FWRK_GENMSG_ID
  if msg_id = L.VA_MSGID_CMD_HW_PANIC ∨ msg_id = L.VA_MSGID_CMD_FAILED then
    some (mtx_interrupt_fault L s buf msg_id)
  else if msg_id = L.VA_MSGID_CMD_COMPLETED then mtx_interrupt_completed L F s buf
  else some s

/-- Lines 559-715: the loop between the labels `loop` and `done`. One turn
reads one message; with `msvdx_needs_reset` set the message is not looked at
and control goes back to `loop`; otherwise the message is dispatched and the
test at `done` compares the read index after this message with the write
index read at the top of the turn. The first argument bounds the number of
turns. -/
def mtx_interrupt_loop (L : Layout) (F : Nat) : Nat → Dev → Option Dev
  | 0, _ => none
  | fuel + 1, s =>
    let ridx := s.MSVDX_COMMS_TO_HOST_RD_INDEX
    let widx := s.MSVDX_COMMS_TO_HOST_WRT_INDEX
    if ridx = widx then some s
    else
      let s1 := to_host_read L s
      if s1.msvdx_needs_reset ≠ 0 then mtx_interrupt_loop L F fuel s1
      else
        match mtx_interrupt_dispatch L F s1 s1.mtx_interrupt_buf with
        | none => none
        | some s2 =>
          if s1.MSVDX_COMMS_TO_HOST_RD_INDEX ≠ widx then mtx_interrupt_loop L F fuel s2
          else some s2

/-- Lines 717-727: the power policy at the end of the handler. -/
def mtx_interrupt_pm (L : Layout) (s : Dev) : Dev :=
  let s1 := if L.is_ctp then { s with drm_msvdx_pmpolicy := L.PSB_PMPOLICY_NOPM } else s
  if L.is_d0 then
    if s1.drm_msvdx_pmpolicy = L.PSB_PMPOLICY_POWERDOWN then
      { s1 with trace := s1.trace ++ [Event.schedule_suspend] }
    else s1
  else
    if s1.drm_msvdx_pmpolicy ≠ L.PSB_PMPOLICY_NOPM then
      { s1 with trace := s1.trace ++ [Event.schedule_suspend] }
    else s1

/-- Function `psb_msvdx_mtx_interrupt`. `F` is the fuel for the loops. -/
def psb_msvdx_mtx_interrupt (L : Layout) (F : Nat) (s : Dev) : Option Dev :=
  let s0 := { s with MSVDX_MAN_CLK_ENABLE := L.clk_enable_all }
  match mtx_interrupt_loop L F F s0 with
  | none => none
  | some s1 => some (mtx_interrupt_pm L s1)

/-! ## Vocabulary of the ring properties -/

/-- Words in flight in a ring of `cap` words:
`(write_index - read_index) mod capacity_words`. -/
def in_flight (cap ridx widx : Nat) : Nat :=
  (((widx : Int) - (ridx : Int)) % (cap : Int)).toNat

/-- Free slots of a ring:
`capacity_words - 1 - ((write_index - read_index) mod capacity_words)`. -/
def free_slots (cap ridx widx : Nat) : Nat := cap - 1 - in_flight cap ridx widx

/-- Word `i` of the host-to-firmware ring. -/
def ring_word (s : Dev) (i : Nat) : Nat := s.vlr (ring_addr (to_mtx_offset s) i)

/-- The generic header as the wire format has it: size and id both lie in
word 0 of a message, the size in the low bits and the id above it, the pad
message has at least that word, and the padding id fits the id field. -/
def Layout.header_ok (L : Layout) : Prop :=
  L.FWRK_GENMSG_SIZE.word = 0 ∧ L.FWRK_GENMSG_ID.word = 0 ∧
  L.FWRK_GENMSG_SIZE.shift + L.FWRK_GENMSG_SIZE.width ≤ L.FWRK_GENMSG_ID.shift ∧
  L.FWRK_GENMSG_ID.shift + L.FWRK_GENMSG_ID.width ≤ 32 ∧
  0 < L.FWRK_PADMSG_SIZE ∧
  L.FWRK_MSGID_PADDING < 2 ^ L.FWRK_GENMSG_ID.width

instance (L : Layout) : Decidable L.header_ok := by
  unfold Layout.header_ok; infer_instance

/-- The fields that `psb_mtx_send` does not touch. -/
def ring_frame (s s' : Dev) : Prop :=
  s'.MSVDX_COMMS_TO_MTX_BUF_SIZE = s.MSVDX_COMMS_TO_MTX_BUF_SIZE ∧
  s'.MSVDX_COMMS_TO_MTX_RD_INDEX = s.MSVDX_COMMS_TO_MTX_RD_INDEX ∧
  s'.MSVDX_COMMS_TO_HOST_BUF_SIZE = s.MSVDX_COMMS_TO_HOST_BUF_SIZE ∧
  s'.MSVDX_COMMS_TO_HOST_RD_INDEX = s.MSVDX_COMMS_TO_HOST_RD_INDEX ∧
  s'.MSVDX_COMMS_TO_HOST_WRT_INDEX = s.MSVDX_COMMS_TO_HOST_WRT_INDEX ∧
  s'.msvdx_busy = s.msvdx_busy ∧
  s'.msvdx_needs_reset = s.msvdx_needs_reset ∧
  s'.msvdx_fw_loaded = s.msvdx_fw_loaded ∧
  s'.msvdx_queue = s.msvdx_queue ∧
  s'.msvdx_current_sequence = s.msvdx_current_sequence ∧
  s'.msvdx_last_sequence = s.msvdx_last_sequence ∧
  s'.sequence = s.sequence ∧
  s'.msvdx_mmu_invaldc = s.msvdx_mmu_invaldc ∧
  s'.default_pd_addr = s.default_pd_addr ∧
  s'.vec_local_mem_saved = s.vec_local_mem_saved ∧
  s'.vec_local_mem_data = s.vec_local_mem_data ∧
  s'.fw_status = s.fw_status ∧
  s'.trace = s.trace

/-- What one run of lines 496-532 does to the ring bookkeeping. -/
def commit_post (s s' : Dev) (ridx : Nat) : Prop :=
  ring_frame s s' ∧
  s'.MSVDX_COMMS_TO_MTX_WRT_INDEX < to_mtx_capacity s ∧
  s.ring_stores ≤ s'.ring_stores ∧
  s.mtx_kicks ≤ s'.mtx_kicks ∧
  in_flight (to_mtx_capacity s) ridx s'.MSVDX_COMMS_TO_MTX_WRT_INDEX
    = in_flight (to_mtx_capacity s) ridx s.MSVDX_COMMS_TO_MTX_WRT_INDEX
      + (s'.ring_stores - s.ring_stores)

/-! ## Vocabulary of the command-buffer properties -/

/-- The fields that `psb_msvdx_map_command` writes in a render message. -/
def Layout.render_fields (L : Layout) : List Field :=
  if L.mdfld_fw_updated then
    [L.FW_VA_DECODE_MSG_ID, L.FW_DEVA_DECODE_FLAGS, L.FW_VA_DECODE_MMUPTD]
  else [L.FW_VA_RENDER_FENCE_VALUE, L.FW_VA_RENDER_MMUPTD]

/-- The fields that `psb_msvdx_map_command` writes in a deblock message. -/
def Layout.deblock_fields (L : Layout) : List Field :=
  [L.deblock_flags, L.deblock_msg_type, L.deblock_msg_fence, L.deblock_mmu_ptd]

/-- Field `f` lies inside a message of `size` bytes, inside its 32-bit word,
and shares no bit with the size field of the generic header. -/
def Layout.field_ok (L : Layout) (f : Field) (size : Nat) : Prop :=
  4 * f.word + 4 ≤ size ∧ f.shift + f.width ≤ 32 ∧
  (f.word ≠ 0 ∨ L.FWRK_GENMSG_SIZE.shift + L.FWRK_GENMSG_SIZE.width ≤ f.shift
    ∨ f.shift + f.width ≤ L.FWRK_GENMSG_SIZE.shift)

/-- What the code takes for granted about the constants of the header: the
generic header is as in `header_ok`, the message sizes are positive and not
below the header size, the case labels of the `switch` are distinct, and the
patched fields lie inside their message and off the size field. -/
def Layout.patch_ok (L : Layout) : Prop :=
  L.header_ok ∧ 0 < L.FW_VA_RENDER_SIZE ∧ 0 < L.FW_VA_DEBLOCK_SIZE ∧
  L.FWRK_GENMSG_HEADER_SIZE ≤ L.FW_VA_RENDER_SIZE ∧
  L.FWRK_GENMSG_HEADER_SIZE ≤ L.FW_VA_DEBLOCK_SIZE ∧
  L.VA_MSGID_RENDER ≠ L.VA_MSGID_OOLD_MFLD ∧ L.VA_MSGID_RENDER ≠ L.VA_MSGID_DEBLOCK_MFLD ∧
  (∀ f ∈ L.render_fields, L.field_ok f L.FW_VA_RENDER_SIZE) ∧
  (∀ f ∈ L.deblock_fields, L.field_ok f L.FW_VA_DEBLOCK_SIZE)

instance (L : Layout) (f : Field) (size : Nat) : Decidable (L.field_ok f size) := by
  unfold Layout.field_ok; infer_instance

instance (L : Layout) : Decidable L.patch_ok := by
  unfold Layout.patch_ok; infer_instance

/-- A render sub-message of the correct size, as a list of words. -/
def render_ok (L : Layout) (m : List Nat) : Prop :=
  MEMIO_READ_FIELD m 0 L.FWRK_GENMSG_SIZE = L.FW_VA_RENDER_SIZE ∧
  MEMIO_READ_FIELD m 0 L.FWRK_GENMSG_ID = L.VA_MSGID_RENDER ∧
  4 * m.length = L.FW_VA_RENDER_SIZE

instance (L : Layout) (m : List Nat) : Decidable (render_ok L m) := by
  unfold render_ok; infer_instance

/-- A deblock sub-message (either id of the family) of the correct size. -/
def deblock_ok (L : Layout) (m : List Nat) : Prop :=
  MEMIO_READ_FIELD m 0 L.FWRK_GENMSG_SIZE = L.FW_VA_DEBLOCK_SIZE ∧
  (MEMIO_READ_FIELD m 0 L.FWRK_GENMSG_ID = L.VA_MSGID_OOLD_MFLD
    ∨ MEMIO_READ_FIELD m 0 L.FWRK_GENMSG_ID = L.VA_MSGID_DEBLOCK_MFLD) ∧
  4 * m.length = L.FW_VA_DEBLOCK_SIZE

instance (L : Layout) (m : List Nat) : Decidable (deblock_ok L m) := by
  unfold deblock_ok; infer_instance

/-- A supported sub-message of the correct size. -/
def submsg_ok (L : Layout) (m : List Nat) : Prop := render_ok L m ∨ deblock_ok L m

instance (L : Layout) (m : List Nat) : Decidable (submsg_ok L m) := by
  unfold submsg_ok; infer_instance

/-- The patch that `psb_msvdx_map_command` applies to one sub-message standing
on its own. -/
def patch_msg (L : Layout) (sequence : Nat) (s : Dev) (m : List Nat) : Dev × List Nat :=
  if MEMIO_READ_FIELD m 0 L.FWRK_GENMSG_ID = L.VA_MSGID_RENDER then
    patch_render L s m 0 sequence
  else patch_deblock L s m 0 sequence (MEMIO_READ_FIELD m 0 L.FWRK_GENMSG_ID)

/-- The sub-messages patched one after the other, in buffer order. -/
def patch_all (L : Layout) (sequence : Nat) : Dev → List (List Nat) → Dev × List (List Nat)
  | s, [] => (s, [])
  | s, m :: ms =>
    let r := patch_msg L sequence s m
    let r2 := patch_all L sequence r.1 ms
    (r2.1, r.2 :: r2.2)

/-- The sub-messages handed to `psb_mtx_send` one after the other, in order,
stopping at the first that is refused. -/
def send_all (L : Layout) (F : Nat) : Dev → List (List Nat) → Option (Dev × Int)
  | s, [] => some (s, 0)
  | s, m :: ms =>
    match psb_mtx_send L F s m 0 with
    | none => none
    | some (s1, ret) => if ret ≠ 0 then some (s1, ret) else send_all L F s1 ms

/-- Two fields that share no bit. -/
def Field.disjoint (f g : Field) : Prop :=
  f.word ≠ g.word ∨ f.shift + f.width ≤ g.shift ∨ g.shift + g.width ≤ f.shift

instance (f g : Field) : Decidable (f.disjoint g) := by
  unfold Field.disjoint; infer_instance

/-- The device state `s'` differs from `s` at most in the MMU-invalidate
flag and in the record of calls: what validation and patching may change. -/
def patch_frame (s s' : Dev) : Prop :=
  ∃ a t, s' = { s with msvdx_mmu_invaldc := a, trace := t }

/-- The memory `cur'` differs from `cur` only inside the message of `c` words
that starts at word `k`, and not in that message's size field. -/
def local_at (L : Layout) (k c : Nat) (cur cur' : List Nat) : Prop :=
  cur'.length = cur.length ∧ cur'.take k = cur.take k ∧
  cur'.drop (k + c) = cur.drop (k + c) ∧
  MEMIO_READ_FIELD cur' (4 * k) L.FWRK_GENMSG_SIZE = MEMIO_READ_FIELD cur (4 * k) L.FWRK_GENMSG_SIZE

/-- The sub-message at byte offset `off`, with `n` bytes of the buffer left
from there, passes every check of the validation loop. -/
def acceptable (L : Layout) (mem : List Nat) (off n : Nat) : Prop :=
  L.FWRK_GENMSG_HEADER_SIZE ≤ n ∧
  MEMIO_READ_FIELD mem off L.FWRK_GENMSG_SIZE % 4 = 0 ∧
  MEMIO_READ_FIELD mem off L.FWRK_GENMSG_SIZE ≤ n ∧
  ((MEMIO_READ_FIELD mem off L.FWRK_GENMSG_ID = L.VA_MSGID_RENDER
      ∧ MEMIO_READ_FIELD mem off L.FWRK_GENMSG_SIZE = L.FW_VA_RENDER_SIZE)
    ∨ ((MEMIO_READ_FIELD mem off L.FWRK_GENMSG_ID = L.VA_MSGID_OOLD_MFLD
        ∨ MEMIO_READ_FIELD mem off L.FWRK_GENMSG_ID = L.VA_MSGID_DEBLOCK_MFLD)
      ∧ MEMIO_READ_FIELD mem off L.FWRK_GENMSG_SIZE = L.FW_VA_DEBLOCK_SIZE))

instance (L : Layout) (mem : List Nat) (off n : Nat) : Decidable (acceptable L mem off n) := by
  unfold acceptable; infer_instance

/-- The patch applied to the accepted sub-message at byte offset `off`. -/
def patch_at (L : Layout) (sequence : Nat) (s : Dev) (mem : List Nat) (off : Nat) :
    Dev × List Nat :=
  if MEMIO_READ_FIELD mem off L.FWRK_GENMSG_ID = L.VA_MSGID_RENDER then
    patch_render L s mem off sequence
  else patch_deblock L s mem off sequence (MEMIO_READ_FIELD mem off L.FWRK_GENMSG_ID)

/-- Sub-message boundaries: `Reaches L mem cmd_size o off` says that walking
from byte offset `o` along the declared sizes, inside a buffer of `cmd_size`
bytes, arrives at byte offset `off`. -/
inductive Reaches (L : Layout) (mem : List Nat) (cmd_size : Nat) : Nat → Nat → Prop where
  | here (o : Nat) : Reaches L mem cmd_size o o
  | step (o off : Nat) : o < cmd_size →
      Reaches L mem cmd_size (o + MEMIO_READ_FIELD mem o L.FWRK_GENMSG_SIZE) off →
      Reaches L mem cmd_size o off

/-! ## Vocabulary of the MMU-invalidate properties -/

/-- The flags fields share no bit with the fields that are written after
them in the same message. -/
def Layout.flags_apart (L : Layout) : Prop :=
  L.FW_DEVA_DECODE_FLAGS.disjoint L.FW_VA_DECODE_MSG_ID ∧
  L.FW_DEVA_DECODE_FLAGS.disjoint L.FW_VA_DECODE_MMUPTD ∧
  L.deblock_flags.disjoint L.deblock_msg_type ∧
  L.deblock_flags.disjoint L.deblock_msg_fence ∧
  L.deblock_flags.disjoint L.deblock_mmu_ptd

instance (L : Layout) : Decidable L.flags_apart := by
  unfold Layout.flags_apart; infer_instance

/-- The message-type field of a deblock message shares no bit with the fields
that are written after it. -/
def Layout.msg_type_apart (L : Layout) : Prop :=
  L.deblock_msg_type.disjoint L.deblock_msg_fence ∧
  L.deblock_msg_type.disjoint L.deblock_mmu_ptd

instance (L : Layout) : Decidable L.msg_type_apart := by
  unfold Layout.msg_type_apart; infer_instance

/-- The patched sub-message `m'` carries the MMU-invalidate bit that the code
ORs into the submitted sub-message `m`: bit 0 of the page-directory address
`pd` in a legacy render message, `FW_DEVA_INVALIDATE_MMU` in the flags of a
render message of the updated firmware and of a deblock message. -/
def invalidate_ored (L : Layout) (pd : Nat) (m m' : List Nat) : Prop :=
  if MEMIO_READ_FIELD m 0 L.FWRK_GENMSG_ID = L.VA_MSGID_RENDER then
    if L.mdfld_fw_updated then
      MEMIO_READ_FIELD m' 0 L.FW_DEVA_DECODE_FLAGS
        = (MEMIO_READ_FIELD m 0 L.FW_DEVA_DECODE_FLAGS ||| L.FW_DEVA_INVALIDATE_MMU)
            % 2 ^ L.FW_DEVA_DECODE_FLAGS.width
    else
      MEMIO_READ_FIELD m' 0 L.FW_VA_RENDER_MMUPTD = (pd ||| 1) % 2 ^ L.FW_VA_RENDER_MMUPTD.width
  else
    MEMIO_READ_FIELD m' 0 L.deblock_flags
      = (MEMIO_READ_FIELD m 0 L.deblock_flags ||| L.FW_DEVA_INVALIDATE_MMU)
          % 2 ^ L.deblock_flags.width

instance (L : Layout) (pd : Nat) (m m' : List Nat) : Decidable (invalidate_ored L pd m m') := by
  unfold invalidate_ored; infer_instance

/-- Nothing was ORed into the patched sub-message `m'`: the flags are those
of the submitted sub-message `m`, and the page-table-directory field of a
legacy render message holds the page-directory address `pd` as it is. -/
def invalidate_absent (L : Layout) (pd : Nat) (m m' : List Nat) : Prop :=
  if MEMIO_READ_FIELD m 0 L.FWRK_GENMSG_ID = L.VA_MSGID_RENDER then
    if L.mdfld_fw_updated then
      MEMIO_READ_FIELD m' 0 L.FW_DEVA_DECODE_FLAGS = MEMIO_READ_FIELD m 0 L.FW_DEVA_DECODE_FLAGS
    else
      MEMIO_READ_FIELD m' 0 L.FW_VA_RENDER_MMUPTD = pd % 2 ^ L.FW_VA_RENDER_MMUPTD.width
  else
    MEMIO_READ_FIELD m' 0 L.deblock_flags = MEMIO_READ_FIELD m 0 L.deblock_flags

instance (L : Layout) (pd : Nat) (m m' : List Nat) : Decidable (invalidate_absent L pd m m') := by
  unfold invalidate_absent; infer_instance

/-- The submitted sub-message `m` does not carry the MMU-invalidate bit yet:
the bit is clear in its flags, and for a legacy render message bit 0 of the
page-directory address `pd` is clear. -/
def invalidate_clear (L : Layout) (pd : Nat) (m : List Nat) : Prop :=
  if MEMIO_READ_FIELD m 0 L.FWRK_GENMSG_ID = L.VA_MSGID_RENDER then
    if L.mdfld_fw_updated then
      MEMIO_READ_FIELD m 0 L.FW_DEVA_DECODE_FLAGS &&& L.FW_DEVA_INVALIDATE_MMU = 0
    else pd % 2 = 0
  else MEMIO_READ_FIELD m 0 L.deblock_flags &&& L.FW_DEVA_INVALIDATE_MMU = 0

instance (L : Layout) (pd : Nat) (m : List Nat) : Decidable (invalidate_clear L pd m) := by
  unfold invalidate_clear; infer_instance

/-- The MMU-invalidate bit is a bit, and it fits the fields it is ORed
into. -/
def Layout.invalidate_ok (L : Layout) : Prop :=
  L.FW_DEVA_INVALIDATE_MMU ≠ 0 ∧
  L.FW_DEVA_INVALIDATE_MMU < 2 ^ L.FW_DEVA_DECODE_FLAGS.width ∧
  L.FW_DEVA_INVALIDATE_MMU < 2 ^ L.deblock_flags.width ∧
  0 < L.FW_VA_RENDER_MMUPTD.width

instance (L : Layout) : Decidable L.invalidate_ok := by
  unfold Layout.invalidate_ok; infer_instance

/-! ## Vocabulary of the command-queue properties -/

/-- The queue entry holds a command buffer as validation leaves it: a run of
fewer than `F` sub-messages, each as long as its size field says, and
`cmd_size` is the byte length of the run. -/
def entry_ok (L : Layout) (F : Nat) (e : CmdQueueEntry) : Prop :=
  ∃ msgs : List (List Nat),
    (∀ m ∈ msgs, MEMIO_READ_FIELD m 0 L.FWRK_GENMSG_SIZE = 4 * m.length ∧ 0 < m.length) ∧
    e.cmd = msgs.flatten ∧ e.cmd_size = 4 * msgs.flatten.length ∧ msgs.length < F

/-- The message that the interrupt handler has in `buf` after the read of its
next turn, started in state `s`. -/
def received (L : Layout) (s : Dev) : List Nat := (to_host_read L s).mtx_interrupt_buf

/-- The length in words that the interrupt handler computes for the message
waiting at the read index (line 576), from its first word. -/
def to_host_num (L : Layout) (s : Dev) : Nat :=
  msg_num_of L (s.mtx_interrupt_buf.set 0
    (s.vlr (ring_addr (to_host_offset s) s.MSVDX_COMMS_TO_HOST_RD_INDEX))) 0

/-- The events that record a call of `psb_fence_error`. -/
def Event.is_fence_error : Event → Bool
  | Event.fence_error _ => true
  | _ => false

/-- The events that record a queued entry reported failed by the flush. -/
def Event.is_entry_failed : Event → Bool
  | Event.queue_entry_failed _ => true
  | _ => false

/-- A 32-bit word read as a signed integer. -/
def signed32 (x : Nat) : Int :=
  if x % U32 < 2147483648 then ((x % U32 : Nat) : Int) else ((x % U32 : Nat) : Int) - (U32 : Int)

/-- The case labels of the `switch` of the interrupt handler are distinct. -/
def Layout.labels_ok (L : Layout) : Prop :=
  L.VA_MSGID_CMD_COMPLETED ≠ L.VA_MSGID_CMD_HW_PANIC ∧
  L.VA_MSGID_CMD_COMPLETED ≠ L.VA_MSGID_CMD_FAILED ∧
  L.VA_MSGID_CMD_HW_PANIC ≠ L.VA_MSGID_CMD_FAILED

instance (L : Layout) : Decidable L.labels_ok := by
  unfold Layout.labels_ok; infer_instance

/-! ## Liveness and recovery: `psb_msvdx_lockup`, `psb_msvdx_check_reset_fw`,
`psb_msvdx_save_context`, `psb_msvdx_interrupt` -/

/-- Function `psb_msvdx_lockup`. The result holds the device state and the
values stored through `msvdx_lockup` and `msvdx_idle`. The local `diff` is an
`int`: the 32-bit difference of the two sequence numbers read as a signed
value. -/
def psb_msvdx_lockup (s : Dev) : Dev × Nat × Nat :=
  let diff := signed32 (sub32 s.msvdx_current_sequence s.sequence)
  if diff > 268435455 then
    if s.msvdx_current_sequence = s.msvdx_last_sequence then (s, 1, 1)
    else ({ s with msvdx_last_sequence := s.msvdx_current_sequence }, 0, 0)
  else (s, 0, 1)

/-- The 32-bit complement `~x`. -/
def not32 (x : Nat) : Nat := U32 - 1 - x % U32

/-- Function `psb_msvdx_check_reset_fw`. The call
`ospm_power_island_down(OSPM_VIDEO_DEC_ISLAND)` is recorded in the trace. -/
def psb_msvdx_check_reset_fw (L : Layout) (s : Dev) : Dev × Int :=
  if s.msvdx_needs_reset &&& L.MSVDX_RESET_NEEDS_REUPLOAD_FW ≠ 0 then
    ({ s with msvdx_needs_reset := s.msvdx_needs_reset &&& not32 L.MSVDX_RESET_NEEDS_REUPLOAD_FW
              trace := s.trace ++ [Event.power_island_down] }, 0)
  else (s, 0)

/-- The word at index `k` of the firmware-to-host ring. -/
def to_host_word (s : Dev) (k : Nat) : Nat := s.vlr (ring_addr (to_host_offset s) k)

/-- The length in words of the message whose first word is the ring word at
index `r` of the firmware-to-host ring, as line 576 computes it. -/
def to_host_word_num (L : Layout) (s : Dev) (r : Nat) : Nat :=
  ((getBits (to_host_word s r) L.FWRK_GENMSG_SIZE + 3) % U32) / 4

/-- The firmware-to-host ring of `s` holds `k` whole messages between the
index `r` and the write index: `r` is the write index when `k` is `0`, and
otherwise `r` differs from it and the index behind the message at `r` (one
word at least) starts the remaining `k - 1` messages. -/
def holds_messages (L : Layout) (s : Dev) : Nat → Nat → Bool
  | 0, r => decide (r = s.MSVDX_COMMS_TO_HOST_WRT_INDEX)
  | k + 1, r =>
    decide (r ≠ s.MSVDX_COMMS_TO_HOST_WRT_INDEX) &&
      holds_messages L s k ((r + max 1 (to_host_word_num L s r)) % to_host_capacity s)

/-! ## Vocabulary of the reachability property -/

/-- A sample layout: an 8-bit size and an 8-bit id in word 0 of every message,
a 32-byte render message and a 16-byte deblock message. -/
def sampleLayout : Layout where
  FWRK_GENMSG_SIZE := ⟨0, 0, 8⟩
  FWRK_GENMSG_ID := ⟨0, 8, 8⟩
  FWRK_GENMSG_HEADER_SIZE := 2
  FWRK_PADMSG_SIZE := 2
  FWRK_MSGID_PADDING := 0
  VA_MSGID_RENDER := 130
  VA_MSGID_DEBLOCK := 131
  VA_MSGID_OOLD_MFLD := 134
  VA_MSGID_DEBLOCK_MFLD := 133
  FW_VA_RENDER_SIZE := 32
  FW_VA_DEBLOCK_SIZE := 16
  FW_VA_RENDER_FENCE_VALUE := ⟨4, 0, 32⟩
  FW_VA_RENDER_MMUPTD := ⟨1, 0, 32⟩
  FW_VA_DECODE_MSG_ID := ⟨0, 16, 16⟩
  FW_DEVA_DECODE_FLAGS := ⟨1, 0, 16⟩
  FW_VA_DECODE_MMUPTD := ⟨2, 0, 32⟩
  FW_DEVA_INVALIDATE_MMU := 64
  deblock_flags := ⟨1, 0, 16⟩
  deblock_msg_type := ⟨0, 8, 8⟩
  deblock_msg_fence := ⟨0, 16, 16⟩
  deblock_mmu_ptd := ⟨2, 8, 24⟩
  clk_enable_all := 127
  mdfld_fw_updated := false
  is_d0 := false
  VA_MSGID_CMD_HW_PANIC := 199
  VA_MSGID_CMD_FAILED := 197
  VA_MSGID_CMD_COMPLETED := 192
  FW_VA_HW_PANIC_FENCE_VALUE := ⟨1, 0, 32⟩
  FW_VA_CMD_FAILED_FENCE_VALUE := ⟨1, 0, 32⟩
  FW_DEVA_CMD_FAILED_MSG_ID := ⟨0, 16, 16⟩
  FW_VA_CMD_COMPLETED_FLAGS := ⟨2, 0, 32⟩
  FW_VA_CMD_COMPLETED_MSG_ID := ⟨0, 16, 16⟩
  FW_VA_CMD_COMPLETED_FENCE_VALUE := ⟨1, 0, 32⟩
  FW_VA_RENDER_HOST_INT := 16384
  MSVDX_RESET_NEEDS_REUPLOAD_FW := 2
  MSVDX_RESET_NEEDS_INIT_FW := 1
  is_ctp := false
  PSB_PMPOLICY_NOPM := 0
  PSB_PMPOLICY_POWERDOWN := 2
  MSVDX_INTERRUPT_STATUS_CR_MMU_FAULT_IRQ_MASK := 3840
  MSVDX_INTERRUPT_STATUS_CR_MTX_IRQ_MASK := 16384
  MSVDX_MMU_CONTROL0_CR_MMU_PAUSE_MASK := 2

/-- A ring of 8 words with the read index at 5 and the write index at 1. -/
def ringA : Dev :=
  { MSVDX_COMMS_TO_MTX_BUF_SIZE := 8, MSVDX_COMMS_TO_MTX_RD_INDEX := 5,
    MSVDX_COMMS_TO_MTX_WRT_INDEX := 1 }

/-- A ring of 8 words with the read index at 2 and the write index at 4. -/
def ringB : Dev :=
  { MSVDX_COMMS_TO_MTX_BUF_SIZE := 8, MSVDX_COMMS_TO_MTX_RD_INDEX := 2,
    MSVDX_COMMS_TO_MTX_WRT_INDEX := 4 }

/-- The ring of `ringB` on a machine where the two words behind the array
`pad_msg` hold 49164 and 5. -/
def ringBehind : Dev := { ringB with pad_msg_behind := fun k => [49164, 5].getD k 0 }

/-- A ring of 64 words with the read index at 20 and the write index at 58,
on a machine where the two words behind the array `pad_msg` hold 49164 and
5. -/
def padDev : Dev :=
  { MSVDX_COMMS_TO_MTX_BUF_SIZE := 64, MSVDX_COMMS_TO_MTX_RD_INDEX := 20,
    MSVDX_COMMS_TO_MTX_WRT_INDEX := 58, pad_msg_behind := fun k => [49164, 5].getD k 0 }

/-- A ring of 8 words with the read index at 4 and the write index at 6. -/
def ringC : Dev :=
  { MSVDX_COMMS_TO_MTX_BUF_SIZE := 8, MSVDX_COMMS_TO_MTX_RD_INDEX := 4,
    MSVDX_COMMS_TO_MTX_WRT_INDEX := 6 }

/-- A render message in the sample layout: 32 bytes, id 130. -/
def sampleRender : List Nat := [33312, 1, 2, 3, 4, 5, 6, 7]

/-- A deblock message in the sample layout: 16 bytes, id 133. -/
def sampleDeblock : List Nat := [34064, 9, 21, 3]

/-- A 16-byte message with the unsupported id 135. -/
def sampleUnsupported : List Nat := [34576, 9, 21, 3]

/-- A message that declares 18 bytes, not a multiple of 4. -/
def sampleMisaligned : List Nat := [34066, 9, 21, 3, 0]

/-- Collaborators that succeed and leave the device state alone. -/
def sampleCollab : Collab where
  psb_msvdx_reset := fun s => (s, 0)
  psb_msvdx_init := fun s => s
  psb_setup_fw := fun s => (s, 0)
  VEC_LOCAL_MEM_BYTE_SIZE := 0
  VEC_LOCAL_MEM_OFFSET := 8192

/-- An idle device with firmware loaded, a ring of 64 words, the sequence
number 5 and an MMU invalidate pending. -/
def idleDev : Dev :=
  { MSVDX_COMMS_TO_MTX_BUF_SIZE := 64, msvdx_fw_loaded := 1, sequence := 5,
    default_pd_addr := 305418240, msvdx_mmu_invaldc := 1 }

/-- The same device while the hardware is busy. -/
def busyDev : Dev := { idleDev with msvdx_busy := 1 }

/-- A deblock-family message with the id `VA_MSGID_OOLD_MFLD` (134) of the
sample layout: 16 bytes. -/
def sampleOold : List Nat := [34320, 9, 21, 3]

/-- A busy device whose host-to-firmware ring has 4 words, with one render
message of 8 words queued under the sequence number 7. -/
def smallRingDev : Dev :=
  { MSVDX_COMMS_TO_MTX_BUF_SIZE := 4, msvdx_busy := 1, msvdx_fw_loaded := 1,
    msvdx_queue := [{ cmd := sampleRender, cmd_size := 32, sequence := 7 }] }

/-- The busy sample device with the last completed sequence at 4 (the last
requested one is 5), and a firmware-to-host ring of 16 words at byte address
9216 that holds `words`, read index 0 and write index `wrt`. -/
def hostDev (words : List Nat) (wrt : Nat) : Dev :=
  { busyDev with
    MSVDX_COMMS_TO_HOST_BUF_SIZE := 67108880
    MSVDX_COMMS_TO_HOST_WRT_INDEX := wrt
    msvdx_current_sequence := 4
    vlr := fun a => if 9216 ≤ a then words.getD ((a - 9216) / 4) 0 else 0 }

/-- A `VA_MSGID_CMD_COMPLETED` message (12 bytes, id 192) with the fence
`fence` and the flags `flags`. -/
def completedMsg (fence flags : Nat) : List Nat := [49164, fence, flags]

/-- A `VA_MSGID_CMD_HW_PANIC` message (8 bytes, id 199) with the fence field
at 0. -/
def panicMsg : List Nat := [50952, 0]

/-- A `VA_MSGID_CMD_FAILED` message (8 bytes, id 197) with the fence
`fence`. -/
def failedMsg (fence : Nat) : List Nat := [50440, fence]

/-- A message of one word with the id 200, which the handler does not know. -/
def unknownMsg : List Nat := [51204]

/-- Two entries for the command queue: a deblock message under the sequence
number 6 and a render message under the sequence number 7. -/
def sampleQueue : List CmdQueueEntry :=
  [{ cmd := sampleDeblock, cmd_size := 16, sequence := 6 },
   { cmd := sampleRender, cmd_size := 32, sequence := 7 }]

/-- A completed message with fence 5 and the host-interrupt flag waits in the
firmware-to-host ring while the two entries of `sampleQueue` are queued. -/
def completedDev : Dev := { hostDev (completedMsg 5 16384) 3 with msvdx_queue := sampleQueue }

/-- A panic message waits in the firmware-to-host ring while the two entries
of `sampleQueue` are queued. -/
def panicDev : Dev := { hostDev panicMsg 2 with msvdx_queue := sampleQueue }

/-- A failed message with fence 9 waits in the firmware-to-host ring while the
two entries of `sampleQueue` are queued. -/
def failedDev : Dev := { hostDev (failedMsg 9) 2 with msvdx_queue := sampleQueue }

/-- A message with an unknown id waits in the firmware-to-host ring, followed
by a completed message with fence 7 and the host-interrupt flag. -/
def unknownDev : Dev := hostDev (unknownMsg ++ completedMsg 7 16384) 4

/-- A completed message with fence 3 waits in the firmware-to-host ring of a
device whose last completed sequence is 4. -/
def staleDev : Dev := hostDev (completedMsg 3 0) 3

/-- The sample layout with an array `pad_msg` of four words. -/
def padLayout : Layout := { sampleLayout with FWRK_PADMSG_SIZE := 4 }

/-- The sample layout on a D0 device. -/
def sampleLayoutD0 : Layout := { sampleLayout with is_d0 := true }

/-- A panic message and a completed message with fence 7 wait in the
firmware-to-host ring of a device on which `msvdx_needs_reset` is set. -/
def resetDev : Dev :=
  { hostDev (panicMsg ++ completedMsg 7 16384) 5 with
    msvdx_needs_reset := 1
    msvdx_queue := sampleQueue }

/-! ## Bit-field arithmetic -/

theorem getBits_setBits_same (w : Nat) (f : Field) (v : Nat) :
    getBits (setBits w f v) f = v % 2 ^ f.width := by
  unfold getBits setBits
  have h1 : w % 2 ^ f.shift + v % 2 ^ f.width * 2 ^ f.shift
      + w / 2 ^ (f.shift + f.width) * 2 ^ (f.shift + f.width)
      = w % 2 ^ f.shift + 2 ^ f.shift * (v % 2 ^ f.width + 2 ^ f.width * (w / 2 ^ (f.shift + f.width))) := by
    rw [pow_add]; ring
  rw [h1, Nat.add_mul_div_left _ _ (Nat.two_pow_pos _),
    Nat.div_eq_of_lt (Nat.mod_lt _ (Nat.two_pow_pos _)), Nat.zero_add,
    Nat.add_mul_mod_self_left, Nat.mod_mod]

/-- Reading a field that lies below the field written. -/
theorem getBits_setBits_below (w : Nat) (f g : Field) (v : Nat)
    (h : g.shift + g.width ≤ f.shift) :
    getBits (setBits w f v) g = getBits w g := by
  unfold getBits
  rw [← Nat.mod_mul_right_div_self, ← Nat.mod_mul_right_div_self, ← pow_add]
  congr 1
  have hd : 2 ^ (g.shift + g.width) ∣ 2 ^ f.shift := pow_dvd_pow 2 h
  rw [← Nat.mod_mod_of_dvd (setBits w f v) hd, ← Nat.mod_mod_of_dvd w hd]
  congr 1
  unfold setBits
  have h1 : w % 2 ^ f.shift + v % 2 ^ f.width * 2 ^ f.shift
      + w / 2 ^ (f.shift + f.width) * 2 ^ (f.shift + f.width)
      = w % 2 ^ f.shift + 2 ^ f.shift * (v % 2 ^ f.width + 2 ^ f.width * (w / 2 ^ (f.shift + f.width))) := by
    rw [pow_add]; ring
  rw [h1, Nat.add_mul_mod_self_left, Nat.mod_mod]

/-- Reading a field that lies above the field written. -/
theorem getBits_setBits_above (w : Nat) (f g : Field) (v : Nat)
    (h : f.shift + f.width ≤ g.shift) :
    getBits (setBits w f v) g = getBits w g := by
  unfold getBits
  congr 1
  obtain ⟨d, hd⟩ := Nat.exists_eq_add_of_le h
  rw [hd, pow_add, ← Nat.div_div_eq_div_mul, ← Nat.div_div_eq_div_mul]
  congr 1
  unfold setBits
  have hlt : w % 2 ^ f.shift + v % 2 ^ f.width * 2 ^ f.shift < 2 ^ (f.shift + f.width) := by
    have ha : w % 2 ^ f.shift < 2 ^ f.shift := Nat.mod_lt _ (Nat.two_pow_pos _)
    have hb : v % 2 ^ f.width < 2 ^ f.width := Nat.mod_lt _ (Nat.two_pow_pos _)
    have h2 : (v % 2 ^ f.width + 1) * 2 ^ f.shift ≤ 2 ^ f.width * 2 ^ f.shift :=
      Nat.mul_le_mul_right _ hb
    rw [pow_add]
    linarith
  rw [Nat.add_mul_div_right _ _ (Nat.two_pow_pos _), Nat.div_eq_of_lt hlt, Nat.zero_add]

/-- Truncation to 32 bits does not change a field that lies in the word. -/
theorem getBits_mod_U32 (w : Nat) (g : Field) (h : g.shift + g.width ≤ 32) :
    getBits (w % U32) g = getBits w g := by
  unfold getBits
  rw [← Nat.mod_mul_right_div_self, ← Nat.mod_mul_right_div_self, ← pow_add]
  congr 1
  have hd : 2 ^ (g.shift + g.width) ∣ U32 := by
    have : U32 = 2 ^ 32 := by norm_num [U32]
    rw [this]; exact pow_dvd_pow 2 h
  exact Nat.mod_mod_of_dvd w hd

/-! ## Ring arithmetic -/

theorem in_flight_eq (cap ridx widx : Nat) (hr : ridx < cap) (hw : widx < cap) :
    in_flight cap ridx widx = if ridx ≤ widx then widx - ridx else cap + widx - ridx := by
  unfold in_flight
  split
  · rename_i h
    rw [Int.emod_eq_of_lt (by omega) (by omega)]
    omega
  · rename_i h
    rw [← Int.add_emod_self, Int.emod_eq_of_lt (by omega) (by omega)]
    omega

theorem in_flight_lt (cap ridx widx : Nat) (hr : ridx < cap) (hw : widx < cap) :
    in_flight cap ridx widx < cap := by
  rw [in_flight_eq cap ridx widx hr hw]; split <;> omega

theorem words_free_eq (cap ridx widx : Nat) (hc : cap < 65536) (hr : ridx < cap)
    (hw : widx < cap) : words_free cap ridx widx = free_slots cap ridx widx := by
  unfold words_free free_slots sub32 U32
  rw [in_flight_eq cap ridx widx hr hw]
  by_cases h : ridx ≤ widx
  · rw [if_pos h, if_pos h]; omega
  · rw [if_neg h, if_neg h]; omega

theorem add_mod_cap (cap widx n : Nat) (hn : widx + n < 2 * cap) :
    (widx + n) % cap = if widx + n < cap then widx + n else widx + n - cap := by
  split
  · exact Nat.mod_eq_of_lt (by assumption)
  · rw [Nat.mod_eq_sub_mod (by omega), Nat.mod_eq_of_lt (by omega)]

/-- A message that fits the free words moves the write index forward by its
length, modulo the capacity, and the words in flight grow by that length. -/
theorem in_flight_advance (cap ridx widx n : Nat) (hr : ridx < cap) (hw : widx < cap)
    (hn : n ≤ free_slots cap ridx widx) :
    (widx + n) % cap < cap ∧
    in_flight cap ridx ((widx + n) % cap) = in_flight cap ridx widx + n := by
  have hlt : (widx + n) % cap < cap := Nat.mod_lt _ (by omega)
  refine ⟨hlt, ?_⟩
  unfold free_slots at hn
  have h1 := in_flight_eq cap ridx widx hr hw
  rw [in_flight_eq cap ridx _ hr hlt]
  have h2 : widx + n < 2 * cap := by omega
  rw [add_mod_cap cap widx n h2]
  rw [h1] at hn ⊢
  split at hn <;> split <;> split <;> omega

/-! ## The copy loop -/

theorem ring_copy_widx (msg : List Nat) (off bo bs : Nat) (hbs : bs < 65536) :
    ∀ (n i : Nat) (vlr : Nat → Nat) (widx : Nat), widx < bs →
      (ring_copy msg off bo bs n i vlr widx).2 = (widx + n) % bs := by
  intro n
  induction n with
  | zero => intro i vlr widx hw; simp [ring_copy, Nat.mod_eq_of_lt hw]
  | succ n ih =>
    intro i vlr widx hw
    simp only [ring_copy]
    have h1 : (widx + 1) % U32 = widx + 1 := Nat.mod_eq_of_lt (by unfold U32; omega)
    rw [h1]
    by_cases hb : bs = widx + 1
    · rw [if_pos hb, ih _ _ 0 (by omega)]
      have : widx + (n + 1) = n + bs := by omega
      rw [this, Nat.add_mod_right, Nat.zero_add]
    · rw [if_neg hb, ih _ _ (widx + 1) (by omega)]
      congr 1; omega

theorem ring_addr_inj (bo i j : Nat) (hi : i < 65536) (hj : j < 65536)
    (h : ring_addr bo i = ring_addr bo j) : i = j := by
  unfold ring_addr U32 at *
  omega

theorem ring_copy_other (msg : List Nat) (off bo bs : Nat) (hbs : bs < 65536) :
    ∀ (n i : Nat) (vlr : Nat → Nat) (widx : Nat), widx + n ≤ bs →
      ∀ k, k < 65536 → (k < widx ∨ widx + n ≤ k) →
      (ring_copy msg off bo bs n i vlr widx).1 (ring_addr bo k) = vlr (ring_addr bo k) := by
  intro n
  induction n with
  | zero => intro i vlr widx _ k _ _; simp [ring_copy]
  | succ n ih =>
    intro i vlr widx hw k hk hout
    simp only [ring_copy]
    have h1 : (widx + 1) % U32 = widx + 1 := Nat.mod_eq_of_lt (by unfold U32; omega)
    rw [h1]
    have hne : ring_addr bo k ≠ ring_addr bo widx := by
      intro he
      have := ring_addr_inj bo k widx hk (by omega) he
      omega
    by_cases hb : bs = widx + 1
    · have hn : n = 0 := by omega
      subst hn
      simp [ring_copy, hb, hne]
    · rw [if_neg hb, ih _ _ (widx + 1) (by omega) k hk (by omega)]
      simp [hne]

theorem ring_copy_get (msg : List Nat) (off bo bs : Nat) (hbs : bs < 65536) :
    ∀ (n i : Nat) (vlr : Nat → Nat) (widx : Nat), widx + n ≤ bs →
      ∀ j, j < n →
      (ring_copy msg off bo bs n i vlr widx).1 (ring_addr bo (widx + j))
        = rd32 msg (off + 4 * (i + j)) := by
  intro n
  induction n with
  | zero => intro i vlr widx _ j hj; omega
  | succ n ih =>
    intro i vlr widx hw j hj
    simp only [ring_copy]
    have h1 : (widx + 1) % U32 = widx + 1 := Nat.mod_eq_of_lt (by unfold U32; omega)
    rw [h1]
    by_cases hb : bs = widx + 1
    · have hn : n = 0 := by omega
      subst hn
      have hj0 : j = 0 := by omega
      subst hj0
      simp [ring_copy, hb]
    · rw [if_neg hb]
      cases j with
      | zero =>
        rw [ring_copy_other msg off bo bs hbs n (i + 1) _ (widx + 1) (by omega) (widx + 0)
          (by omega) (by omega)]
        simp
      | succ j =>
        have := ih (i + 1) (fun x => if x = ring_addr bo widx then rd32 msg (off + 4 * i) else vlr x)
          (widx + 1) (by omega) j (by omega)
        have e1 : widx + 1 + j = widx + (j + 1) := by omega
        have e2 : i + 1 + j = i + (j + 1) := by omega
        rw [e1, e2] at this
        exact this

/-! ## `psb_mtx_send` -/

theorem ring_frame_refl (s : Dev) : ring_frame s s := by
  simp [ring_frame]

theorem ring_frame_trans {a b c : Dev} (h1 : ring_frame a b) (h2 : ring_frame b c) :
    ring_frame a c := by
  unfold ring_frame at *
  obtain ⟨a1, a2, a3, a4, a5, a6, a7, a8, a9, a10, a11, a12, a13, a14, a15, a16, a17, a18⟩ := h1
  obtain ⟨b1, b2, b3, b4, b5, b6, b7, b8, b9, b10, b11, b12, b13, b14, b15, b16, b17, b18⟩ := h2
  exact ⟨b1.trans a1, b2.trans a2, b3.trans a3, b4.trans a4, b5.trans a5, b6.trans a6,
    b7.trans a7, b8.trans a8, b9.trans a9, b10.trans a10, b11.trans a11, b12.trans a12,
    b13.trans a13, b14.trans a14, b15.trans a15, b16.trans a16, b17.trans a17, b18.trans a18⟩

theorem to_mtx_capacity_lt (s : Dev) : to_mtx_capacity s < 65536 := by
  unfold to_mtx_capacity; omega

theorem to_mtx_capacity_congr {s s' : Dev}
    (h : s'.MSVDX_COMMS_TO_MTX_BUF_SIZE = s.MSVDX_COMMS_TO_MTX_BUF_SIZE) :
    to_mtx_capacity s' = to_mtx_capacity s := by
  unfold to_mtx_capacity; rw [h]

theorem to_mtx_offset_congr {s s' : Dev}
    (h : s'.MSVDX_COMMS_TO_MTX_BUF_SIZE = s.MSVDX_COMMS_TO_MTX_BUF_SIZE) :
    to_mtx_offset s' = to_mtx_offset s := by
  unfold to_mtx_offset; rw [h]

theorem mtx_send_commit_post (L : Layout) (s : Dev) (msg : List Nat) (off n : Nat)
    (hr : s.MSVDX_COMMS_TO_MTX_RD_INDEX < to_mtx_capacity s)
    (hw : s.MSVDX_COMMS_TO_MTX_WRT_INDEX < to_mtx_capacity s) :
    commit_post s (mtx_send_commit L s msg off n s.MSVDX_COMMS_TO_MTX_RD_INDEX
      s.MSVDX_COMMS_TO_MTX_WRT_INDEX (to_mtx_capacity s) (to_mtx_offset s)).1
      s.MSVDX_COMMS_TO_MTX_RD_INDEX := by
  unfold mtx_send_commit
  by_cases h : n > words_free (to_mtx_capacity s) s.MSVDX_COMMS_TO_MTX_RD_INDEX
      s.MSVDX_COMMS_TO_MTX_WRT_INDEX
  · rw [if_pos h]
    exact ⟨ring_frame_refl s, hw, le_refl _, le_refl _, by simp⟩
  · rw [if_neg h]
    rw [words_free_eq _ _ _ (to_mtx_capacity_lt s) hr hw] at h
    have hadv := in_flight_advance _ _ _ n hr hw (by omega)
    refine ⟨by simp [ring_frame], ?_, by simp, by simp, ?_⟩
    · simp only
      rw [ring_copy_widx _ _ _ _ (to_mtx_capacity_lt s) _ _ _ _ hw]
      exact hadv.1
    · simp only
      rw [ring_copy_widx _ _ _ _ (to_mtx_capacity_lt s) _ _ _ _ hw, hadv.2]
      omega

theorem commit_post_trans {a b c : Dev} {r : Nat} (h1 : commit_post a b r)
    (h2 : commit_post b c r) : commit_post a c r := by
  unfold commit_post at *
  obtain ⟨f1, w1, s1, k1, i1⟩ := h1
  obtain ⟨f2, w2, s2, k2, i2⟩ := h2
  have hc : to_mtx_capacity b = to_mtx_capacity a := to_mtx_capacity_congr f1.1
  rw [hc] at w2 i2
  refine ⟨ring_frame_trans f1 f2, w2, le_trans s1 s2, le_trans k1 k2, ?_⟩
  rw [i2, i1]; omega

theorem commit_post_clk (L : Layout) (s : Dev) (r : Nat)
    (hw : s.MSVDX_COMMS_TO_MTX_WRT_INDEX < to_mtx_capacity s) :
    commit_post s { s with MSVDX_MAN_CLK_ENABLE := L.clk_enable_all } r := by
  refine ⟨by simp [ring_frame], hw, le_refl _, le_refl _, by simp⟩

/-- Whatever `psb_mtx_send` returns, the ring bookkeeping stays consistent. -/
theorem psb_mtx_send_post (L : Layout) :
    ∀ (fuel : Nat) (s : Dev) (msg : List Nat) (off : Nat) (s' : Dev) (r : Int),
      s.MSVDX_COMMS_TO_MTX_RD_INDEX < to_mtx_capacity s →
      s.MSVDX_COMMS_TO_MTX_WRT_INDEX < to_mtx_capacity s →
      psb_mtx_send L fuel s msg off = some (s', r) →
      commit_post s s' s.MSVDX_COMMS_TO_MTX_RD_INDEX := by
  intro fuel
  induction fuel with
  | zero => intro s msg off s' r _ _ h; simp [psb_mtx_send] at h
  | succ fuel ih =>
    intro s msg off s' r hr hw h
    have hclk := commit_post_clk L s s.MSVDX_COMMS_TO_MTX_RD_INDEX hw
    simp only [psb_mtx_send] at h
    split at h
    · -- message larger than the ring
      simp only [Option.some.injEq, Prod.mk.injEq] at h
      rw [← h.1]; exact hclk
    · split at h
      · split at h
        · simp only [Option.some.injEq, Prod.mk.injEq] at h
          rw [← h.1]; exact hclk
        · split at h
          · simp at h
          · rename_i s1 r1 hnest
            have hp : commit_post { s with MSVDX_MAN_CLK_ENABLE := L.clk_enable_all } s1
                s.MSVDX_COMMS_TO_MTX_RD_INDEX :=
              ih { s with MSVDX_MAN_CLK_ENABLE := L.clk_enable_all } _ _ s1 r1 hr hw hnest
            simp only [Option.some.injEq] at h
            have hc1 : to_mtx_capacity s1 = to_mtx_capacity s := to_mtx_capacity_congr hp.1.1
            have ho1 : to_mtx_offset s1 = to_mtx_offset s := to_mtx_offset_congr hp.1.1
            have hr1 : s1.MSVDX_COMMS_TO_MTX_RD_INDEX = s.MSVDX_COMMS_TO_MTX_RD_INDEX := hp.1.2.1
            have hw1 : s1.MSVDX_COMMS_TO_MTX_WRT_INDEX < to_mtx_capacity s1 := by
              rw [hc1]; exact hp.2.1
            have hcp := mtx_send_commit_post L s1 msg off (msg_num_of L msg off)
              (by rw [hr1, hc1]; exact hr) hw1
            rw [hr1, hc1, ho1] at hcp
            have e : to_mtx_capacity { s with MSVDX_MAN_CLK_ENABLE := L.clk_enable_all }
                = to_mtx_capacity s := rfl
            have e2 : to_mtx_offset { s with MSVDX_MAN_CLK_ENABLE := L.clk_enable_all }
                = to_mtx_offset s := rfl
            rw [e, e2] at h
            rw [h] at hcp
            exact commit_post_trans (commit_post_trans hclk hp) hcp
      · simp only [Option.some.injEq] at h
        have hcp := mtx_send_commit_post L { s with MSVDX_MAN_CLK_ENABLE := L.clk_enable_all }
          msg off (msg_num_of L msg off) hr hw
        rw [h] at hcp
        exact commit_post_trans hclk hcp

/-! ## Aligned memory accesses and the pad message -/

theorem rd32_aligned (m : List Nat) (k : Nat) : rd32 m (4 * k) = m.getD k 0 := by
  unfold rd32
  rw [if_pos (Nat.mul_mod_right 4 k), Nat.mul_div_cancel_left k (by norm_num)]

theorem wr32_aligned (m : List Nat) (k v : Nat) : wr32 m (4 * k) v = m.set k (v % U32) := by
  unfold wr32
  rw [if_pos (Nat.mul_mod_right 4 k), Nat.mul_div_cancel_left k (by norm_num)]

theorem read_field_aligned (m : List Nat) (k : Nat) (f : Field) :
    MEMIO_READ_FIELD m (4 * k) f = getBits (m.getD (k + f.word) 0) f := by
  unfold MEMIO_READ_FIELD
  rw [← Nat.mul_add, rd32_aligned]

theorem write_field_aligned (m : List Nat) (k : Nat) (f : Field) (v : Nat) :
    MEMIO_WRITE_FIELD m (4 * k) f v
      = m.set (k + f.word) (setBits (m.getD (k + f.word) 0) f v % U32) := by
  unfold MEMIO_WRITE_FIELD
  rw [← Nat.mul_add, rd32_aligned, wr32_aligned]

theorem pad_msg_size (L : Layout) (hL : L.header_ok) (bs widx : Nat) :
    MEMIO_READ_FIELD (pad_msg L bs widx) 0 L.FWRK_GENMSG_SIZE
      = ((sub32 bs widx * 4) % U32) % 2 ^ L.FWRK_GENMSG_SIZE.width := by
  obtain ⟨h1, h2, h3, h4, h5, _⟩ := hL
  have e := read_field_aligned (pad_msg L bs widx) 0 L.FWRK_GENMSG_SIZE
  rw [Nat.mul_zero] at e
  rw [e]
  unfold pad_msg
  have w1 := write_field_aligned (List.replicate L.FWRK_PADMSG_SIZE 0) 0 L.FWRK_GENMSG_SIZE
    ((sub32 bs widx * 4) % U32)
  rw [Nat.mul_zero] at w1
  rw [w1]
  have w2 := fun m => write_field_aligned m 0 L.FWRK_GENMSG_ID L.FWRK_MSGID_PADDING
  simp only [Nat.mul_zero] at w2
  rw [w2, h1, h2]
  simp only [Nat.zero_add, List.getD_eq_getElem?_getD, List.length_set, List.length_replicate,
    h5, List.getElem?_set_self, Option.getD_some]
  rw [getBits_mod_U32 _ _ (by omega), getBits_setBits_below _ _ _ _ h3,
    getBits_mod_U32 _ _ (by omega), getBits_setBits_same]

theorem pad_msg_id (L : Layout) (hL : L.header_ok) (bs widx : Nat) :
    MEMIO_READ_FIELD (pad_msg L bs widx) 0 L.FWRK_GENMSG_ID = L.FWRK_MSGID_PADDING := by
  obtain ⟨h1, h2, h3, h4, h5, h6⟩ := hL
  have e := read_field_aligned (pad_msg L bs widx) 0 L.FWRK_GENMSG_ID
  rw [Nat.mul_zero] at e
  rw [e]
  unfold pad_msg
  have w1 := write_field_aligned (List.replicate L.FWRK_PADMSG_SIZE 0) 0 L.FWRK_GENMSG_SIZE
    ((sub32 bs widx * 4) % U32)
  rw [Nat.mul_zero] at w1
  rw [w1]
  have w2 := fun m => write_field_aligned m 0 L.FWRK_GENMSG_ID L.FWRK_MSGID_PADDING
  simp only [Nat.mul_zero] at w2
  rw [w2, h1, h2]
  simp only [Nat.zero_add, List.getD_eq_getElem?_getD, List.length_set, List.length_replicate,
    h5, List.getElem?_set_self, Option.getD_some]
  rw [getBits_mod_U32 _ _ h4, getBits_setBits_same, Nat.mod_eq_of_lt h6]

/-- The pad message never asks for more words than are left up to the end of
the ring. -/
theorem pad_msg_num_le (L : Layout) (hL : L.header_ok) (bs widx : Nat) (hbs : bs < 65536)
    (hw : widx < bs) : msg_num_of L (pad_msg L bs widx) 0 ≤ bs - widx := by
  unfold msg_num_of
  rw [pad_msg_size L hL]
  have h := Nat.mod_le ((sub32 bs widx * 4) % U32) (2 ^ L.FWRK_GENMSG_SIZE.width)
  generalize ((sub32 bs widx * 4) % U32) % 2 ^ L.FWRK_GENMSG_SIZE.width = x at h
  unfold sub32 U32 at *
  omega

/-- When the size field holds the pad size, the pad message is exactly as
long as the rest of the ring. -/
theorem pad_msg_num_eq (L : Layout) (hL : L.header_ok) (bs widx : Nat) (hbs : bs < 65536)
    (hw : widx < bs) (hfit : (bs - widx) * 4 < 2 ^ L.FWRK_GENMSG_SIZE.width) :
    msg_num_of L (pad_msg L bs widx) 0 = bs - widx := by
  unfold msg_num_of
  rw [pad_msg_size L hL]
  have e : (sub32 bs widx * 4) % U32 = (bs - widx) * 4 := by
    unfold sub32 U32; omega
  rw [e, Nat.mod_eq_of_lt hfit]
  unfold U32
  omega

theorem length_pad_msg (L : Layout) (bs widx : Nat) :
    (pad_msg L bs widx).length = L.FWRK_PADMSG_SIZE := by
  unfold pad_msg
  have w1 := write_field_aligned (List.replicate L.FWRK_PADMSG_SIZE 0) 0 L.FWRK_GENMSG_SIZE
    ((sub32 bs widx * 4) % U32)
  rw [Nat.mul_zero] at w1
  rw [w1]
  have w2 := fun m => write_field_aligned m 0 L.FWRK_GENMSG_ID L.FWRK_MSGID_PADDING
  simp only [Nat.mul_zero] at w2
  rw [w2]
  simp only [List.length_set, List.length_replicate]

/-- The words that the pad self-call can read: those of the array, then the
memory behind it. -/
theorem pad_msg_memory_getD (L : Layout) (behind : Nat → Nat) (bs widx j : Nat) :
    (pad_msg_memory L behind bs widx).getD j 0
      = if j < L.FWRK_PADMSG_SIZE then (pad_msg L bs widx).getD j 0
        else if j - L.FWRK_PADMSG_SIZE < sub32 bs widx then behind (j - L.FWRK_PADMSG_SIZE)
        else 0 := by
  unfold pad_msg_memory
  have hlen := length_pad_msg L bs widx
  simp only [List.getD_eq_getElem?_getD]
  by_cases hj : j < L.FWRK_PADMSG_SIZE
  · rw [if_pos hj, List.getElem?_append_left (by rw [hlen]; exact hj)]
  · rw [if_neg hj, List.getElem?_append_right (by rw [hlen]; omega), hlen]
    by_cases hk : j - L.FWRK_PADMSG_SIZE < sub32 bs widx
    · rw [if_pos hk]
      simp [hk]
    · rw [if_neg hk, List.getElem?_eq_none (by rw [List.length_map, List.length_range]; omega)]
      rfl

theorem pad_msg_memory_read (L : Layout) (hL : L.header_ok) (behind : Nat → Nat)
    (bs widx : Nat) (f : Field) (hf : f.word = 0) :
    MEMIO_READ_FIELD (pad_msg_memory L behind bs widx) 0 f
      = MEMIO_READ_FIELD (pad_msg L bs widx) 0 f := by
  have e1 := read_field_aligned (pad_msg_memory L behind bs widx) 0 f
  have e2 := read_field_aligned (pad_msg L bs widx) 0 f
  rw [Nat.mul_zero] at e1 e2
  rw [e1, e2, hf, Nat.add_zero, pad_msg_memory_getD, if_pos hL.2.2.2.2.1]

theorem pad_msg_memory_num (L : Layout) (hL : L.header_ok) (behind : Nat → Nat)
    (bs widx : Nat) :
    msg_num_of L (pad_msg_memory L behind bs widx) 0 = msg_num_of L (pad_msg L bs widx) 0 := by
  unfold msg_num_of
  rw [pad_msg_memory_read L hL behind bs widx _ hL.1]

/-- Word `j` of what the pad self-call copies, for `j` up to the end of the
ring: a word of the array while `j` is inside it, and the memory behind the
array from there on. -/
theorem pad_msg_memory_word (L : Layout) (behind : Nat → Nat) (bs widx j : Nat)
    (hbs : bs < 65536) (hw : widx < bs) (hj : j < bs - widx) :
    rd32 (pad_msg_memory L behind bs widx) (4 * j)
      = if j < L.FWRK_PADMSG_SIZE then rd32 (pad_msg L bs widx) (4 * j)
        else behind (j - L.FWRK_PADMSG_SIZE) := by
  rw [rd32_aligned, rd32_aligned, pad_msg_memory_getD]
  have e : sub32 bs widx = bs - widx := by unfold sub32 U32; omega
  by_cases h1 : j < L.FWRK_PADMSG_SIZE
  · rw [if_pos h1, if_pos h1]
  · rw [if_neg h1, if_neg h1, if_pos (by rw [e]; omega)]

/-! ## Runs of `psb_mtx_send` -/

theorem psb_mtx_send_nowrap (L : Layout) (fuel : Nat) (s : Dev) (msg : List Nat) (off : Nat)
    (h : s.MSVDX_COMMS_TO_MTX_WRT_INDEX + msg_num_of L msg off ≤ to_mtx_capacity s) :
    psb_mtx_send L (fuel + 1) s msg off
      = some (mtx_send_commit L { s with MSVDX_MAN_CLK_ENABLE := L.clk_enable_all } msg off
          (msg_num_of L msg off) s.MSVDX_COMMS_TO_MTX_RD_INDEX s.MSVDX_COMMS_TO_MTX_WRT_INDEX
          (to_mtx_capacity s) (to_mtx_offset s)) := by
  have hc := to_mtx_capacity_lt s
  have e : to_mtx_capacity { s with MSVDX_MAN_CLK_ENABLE := L.clk_enable_all }
      = to_mtx_capacity s := rfl
  have e2 : to_mtx_offset { s with MSVDX_MAN_CLK_ENABLE := L.clk_enable_all }
      = to_mtx_offset s := rfl
  simp only [psb_mtx_send, e, e2]
  rw [if_neg (by omega), if_neg]
  rw [Nat.mod_eq_of_lt (by unfold U32; omega)]
  omega

/-- With the ring indices below the capacity, two levels of fuel are enough
for `psb_mtx_send` to return. -/
theorem psb_mtx_send_total (L : Layout) (hL : L.header_ok) (fuel : Nat) (s : Dev)
    (msg : List Nat) (off : Nat)
    (hw : s.MSVDX_COMMS_TO_MTX_WRT_INDEX < to_mtx_capacity s) :
    ∃ s' r, psb_mtx_send L (fuel + 2) s msg off = some (s', r) := by
  have hc := to_mtx_capacity_lt s
  have e : to_mtx_capacity { s with MSVDX_MAN_CLK_ENABLE := L.clk_enable_all }
      = to_mtx_capacity s := rfl
  have e2 : to_mtx_offset { s with MSVDX_MAN_CLK_ENABLE := L.clk_enable_all }
      = to_mtx_offset s := rfl
  rw [psb_mtx_send]
  simp only [e, e2]
  split
  · exact ⟨_, _, rfl⟩
  · split
    · split
      · exact ⟨_, _, rfl⟩
      · have hpad := pad_msg_num_le L hL (to_mtx_capacity s) s.MSVDX_COMMS_TO_MTX_WRT_INDEX hc hw
        rw [← pad_msg_memory_num L hL s.pad_msg_behind] at hpad
        rw [psb_mtx_send_nowrap L fuel _ _ _ (by rw [e]; simp only; omega)]
        exact ⟨_, _, rfl⟩
    · exact ⟨_, _, rfl⟩

theorem mtx_send_commit_full (L : Layout) (s : Dev) (msg : List Nat) (off n ridx widx bs
    bo : Nat) (h : words_free bs ridx widx < n) :
    mtx_send_commit L s msg off n ridx widx bs bo = (s, -EINVAL) := by
  unfold mtx_send_commit
  rw [if_pos h]

/-- A message longer than the free slots is refused, with the state the call
had reached. -/
theorem psb_mtx_send_full (L : Layout) (fuel : Nat) (s : Dev) (msg : List Nat) (off : Nat)
    (s' : Dev) (r : Int)
    (hr : s.MSVDX_COMMS_TO_MTX_RD_INDEX < to_mtx_capacity s)
    (hw : s.MSVDX_COMMS_TO_MTX_WRT_INDEX < to_mtx_capacity s)
    (hlen : free_slots (to_mtx_capacity s) s.MSVDX_COMMS_TO_MTX_RD_INDEX
      s.MSVDX_COMMS_TO_MTX_WRT_INDEX < msg_num_of L msg off)
    (h : psb_mtx_send L fuel s msg off = some (s', r)) : r = -EINVAL := by
  have hc := to_mtx_capacity_lt s
  cases fuel with
  | zero => simp [psb_mtx_send] at h
  | succ fuel =>
    have e : to_mtx_capacity { s with MSVDX_MAN_CLK_ENABLE := L.clk_enable_all }
        = to_mtx_capacity s := rfl
    have e2 : to_mtx_offset { s with MSVDX_MAN_CLK_ENABLE := L.clk_enable_all }
        = to_mtx_offset s := rfl
    simp only [psb_mtx_send, e, e2] at h
    split at h
    · simp only [Option.some.injEq, Prod.mk.injEq] at h; exact h.2.symm
    · split at h
      · split at h
        · simp only [Option.some.injEq, Prod.mk.injEq] at h; exact h.2.symm
        · split at h
          · simp at h
          · rename_i s1 r1 hnest
            have hp : commit_post { s with MSVDX_MAN_CLK_ENABLE := L.clk_enable_all } s1
                s.MSVDX_COMMS_TO_MTX_RD_INDEX :=
              psb_mtx_send_post L fuel { s with MSVDX_MAN_CLK_ENABLE := L.clk_enable_all } _ _
                s1 r1 hr hw hnest
            obtain ⟨_, hw1, hs1, _, hin⟩ := hp
            rw [e] at hw1 hin
            simp only at hin
            have hwf := words_free_eq _ _ _ hc hr hw1
            rw [mtx_send_commit_full] at h
            · simp only [Option.some.injEq, Prod.mk.injEq] at h; exact h.2.symm
            · rw [hwf]; unfold free_slots at *; omega
      · rw [mtx_send_commit_full] at h
        · simp only [Option.some.injEq, Prod.mk.injEq] at h; exact h.2.symm
        · rw [words_free_eq _ _ _ hc hr hw]; exact hlen

theorem neg_EINVAL_ne_zero : (-EINVAL : Int) ≠ 0 := by decide

/-- A committed message that does not run past the end of the ring. -/
theorem mtx_send_commit_fit (L : Layout) (s : Dev) (msg : List Nat) (off n ridx widx bs
    bo : Nat) (hbs : bs < 65536) (hw : widx < bs) (hfit : widx + n ≤ bs)
    (h : n ≤ words_free bs ridx widx) :
    (mtx_send_commit L s msg off n ridx widx bs bo).2 = 0 ∧
    (mtx_send_commit L s msg off n ridx widx bs bo).1.MSVDX_COMMS_TO_MTX_WRT_INDEX
      = (widx + n) % bs ∧
    (mtx_send_commit L s msg off n ridx widx bs bo).1.ring_stores = s.ring_stores + n ∧
    (mtx_send_commit L s msg off n ridx widx bs bo).1.mtx_kicks = s.mtx_kicks + 1 ∧
    ring_frame s (mtx_send_commit L s msg off n ridx widx bs bo).1 ∧
    (∀ i, i < n → (mtx_send_commit L s msg off n ridx widx bs bo).1.vlr (ring_addr bo (widx + i))
      = rd32 msg (off + 4 * i)) ∧
    (∀ k, k < 65536 → (k < widx ∨ widx + n ≤ k) →
      (mtx_send_commit L s msg off n ridx widx bs bo).1.vlr (ring_addr bo k)
        = s.vlr (ring_addr bo k)) := by
  unfold mtx_send_commit
  rw [if_neg (by omega)]
  refine ⟨rfl, ?_, rfl, rfl, by simp [ring_frame], ?_, ?_⟩
  · exact ring_copy_widx msg off bo bs hbs n 0 s.vlr widx hw
  · intro i hi
    have := ring_copy_get msg off bo bs hbs n 0 s.vlr widx hfit i hi
    rw [Nat.zero_add] at this
    exact this
  · intro k hk hout
    exact ring_copy_other msg off bo bs hbs n 0 s.vlr widx hfit k hk hout

/-! ## Claims about the ring -/

/-- C1 (amended): from a ring state with both indices below the capacity, a
message whose length in words equals `free_slots()` and which does not run
past the end of the ring (`write_index + len ≤ capacity_words`) is accepted:
`psb_mtx_send` returns 0, every word of the message is stored in the ring
from the old write index on, and the write index advances by the length
modulo the capacity. -/
theorem C1_exact_fit_without_wrap (L : Layout) (fuel : Nat) (s : Dev) (msg : List Nat)
    (off : Nat)
    (hr : s.MSVDX_COMMS_TO_MTX_RD_INDEX < to_mtx_capacity s)
    (hw : s.MSVDX_COMMS_TO_MTX_WRT_INDEX < to_mtx_capacity s)
    (hlen : msg_num_of L msg off = free_slots (to_mtx_capacity s)
      s.MSVDX_COMMS_TO_MTX_RD_INDEX s.MSVDX_COMMS_TO_MTX_WRT_INDEX)
    (hnowrap : s.MSVDX_COMMS_TO_MTX_WRT_INDEX + msg_num_of L msg off ≤ to_mtx_capacity s) :
    ∃ s', psb_mtx_send L (fuel + 1) s msg off = some (s', 0) ∧
      s'.MSVDX_COMMS_TO_MTX_WRT_INDEX
        = (s.MSVDX_COMMS_TO_MTX_WRT_INDEX + msg_num_of L msg off) % to_mtx_capacity s ∧
      s'.ring_stores = s.ring_stores + msg_num_of L msg off ∧
      ∀ i, i < msg_num_of L msg off →
        ring_word s' (s.MSVDX_COMMS_TO_MTX_WRT_INDEX + i) = rd32 msg (off + 4 * i) := by
  have hc := to_mtx_capacity_lt s
  have hwf := words_free_eq _ _ _ hc hr hw
  obtain ⟨h0, h1, h2, _, h4, h5, _⟩ := mtx_send_commit_fit L
    { s with MSVDX_MAN_CLK_ENABLE := L.clk_enable_all } msg off (msg_num_of L msg off)
    s.MSVDX_COMMS_TO_MTX_RD_INDEX s.MSVDX_COMMS_TO_MTX_WRT_INDEX (to_mtx_capacity s)
    (to_mtx_offset s) hc hw hnowrap (by rw [hwf, hlen])
  refine ⟨_, ?_, h1, h2, ?_⟩
  · rw [psb_mtx_send_nowrap L fuel s msg off hnowrap, ← h0]
  · intro i hi
    unfold ring_word
    rw [to_mtx_offset_congr h4.1]
    exact h5 i hi

/-- C2: from a ring state with both indices below the capacity, a message
longer than `free_slots()` is refused: `psb_mtx_send` returns the non-zero
error `-EINVAL`; and the `words_free` the code computes from the indices
equals `capacity_words - 1 - ((write_index - read_index) mod capacity_words)`. -/
theorem C2_longer_than_free_slots_fails (L : Layout) (hL : L.header_ok) (fuel : Nat) (s : Dev)
    (msg : List Nat) (off : Nat)
    (hr : s.MSVDX_COMMS_TO_MTX_RD_INDEX < to_mtx_capacity s)
    (hw : s.MSVDX_COMMS_TO_MTX_WRT_INDEX < to_mtx_capacity s)
    (hlen : free_slots (to_mtx_capacity s) s.MSVDX_COMMS_TO_MTX_RD_INDEX
      s.MSVDX_COMMS_TO_MTX_WRT_INDEX < msg_num_of L msg off) :
    (∃ s' r, psb_mtx_send L (fuel + 2) s msg off = some (s', r) ∧ r = -EINVAL ∧ r ≠ 0) ∧
    words_free (to_mtx_capacity s) s.MSVDX_COMMS_TO_MTX_RD_INDEX
      s.MSVDX_COMMS_TO_MTX_WRT_INDEX
      = free_slots (to_mtx_capacity s) s.MSVDX_COMMS_TO_MTX_RD_INDEX
          s.MSVDX_COMMS_TO_MTX_WRT_INDEX := by
  refine ⟨?_, words_free_eq _ _ _ (to_mtx_capacity_lt s) hr hw⟩
  obtain ⟨s', r, h⟩ := psb_mtx_send_total L hL fuel s msg off hw
  have hr' := psb_mtx_send_full L _ s msg off s' r hr hw hlen h
  exact ⟨s', r, h, hr', by rw [hr']; exact neg_EINVAL_ne_zero⟩

/-- C4: from a ring state with both indices below the capacity
`psb_mtx_send` returns, and afterwards the write index is below the capacity,
the words in flight are those in flight before plus the words stored by the
call (padding included), they are at most `capacity_words - 1`, and a call
that stored at least one word leaves the write index different from the read
index. -/
theorem C4_send_keeps_ring_invariant (L : Layout) (hL : L.header_ok) (fuel : Nat) (s : Dev)
    (msg : List Nat) (off : Nat)
    (hr : s.MSVDX_COMMS_TO_MTX_RD_INDEX < to_mtx_capacity s)
    (hw : s.MSVDX_COMMS_TO_MTX_WRT_INDEX < to_mtx_capacity s) :
    ∃ s' r, psb_mtx_send L (fuel + 2) s msg off = some (s', r) ∧
      s'.MSVDX_COMMS_TO_MTX_RD_INDEX = s.MSVDX_COMMS_TO_MTX_RD_INDEX ∧
      to_mtx_capacity s' = to_mtx_capacity s ∧
      s'.MSVDX_COMMS_TO_MTX_WRT_INDEX < to_mtx_capacity s ∧
      s.ring_stores ≤ s'.ring_stores ∧
      in_flight (to_mtx_capacity s) s.MSVDX_COMMS_TO_MTX_RD_INDEX
          s'.MSVDX_COMMS_TO_MTX_WRT_INDEX
        = in_flight (to_mtx_capacity s) s.MSVDX_COMMS_TO_MTX_RD_INDEX
            s.MSVDX_COMMS_TO_MTX_WRT_INDEX + (s'.ring_stores - s.ring_stores) ∧
      in_flight (to_mtx_capacity s) s.MSVDX_COMMS_TO_MTX_RD_INDEX
          s'.MSVDX_COMMS_TO_MTX_WRT_INDEX ≤ to_mtx_capacity s - 1 ∧
      (s.ring_stores < s'.ring_stores →
        s'.MSVDX_COMMS_TO_MTX_WRT_INDEX ≠ s'.MSVDX_COMMS_TO_MTX_RD_INDEX) := by
  obtain ⟨s', r, h⟩ := psb_mtx_send_total L hL fuel s msg off hw
  obtain ⟨hf, hw', hs, _, hin⟩ := psb_mtx_send_post L _ s msg off s' r hr hw h
  have hlt := in_flight_lt _ _ _ hr hw'
  refine ⟨s', r, h, hf.2.1, to_mtx_capacity_congr hf.1, hw', hs, hin, by omega, ?_⟩
  intro hpos heq
  rw [hf.2.1] at heq
  rw [heq, in_flight_eq _ _ _ hr hr] at hin
  simp only [le_refl, if_true, Nat.sub_self] at hin
  omega

/-- C3: from a ring state with both indices below the capacity, when a
message of `len` words with `write_index + len > capacity_words` is sent
successfully (and the size field can hold the pad size), exactly one pad
message was written first: it starts at the old write index, carries the id
`FWRK_MSGID_PADDING` and the size of `capacity_words - write_index` words and
fills the ring to its end, with the words of the array `pad_msg` as far as the
array goes and behind them whatever the memory behind the array holds; the
message itself lies contiguously from index 0; two kicks were given; and the
final write index is `len mod capacity_words`. -/
theorem C3_wrap_pads_then_restarts_at_zero (L : Layout) (hL : L.header_ok) (fuel : Nat)
    (s : Dev) (msg : List Nat) (off : Nat) (s' : Dev)
    (hr : s.MSVDX_COMMS_TO_MTX_RD_INDEX < to_mtx_capacity s)
    (hw : s.MSVDX_COMMS_TO_MTX_WRT_INDEX < to_mtx_capacity s)
    (hfit : (to_mtx_capacity s - s.MSVDX_COMMS_TO_MTX_WRT_INDEX) * 4
      < 2 ^ L.FWRK_GENMSG_SIZE.width)
    (hwrap : s.MSVDX_COMMS_TO_MTX_WRT_INDEX + msg_num_of L msg off > to_mtx_capacity s)
    (hsucc : psb_mtx_send L fuel s msg off = some (s', 0)) :
    getBits (ring_word s' s.MSVDX_COMMS_TO_MTX_WRT_INDEX) L.FWRK_GENMSG_ID
      = L.FWRK_MSGID_PADDING ∧
    getBits (ring_word s' s.MSVDX_COMMS_TO_MTX_WRT_INDEX) L.FWRK_GENMSG_SIZE
      = (to_mtx_capacity s - s.MSVDX_COMMS_TO_MTX_WRT_INDEX) * 4 ∧
    (∀ j, j < to_mtx_capacity s - s.MSVDX_COMMS_TO_MTX_WRT_INDEX →
      ring_word s' (s.MSVDX_COMMS_TO_MTX_WRT_INDEX + j)
        = if j < L.FWRK_PADMSG_SIZE then
            rd32 (pad_msg L (to_mtx_capacity s) s.MSVDX_COMMS_TO_MTX_WRT_INDEX) (4 * j)
          else s.pad_msg_behind (j - L.FWRK_PADMSG_SIZE)) ∧
    s'.mtx_kicks = s.mtx_kicks + 2 ∧
    s'.ring_stores = s.ring_stores
      + (to_mtx_capacity s - s.MSVDX_COMMS_TO_MTX_WRT_INDEX) + msg_num_of L msg off ∧
    (∀ i, i < msg_num_of L msg off → ring_word s' i = rd32 msg (off + 4 * i)) ∧
    s'.MSVDX_COMMS_TO_MTX_WRT_INDEX = msg_num_of L msg off % to_mtx_capacity s := by
  have hc := to_mtx_capacity_lt s
  have hne := neg_EINVAL_ne_zero
  cases fuel with
  | zero => simp [psb_mtx_send] at hsucc
  | succ fuel =>
    have e : to_mtx_capacity { s with MSVDX_MAN_CLK_ENABLE := L.clk_enable_all }
        = to_mtx_capacity s := rfl
    have e2 : to_mtx_offset { s with MSVDX_MAN_CLK_ENABLE := L.clk_enable_all }
        = to_mtx_offset s := rfl
    simp only [psb_mtx_send, e, e2] at hsucc
    split at hsucc
    · simp only [Option.some.injEq, Prod.mk.injEq] at hsucc; exact absurd hsucc.2 hne
    · rename_i hle
      rw [if_pos (by rw [Nat.mod_eq_of_lt (by unfold U32; omega)]; exact hwrap)] at hsucc
      split at hsucc
      · simp only [Option.some.injEq, Prod.mk.injEq] at hsucc; exact absurd hsucc.2 hne
      · rename_i hrd
        cases fuel with
        | zero => simp [psb_mtx_send] at hsucc
        | succ fuel =>
          have hpn := pad_msg_num_eq L hL _ _ hc hw hfit
          rw [← pad_msg_memory_num L hL s.pad_msg_behind] at hpn
          rw [psb_mtx_send_nowrap L fuel _ _ _ (by rw [e, hpn]; simp only; omega)] at hsucc
          simp only [e, e2, hpn] at hsucc
          have hwf := words_free_eq _ _ _ hc hr hw
          by_cases hcase : s.MSVDX_COMMS_TO_MTX_RD_INDEX ≤ s.MSVDX_COMMS_TO_MTX_WRT_INDEX
          · -- the pad message is committed and the write index returns to 0
            have hfree : to_mtx_capacity s - s.MSVDX_COMMS_TO_MTX_WRT_INDEX
                ≤ words_free (to_mtx_capacity s) s.MSVDX_COMMS_TO_MTX_RD_INDEX
                    s.MSVDX_COMMS_TO_MTX_WRT_INDEX := by
              rw [hwf]; unfold free_slots
              rw [in_flight_eq _ _ _ hr hw, if_pos hcase]; omega
            obtain ⟨_, p1, p2, p3, p4, p5, p6⟩ := mtx_send_commit_fit L
              { s with MSVDX_MAN_CLK_ENABLE := L.clk_enable_all }
              (pad_msg_memory L s.pad_msg_behind (to_mtx_capacity s)
                s.MSVDX_COMMS_TO_MTX_WRT_INDEX) 0
              (to_mtx_capacity s - s.MSVDX_COMMS_TO_MTX_WRT_INDEX)
              s.MSVDX_COMMS_TO_MTX_RD_INDEX s.MSVDX_COMMS_TO_MTX_WRT_INDEX (to_mtx_capacity s)
              (to_mtx_offset s) hc hw (by omega) hfree
            generalize (mtx_send_commit L { s with MSVDX_MAN_CLK_ENABLE := L.clk_enable_all }
              (pad_msg_memory L s.pad_msg_behind (to_mtx_capacity s)
                s.MSVDX_COMMS_TO_MTX_WRT_INDEX) 0
              (to_mtx_capacity s - s.MSVDX_COMMS_TO_MTX_WRT_INDEX)
              s.MSVDX_COMMS_TO_MTX_RD_INDEX s.MSVDX_COMMS_TO_MTX_WRT_INDEX (to_mtx_capacity s)
              (to_mtx_offset s)).1 = s1 at hsucc p1 p2 p3 p4 p5 p6
            have hw0 : s1.MSVDX_COMMS_TO_MTX_WRT_INDEX = 0 := by
              rw [p1]
              have : s.MSVDX_COMMS_TO_MTX_WRT_INDEX
                  + (to_mtx_capacity s - s.MSVDX_COMMS_TO_MTX_WRT_INDEX) = to_mtx_capacity s := by
                omega
              rw [this, Nat.mod_self]
            rw [hw0] at hsucc
            by_cases hroom : msg_num_of L msg off
                ≤ words_free (to_mtx_capacity s) s.MSVDX_COMMS_TO_MTX_RD_INDEX 0
            · obtain ⟨_, q1, q2, q3, q4, q5, q6⟩ := mtx_send_commit_fit L s1 msg off
                (msg_num_of L msg off) s.MSVDX_COMMS_TO_MTX_RD_INDEX 0 (to_mtx_capacity s)
                (to_mtx_offset s) hc (by omega) (by omega) hroom
              simp only [Option.some.injEq] at hsucc
              rw [hsucc] at q1 q2 q3 q4 q5 q6
              simp only at q1 q2 q3 q4 q5 q6
              have hroom' := hroom
              rw [words_free_eq _ _ _ hc hr (by omega)] at hroom'
              unfold free_slots at hroom'
              rw [in_flight_eq _ _ _ hr (by omega), if_neg (by omega)] at hroom'
              have hoff : to_mtx_offset s' = to_mtx_offset s :=
                to_mtx_offset_congr ((ring_frame_trans p4 q4).1)
              have hkeep : ∀ j, j < to_mtx_capacity s - s.MSVDX_COMMS_TO_MTX_WRT_INDEX →
                  ring_word s' (s.MSVDX_COMMS_TO_MTX_WRT_INDEX + j)
                    = if j < L.FWRK_PADMSG_SIZE then
                        rd32 (pad_msg L (to_mtx_capacity s) s.MSVDX_COMMS_TO_MTX_WRT_INDEX)
                          (4 * j)
                      else s.pad_msg_behind (j - L.FWRK_PADMSG_SIZE) := by
                intro j hj
                unfold ring_word
                rw [hoff, q6 _ (by omega) (Or.inr (by omega)), p5 j hj, Nat.zero_add,
                  pad_msg_memory_word L _ _ _ j hc hw hj]
              have hword0 := hkeep 0 (by omega)
              rw [Nat.add_zero, if_pos hL.2.2.2.2.1] at hword0
              have hsz := pad_msg_size L hL (to_mtx_capacity s) s.MSVDX_COMMS_TO_MTX_WRT_INDEX
              have hid := pad_msg_id L hL (to_mtx_capacity s) s.MSVDX_COMMS_TO_MTX_WRT_INDEX
              unfold MEMIO_READ_FIELD at hsz hid
              rw [hL.1, Nat.mul_zero, Nat.add_zero] at hsz
              rw [hL.2.1, Nat.mul_zero, Nat.add_zero] at hid
              have e3 : (sub32 (to_mtx_capacity s) s.MSVDX_COMMS_TO_MTX_WRT_INDEX * 4) % U32
                  = (to_mtx_capacity s - s.MSVDX_COMMS_TO_MTX_WRT_INDEX) * 4 := by
                unfold sub32 U32; omega
              rw [e3, Nat.mod_eq_of_lt hfit] at hsz
              refine ⟨by rw [hword0]; exact hid, by rw [hword0]; exact hsz, hkeep, ?_, ?_, ?_, ?_⟩
              · rw [q3, p3]
              · rw [q2, p2]
              · intro i hi
                unfold ring_word
                rw [hoff]
                have := q5 i hi
                rw [Nat.zero_add] at this
                exact this
              · rw [q1, Nat.zero_add]
            · rw [mtx_send_commit_full L s1 msg off _ _ _ _ _ (by omega)] at hsucc
              simp only [Option.some.injEq, Prod.mk.injEq] at hsucc
              exact absurd hsucc.2 hne
          · -- the pad message does not fit: nothing is written and the send fails
            have hfree : words_free (to_mtx_capacity s) s.MSVDX_COMMS_TO_MTX_RD_INDEX
                s.MSVDX_COMMS_TO_MTX_WRT_INDEX
                < to_mtx_capacity s - s.MSVDX_COMMS_TO_MTX_WRT_INDEX := by
              rw [hwf]; unfold free_slots
              rw [in_flight_eq _ _ _ hr hw, if_neg hcase]; omega
            rw [mtx_send_commit_full L _ _ _ _ _ _ _ _ hfree] at hsucc
            simp only at hsucc
            rw [mtx_send_commit_full L _ msg off _ _ _ _ _ (by omega)] at hsucc
            simp only [Option.some.injEq, Prod.mk.injEq] at hsucc
            exact absurd hsucc.2 hne

/-- Witness of C1 (amended): a 3-word message into a ring with exactly 3 free
slots and no wrap. -/
theorem C1_exact_fit_without_wrap_witness :
    ringA.MSVDX_COMMS_TO_MTX_RD_INDEX < to_mtx_capacity ringA ∧
    ringA.MSVDX_COMMS_TO_MTX_WRT_INDEX < to_mtx_capacity ringA ∧
    msg_num_of sampleLayout [12, 7, 9] 0 = free_slots (to_mtx_capacity ringA)
      ringA.MSVDX_COMMS_TO_MTX_RD_INDEX ringA.MSVDX_COMMS_TO_MTX_WRT_INDEX ∧
    ringA.MSVDX_COMMS_TO_MTX_WRT_INDEX + msg_num_of sampleLayout [12, 7, 9] 0
      ≤ to_mtx_capacity ringA ∧
    ∃ s', psb_mtx_send sampleLayout 1 ringA [12, 7, 9] 0 = some (s', 0) ∧
      s'.MSVDX_COMMS_TO_MTX_WRT_INDEX
        = (ringA.MSVDX_COMMS_TO_MTX_WRT_INDEX + msg_num_of sampleLayout [12, 7, 9] 0)
            % to_mtx_capacity ringA ∧
      s'.ring_stores = ringA.ring_stores + msg_num_of sampleLayout [12, 7, 9] 0 ∧
      ∀ i, i < msg_num_of sampleLayout [12, 7, 9] 0 →
        ring_word s' (ringA.MSVDX_COMMS_TO_MTX_WRT_INDEX + i) = rd32 [12, 7, 9] (0 + 4 * i) :=
  ⟨by decide, by decide, by decide, by decide,
    C1_exact_fit_without_wrap sampleLayout 0 ringA [12, 7, 9] 0 (by decide) (by decide)
      (by decide) (by decide)⟩

/-- Counterexample to C1 as stated: ring of 8 words, read index 2, write
index 4, so 5 free slots; a 5-word message has to wrap, the pad message takes
4 of the free slots, and the send is refused with `-EINVAL`. -/
theorem C1_exact_fit_refused_when_wrapping :
    ringB.MSVDX_COMMS_TO_MTX_RD_INDEX < to_mtx_capacity ringB ∧
    ringB.MSVDX_COMMS_TO_MTX_WRT_INDEX < to_mtx_capacity ringB ∧
    msg_num_of sampleLayout [20, 1, 2, 3, 4] 0 = 5 ∧
    free_slots (to_mtx_capacity ringB) ringB.MSVDX_COMMS_TO_MTX_RD_INDEX
      ringB.MSVDX_COMMS_TO_MTX_WRT_INDEX = 5 ∧
    (psb_mtx_send sampleLayout 2 ringB [20, 1, 2, 3, 4] 0).map Prod.snd = some (-EINVAL) ∧
    (psb_mtx_send sampleLayout 3 ringB [20, 1, 2, 3, 4] 0).map Prod.snd = some (-EINVAL) := by
  refine ⟨by decide, by decide, by decide, by decide, by decide, by decide⟩

/-- Witness of C2: a 6-word message into a ring with 5 free slots. -/
theorem C2_longer_than_free_slots_fails_witness :
    sampleLayout.header_ok ∧
    ringB.MSVDX_COMMS_TO_MTX_RD_INDEX < to_mtx_capacity ringB ∧
    ringB.MSVDX_COMMS_TO_MTX_WRT_INDEX < to_mtx_capacity ringB ∧
    free_slots (to_mtx_capacity ringB) ringB.MSVDX_COMMS_TO_MTX_RD_INDEX
      ringB.MSVDX_COMMS_TO_MTX_WRT_INDEX < msg_num_of sampleLayout [24, 1, 2, 3, 4, 5] 0 ∧
    ((∃ s' r, psb_mtx_send sampleLayout 2 ringB [24, 1, 2, 3, 4, 5] 0 = some (s', r)
        ∧ r = -EINVAL ∧ r ≠ 0) ∧
      words_free (to_mtx_capacity ringB) ringB.MSVDX_COMMS_TO_MTX_RD_INDEX
        ringB.MSVDX_COMMS_TO_MTX_WRT_INDEX
        = free_slots (to_mtx_capacity ringB) ringB.MSVDX_COMMS_TO_MTX_RD_INDEX
            ringB.MSVDX_COMMS_TO_MTX_WRT_INDEX) :=
  ⟨by decide, by decide, by decide, by decide,
    C2_longer_than_free_slots_fails sampleLayout (by decide) 0 ringB [24, 1, 2, 3, 4, 5] 0
      (by decide) (by decide) (by decide)⟩

/-- Witness of C3: an 8-word message sent into the ring of 64 words with the
read index at 20 and the write index at 58, the array `pad_msg` having four
words and the memory behind it holding 49164 and 5. The pad message of six
words fills the ring from index 58 to the end: its header (size 24), the
three other words of the array, and the two words from behind the array. -/
theorem C3_wrap_pads_then_restarts_at_zero_witness :
    ∃ s', psb_mtx_send padLayout 2 padDev [32, 1, 2, 3, 4, 5, 6, 7] 0 = some (s', 0) ∧
      padDev.MSVDX_COMMS_TO_MTX_WRT_INDEX + msg_num_of padLayout [32, 1, 2, 3, 4, 5, 6, 7] 0
        > to_mtx_capacity padDev ∧
      s'.mtx_kicks = padDev.mtx_kicks + 2 ∧
      s'.MSVDX_COMMS_TO_MTX_WRT_INDEX
        = msg_num_of padLayout [32, 1, 2, 3, 4, 5, 6, 7] 0 % to_mtx_capacity padDev ∧
      getBits (ring_word s' padDev.MSVDX_COMMS_TO_MTX_WRT_INDEX) padLayout.FWRK_GENMSG_ID
        = padLayout.FWRK_MSGID_PADDING ∧
      (∀ j, j < to_mtx_capacity padDev - padDev.MSVDX_COMMS_TO_MTX_WRT_INDEX →
        ring_word s' (padDev.MSVDX_COMMS_TO_MTX_WRT_INDEX + j)
          = if j < padLayout.FWRK_PADMSG_SIZE then
              rd32 (pad_msg padLayout (to_mtx_capacity padDev)
                padDev.MSVDX_COMMS_TO_MTX_WRT_INDEX) (4 * j)
            else padDev.pad_msg_behind (j - padLayout.FWRK_PADMSG_SIZE)) ∧
      (List.range 6).map (fun j => ring_word s' (58 + j)) = [24, 0, 0, 0, 49164, 5] ∧
      (List.range 8).map (fun i => ring_word s' i) = [32, 1, 2, 3, 4, 5, 6, 7] :=
  ⟨_, rfl, by decide,
    (C3_wrap_pads_then_restarts_at_zero padLayout (by decide) 2 padDev [32, 1, 2, 3, 4, 5, 6, 7]
      0 _ (by decide) (by decide) (by decide) (by decide) rfl).2.2.2.1,
    (C3_wrap_pads_then_restarts_at_zero padLayout (by decide) 2 padDev [32, 1, 2, 3, 4, 5, 6, 7]
      0 _ (by decide) (by decide) (by decide) (by decide) rfl).2.2.2.2.2.2,
    (C3_wrap_pads_then_restarts_at_zero padLayout (by decide) 2 padDev [32, 1, 2, 3, 4, 5, 6, 7]
      0 _ (by decide) (by decide) (by decide) (by decide) rfl).1,
    (C3_wrap_pads_then_restarts_at_zero padLayout (by decide) 2 padDev [32, 1, 2, 3, 4, 5, 6, 7]
      0 _ (by decide) (by decide) (by decide) (by decide) rfl).2.2.1,
    by decide, by decide⟩

/-- Witness of C4: a 3-word message sent with the write index at 6 of 8. -/
theorem C4_send_keeps_ring_invariant_witness :
    sampleLayout.header_ok ∧
    ringC.MSVDX_COMMS_TO_MTX_RD_INDEX < to_mtx_capacity ringC ∧
    ringC.MSVDX_COMMS_TO_MTX_WRT_INDEX < to_mtx_capacity ringC ∧
    ∃ s' r, psb_mtx_send sampleLayout 2 ringC [12, 1, 2] 0 = some (s', r) ∧
      s'.MSVDX_COMMS_TO_MTX_RD_INDEX = ringC.MSVDX_COMMS_TO_MTX_RD_INDEX ∧
      to_mtx_capacity s' = to_mtx_capacity ringC ∧
      s'.MSVDX_COMMS_TO_MTX_WRT_INDEX < to_mtx_capacity ringC ∧
      ringC.ring_stores ≤ s'.ring_stores ∧
      in_flight (to_mtx_capacity ringC) ringC.MSVDX_COMMS_TO_MTX_RD_INDEX
          s'.MSVDX_COMMS_TO_MTX_WRT_INDEX
        = in_flight (to_mtx_capacity ringC) ringC.MSVDX_COMMS_TO_MTX_RD_INDEX
            ringC.MSVDX_COMMS_TO_MTX_WRT_INDEX + (s'.ring_stores - ringC.ring_stores) ∧
      in_flight (to_mtx_capacity ringC) ringC.MSVDX_COMMS_TO_MTX_RD_INDEX
          s'.MSVDX_COMMS_TO_MTX_WRT_INDEX ≤ to_mtx_capacity ringC - 1 ∧
      (ringC.ring_stores < s'.ring_stores →
        s'.MSVDX_COMMS_TO_MTX_WRT_INDEX ≠ s'.MSVDX_COMMS_TO_MTX_RD_INDEX) :=
  ⟨by decide, by decide, by decide,
    C4_send_keeps_ring_invariant sampleLayout (by decide) 0 ringC [12, 1, 2] 0 (by decide)
      (by decide)⟩

/-! ## Fields of a message inside a buffer -/

theorem read_field_zero (m : List Nat) (f : Field) :
    MEMIO_READ_FIELD m 0 f = getBits (m.getD f.word 0) f := by
  have := read_field_aligned m 0 f
  rw [Nat.mul_zero, Nat.zero_add] at this
  exact this

theorem write_field_zero (m : List Nat) (f : Field) (v : Nat) :
    MEMIO_WRITE_FIELD m 0 f v = m.set f.word (setBits (m.getD f.word 0) f v % U32) := by
  have := write_field_aligned m 0 f v
  rw [Nat.mul_zero, Nat.zero_add] at this
  exact this

theorem length_write_field_zero (m : List Nat) (f : Field) (v : Nat) :
    (MEMIO_WRITE_FIELD m 0 f v).length = m.length := by
  rw [write_field_zero, List.length_set]

theorem getD_mid (pre m post : List Nat) (i : Nat) (h : i < m.length) :
    (pre ++ (m ++ post)).getD (pre.length + i) 0 = m.getD i 0 := by
  rw [List.getD_append_right _ _ _ _ (by omega),
    Nat.add_sub_cancel_left, List.getD_append _ _ _ _ h]

theorem set_mid (pre m post : List Nat) (i v : Nat) (h : i < m.length) :
    (pre ++ (m ++ post)).set (pre.length + i) v = pre ++ (m.set i v ++ post) := by
  rw [List.set_append_right _ _ (by omega), Nat.add_sub_cancel_left,
    List.set_append_left _ _ h]

theorem read_field_mid (pre m post : List Nat) (f : Field) (h : f.word < m.length) :
    MEMIO_READ_FIELD (pre ++ (m ++ post)) (4 * pre.length) f = MEMIO_READ_FIELD m 0 f := by
  rw [read_field_aligned, read_field_zero, getD_mid _ _ _ _ h]

theorem write_field_mid (pre m post : List Nat) (f : Field) (v : Nat) (h : f.word < m.length) :
    MEMIO_WRITE_FIELD (pre ++ (m ++ post)) (4 * pre.length) f v
      = pre ++ (MEMIO_WRITE_FIELD m 0 f v ++ post) := by
  rw [write_field_aligned, write_field_zero, getD_mid _ _ _ _ h, set_mid _ _ _ _ _ h]

/-! ## The patches, message by message -/

theorem patch_render_mid (L : Layout) (s : Dev) (pre m post : List Nat) (sequence : Nat)
    (hf : ∀ f ∈ L.render_fields, f.word < m.length) :
    patch_render L s (pre ++ (m ++ post)) (4 * pre.length) sequence
      = ((patch_render L s m 0 sequence).1, pre ++ ((patch_render L s m 0 sequence).2 ++ post)) := by
  unfold Layout.render_fields at hf
  unfold patch_render
  cases hu : L.mdfld_fw_updated
  · rw [hu] at hf
    simp only [Bool.false_eq_true, if_false, List.mem_cons, List.mem_singleton,
      List.not_mem_nil, or_false, forall_eq_or_imp, forall_eq] at hf
    by_cases hi : (cmpxchg_mmu_invaldc s).2 = 1
    · simp [hi, write_field_mid, length_write_field_zero, hf.1, hf.2]
    · simp [hi, write_field_mid, length_write_field_zero, hf.1, hf.2]
  · rw [hu] at hf
    simp only [if_true, List.mem_cons, List.mem_singleton,
      List.not_mem_nil, or_false, forall_eq_or_imp, forall_eq] at hf
    by_cases hi : (cmpxchg_mmu_invaldc s).2 = 1
    · simp [hi, write_field_mid, read_field_mid, length_write_field_zero, hf.1, hf.2.1, hf.2.2]
    · simp [hi, write_field_mid, read_field_mid, length_write_field_zero, hf.1, hf.2.1, hf.2.2]

theorem patch_deblock_mid (L : Layout) (s : Dev) (pre m post : List Nat) (sequence id : Nat)
    (hf : ∀ f ∈ L.deblock_fields, f.word < m.length) :
    patch_deblock L s (pre ++ (m ++ post)) (4 * pre.length) sequence id
      = ((patch_deblock L s m 0 sequence id).1,
          pre ++ ((patch_deblock L s m 0 sequence id).2 ++ post)) := by
  unfold Layout.deblock_fields at hf
  simp only [List.mem_cons, List.mem_singleton, List.not_mem_nil, or_false, forall_eq_or_imp,
    forall_eq] at hf
  unfold patch_deblock
  by_cases hi : (cmpxchg_mmu_invaldc s).2 = 1
  · simp [hi, write_field_mid, read_field_mid, length_write_field_zero, hf.1, hf.2.1, hf.2.2.1,
      hf.2.2.2]
  · simp [hi, write_field_mid, read_field_mid, length_write_field_zero, hf.1, hf.2.1, hf.2.2.1,
      hf.2.2.2]

/-! ## Reading back what was written -/

theorem getD_set_eq (l : List Nat) (i j a : Nat) :
    (l.set i a).getD j 0 = if i = j ∧ i < l.length then a else l.getD j 0 := by
  simp only [List.getD_eq_getElem?_getD, List.getElem?_set]
  by_cases h : i = j
  · subst h
    by_cases h2 : i < l.length
    · simp [h2]
    · simp [h2, List.getElem?_eq_none (Nat.le_of_not_lt h2)]
  · simp [h]

theorem take_set_le (l : List Nat) (i j a : Nat) (h : j ≤ i) :
    (l.set i a).take j = l.take j := by
  apply List.ext_getElem?
  intro n
  simp only [List.getElem?_take, List.getElem?_set]
  by_cases hn : n < j
  · simp [hn, show i ≠ n by omega]
  · simp [hn]

theorem length_wr32 (m : List Nat) (b v : Nat) : (wr32 m b v).length = m.length := by
  unfold wr32
  split <;> simp

theorem length_write_field (m : List Nat) (off : Nat) (f : Field) (v : Nat) :
    (MEMIO_WRITE_FIELD m off f v).length = m.length := by
  unfold MEMIO_WRITE_FIELD
  exact length_wr32 _ _ _

theorem read_write_same (m : List Nat) (k : Nat) (f : Field) (v : Nat)
    (h : k + f.word < m.length) (hf : f.shift + f.width ≤ 32) :
    MEMIO_READ_FIELD (MEMIO_WRITE_FIELD m (4 * k) f v) (4 * k) f = v % 2 ^ f.width := by
  rw [read_field_aligned, write_field_aligned, getD_set_eq, if_pos ⟨rfl, h⟩,
    getBits_mod_U32 _ _ hf, getBits_setBits_same]

theorem read_write_disjoint (m : List Nat) (k : Nat) (f g : Field) (v : Nat)
    (hd : f.disjoint g) (hg : g.shift + g.width ≤ 32) :
    MEMIO_READ_FIELD (MEMIO_WRITE_FIELD m (4 * k) f v) (4 * k) g
      = MEMIO_READ_FIELD m (4 * k) g := by
  rw [read_field_aligned, read_field_aligned, write_field_aligned, getD_set_eq]
  split
  · rename_i h
    have hw : f.word = g.word := by omega
    rcases hd with hd | hd | hd
    · exact absurd hw hd
    · rw [getBits_mod_U32 _ _ hg, getBits_setBits_above _ _ _ _ hd, hw]
    · rw [getBits_mod_U32 _ _ hg, getBits_setBits_below _ _ _ _ hd, hw]
  · rfl

/-! ## Patches stay inside their message -/

theorem local_at_refl (L : Layout) (k c : Nat) (cur : List Nat) : local_at L k c cur cur :=
  ⟨rfl, rfl, rfl, rfl⟩

theorem local_at_trans {L : Layout} {k c : Nat} {a b d : List Nat}
    (h1 : local_at L k c a b) (h2 : local_at L k c b d) : local_at L k c a d :=
  ⟨h2.1.trans h1.1, h2.2.1.trans h1.2.1, h2.2.2.1.trans h1.2.2.1, h2.2.2.2.trans h1.2.2.2⟩

theorem local_at_write (L : Layout) (hL : L.header_ok) (k c : Nat) (cur : List Nat)
    (f : Field) (v : Nat) (hf : L.field_ok f (4 * c)) :
    local_at L k c cur (MEMIO_WRITE_FIELD cur (4 * k) f v) := by
  obtain ⟨h1, h2, h3⟩ := hf
  refine ⟨length_write_field _ _ _ _, ?_, ?_, ?_⟩
  · rw [write_field_aligned]; exact take_set_le _ _ _ _ (by omega)
  · rw [write_field_aligned]; exact List.drop_set_of_lt _ _ (by omega)
  · apply read_write_disjoint
    · unfold Field.disjoint
      rw [hL.1]
      rcases h3 with h | h | h
      · exact Or.inl h
      · exact Or.inr (Or.inr h)
      · exact Or.inr (Or.inl h)
    · have := hL.2.2.1; have := hL.2.2.2.1; omega

theorem patch_render_local (L : Layout) (hL : L.header_ok) (s : Dev) (cur : List Nat)
    (k c sequence : Nat) (hf : ∀ f ∈ L.render_fields, L.field_ok f (4 * c)) :
    local_at L k c cur (patch_render L s cur (4 * k) sequence).2 := by
  unfold Layout.render_fields at hf
  unfold patch_render
  cases hu : L.mdfld_fw_updated
  · rw [hu] at hf
    simp only [Bool.false_eq_true, if_false, List.mem_cons, List.mem_singleton,
      List.not_mem_nil, or_false, forall_eq_or_imp, forall_eq] at hf
    by_cases hi : (cmpxchg_mmu_invaldc s).2 = 1
    · simp only [hi, if_true, Bool.false_eq_true, if_false, not_false_eq_true]
      exact local_at_trans (local_at_write L hL k c _ _ _ hf.1) (local_at_write L hL k c _ _ _ hf.2)
    · simp only [hi, if_false, Bool.false_eq_true]
      exact local_at_trans (local_at_write L hL k c _ _ _ hf.1) (local_at_write L hL k c _ _ _ hf.2)
  · rw [hu] at hf
    simp only [if_true, List.mem_cons, List.mem_singleton,
      List.not_mem_nil, or_false, forall_eq_or_imp, forall_eq] at hf
    by_cases hi : (cmpxchg_mmu_invaldc s).2 = 1
    · simp only [hi, if_true, not_true_eq_false, if_false]
      exact local_at_trans (local_at_trans (local_at_write L hL k c _ _ _ hf.1)
        (local_at_write L hL k c _ _ _ hf.2.1)) (local_at_write L hL k c _ _ _ hf.2.2)
    · simp only [hi, if_false, if_true]
      exact local_at_trans (local_at_write L hL k c _ _ _ hf.1)
        (local_at_write L hL k c _ _ _ hf.2.2)

theorem patch_deblock_local (L : Layout) (hL : L.header_ok) (s : Dev) (cur : List Nat)
    (k c sequence id : Nat) (hf : ∀ f ∈ L.deblock_fields, L.field_ok f (4 * c)) :
    local_at L k c cur (patch_deblock L s cur (4 * k) sequence id).2 := by
  unfold Layout.deblock_fields at hf
  simp only [List.mem_cons, List.mem_singleton, List.not_mem_nil, or_false, forall_eq_or_imp,
    forall_eq] at hf
  unfold patch_deblock
  by_cases hi : (cmpxchg_mmu_invaldc s).2 = 1
  · simp only [hi, if_true]
    exact local_at_trans (local_at_trans (local_at_trans (local_at_write L hL k c _ _ _ hf.1)
      (local_at_write L hL k c _ _ _ hf.2.1)) (local_at_write L hL k c _ _ _ hf.2.2.1))
      (local_at_write L hL k c _ _ _ hf.2.2.2)
  · simp only [hi, if_false]
    exact local_at_trans (local_at_trans (local_at_write L hL k c _ _ _ hf.2.1)
      (local_at_write L hL k c _ _ _ hf.2.2.1)) (local_at_write L hL k c _ _ _ hf.2.2.2)

/-! ## Patches and the device state -/

theorem patch_frame_refl (s : Dev) : patch_frame s s := ⟨_, _, rfl⟩

theorem patch_frame_trans {a b c : Dev} (h1 : patch_frame a b) (h2 : patch_frame b c) :
    patch_frame a c := by
  obtain ⟨x, t, rfl⟩ := h1
  obtain ⟨y, u, rfl⟩ := h2
  exact ⟨y, u, rfl⟩

theorem cmpxchg_frame (s : Dev) : patch_frame s (cmpxchg_mmu_invaldc s).1 := by
  unfold cmpxchg_mmu_invaldc
  simp only
  split
  · exact ⟨_, _, rfl⟩
  · exact patch_frame_refl s

theorem patch_render_frame (L : Layout) (s : Dev) (cur : List Nat) (off sequence : Nat) :
    patch_frame s (patch_render L s cur off sequence).1 := by
  have hc := cmpxchg_frame s
  unfold patch_render
  simp only
  split_ifs <;> first | exact hc | exact patch_frame_trans hc ⟨_, _, rfl⟩

theorem patch_deblock_frame (L : Layout) (s : Dev) (cur : List Nat) (off sequence id : Nat) :
    patch_frame s (patch_deblock L s cur off sequence id).1 := by
  unfold patch_deblock
  exact cmpxchg_frame s

/-! ## One turn of the validation loop -/

theorem patch_at_frame (L : Layout) (sequence : Nat) (s : Dev) (mem : List Nat) (off : Nat) :
    patch_frame s (patch_at L sequence s mem off).1 := by
  unfold patch_at
  split
  · exact patch_render_frame _ _ _ _ _
  · exact patch_deblock_frame _ _ _ _ _ _

theorem patch_at_local (L : Layout) (hL : L.patch_ok) (sequence : Nat) (s : Dev)
    (cur : List Nat) (k n : Nat) (ha : acceptable L cur (4 * k) n) :
    local_at L k (MEMIO_READ_FIELD cur (4 * k) L.FWRK_GENMSG_SIZE / 4) cur
      (patch_at L sequence s cur (4 * k)).2 := by
  obtain ⟨hh, _, _, _, _, h5, h6, h7, h8⟩ := hL
  obtain ⟨_, a2, _, a4⟩ := ha
  have e : 4 * (MEMIO_READ_FIELD cur (4 * k) L.FWRK_GENMSG_SIZE / 4)
      = MEMIO_READ_FIELD cur (4 * k) L.FWRK_GENMSG_SIZE := by omega
  unfold patch_at
  rcases a4 with ⟨hid, hsz⟩ | ⟨hid, hsz⟩
  · rw [if_pos hid]
    apply patch_render_local L hh
    rw [e, hsz]; exact h7
  · rw [if_neg (by rcases hid with h | h <;> rw [h] <;> intro hc <;> simp_all)]
    apply patch_deblock_local L hh
    rw [e, hsz]; exact h8

/-- The three ways one turn of the loop can go. -/
theorem loop_cases (L : Layout) (hL : L.patch_ok) (sequence fuel : Nat) (s : Dev)
    (cur : List Nat) (off n : Nat) :
    (n = 0 ∧ map_command_loop L sequence (fuel + 1) s cur off n
        = some (s, cur, LoopExit.finished)) ∨
    (0 < n ∧ ¬ acceptable L cur off n ∧
      (map_command_loop L sequence (fuel + 1) s cur off n
          = some (s, cur, LoopExit.goto_out (-EINVAL))
        ∨ map_command_loop L sequence (fuel + 1) s cur off n
          = some (s, cur, LoopExit.returned (-EINVAL)))) ∨
    (0 < n ∧ acceptable L cur off n ∧
      map_command_loop L sequence (fuel + 1) s cur off n
        = map_command_loop L sequence fuel (patch_at L sequence s cur off).1
            (patch_at L sequence s cur off).2
            (off + MEMIO_READ_FIELD cur off L.FWRK_GENMSG_SIZE)
            (n - MEMIO_READ_FIELD cur off L.FWRK_GENMSG_SIZE)) := by
  obtain ⟨_, _, _, _, _, h5, h6, _, _⟩ := hL
  by_cases hn : n = 0
  · left; subst hn; simp [map_command_loop]
  · right
    have hpos : 0 < n := Nat.pos_of_ne_zero hn
    by_cases ha : acceptable L cur off n
    · right
      refine ⟨hpos, ha, ?_⟩
      obtain ⟨a1, a2, a3, a4⟩ := ha
      simp only [map_command_loop, patch_at]
      rw [if_pos hpos, if_neg (by omega), if_neg (by omega), if_neg (by omega)]
      rcases a4 with ⟨hid, hsz⟩ | ⟨hid, hsz⟩
      · rw [if_pos hid, if_neg (by rw [hsz]; simp), if_pos hid]
      · have hne : MEMIO_READ_FIELD cur off L.FWRK_GENMSG_ID ≠ L.VA_MSGID_RENDER := by
          rcases hid with h | h <;> rw [h] <;> intro hc <;> simp_all
        rw [if_neg hne, if_pos hid, if_neg (by rw [hsz]; simp), if_neg hne]
    · left
      refine ⟨hpos, ha, ?_⟩
      unfold acceptable at ha
      simp only [map_command_loop]
      rw [if_pos hpos]
      by_cases c1 : n < L.FWRK_GENMSG_HEADER_SIZE
      · right; rw [if_pos c1]
      · left
        rw [if_neg c1]
        by_cases c2 : MEMIO_READ_FIELD cur off L.FWRK_GENMSG_SIZE % 4 ≠ 0
        · rw [if_pos c2]
        · rw [if_neg c2]
          by_cases c3 : MEMIO_READ_FIELD cur off L.FWRK_GENMSG_SIZE > n
          · rw [if_pos c3]
          · rw [if_neg c3]
            by_cases c4 : MEMIO_READ_FIELD cur off L.FWRK_GENMSG_ID = L.VA_MSGID_RENDER
            · rw [if_pos c4]
              by_cases c5 : MEMIO_READ_FIELD cur off L.FWRK_GENMSG_SIZE ≠ L.FW_VA_RENDER_SIZE
              · rw [if_pos c5]
              · exfalso; apply ha
                exact ⟨by omega, by omega, by omega, Or.inl ⟨c4, by omega⟩⟩
            · rw [if_neg c4]
              by_cases c6 : MEMIO_READ_FIELD cur off L.FWRK_GENMSG_ID = L.VA_MSGID_OOLD_MFLD
                  ∨ MEMIO_READ_FIELD cur off L.FWRK_GENMSG_ID = L.VA_MSGID_DEBLOCK_MFLD
              · rw [if_pos c6]
                by_cases c7 : MEMIO_READ_FIELD cur off L.FWRK_GENMSG_SIZE ≠ L.FW_VA_DEBLOCK_SIZE
                · rw [if_pos c7]
                · exfalso; apply ha
                  exact ⟨by omega, by omega, by omega, Or.inr ⟨c6, by omega⟩⟩
              · rw [if_neg c6]

theorem acceptable_pos (L : Layout) (hL : L.patch_ok) (mem : List Nat) (off n : Nat)
    (ha : acceptable L mem off n) :
    4 ≤ MEMIO_READ_FIELD mem off L.FWRK_GENMSG_SIZE ∧
    MEMIO_READ_FIELD mem off L.FWRK_GENMSG_SIZE ≤ n ∧
    MEMIO_READ_FIELD mem off L.FWRK_GENMSG_SIZE % 4 = 0 := by
  obtain ⟨_, h1, h2, _⟩ := hL
  obtain ⟨_, a2, a3, a4⟩ := ha
  refine ⟨?_, a3, a2⟩
  rcases a4 with ⟨_, hsz⟩ | ⟨_, hsz⟩ <;> omega

/-- The validation loop returns once its fuel exceeds the bytes left. -/
theorem map_command_loop_total (L : Layout) (hL : L.patch_ok) (sequence : Nat) :
    ∀ (fuel : Nat) (s : Dev) (cur : List Nat) (off n : Nat), n < fuel →
      ∃ res, map_command_loop L sequence fuel s cur off n = some res := by
  intro fuel
  induction fuel with
  | zero => intro s cur off n h; omega
  | succ fuel ih =>
    intro s cur off n h
    rcases loop_cases L hL sequence fuel s cur off n with ⟨_, e⟩ | ⟨_, _, e | e⟩ | ⟨_, ha, e⟩
    · exact ⟨_, e⟩
    · exact ⟨_, e⟩
    · exact ⟨_, e⟩
    · rw [e]
      have := acceptable_pos L hL cur off n ha
      exact ih _ _ _ _ (by omega)

/-- What the loop leaves behind, however it ends: the device state differs
at most in the MMU-invalidate flag and the record of calls, the memory before
the starting offset is as it was, and an exit other than the normal one
carries `-EINVAL`. -/
theorem map_command_loop_post (L : Layout) (hL : L.patch_ok) (sequence : Nat) :
    ∀ (fuel : Nat) (s : Dev) (cur : List Nat) (k n : Nat) (s' : Dev) (mem' : List Nat)
      (ex : LoopExit),
      map_command_loop L sequence fuel s cur (4 * k) n = some (s', mem', ex) →
      patch_frame s s' ∧ mem'.length = cur.length ∧ mem'.take k = cur.take k ∧
      (ex = LoopExit.finished ∨ ex = LoopExit.goto_out (-EINVAL)
        ∨ ex = LoopExit.returned (-EINVAL)) := by
  intro fuel
  induction fuel with
  | zero => intro s cur k n s' mem' ex h; simp [map_command_loop] at h
  | succ fuel ih =>
    intro s cur k n s' mem' ex h
    rcases loop_cases L hL sequence fuel s cur (4 * k) n with ⟨_, e⟩ | ⟨_, _, e | e⟩ | ⟨_, ha, e⟩
    · rw [e] at h
      simp only [Option.some.injEq, Prod.mk.injEq] at h
      obtain ⟨rfl, rfl, rfl⟩ := h
      exact ⟨patch_frame_refl _, rfl, rfl, Or.inl rfl⟩
    · rw [e] at h
      simp only [Option.some.injEq, Prod.mk.injEq] at h
      obtain ⟨rfl, rfl, rfl⟩ := h
      exact ⟨patch_frame_refl _, rfl, rfl, Or.inr (Or.inl rfl)⟩
    · rw [e] at h
      simp only [Option.some.injEq, Prod.mk.injEq] at h
      obtain ⟨rfl, rfl, rfl⟩ := h
      exact ⟨patch_frame_refl _, rfl, rfl, Or.inr (Or.inr rfl)⟩
    · rw [e] at h
      have hp := acceptable_pos L hL cur (4 * k) n ha
      have hloc := patch_at_local L hL sequence s cur k n ha
      have e4 : 4 * k + MEMIO_READ_FIELD cur (4 * k) L.FWRK_GENMSG_SIZE
          = 4 * (k + MEMIO_READ_FIELD cur (4 * k) L.FWRK_GENMSG_SIZE / 4) := by omega
      rw [e4] at h
      obtain ⟨f1, l1, t1, x1⟩ := ih _ _ _ _ _ _ _ h
      refine ⟨patch_frame_trans (patch_at_frame _ _ _ _ _) f1, l1.trans hloc.1, ?_, x1⟩
      have t2 := congrArg (List.take k) t1
      rw [List.take_take, List.take_take, Nat.min_eq_left (Nat.le_add_right _ _)] at t2
      rw [t2, hloc.2.1]

/-! ## Buffers that the validation loop refuses -/

theorem read_congr_drop (cur mem0 : List Nat) (k : Nat) (h : cur.drop k = mem0.drop k)
    (f : Field) : MEMIO_READ_FIELD cur (4 * k) f = MEMIO_READ_FIELD mem0 (4 * k) f := by
  rw [read_field_aligned, read_field_aligned, List.getD_eq_getElem?_getD,
    List.getD_eq_getElem?_getD, ← List.getElem?_drop, ← List.getElem?_drop, h]

theorem acceptable_congr (L : Layout) (cur mem0 : List Nat) (off n : Nat)
    (h : ∀ f, MEMIO_READ_FIELD cur off f = MEMIO_READ_FIELD mem0 off f) :
    acceptable L cur off n ↔ acceptable L mem0 off n := by
  unfold acceptable
  rw [h, h]

theorem Reaches_inv (L : Layout) (mem : List Nat) (cmd_size o off : Nat)
    (h : Reaches L mem cmd_size o off) :
    o = off ∨ (o < cmd_size ∧
      Reaches L mem cmd_size (o + MEMIO_READ_FIELD mem o L.FWRK_GENMSG_SIZE) off) := by
  cases h with
  | here => exact Or.inl rfl
  | step _ _ h1 h2 => exact Or.inr ⟨h1, h2⟩

/-- When the walk along the declared sizes arrives at a sub-message that
fails a check, the validation loop does not run to its normal end. -/
theorem loop_hits_bad (L : Layout) (hL : L.patch_ok) (sequence : Nat) (mem0 : List Nat)
    (cmd_size off : Nat) (hoff : off < cmd_size)
    (hbad : ¬ acceptable L mem0 off (cmd_size - off)) :
    ∀ (fuel : Nat) (s : Dev) (cur : List Nat) (k : Nat), cur.drop k = mem0.drop k →
      4 * k ≤ cmd_size → Reaches L mem0 cmd_size (4 * k) off →
      ∀ (s' : Dev) (mem' : List Nat) (ex : LoopExit),
      map_command_loop L sequence fuel s cur (4 * k) (cmd_size - 4 * k) = some (s', mem', ex) →
      ex ≠ LoopExit.finished := by
  intro fuel
  induction fuel with
  | zero => intro s cur k _ _ _ s' mem' ex h; simp [map_command_loop] at h
  | succ fuel ih =>
    intro s cur k hd hk hreach s' mem' ex h
    have hrd := read_congr_drop cur mem0 k hd
    rcases loop_cases L hL sequence fuel s cur (4 * k) (cmd_size - 4 * k)
      with ⟨h0, _⟩ | ⟨_, _, e | e⟩ | ⟨_, ha, e⟩
    · exfalso
      rcases Reaches_inv _ _ _ _ _ hreach with h1 | ⟨h1, _⟩ <;> omega
    · rw [e] at h
      simp only [Option.some.injEq, Prod.mk.injEq] at h
      rw [← h.2.2]; simp
    · rw [e] at h
      simp only [Option.some.injEq, Prod.mk.injEq] at h
      rw [← h.2.2]; simp
    · rw [e] at h
      have ha0 := (acceptable_congr L cur mem0 (4 * k) _ hrd).mp ha
      rcases Reaches_inv _ _ _ _ _ hreach with h1 | ⟨_, h2⟩
      · rw [h1] at ha0; exact absurd ha0 hbad
      · have hp := acceptable_pos L hL cur (4 * k) _ ha
        have hloc := patch_at_local L hL sequence s cur k _ ha
        have e4 : 4 * k + MEMIO_READ_FIELD cur (4 * k) L.FWRK_GENMSG_SIZE
            = 4 * (k + MEMIO_READ_FIELD cur (4 * k) L.FWRK_GENMSG_SIZE / 4) := by omega
        have e5 : cmd_size - 4 * k - MEMIO_READ_FIELD cur (4 * k) L.FWRK_GENMSG_SIZE
            = cmd_size - 4 * (k + MEMIO_READ_FIELD cur (4 * k) L.FWRK_GENMSG_SIZE / 4) := by
          omega
        rw [e4, e5] at h
        rw [← hrd, e4] at h2
        refine ih _ _ _ ?_ (by omega) h2 _ _ _ h
        rw [hloc.2.2.1, ← List.drop_drop, ← List.drop_drop, hd]

/-- A buffer in which the walk along the declared sizes arrives at a
sub-message that fails a check is refused by `psb_msvdx_map_command`: it
returns `-EINVAL` (or the error of `ttm_bo_kmap`), makes no copy, and leaves
the device state as it was but for the MMU-invalidate flag and the record of
calls. -/
theorem map_command_rejects (L : Layout) (hL : L.patch_ok) (F : Nat) (s : Dev)
    (mem : List Nat) (cmd_offset cmd_size : Nat) (kmap_ret : Int) (alloc_ok : Bool)
    (sequence : Nat) (copy_cmd : Bool) (off : Nat)
    (hreach : Reaches L mem cmd_size 0 off) (hoff : off < cmd_size)
    (hbad : ¬ acceptable L mem off (cmd_size - off)) (hF : cmd_size < F) :
    ∃ r, psb_msvdx_map_command L F s mem cmd_offset cmd_size kmap_ret alloc_ok sequence
        copy_cmd = some r ∧
      (r.ret = -EINVAL ∨ (kmap_ret ≠ 0 ∧ r.ret = kmap_ret)) ∧ r.copy = none ∧
      patch_frame s r.dev := by
  unfold psb_msvdx_map_command
  simp only
  split
  · exact ⟨_, rfl, Or.inl rfl, rfl, patch_frame_refl _⟩
  · split
    · rename_i hk
      exact ⟨_, rfl, Or.inr ⟨hk, rfl⟩, rfl, patch_frame_refl _⟩
    · obtain ⟨⟨s1, mem1, ex⟩, hres⟩ := map_command_loop_total L hL sequence F
        { s with trace := s.trace ++ [Event.kmap] } mem 0 cmd_size hF
      have hne := loop_hits_bad L hL sequence mem cmd_size off hoff hbad F
        { s with trace := s.trace ++ [Event.kmap] } mem 0 rfl (by omega) hreach s1 mem1 ex hres
      obtain ⟨hfr, _, _, hex⟩ := map_command_loop_post L hL sequence F
        { s with trace := s.trace ++ [Event.kmap] } mem 0 cmd_size s1 mem1 ex hres
      have hfr0 : patch_frame s s1 := patch_frame_trans ⟨_, _, rfl⟩ hfr
      rw [hres]
      rcases hex with rfl | rfl | rfl
      · exact absurd rfl hne
      · exact ⟨_, rfl, Or.inl rfl, rfl, patch_frame_trans hfr0 ⟨_, _, rfl⟩⟩
      · exact ⟨_, rfl, Or.inl rfl, rfl, hfr0⟩

/-! ## Claims about refused submissions -/

/-- C8: when the walk along the declared sizes of a command buffer arrives at
a sub-message whose id is none of `VA_MSGID_RENDER`, `VA_MSGID_DEBLOCK_MFLD`,
`VA_MSGID_OOLD_MFLD`, `psb_msvdx_map_command` returns an error, and nothing of
the buffer, the valid sub-messages before the unsupported one included, is
written to the ring or copied for the queue. -/
theorem C8_unsupported_id_rejects_whole_buffer (L : Layout) (hL : L.patch_ok) (F : Nat)
    (s : Dev) (mem : List Nat) (cmd_offset cmd_size : Nat) (kmap_ret : Int) (alloc_ok : Bool)
    (sequence : Nat) (copy_cmd : Bool) (off : Nat)
    (hreach : Reaches L mem cmd_size 0 off) (hoff : off < cmd_size)
    (hid : MEMIO_READ_FIELD mem off L.FWRK_GENMSG_ID ≠ L.VA_MSGID_RENDER ∧
      MEMIO_READ_FIELD mem off L.FWRK_GENMSG_ID ≠ L.VA_MSGID_DEBLOCK_MFLD ∧
      MEMIO_READ_FIELD mem off L.FWRK_GENMSG_ID ≠ L.VA_MSGID_OOLD_MFLD)
    (hF : cmd_size < F) :
    ∃ r, psb_msvdx_map_command L F s mem cmd_offset cmd_size kmap_ret alloc_ok sequence
        copy_cmd = some r ∧
      r.ret ≠ 0 ∧ r.copy = none ∧ r.dev.vlr = s.vlr ∧
      r.dev.MSVDX_COMMS_TO_MTX_WRT_INDEX = s.MSVDX_COMMS_TO_MTX_WRT_INDEX ∧
      r.dev.ring_stores = s.ring_stores ∧ r.dev.mtx_kicks = s.mtx_kicks ∧
      r.dev.msvdx_queue = s.msvdx_queue := by
  have hbad : ¬ acceptable L mem off (cmd_size - off) := by
    intro ha
    rcases ha.2.2.2 with ⟨h, _⟩ | ⟨h | h, _⟩
    · exact hid.1 h
    · exact hid.2.2 h
    · exact hid.2.1 h
  obtain ⟨r, hr, hret, hcopy, a, t, hdev⟩ := map_command_rejects L hL F s mem cmd_offset
    cmd_size kmap_ret alloc_ok sequence copy_cmd off hreach hoff hbad hF
  refine ⟨r, hr, ?_, hcopy, by rw [hdev], by rw [hdev], by rw [hdev], by rw [hdev],
    by rw [hdev]⟩
  rcases hret with h | ⟨h1, h2⟩
  · rw [h]; exact neg_EINVAL_ne_zero
  · rw [h2]; exact h1

/-- Witness of C8: a render message followed by a message with id 135. -/
theorem C8_unsupported_id_rejects_whole_buffer_witness :
    ∃ r, psb_msvdx_map_command sampleLayout 49 idleDev (sampleRender ++ sampleUnsupported) 0 48
        0 true 5 false = some r ∧
      r.ret ≠ 0 ∧ r.copy = none ∧ r.dev.vlr = idleDev.vlr ∧
      r.dev.MSVDX_COMMS_TO_MTX_WRT_INDEX = idleDev.MSVDX_COMMS_TO_MTX_WRT_INDEX ∧
      r.dev.ring_stores = idleDev.ring_stores ∧ r.dev.mtx_kicks = idleDev.mtx_kicks ∧
      r.dev.msvdx_queue = idleDev.msvdx_queue :=
  C8_unsupported_id_rejects_whole_buffer sampleLayout (by decide) 49 idleDev
    (sampleRender ++ sampleUnsupported) 0 48 0 true 5 false 32
    (Reaches.step 0 32 (by decide) (Reaches.here 32)) (by decide) (by decide) (by decide)

/-- C9: when the page is mapped and the walk along the declared sizes of a
command buffer arrives at a sub-message whose declared size is not a multiple
of 4, or exceeds the bytes left in the buffer, or is below the generic header
size, or for which fewer than header-size bytes are left,
`psb_msvdx_map_command` returns `-EINVAL`. -/
theorem C9_malformed_size_gives_EINVAL (L : Layout) (hL : L.patch_ok) (F : Nat)
    (s : Dev) (mem : List Nat) (cmd_offset cmd_size : Nat) (alloc_ok : Bool)
    (sequence : Nat) (copy_cmd : Bool) (off : Nat)
    (hreach : Reaches L mem cmd_size 0 off) (hoff : off < cmd_size)
    (hsize : MEMIO_READ_FIELD mem off L.FWRK_GENMSG_SIZE % 4 ≠ 0 ∨
      MEMIO_READ_FIELD mem off L.FWRK_GENMSG_SIZE > cmd_size - off ∨
      MEMIO_READ_FIELD mem off L.FWRK_GENMSG_SIZE < L.FWRK_GENMSG_HEADER_SIZE ∨
      cmd_size - off < L.FWRK_GENMSG_HEADER_SIZE)
    (hF : cmd_size < F) :
    ∃ r, psb_msvdx_map_command L F s mem cmd_offset cmd_size 0 alloc_ok sequence
        copy_cmd = some r ∧ r.ret = -EINVAL := by
  have hbad : ¬ acceptable L mem off (cmd_size - off) := by
    intro ha
    obtain ⟨_, _, _, h4, h5, _⟩ := hL
    obtain ⟨a1, a2, a3, a4⟩ := ha
    rcases hsize with h | h | h | h
    · exact h a2
    · omega
    · rcases a4 with ⟨_, e⟩ | ⟨_, e⟩ <;> omega
    · omega
  obtain ⟨r, hr, hret, _, _⟩ := map_command_rejects L hL F s mem cmd_offset
    cmd_size 0 alloc_ok sequence copy_cmd off hreach hoff hbad hF
  refine ⟨r, hr, ?_⟩
  rcases hret with h | ⟨h1, _⟩
  · exact h
  · exact absurd rfl h1

/-- Witness of C9: a render message followed by a message that declares 18
bytes. -/
theorem C9_malformed_size_gives_EINVAL_witness :
    ∃ r, psb_msvdx_map_command sampleLayout 53 idleDev (sampleRender ++ sampleMisaligned) 0 52
        0 true 5 true = some r ∧ r.ret = -EINVAL :=
  C9_malformed_size_gives_EINVAL sampleLayout (by decide) 53 idleDev
    (sampleRender ++ sampleMisaligned) 0 52 true 5 true 32
    (Reaches.step 0 32 (by decide) (Reaches.here 32)) (by decide) (Or.inl (by decide))
    (by decide)

/-- C7, the code at a failing input: an idle device is handed a buffer whose
second sub-message has an unsupported id. The call returns `-EINVAL`, the
queue is still empty, and the busy flag, 0 before the call, is 1 after it. -/
theorem C7_failed_submission_on_idle_device_sets_busy :
    idleDev.msvdx_busy = 0 ∧ idleDev.msvdx_queue = [] ∧
    (psb_submit_video_cmdbuf sampleLayout sampleCollab 49 idleDev
        (sampleRender ++ sampleUnsupported) 0 48 0 true true).map
      (fun r => (r.ret, r.dev.msvdx_busy, r.dev.msvdx_queue, r.dev.mtx_kicks))
      = some (-EINVAL, 1, [], 0) := by
  refine ⟨by decide, by decide, by decide⟩

/-! ## Buffers made of supported sub-messages -/

theorem submsg_ok_size (L : Layout) (hL : L.patch_ok) (m : List Nat) (hm : submsg_ok L m) :
    MEMIO_READ_FIELD m 0 L.FWRK_GENMSG_SIZE = 4 * m.length ∧ 0 < m.length := by
  obtain ⟨_, h1, h2, _⟩ := hL
  rcases hm with ⟨a, _, c⟩ | ⟨a, _, c⟩ <;> exact ⟨by omega, by omega⟩

theorem submsg_ok_acceptable (L : Layout) (hL : L.patch_ok) (m : List Nat)
    (hm : submsg_ok L m) (n : Nat) (hn : 4 * m.length ≤ n) : acceptable L m 0 n := by
  obtain ⟨_, h1, h2, h3, h4, _⟩ := hL
  unfold acceptable
  rcases hm with ⟨a, b, c⟩ | ⟨a, b, c⟩
  · exact ⟨by omega, by omega, by omega, Or.inl ⟨b, a⟩⟩
  · exact ⟨by omega, by omega, by omega, Or.inr ⟨b, a⟩⟩

theorem patch_msg_eq_patch_at (L : Layout) (sequence : Nat) (s : Dev) (m : List Nat) :
    patch_msg L sequence s m = patch_at L sequence s m 0 := rfl

theorem patch_msg_local (L : Layout) (hL : L.patch_ok) (sequence : Nat) (s : Dev)
    (m : List Nat) (hm : submsg_ok L m) :
    (patch_msg L sequence s m).2.length = m.length ∧
    MEMIO_READ_FIELD (patch_msg L sequence s m).2 0 L.FWRK_GENMSG_SIZE
      = MEMIO_READ_FIELD m 0 L.FWRK_GENMSG_SIZE := by
  have ha := submsg_ok_acceptable L hL m hm (4 * m.length) (le_refl _)
  have := patch_at_local L hL sequence s m 0 (4 * m.length) (by rw [Nat.mul_zero]; exact ha)
  simp only [Nat.mul_zero] at this
  rw [patch_msg_eq_patch_at]
  exact ⟨this.1, this.2.2.2⟩

theorem patch_msg_frame (L : Layout) (sequence : Nat) (s : Dev) (m : List Nat) :
    patch_frame s (patch_msg L sequence s m).1 :=
  patch_at_frame L sequence s m 0

theorem patch_at_mid (L : Layout) (hL : L.patch_ok) (sequence : Nat) (s : Dev)
    (pre m post : List Nat) (hm : submsg_ok L m) :
    patch_at L sequence s (pre ++ (m ++ post)) (4 * pre.length)
      = ((patch_msg L sequence s m).1, pre ++ ((patch_msg L sequence s m).2 ++ post)) := by
  have hsz := submsg_ok_size L hL m hm
  obtain ⟨hh, _, _, _, _, _, _, h7, h8⟩ := hL
  unfold patch_at patch_msg
  rw [read_field_mid _ _ _ _ (by rw [hh.2.1]; exact hsz.2)]
  rcases hm with ⟨_, b, c⟩ | ⟨_, b, c⟩
  · rw [if_pos b, if_pos b]
    apply patch_render_mid
    intro f hf
    have := (h7 f hf).1
    omega
  · split
    · apply patch_render_mid
      intro f hf
      rename_i hr
      exfalso
      rcases b with b | b <;> rw [b] at hr <;> simp_all
    · apply patch_deblock_mid
      intro f hf
      have := (h8 f hf).1
      omega

/-- One turn of the loop on a supported sub-message that stands between
`pre` and `post`. -/
theorem loop_step_mid (L : Layout) (hL : L.patch_ok) (sequence fuel : Nat) (s : Dev)
    (pre m post : List Nat) (n : Nat) (hm : submsg_ok L m) (hn : 4 * m.length ≤ n) :
    map_command_loop L sequence (fuel + 1) s (pre ++ (m ++ post)) (4 * pre.length) n
      = map_command_loop L sequence fuel (patch_msg L sequence s m).1
          (pre ++ ((patch_msg L sequence s m).2 ++ post))
          (4 * pre.length + 4 * m.length) (n - 4 * m.length) := by
  have hsz := submsg_ok_size L hL m hm
  have hh := hL.1
  have hrd : ∀ f : Field, f.word = 0 →
      MEMIO_READ_FIELD (pre ++ (m ++ post)) (4 * pre.length) f = MEMIO_READ_FIELD m 0 f := by
    intro f hf
    exact read_field_mid _ _ _ _ (by rw [hf]; exact hsz.2)
  have ha : acceptable L (pre ++ (m ++ post)) (4 * pre.length) n := by
    have := submsg_ok_acceptable L hL m hm n hn
    unfold acceptable at this ⊢
    rw [hrd _ hh.1, hrd _ hh.2.1]
    exact this
  rcases loop_cases L hL sequence fuel s (pre ++ (m ++ post)) (4 * pre.length) n
    with ⟨h0, _⟩ | ⟨_, hna, _⟩ | ⟨_, _, e⟩
  · omega
  · exact absurd ha hna
  · rw [e, patch_at_mid L hL sequence s pre m post hm, hrd _ hh.1, hsz.1]

theorem patch_all_length (L : Layout) (hL : L.patch_ok) (sequence : Nat) :
    ∀ (msgs : List (List Nat)) (s : Dev), (∀ m ∈ msgs, submsg_ok L m) →
      (patch_all L sequence s msgs).2.flatten.length = msgs.flatten.length ∧
      (patch_all L sequence s msgs).2.length = msgs.length := by
  intro msgs
  induction msgs with
  | nil => intro s _; simp [patch_all]
  | cons m ms ih =>
    intro s h
    have hm := h m (List.mem_cons_self _ _)
    have hms := ih (patch_msg L sequence s m).1 (fun x hx => h x (List.mem_cons_of_mem _ hx))
    simp only [patch_all, List.flatten_cons, List.length_append, List.length_cons]
    rw [(patch_msg_local L hL sequence s m hm).1, hms.1, hms.2]
    exact ⟨rfl, rfl⟩

theorem patch_all_frame (L : Layout) (sequence : Nat) :
    ∀ (msgs : List (List Nat)) (s : Dev), patch_frame s (patch_all L sequence s msgs).1 := by
  intro msgs
  induction msgs with
  | nil => intro s; exact patch_frame_refl s
  | cons m ms ih =>
    intro s
    simp only [patch_all]
    exact patch_frame_trans (patch_msg_frame L sequence s m) (ih _)

/-- The validation loop on a run of supported sub-messages: it patches them
one after the other and goes on behind them. -/
theorem loop_on_messages (L : Layout) (hL : L.patch_ok) (sequence : Nat) :
    ∀ (msgs : List (List Nat)) (fuel : Nat) (s : Dev) (pre post : List Nat) (n : Nat),
      (∀ m ∈ msgs, submsg_ok L m) →
      map_command_loop L sequence (fuel + msgs.length) s (pre ++ (msgs.flatten ++ post))
          (4 * pre.length) (4 * msgs.flatten.length + n)
        = map_command_loop L sequence fuel (patch_all L sequence s msgs).1
            (pre ++ ((patch_all L sequence s msgs).2.flatten ++ post))
            (4 * (pre.length + msgs.flatten.length)) n := by
  intro msgs
  induction msgs with
  | nil =>
    intro fuel s pre post n _
    simp [patch_all]
  | cons m ms ih =>
    intro fuel s pre post n h
    have hm := h m (List.mem_cons_self _ _)
    have hms : ∀ x ∈ ms, submsg_ok L x := fun x hx => h x (List.mem_cons_of_mem _ hx)
    have hlen := (patch_msg_local L hL sequence s m hm).1
    simp only [List.flatten_cons, List.length_cons, List.length_append, List.append_assoc,
      patch_all]
    have e1 : fuel + (ms.length + 1) = (fuel + ms.length) + 1 := by omega
    rw [e1, loop_step_mid L hL sequence _ s pre m (ms.flatten ++ post) _ hm (by omega)]
    have e2 : 4 * (m.length + ms.flatten.length) + n - 4 * m.length
        = 4 * ms.flatten.length + n := by omega
    have e3 : 4 * pre.length + 4 * m.length
        = 4 * (pre ++ (patch_msg L sequence s m).2).length := by
      rw [List.length_append, hlen]; omega
    rw [e2, e3, ← List.append_assoc pre, ih fuel _ _ post n hms, List.length_append, hlen]
    simp only [List.append_assoc]
    congr 1
    omega

theorem copy_bytes_full (m : List Nat) : copy_bytes m (4 * m.length) = m := by
  unfold copy_bytes
  rw [Nat.mul_mod_right, if_pos rfl, List.append_nil, Nat.mul_div_cancel_left _ (by norm_num)]
  apply List.ext_getElem?
  intro i
  simp only [List.getElem?_map, List.getD_eq_getElem?_getD]
  by_cases h : i < m.length
  · rw [List.getElem?_range h]
    simp [h]
  · have h' : m.length ≤ i := Nat.le_of_not_lt h
    rw [List.getElem?_eq_none h', List.getElem?_eq_none (by simpa using h')]
    rfl

/-! ## Sending the sub-messages of a buffer -/

theorem ring_copy_congr (msg msg' : List Nat) (off off' bo bs : Nat) :
    ∀ (n i : Nat) (vlr : Nat → Nat) (widx : Nat),
      (∀ j, j < n → rd32 msg (off + 4 * (i + j)) = rd32 msg' (off' + 4 * (i + j))) →
      ring_copy msg off bo bs n i vlr widx = ring_copy msg' off' bo bs n i vlr widx := by
  intro n
  induction n with
  | zero => intro i vlr widx _; rfl
  | succ n ih =>
    intro i vlr widx h
    simp only [ring_copy]
    have h0 := h 0 (by omega)
    rw [Nat.add_zero] at h0
    rw [h0]
    apply ih
    intro j hj
    have := h (j + 1) (by omega)
    have e : i + (j + 1) = i + 1 + j := by omega
    rw [e] at this
    exact this

theorem mtx_send_commit_congr (L : Layout) (s : Dev) (msg msg' : List Nat)
    (off off' n ridx widx bs bo : Nat)
    (h : ∀ j, j < n → rd32 msg (off + 4 * j) = rd32 msg' (off' + 4 * j)) :
    mtx_send_commit L s msg off n ridx widx bs bo
      = mtx_send_commit L s msg' off' n ridx widx bs bo := by
  unfold mtx_send_commit
  rw [ring_copy_congr msg msg' off off' bo bs n 0 s.vlr widx
    (by intro j hj; rw [Nat.zero_add]; exact h j hj)]

/-- The outcome of `psb_mtx_send` depends on the message only through its
size field and its words. -/
theorem psb_mtx_send_congr (L : Layout) (F : Nat) (s : Dev) (msg msg' : List Nat)
    (off off' : Nat)
    (h1 : msg_num_of L msg off = msg_num_of L msg' off')
    (h2 : ∀ j, j < msg_num_of L msg off → rd32 msg (off + 4 * j) = rd32 msg' (off' + 4 * j)) :
    psb_mtx_send L F s msg off = psb_mtx_send L F s msg' off' := by
  cases F with
  | zero => rfl
  | succ F =>
    simp only [psb_mtx_send]
    rw [← h1]
    have e : ∀ (t : Dev) (widx : Nat),
        mtx_send_commit L t msg off (msg_num_of L msg off)
            s.MSVDX_COMMS_TO_MTX_RD_INDEX widx
            (to_mtx_capacity { s with MSVDX_MAN_CLK_ENABLE := L.clk_enable_all })
            (to_mtx_offset { s with MSVDX_MAN_CLK_ENABLE := L.clk_enable_all })
          = mtx_send_commit L t msg' off' (msg_num_of L msg off)
            s.MSVDX_COMMS_TO_MTX_RD_INDEX widx
            (to_mtx_capacity { s with MSVDX_MAN_CLK_ENABLE := L.clk_enable_all })
            (to_mtx_offset { s with MSVDX_MAN_CLK_ENABLE := L.clk_enable_all }) :=
      fun t widx => mtx_send_commit_congr L t msg msg' off off' _ _ _ _ _ h2
    simp only [e]

theorem msg_num_of_le (L : Layout) (m : List Nat) (off : Nat)
    (h : MEMIO_READ_FIELD m off L.FWRK_GENMSG_SIZE = 4 * m.length) :
    msg_num_of L m off ≤ m.length := by
  unfold msg_num_of U32
  rw [h]
  omega

theorem psb_mtx_send_mid (L : Layout) (hL : L.header_ok) (F : Nat) (s : Dev)
    (pre m post : List Nat) (h : MEMIO_READ_FIELD m 0 L.FWRK_GENMSG_SIZE = 4 * m.length)
    (hpos : 0 < m.length) :
    psb_mtx_send L F s (pre ++ (m ++ post)) (4 * pre.length) = psb_mtx_send L F s m 0 := by
  have hrd : MEMIO_READ_FIELD (pre ++ (m ++ post)) (4 * pre.length) L.FWRK_GENMSG_SIZE
      = MEMIO_READ_FIELD m 0 L.FWRK_GENMSG_SIZE :=
    read_field_mid _ _ _ _ (by rw [hL.1]; exact hpos)
  have hnum : msg_num_of L (pre ++ (m ++ post)) (4 * pre.length) = msg_num_of L m 0 := by
    unfold msg_num_of; rw [hrd]
  apply psb_mtx_send_congr L F s _ _ _ _ hnum
  intro j hj
  rw [hnum] at hj
  have hle := msg_num_of_le L m 0 h
  rw [← Nat.mul_add, rd32_aligned, Nat.zero_add, rd32_aligned, getD_mid _ _ _ _ (by omega)]

/-- The buffer walk of `psb_msvdx_send` over a run of sub-messages whose size
fields hold their lengths hands them to `psb_mtx_send` one by one. -/
theorem psb_msvdx_send_on_messages (L : Layout) (hL : L.header_ok) (F : Nat) :
    ∀ (msgs : List (List Nat)) (fuel : Nat) (s : Dev) (pre post : List Nat),
      (∀ m ∈ msgs, MEMIO_READ_FIELD m 0 L.FWRK_GENMSG_SIZE = 4 * m.length ∧ 0 < m.length) →
      psb_msvdx_send L F (fuel + msgs.length + 1) s (pre ++ (msgs.flatten ++ post))
          (4 * pre.length) (4 * msgs.flatten.length)
        = send_all L F s msgs := by
  intro msgs
  induction msgs with
  | nil => intro fuel s pre post _; simp [psb_msvdx_send, send_all]
  | cons m ms ih =>
    intro fuel s pre post h
    obtain ⟨hsz, hpos⟩ := h m (List.mem_cons_self _ _)
    have hms : ∀ x ∈ ms, MEMIO_READ_FIELD x 0 L.FWRK_GENMSG_SIZE = 4 * x.length ∧ 0 < x.length :=
      fun x hx => h x (List.mem_cons_of_mem _ hx)
    have hrd : MEMIO_READ_FIELD (pre ++ (m ++ (ms.flatten ++ post))) (4 * pre.length)
        L.FWRK_GENMSG_SIZE = 4 * m.length := by
      rw [read_field_mid _ _ _ _ (by rw [hL.1]; exact hpos), hsz]
    simp only [List.flatten_cons, List.length_cons, List.length_append, List.append_assoc]
    have e1 : fuel + (ms.length + 1) + 1 = (fuel + ms.length + 1) + 1 := by omega
    rw [e1, psb_msvdx_send, send_all]
    simp only
    rw [if_pos (by omega), hrd, if_neg (by omega),
      psb_mtx_send_mid L hL F s pre m (ms.flatten ++ post) hsz hpos]
    cases hsend : psb_mtx_send L F s m 0 with
    | none => rfl
    | some res =>
      obtain ⟨s1, ret⟩ := res
      simp only
      by_cases hret : ret ≠ 0
      · rw [if_pos hret, if_pos hret]
      · rw [if_neg hret, if_neg hret]
        have e2 : 4 * (m.length + ms.flatten.length) - 4 * m.length = 4 * ms.flatten.length := by
          omega
        have e3 : 4 * pre.length + 4 * m.length = 4 * (pre ++ m).length := by
          rw [List.length_append]; omega
        rw [e2, e3, ← List.append_assoc pre, ih fuel s1 (pre ++ m) post hms]

/-- Without any assumption on the indices: `psb_mtx_send` touches nothing
but the ring. -/
theorem psb_mtx_send_frame (L : Layout) :
    ∀ (fuel : Nat) (s : Dev) (msg : List Nat) (off : Nat) (s' : Dev) (r : Int),
      psb_mtx_send L fuel s msg off = some (s', r) → ring_frame s s' := by
  have hcommit : ∀ (t : Dev) (msg : List Nat) (off n ridx widx bs bo : Nat),
      ring_frame t (mtx_send_commit L t msg off n ridx widx bs bo).1 := by
    intro t msg off n ridx widx bs bo
    unfold mtx_send_commit
    split
    · exact ring_frame_refl t
    · simp [ring_frame]
  have hclk : ∀ s : Dev, ring_frame s { s with MSVDX_MAN_CLK_ENABLE := L.clk_enable_all } := by
    intro s; simp [ring_frame]
  intro fuel
  induction fuel with
  | zero => intro s msg off s' r h; simp [psb_mtx_send] at h
  | succ fuel ih =>
    intro s msg off s' r h
    simp only [psb_mtx_send] at h
    split at h
    · simp only [Option.some.injEq, Prod.mk.injEq] at h
      rw [← h.1]; exact hclk s
    · split at h
      · split at h
        · simp only [Option.some.injEq, Prod.mk.injEq] at h
          rw [← h.1]; exact hclk s
        · split at h
          · simp at h
          · rename_i s1 r1 hnest
            have h1 := ih _ _ _ _ _ hnest
            simp only [Option.some.injEq] at h
            have h2 := hcommit s1 msg off (msg_num_of L msg off) s.MSVDX_COMMS_TO_MTX_RD_INDEX
              s1.MSVDX_COMMS_TO_MTX_WRT_INDEX
              (to_mtx_capacity { s with MSVDX_MAN_CLK_ENABLE := L.clk_enable_all })
              (to_mtx_offset { s with MSVDX_MAN_CLK_ENABLE := L.clk_enable_all })
            rw [h] at h2
            exact ring_frame_trans (ring_frame_trans (hclk s) h1) h2
      · simp only [Option.some.injEq] at h
        have h2 := hcommit { s with MSVDX_MAN_CLK_ENABLE := L.clk_enable_all } msg off
          (msg_num_of L msg off) s.MSVDX_COMMS_TO_MTX_RD_INDEX s.MSVDX_COMMS_TO_MTX_WRT_INDEX
          (to_mtx_capacity { s with MSVDX_MAN_CLK_ENABLE := L.clk_enable_all })
          (to_mtx_offset { s with MSVDX_MAN_CLK_ENABLE := L.clk_enable_all })
        rw [h] at h2
        exact ring_frame_trans (hclk s) h2

theorem send_all_frame (L : Layout) (F : Nat) :
    ∀ (msgs : List (List Nat)) (s s' : Dev) (r : Int),
      send_all L F s msgs = some (s', r) → ring_frame s s' := by
  intro msgs
  induction msgs with
  | nil =>
    intro s s' r h
    simp only [send_all, Option.some.injEq, Prod.mk.injEq] at h
    rw [← h.1]; exact ring_frame_refl s
  | cons m ms ih =>
    intro s s' r h
    simp only [send_all] at h
    split at h
    · simp at h
    · rename_i s1 ret hsend
      have h1 := psb_mtx_send_frame L F s m 0 s1 ret hsend
      split at h
      · simp only [Option.some.injEq, Prod.mk.injEq] at h
        rw [← h.1]; exact h1
      · exact ring_frame_trans h1 (ih _ _ _ h)

/-! ## Accepted submissions -/

theorem patch_all_sizes (L : Layout) (hL : L.patch_ok) (sequence : Nat) :
    ∀ (msgs : List (List Nat)) (s : Dev), (∀ m ∈ msgs, submsg_ok L m) →
      ∀ m' ∈ (patch_all L sequence s msgs).2,
        MEMIO_READ_FIELD m' 0 L.FWRK_GENMSG_SIZE = 4 * m'.length ∧ 0 < m'.length := by
  intro msgs
  induction msgs with
  | nil => intro s _ m' hm'; simp [patch_all] at hm'
  | cons m ms ih =>
    intro s h m' hm'
    have hm := h m (List.mem_cons_self _ _)
    simp only [patch_all, List.mem_cons] at hm'
    rcases hm' with rfl | hm'
    · have hl := patch_msg_local L hL sequence s m hm
      have hs := submsg_ok_size L hL m hm
      rw [hl.1, hl.2]
      exact hs
    · exact ih _ (fun x hx => h x (List.mem_cons_of_mem _ hx)) m' hm'

/-- The validation loop on a buffer that consists of supported sub-messages
of the correct sizes: every sub-message is patched and the loop ends
normally. -/
theorem loop_on_wellformed (L : Layout) (hL : L.patch_ok) (sequence : Nat)
    (msgs : List (List Nat)) (F : Nat) (s : Dev) (hmsgs : ∀ m ∈ msgs, submsg_ok L m)
    (hF : msgs.length < F) :
    map_command_loop L sequence F s msgs.flatten 0 (4 * msgs.flatten.length)
      = some ((patch_all L sequence s msgs).1, (patch_all L sequence s msgs).2.flatten,
          LoopExit.finished) := by
  obtain ⟨fuel, rfl⟩ : ∃ fuel, F = (fuel + 1) + msgs.length := ⟨F - msgs.length - 1, by omega⟩
  have := loop_on_messages L hL sequence msgs (fuel + 1) s [] [] 0 hmsgs
  simp only [List.nil_append, List.append_nil, List.length_nil, Nat.mul_zero, Nat.add_zero,
    Nat.zero_add] at this
  rw [this]
  simp [map_command_loop]

/-- Function `psb_msvdx_map_command` in copy mode on a well-formed buffer. -/
theorem map_command_copy_wellformed (L : Layout) (hL : L.patch_ok) (F : Nat) (s : Dev)
    (msgs : List (List Nat)) (cmd_offset sequence : Nat)
    (hmsgs : ∀ m ∈ msgs, submsg_ok L m)
    (hpage : 4 * msgs.flatten.length ≤ PAGE_SIZE ∧
      4 * msgs.flatten.length + cmd_offset % PAGE_SIZE ≤ PAGE_SIZE)
    (hF : msgs.length < F) :
    psb_msvdx_map_command L F s msgs.flatten cmd_offset (4 * msgs.flatten.length) 0 true
        sequence true
      = some ⟨{ (patch_all L sequence { s with trace := s.trace ++ [Event.kmap] } msgs).1 with
            trace := (patch_all L sequence { s with trace := s.trace ++ [Event.kmap] } msgs).1.trace
              ++ [Event.kunmap] },
          (patch_all L sequence { s with trace := s.trace ++ [Event.kmap] } msgs).2.flatten, 0,
          some (patch_all L sequence { s with trace := s.trace ++ [Event.kmap] } msgs).2.flatten⟩ := by
  have hlen := (patch_all_length L hL sequence msgs
    { s with trace := s.trace ++ [Event.kmap] } hmsgs).1
  unfold psb_msvdx_map_command
  simp only
  rw [if_neg (by omega), if_neg (by simp), loop_on_wellformed L hL sequence msgs F _ hmsgs hF]
  simp only [if_true, Bool.not_true, Bool.false_eq_true, if_false, not_true_eq_false]
  rw [← hlen, copy_bytes_full]

/-- Function `psb_msvdx_map_command` in send mode on a well-formed buffer. -/
theorem map_command_send_wellformed (L : Layout) (hL : L.patch_ok) (F : Nat) (s : Dev)
    (msgs : List (List Nat)) (cmd_offset sequence : Nat) (alloc_ok : Bool)
    (hmsgs : ∀ m ∈ msgs, submsg_ok L m)
    (hpage : 4 * msgs.flatten.length ≤ PAGE_SIZE ∧
      4 * msgs.flatten.length + cmd_offset % PAGE_SIZE ≤ PAGE_SIZE)
    (hF : msgs.length < F) :
    psb_msvdx_map_command L F s msgs.flatten cmd_offset (4 * msgs.flatten.length) 0 alloc_ok
        sequence false
      = (match send_all L F
            (patch_all L sequence { s with trace := s.trace ++ [Event.kmap] } msgs).1
            (patch_all L sequence { s with trace := s.trace ++ [Event.kmap] } msgs).2 with
        | none => none
        | some (s2, ret) =>
          some ⟨{ s2 with trace := s2.trace ++ [Event.kunmap] },
            (patch_all L sequence { s with trace := s.trace ++ [Event.kmap] } msgs).2.flatten,
            if ret ≠ 0 then -EINVAL else 0, none⟩) := by
  have hlen := patch_all_length L hL sequence msgs
    { s with trace := s.trace ++ [Event.kmap] } hmsgs
  have hsz := patch_all_sizes L hL sequence msgs
    { s with trace := s.trace ++ [Event.kmap] } hmsgs
  obtain ⟨fuel, hfuel⟩ : ∃ fuel, F = fuel
      + (patch_all L sequence { s with trace := s.trace ++ [Event.kmap] } msgs).2.length + 1 :=
    ⟨F - msgs.length - 1, by rw [hlen.2]; omega⟩
  have hsend := psb_msvdx_send_on_messages L hL.1 F _ fuel
    (patch_all L sequence { s with trace := s.trace ++ [Event.kmap] } msgs).1 [] [] hsz
  simp only [List.nil_append, List.append_nil, List.length_nil, Nat.mul_zero] at hsend
  rw [← hfuel, hlen.1] at hsend
  unfold psb_msvdx_map_command
  simp only
  rw [if_neg (by omega), if_neg (by simp), loop_on_wellformed L hL sequence msgs F _ hmsgs hF]
  simp only [Bool.false_eq_true, if_false]
  rw [hsend]

theorem submit_reset_none (L : Layout) (C : Collab) (s : Dev) (h : s.msvdx_needs_reset = 0) :
    submit_reset L C s = (s, none) := by
  unfold submit_reset
  rw [if_neg (by simp [h])]

theorem submit_load_fw_none (C : Collab) (s : Dev) (h : s.msvdx_fw_loaded ≠ 0) :
    submit_load_fw C s = (s, none) := by
  unfold submit_load_fw
  rw [if_neg h]

/-- C6: a command buffer that consists of supported sub-messages of the
correct sizes, submitted while the busy flag is set (`msvdx_needs_reset`
zero, firmware loaded, both allocations succeed): `psb_submit_video_cmdbuf`
returns 0 and appends exactly one entry to the tail of the command queue,
whose payload is the patched command bytes, whose size is `cmd_size` and
whose sequence is the submission's; the busy flag stays as it was, and
nothing is written to the ring. -/
theorem C6_busy_submission_is_queued (L : Layout) (hL : L.patch_ok) (C : Collab)
    (F : Nat) (s : Dev) (msgs : List (List Nat)) (cmd_offset : Nat)
    (hmsgs : ∀ m ∈ msgs, submsg_ok L m)
    (hreset : s.msvdx_needs_reset = 0) (hfw : s.msvdx_fw_loaded ≠ 0)
    (hbusy : s.msvdx_busy ≠ 0)
    (hpage : 4 * msgs.flatten.length ≤ PAGE_SIZE ∧
      4 * msgs.flatten.length + cmd_offset % PAGE_SIZE ≤ PAGE_SIZE)
    (hF : msgs.length < F) :
    ∃ r, psb_submit_video_cmdbuf L C F s msgs.flatten cmd_offset (4 * msgs.flatten.length) 0
        true true = some r ∧
      r.ret = 0 ∧
      r.mem = (patch_all L s.sequence { s with trace := s.trace ++ [Event.kmap] } msgs).2.flatten ∧
      r.dev.msvdx_queue = s.msvdx_queue ++
        [{ cmd := r.mem, cmd_size := 4 * msgs.flatten.length, sequence := s.sequence }] ∧
      r.dev.msvdx_busy = s.msvdx_busy ∧
      r.dev.MSVDX_COMMS_TO_MTX_WRT_INDEX = s.MSVDX_COMMS_TO_MTX_WRT_INDEX ∧
      r.dev.vlr = s.vlr ∧ r.dev.ring_stores = s.ring_stores ∧
      r.dev.mtx_kicks = s.mtx_kicks := by
  obtain ⟨a, t, hp⟩ := patch_all_frame L s.sequence msgs
    { s with trace := s.trace ++ [Event.kmap] }
  unfold psb_submit_video_cmdbuf
  simp only
  rw [submit_reset_none L C s hreset]
  simp only
  rw [submit_load_fw_none C s hfw]
  simp only
  rw [if_neg hbusy, if_neg (by simp),
    map_command_copy_wellformed L hL F s msgs cmd_offset s.sequence hmsgs hpage hF]
  simp only [ne_eq, not_true_eq_false, if_false, Option.getD_some]
  rw [hp]
  simp only
  rw [if_neg hbusy]
  exact ⟨_, rfl, rfl, rfl, rfl, rfl, rfl, rfl, rfl, rfl⟩

/-- Witness of C6: the same buffer submitted while the device is busy. -/
theorem C6_busy_submission_is_queued_witness :
    ∃ r, psb_submit_video_cmdbuf sampleLayout sampleCollab 3 busyDev
        [sampleRender, sampleDeblock].flatten 0 (4 * [sampleRender, sampleDeblock].flatten.length)
        0 true true = some r ∧
      r.ret = 0 ∧
      r.mem = (patch_all sampleLayout busyDev.sequence
        { busyDev with trace := busyDev.trace ++ [Event.kmap] }
        [sampleRender, sampleDeblock]).2.flatten ∧
      r.dev.msvdx_queue = busyDev.msvdx_queue ++
        [{ cmd := r.mem, cmd_size := 4 * [sampleRender, sampleDeblock].flatten.length,
           sequence := busyDev.sequence }] ∧
      r.dev.msvdx_busy = busyDev.msvdx_busy ∧
      r.dev.MSVDX_COMMS_TO_MTX_WRT_INDEX = busyDev.MSVDX_COMMS_TO_MTX_WRT_INDEX ∧
      r.dev.vlr = busyDev.vlr ∧ r.dev.ring_stores = busyDev.ring_stores ∧
      r.dev.mtx_kicks = busyDev.mtx_kicks :=
  C6_busy_submission_is_queued sampleLayout (by decide) sampleCollab 3 busyDev
    [sampleRender, sampleDeblock] 0 (by decide) (by decide) (by decide) (by decide)
    (by decide) (by decide)

/-! ## The send after a successful validation returns -/

theorem read_congr_take (a b : List Nat) (j k : Nat) (f : Field) (h : a.take j = b.take j)
    (hk : k + f.word < j) : MEMIO_READ_FIELD a (4 * k) f = MEMIO_READ_FIELD b (4 * k) f := by
  rw [read_field_aligned, read_field_aligned, List.getD_eq_getElem?_getD,
    List.getD_eq_getElem?_getD]
  have e1 : a[k + f.word]? = (a.take j)[k + f.word]? := by
    rw [List.getElem?_take_of_lt hk]
  have e2 : b[k + f.word]? = (b.take j)[k + f.word]? := by
    rw [List.getElem?_take_of_lt hk]
  rw [e1, e2, h]

/-- After the validation loop has accepted a buffer, the walk of
`psb_msvdx_send` over the patched buffer returns. -/
theorem send_total_after_loop (L : Layout) (hL : L.patch_ok) (sequence F : Nat) :
    ∀ (fuelL : Nat) (s : Dev) (cur : List Nat) (k n : Nat) (s' : Dev) (mem' : List Nat),
      map_command_loop L sequence fuelL s cur (4 * k) n = some (s', mem', LoopExit.finished) →
      ∀ (fuel : Nat) (t : Dev), n < fuel →
        t.MSVDX_COMMS_TO_MTX_RD_INDEX < to_mtx_capacity t →
        t.MSVDX_COMMS_TO_MTX_WRT_INDEX < to_mtx_capacity t →
        ∃ res, psb_msvdx_send L (F + 2) fuel t mem' (4 * k) n = some res := by
  intro fuelL
  induction fuelL with
  | zero => intro s cur k n s' mem' h; simp [map_command_loop] at h
  | succ fuelL ih =>
    intro s cur k n s' mem' h fuel t hfuel hr hw
    obtain ⟨fuel, rfl⟩ : ∃ f, fuel = f + 1 := ⟨fuel - 1, by omega⟩
    rcases loop_cases L hL sequence fuelL s cur (4 * k) n with ⟨h0, e⟩ | ⟨_, _, e | e⟩ | ⟨hpos, ha, e⟩
    · subst h0
      exact ⟨(t, 0), by simp [psb_msvdx_send]⟩
    · rw [e] at h; simp at h
    · rw [e] at h; simp at h
    · rw [e] at h
      have hp := acceptable_pos L hL cur (4 * k) n ha
      have hloc := patch_at_local L hL sequence s cur k n ha
      have e4 : 4 * k + MEMIO_READ_FIELD cur (4 * k) L.FWRK_GENMSG_SIZE
          = 4 * (k + MEMIO_READ_FIELD cur (4 * k) L.FWRK_GENMSG_SIZE / 4) := by omega
      rw [e4] at h
      obtain ⟨_, _, htake, _⟩ := map_command_loop_post L hL sequence _ _ _ _ _ _ _ _ h
      have hread : MEMIO_READ_FIELD mem' (4 * k) L.FWRK_GENMSG_SIZE
          = MEMIO_READ_FIELD cur (4 * k) L.FWRK_GENMSG_SIZE := by
        rw [read_congr_take _ _ _ k _ htake (by rw [hL.1.1]; omega), hloc.2.2.2]
      obtain ⟨t1, ret, hsend⟩ := psb_mtx_send_total L hL.1 F t mem' (4 * k) hw
      rw [psb_msvdx_send]
      simp only
      rw [if_pos hpos, hread, if_neg (by omega), hsend]
      simp only
      by_cases hret : ret ≠ 0
      · rw [if_pos hret]; exact ⟨_, rfl⟩
      · rw [if_neg hret, e4]
        obtain ⟨hf, hw1, _⟩ := psb_mtx_send_post L _ t mem' (4 * k) t1 ret hr hw hsend
        have hc1 : to_mtx_capacity t1 = to_mtx_capacity t := to_mtx_capacity_congr hf.1
        exact ih _ _ _ _ _ _ h fuel t1 (by omega) (by rw [hc1, hf.2.1]; exact hr)
          (by rw [hc1]; exact hw1)

/-- With the ring indices below the capacity and fuel beyond the buffer size,
`psb_msvdx_map_command` returns. -/
theorem map_command_total (L : Layout) (hL : L.patch_ok) (F : Nat) (s : Dev) (mem : List Nat)
    (cmd_offset cmd_size : Nat) (kmap_ret : Int) (alloc_ok : Bool) (sequence : Nat)
    (copy_cmd : Bool)
    (hr : s.MSVDX_COMMS_TO_MTX_RD_INDEX < to_mtx_capacity s)
    (hw : s.MSVDX_COMMS_TO_MTX_WRT_INDEX < to_mtx_capacity s)
    (hF : cmd_size < F + 2) :
    ∃ r, psb_msvdx_map_command L (F + 2) s mem cmd_offset cmd_size kmap_ret alloc_ok sequence
        copy_cmd = some r ∧
      ∀ s1 mem1 ex, map_command_loop L sequence (F + 2)
          { s with trace := s.trace ++ [Event.kmap] } mem 0 cmd_size = some (s1, mem1, ex) →
        cmd_size ≤ PAGE_SIZE ∧ cmd_size + cmd_offset % PAGE_SIZE ≤ PAGE_SIZE → kmap_ret = 0 →
        r.mem = mem1 := by
  unfold psb_msvdx_map_command
  simp only
  split
  · rename_i hp
    exact ⟨_, rfl, fun _ _ _ _ hpage _ => by omega⟩
  · split
    · rename_i hk
      exact ⟨_, rfl, fun _ _ _ _ _ h0 => absurd h0 hk⟩
    · obtain ⟨⟨s1, mem1, ex⟩, hres⟩ := map_command_loop_total L hL sequence (F + 2)
        { s with trace := s.trace ++ [Event.kmap] } mem 0 cmd_size hF
      rw [hres]
      have hres' := hres
      have e0 : (0 : Nat) = 4 * 0 := rfl
      rw [e0] at hres'
      obtain ⟨⟨a, t, hfr⟩, _, _, hex⟩ := map_command_loop_post L hL sequence _ _ _ _ _ _ _ _ hres'
      have hinj : ∀ s1' mem1' ex', some (s1, mem1, ex) = some (s1', mem1', ex') → mem1 = mem1' := by
        intro s1' mem1' ex' h
        simp only [Option.some.injEq, Prod.mk.injEq] at h
        exact h.2.1
      rcases hex with rfl | rfl | rfl
      · simp only
        cases copy_cmd
        · simp only [Bool.false_eq_true, if_false]
          obtain ⟨⟨s2, ret⟩, hsend⟩ := send_total_after_loop L hL sequence F _ _ _ _ _ _ _ hres'
            (F + 2) s1 hF (by rw [hfr]; exact hr) (by rw [hfr]; exact hw)
          rw [Nat.mul_zero] at hsend
          rw [hsend]
          exact ⟨_, rfl, fun _ _ _ h _ _ => hinj _ _ _ h⟩
        · simp only [if_true]
          split
          · exact ⟨_, rfl, fun _ _ _ h _ _ => hinj _ _ _ h⟩
          · exact ⟨_, rfl, fun _ _ _ h _ _ => hinj _ _ _ h⟩
      · exact ⟨_, rfl, fun _ _ _ h _ _ => hinj _ _ _ h⟩
      · exact ⟨_, rfl, fun _ _ _ h _ _ => hinj _ _ _ h⟩

/-! ## The patch of a render message -/

theorem Field.disjoint_symm {f g : Field} (h : f.disjoint g) : g.disjoint f := by
  unfold Field.disjoint at *
  rcases h with h | h | h
  · exact Or.inl (Ne.symm h)
  · exact Or.inr (Or.inr h)
  · exact Or.inr (Or.inl h)

theorem read_write_same0 (m : List Nat) (f : Field) (v : Nat)
    (h : f.word < m.length) (hf : f.shift + f.width ≤ 32) :
    MEMIO_READ_FIELD (MEMIO_WRITE_FIELD m 0 f v) 0 f = v % 2 ^ f.width := by
  have := read_write_same m 0 f v (by omega) hf
  rw [Nat.mul_zero] at this
  exact this

theorem read_write_disjoint0 (m : List Nat) (f g : Field) (v : Nat)
    (hd : f.disjoint g) (hg : g.shift + g.width ≤ 32) :
    MEMIO_READ_FIELD (MEMIO_WRITE_FIELD m 0 f v) 0 g = MEMIO_READ_FIELD m 0 g := by
  have := read_write_disjoint m 0 f g v hd hg
  rw [Nat.mul_zero] at this
  exact this

/-- The legacy patch of a render message standing on its own: the fence field
holds the sequence number, the page-table-directory field holds the default
page-directory address, with bit 0 set when the MMU-invalidate flag was 1,
and every field disjoint from the two is as before. -/
theorem patch_render_legacy (L : Layout) (hleg : L.mdfld_fw_updated = false) (s : Dev)
    (m : List Nat) (sequence : Nat)
    (hf1 : L.FW_VA_RENDER_FENCE_VALUE.word < m.length)
    (hf2 : L.FW_VA_RENDER_FENCE_VALUE.shift + L.FW_VA_RENDER_FENCE_VALUE.width ≤ 32)
    (hp1 : L.FW_VA_RENDER_MMUPTD.word < m.length)
    (hp2 : L.FW_VA_RENDER_MMUPTD.shift + L.FW_VA_RENDER_MMUPTD.width ≤ 32)
    (hdis : L.FW_VA_RENDER_FENCE_VALUE.disjoint L.FW_VA_RENDER_MMUPTD) :
    MEMIO_READ_FIELD (patch_render L s m 0 sequence).2 0 L.FW_VA_RENDER_FENCE_VALUE
      = sequence % 2 ^ L.FW_VA_RENDER_FENCE_VALUE.width ∧
    MEMIO_READ_FIELD (patch_render L s m 0 sequence).2 0 L.FW_VA_RENDER_MMUPTD
      = (if s.msvdx_mmu_invaldc = 1 then s.default_pd_addr ||| 1 else s.default_pd_addr)
          % 2 ^ L.FW_VA_RENDER_MMUPTD.width ∧
    ∀ g : Field, g.shift + g.width ≤ 32 → L.FW_VA_RENDER_FENCE_VALUE.disjoint g →
      L.FW_VA_RENDER_MMUPTD.disjoint g →
      MEMIO_READ_FIELD (patch_render L s m 0 sequence).2 0 g = MEMIO_READ_FIELD m 0 g := by
  have hlen : (MEMIO_WRITE_FIELD m 0 L.FW_VA_RENDER_FENCE_VALUE sequence).length = m.length :=
    length_write_field _ _ _ _
  have key : (patch_render L s m 0 sequence).2
      = MEMIO_WRITE_FIELD (MEMIO_WRITE_FIELD m 0 L.FW_VA_RENDER_FENCE_VALUE sequence) 0
          L.FW_VA_RENDER_MMUPTD
          (if s.msvdx_mmu_invaldc = 1 then s.default_pd_addr ||| 1 else s.default_pd_addr) := by
    unfold patch_render cmpxchg_mmu_invaldc
    simp only [hleg, Bool.false_eq_true, if_false, not_false_eq_true, if_true]
    split <;> rfl
  rw [key]
  refine ⟨?_, ?_, ?_⟩
  · rw [read_write_disjoint0 _ _ _ _ (Field.disjoint_symm hdis) hf2,
      read_write_same0 _ _ _ hf1 hf2]
  · rw [read_write_same0 _ _ _ (by rw [hlen]; exact hp1) hp2]
  · intro g hg d1 d2
    rw [read_write_disjoint0 _ _ _ _ d2 hg, read_write_disjoint0 _ _ _ _ d1 hg]

theorem length_le_flatten (L : Layout) (hL : L.patch_ok) :
    ∀ msgs : List (List Nat), (∀ m ∈ msgs, submsg_ok L m) →
      msgs.length ≤ msgs.flatten.length := by
  intro msgs
  induction msgs with
  | nil => intro _; simp
  | cons m ms ih =>
    intro h
    have hm := submsg_ok_size L hL m (h m (List.mem_cons_self _ _))
    have := ih (fun x hx => h x (List.mem_cons_of_mem _ hx))
    simp only [List.length_cons, List.flatten_cons, List.length_append]
    omega

/-- Where an accepted sub-message ends up: after a run of supported
sub-messages `pre_msgs` and the supported sub-message `m`, whatever follows,
the memory the loop leaves holds the patched `m` at its place. -/
theorem loop_patches_in_place (L : Layout) (hL : L.patch_ok) (sequence F : Nat) (s : Dev)
    (pre_msgs : List (List Nat)) (m post : List Nat) (cmd_size : Nat)
    (hpre : ∀ x ∈ pre_msgs, submsg_ok L x) (hm : submsg_ok L m)
    (hin : 4 * (pre_msgs.flatten.length + m.length) ≤ cmd_size) (hF : cmd_size < F)
    (s1 : Dev) (mem1 : List Nat) (ex : LoopExit)
    (h : map_command_loop L sequence F s (pre_msgs.flatten ++ (m ++ post)) 0 cmd_size
      = some (s1, mem1, ex)) (g : Field) (hg : g.word < m.length) :
    MEMIO_READ_FIELD mem1 (4 * pre_msgs.flatten.length) g
      = MEMIO_READ_FIELD (patch_msg L sequence (patch_all L sequence s pre_msgs).1 m).2 0 g := by
  have hlen := patch_all_length L hL sequence pre_msgs s hpre
  have hml := (patch_msg_local L hL sequence (patch_all L sequence s pre_msgs).1 m hm).1
  have hle := length_le_flatten L hL pre_msgs hpre
  have hmpos := (submsg_ok_size L hL m hm).2
  obtain ⟨fuel, rfl⟩ : ∃ fuel, F = (fuel + 1) + pre_msgs.length :=
    ⟨F - pre_msgs.length - 1, by omega⟩
  obtain ⟨n, rfl⟩ : ∃ n, cmd_size = 4 * pre_msgs.flatten.length + n :=
    ⟨cmd_size - 4 * pre_msgs.flatten.length, by omega⟩
  have h1 := loop_on_messages L hL sequence pre_msgs (fuel + 1) s [] (m ++ post) n hpre
  simp only [List.nil_append, List.length_nil, Nat.mul_zero, Nat.zero_add] at h1
  rw [h1, ← hlen.1, loop_step_mid L hL sequence fuel _ _ m post n hm (by omega)] at h
  have e : 4 * (patch_all L sequence s pre_msgs).2.flatten.length + 4 * m.length
      = 4 * ((patch_all L sequence s pre_msgs).2.flatten.length + m.length) := by omega
  rw [e] at h
  obtain ⟨_, _, htake, _⟩ := map_command_loop_post L hL sequence _ _ _ _ _ _ _ _ h
  rw [← hlen.1, read_congr_take _ _ _ _ g htake (by omega),
    read_field_mid _ _ _ _ (by rw [hml]; exact hg)]

/-- C10: for a render sub-message `m` of the correct size that stands in a
command buffer behind supported sub-messages `pre_msgs` (legacy firmware
layout, fence and page-table-directory fields disjoint and wide enough for
their values), `psb_msvdx_map_command` returns, and in the buffer it leaves
the fence field of `m` equals the sequence number, the page-table-directory
field equals the default page-directory address with bit 0 set exactly when
the MMU-invalidate flag was pending as `m` was processed, and every other
field of `m` is as before. -/
theorem C10_render_patch_stamps_fence_and_ptd (L : Layout) (hL : L.patch_ok)
    (hleg : L.mdfld_fw_updated = false)
    (hdis : L.FW_VA_RENDER_FENCE_VALUE.disjoint L.FW_VA_RENDER_MMUPTD)
    (F : Nat) (s : Dev) (pre_msgs : List (List Nat)) (m post : List Nat)
    (cmd_offset cmd_size : Nat) (alloc_ok : Bool) (sequence : Nat) (copy_cmd : Bool)
    (hpre : ∀ x ∈ pre_msgs, submsg_ok L x) (hm : render_ok L m)
    (hin : 4 * (pre_msgs.flatten.length + m.length) ≤ cmd_size)
    (hpage : cmd_size ≤ PAGE_SIZE ∧ cmd_size + cmd_offset % PAGE_SIZE ≤ PAGE_SIZE)
    (hr : s.MSVDX_COMMS_TO_MTX_RD_INDEX < to_mtx_capacity s)
    (hw : s.MSVDX_COMMS_TO_MTX_WRT_INDEX < to_mtx_capacity s)
    (hF : cmd_size < F + 2)
    (hseq : sequence < 2 ^ L.FW_VA_RENDER_FENCE_VALUE.width)
    (hpd : s.default_pd_addr < 2 ^ L.FW_VA_RENDER_MMUPTD.width)
    (hw0 : 0 < L.FW_VA_RENDER_MMUPTD.width) :
    ∃ r, psb_msvdx_map_command L (F + 2) s (pre_msgs.flatten ++ (m ++ post)) cmd_offset
        cmd_size 0 alloc_ok sequence copy_cmd = some r ∧
      MEMIO_READ_FIELD r.mem (4 * pre_msgs.flatten.length) L.FW_VA_RENDER_FENCE_VALUE
        = sequence ∧
      MEMIO_READ_FIELD r.mem (4 * pre_msgs.flatten.length) L.FW_VA_RENDER_MMUPTD
        = (if (patch_all L sequence { s with trace := s.trace ++ [Event.kmap] }
              pre_msgs).1.msvdx_mmu_invaldc = 1
            then s.default_pd_addr ||| 1 else s.default_pd_addr) ∧
      (s.default_pd_addr % 2 = 0 →
        (MEMIO_READ_FIELD r.mem (4 * pre_msgs.flatten.length) L.FW_VA_RENDER_MMUPTD % 2 = 1 ↔
          (patch_all L sequence { s with trace := s.trace ++ [Event.kmap] }
            pre_msgs).1.msvdx_mmu_invaldc = 1)) ∧
      ∀ g : Field, g.word < m.length → g.shift + g.width ≤ 32 →
        L.FW_VA_RENDER_FENCE_VALUE.disjoint g → L.FW_VA_RENDER_MMUPTD.disjoint g →
        MEMIO_READ_FIELD r.mem (4 * pre_msgs.flatten.length) g = MEMIO_READ_FIELD m 0 g := by
  obtain ⟨r, hres, hmem⟩ := map_command_total L hL F s (pre_msgs.flatten ++ (m ++ post))
    cmd_offset cmd_size 0 alloc_ok sequence copy_cmd hr hw hF
  obtain ⟨⟨s1, mem1, ex⟩, hloop⟩ := map_command_loop_total L hL sequence (F + 2)
    { s with trace := s.trace ++ [Event.kmap] } (pre_msgs.flatten ++ (m ++ post)) 0 cmd_size hF
  have hrm := hmem s1 mem1 ex hloop hpage rfl
  have hplace := loop_patches_in_place L hL sequence (F + 2) _ pre_msgs m post cmd_size hpre
    (Or.inl hm) hin hF s1 mem1 ex hloop
  obtain ⟨a, t, hfr⟩ := patch_all_frame L sequence pre_msgs
    { s with trace := s.trace ++ [Event.kmap] }
  have hrf := hL.2.2.2.2.2.2.2.1
  unfold Layout.render_fields at hrf
  rw [hleg] at hrf
  simp only [Bool.false_eq_true, if_false, List.mem_cons, List.mem_singleton,
    List.not_mem_nil, or_false, forall_eq_or_imp, forall_eq] at hrf
  obtain ⟨⟨f1, f2, _⟩, ⟨p1, p2, _⟩⟩ := hrf
  have hmlen := hm.2.2
  have hpm : patch_msg L sequence
      (patch_all L sequence { s with trace := s.trace ++ [Event.kmap] } pre_msgs).1 m
      = patch_render L
          (patch_all L sequence { s with trace := s.trace ++ [Event.kmap] } pre_msgs).1 m 0
          sequence := by
    unfold patch_msg; rw [if_pos hm.2.1]
  obtain ⟨q1, q2, q3⟩ := patch_render_legacy L hleg
    (patch_all L sequence { s with trace := s.trace ++ [Event.kmap] } pre_msgs).1 m sequence
    (by omega) f2 (by omega) p2 hdis
  have hpdeq : (patch_all L sequence { s with trace := s.trace ++ [Event.kmap] }
      pre_msgs).1.default_pd_addr = s.default_pd_addr := by rw [hfr]
  rw [hpdeq] at q2
  have hone : 1 < 2 ^ L.FW_VA_RENDER_MMUPTD.width := Nat.one_lt_two_pow (by omega)
  have hval : (if (patch_all L sequence { s with trace := s.trace ++ [Event.kmap] }
        pre_msgs).1.msvdx_mmu_invaldc = 1 then s.default_pd_addr ||| 1 else s.default_pd_addr)
      < 2 ^ L.FW_VA_RENDER_MMUPTD.width := by
    split
    · exact Nat.or_lt_two_pow hpd hone
    · exact hpd
  rw [Nat.mod_eq_of_lt hval] at q2
  rw [Nat.mod_eq_of_lt hseq] at q1
  have hptd : MEMIO_READ_FIELD r.mem (4 * pre_msgs.flatten.length) L.FW_VA_RENDER_MMUPTD
      = (if (patch_all L sequence { s with trace := s.trace ++ [Event.kmap] }
            pre_msgs).1.msvdx_mmu_invaldc = 1
          then s.default_pd_addr ||| 1 else s.default_pd_addr) := by
    rw [hrm, hplace _ (by omega), hpm, q2]
  refine ⟨r, hres, ?_, hptd, ?_, ?_⟩
  · rw [hrm, hplace _ (by omega), hpm, q1]
  · intro heven
    rw [hptd]
    split
    · rename_i hpend
      simp only [hpend, iff_true]
      exact Nat.or_mod_two_eq_one.mpr (Or.inr rfl)
    · rename_i hpend
      simp only [hpend, iff_false]
      omega
  · intro g hgw hg d1 d2
    rw [hrm, hplace g hgw, hpm, q3 g hg d1 d2]

/-- Witness of C10: a render message behind a deblock message and before a
message with an unsupported id, on the sample device. -/
theorem C10_render_patch_stamps_fence_and_ptd_witness :
    ∃ r, psb_msvdx_map_command sampleLayout (63 + 2) idleDev
        ([sampleDeblock].flatten ++ (sampleRender ++ sampleUnsupported)) 0 64 0 true 5 false
        = some r ∧
      MEMIO_READ_FIELD r.mem (4 * [sampleDeblock].flatten.length)
        sampleLayout.FW_VA_RENDER_FENCE_VALUE = 5 ∧
      MEMIO_READ_FIELD r.mem (4 * [sampleDeblock].flatten.length)
        sampleLayout.FW_VA_RENDER_MMUPTD
        = (if (patch_all sampleLayout 5 { idleDev with trace := idleDev.trace ++ [Event.kmap] }
              [sampleDeblock]).1.msvdx_mmu_invaldc = 1
            then idleDev.default_pd_addr ||| 1 else idleDev.default_pd_addr) ∧
      (idleDev.default_pd_addr % 2 = 0 →
        (MEMIO_READ_FIELD r.mem (4 * [sampleDeblock].flatten.length)
            sampleLayout.FW_VA_RENDER_MMUPTD % 2 = 1 ↔
          (patch_all sampleLayout 5 { idleDev with trace := idleDev.trace ++ [Event.kmap] }
            [sampleDeblock]).1.msvdx_mmu_invaldc = 1)) ∧
      ∀ g : Field, g.word < sampleRender.length → g.shift + g.width ≤ 32 →
        sampleLayout.FW_VA_RENDER_FENCE_VALUE.disjoint g →
        sampleLayout.FW_VA_RENDER_MMUPTD.disjoint g →
        MEMIO_READ_FIELD r.mem (4 * [sampleDeblock].flatten.length) g
          = MEMIO_READ_FIELD sampleRender 0 g :=
  C10_render_patch_stamps_fence_and_ptd sampleLayout (by decide) (by decide) (by decide) 63
    idleDev [sampleDeblock] sampleRender sampleUnsupported 0 64 true 5 false (by decide)
    (by decide) (by decide) (by decide) (by decide) (by decide) (by decide) (by decide)
    (by decide) (by decide)

/-! ## Room in the ring -/

theorem getD_append_left' (a b : List Nat) (i : Nat) (h : i < a.length) :
    (a ++ b).getD i 0 = a.getD i 0 := List.getD_append _ _ _ _ h

/-- A sufficient condition for every send of `send_all` to find room: the
sub-messages together fit the free slots and do not run past the end of the
ring. They then lie in the ring one behind the other, in order, from the old
write index on, and one kick is given per sub-message. -/
theorem send_all_has_room (L : Layout) (F : Nat) :
    ∀ (msgs : List (List Nat)) (s : Dev),
      (∀ m ∈ msgs, MEMIO_READ_FIELD m 0 L.FWRK_GENMSG_SIZE = 4 * m.length ∧ 0 < m.length) →
      s.MSVDX_COMMS_TO_MTX_RD_INDEX < to_mtx_capacity s →
      s.MSVDX_COMMS_TO_MTX_WRT_INDEX < to_mtx_capacity s →
      s.MSVDX_COMMS_TO_MTX_WRT_INDEX + msgs.flatten.length ≤ to_mtx_capacity s →
      msgs.flatten.length ≤ free_slots (to_mtx_capacity s) s.MSVDX_COMMS_TO_MTX_RD_INDEX
        s.MSVDX_COMMS_TO_MTX_WRT_INDEX →
      ∃ s2, send_all L (F + 1) s msgs = some (s2, 0) ∧
        s2.MSVDX_COMMS_TO_MTX_WRT_INDEX
          = (s.MSVDX_COMMS_TO_MTX_WRT_INDEX + msgs.flatten.length) % to_mtx_capacity s ∧
        s2.mtx_kicks = s.mtx_kicks + msgs.length ∧
        (∀ i, i < msgs.flatten.length →
          ring_word s2 (s.MSVDX_COMMS_TO_MTX_WRT_INDEX + i) = msgs.flatten.getD i 0) ∧
        (∀ k, k < 65536 → (k < s.MSVDX_COMMS_TO_MTX_WRT_INDEX
            ∨ s.MSVDX_COMMS_TO_MTX_WRT_INDEX + msgs.flatten.length ≤ k) →
          ring_word s2 k = ring_word s k) ∧
        ring_frame s s2 := by
  intro msgs
  induction msgs with
  | nil =>
    intro s _ _ hw _ _
    refine ⟨s, rfl, ?_, rfl, ?_, fun _ _ _ => rfl, ring_frame_refl s⟩
    · simp [Nat.mod_eq_of_lt hw]
    · intro i hi; simp at hi
  | cons m ms ih =>
    intro s h hr hw hfit hfree
    have hc := to_mtx_capacity_lt s
    obtain ⟨hsz, hpos⟩ := h m (List.mem_cons_self _ _)
    have hms : ∀ x ∈ ms, MEMIO_READ_FIELD x 0 L.FWRK_GENMSG_SIZE = 4 * x.length ∧ 0 < x.length :=
      fun x hx => h x (List.mem_cons_of_mem _ hx)
    simp only [List.flatten_cons, List.length_append, List.length_cons] at hfit hfree ⊢
    have hnum : msg_num_of L m 0 = m.length := by
      unfold msg_num_of U32; rw [hsz]; omega
    have hwf := words_free_eq _ _ _ hc hr hw
    obtain ⟨c0, c1, c2, c3, c4, c5, c6⟩ := mtx_send_commit_fit L
      { s with MSVDX_MAN_CLK_ENABLE := L.clk_enable_all } m 0 m.length
      s.MSVDX_COMMS_TO_MTX_RD_INDEX s.MSVDX_COMMS_TO_MTX_WRT_INDEX (to_mtx_capacity s)
      (to_mtx_offset s) hc hw (by omega) (by rw [hwf]; omega)
    have hsend := psb_mtx_send_nowrap L F s m 0 (by rw [hnum]; omega)
    rw [hnum] at hsend
    generalize mtx_send_commit L { s with MSVDX_MAN_CLK_ENABLE := L.clk_enable_all } m 0
      m.length s.MSVDX_COMMS_TO_MTX_RD_INDEX s.MSVDX_COMMS_TO_MTX_WRT_INDEX (to_mtx_capacity s)
      (to_mtx_offset s) = res at hsend c0 c1 c2 c3 c4 c5 c6
    obtain ⟨s1, ret⟩ := res
    simp only at c0 c1 c2 c3 c4 c5 c6
    subst c0
    have hcap1 : to_mtx_capacity s1 = to_mtx_capacity s := to_mtx_capacity_congr c4.1
    have hoff1 : to_mtx_offset s1 = to_mtx_offset s := to_mtx_offset_congr c4.1
    have hrd1 : s1.MSVDX_COMMS_TO_MTX_RD_INDEX = s.MSVDX_COMMS_TO_MTX_RD_INDEX := c4.2.1
    have hadv := in_flight_advance (to_mtx_capacity s) s.MSVDX_COMMS_TO_MTX_RD_INDEX
      s.MSVDX_COMMS_TO_MTX_WRT_INDEX m.length hr hw (by omega)
    have hmod := add_mod_cap (to_mtx_capacity s) s.MSVDX_COMMS_TO_MTX_WRT_INDEX m.length
      (by omega)
    have hfree1 : ms.flatten.length ≤ free_slots (to_mtx_capacity s1)
        s1.MSVDX_COMMS_TO_MTX_RD_INDEX s1.MSVDX_COMMS_TO_MTX_WRT_INDEX := by
      rw [hcap1, hrd1, c1]
      unfold free_slots at hfree ⊢
      rw [hadv.2]; omega
    have hfit1 : s1.MSVDX_COMMS_TO_MTX_WRT_INDEX + ms.flatten.length ≤ to_mtx_capacity s1 := by
      rw [hcap1, c1, hmod]; split <;> omega
    obtain ⟨s2, i0, i1, i2, i3, i4, i5⟩ := ih s1 hms (by rw [hcap1, hrd1]; exact hr)
      (by rw [hcap1, c1]; exact hadv.1) hfit1 hfree1
    have hoff2 : to_mtx_offset s2 = to_mtx_offset s1 := to_mtx_offset_congr i5.1
    refine ⟨s2, ?_, ?_, ?_, ?_, ?_, ?_⟩
    · simp only [send_all, hsend, ne_eq, not_true_eq_false, if_false]
      exact i0
    · rw [i1, hcap1, c1, hmod]
      split
      · rw [Nat.add_assoc]
      · rename_i hge
        have e1 : s.MSVDX_COMMS_TO_MTX_WRT_INDEX + m.length - to_mtx_capacity s
            + ms.flatten.length = 0 := by omega
        have e3 : s.MSVDX_COMMS_TO_MTX_WRT_INDEX + (m.length + ms.flatten.length)
            = to_mtx_capacity s := by omega
        rw [e1, e3, Nat.mod_self, Nat.zero_mod]
    · rw [i2, c3]; omega
    · intro i hi
      by_cases him : i < m.length
      · rw [getD_append_left' _ _ _ him]
        have hk : s.MSVDX_COMMS_TO_MTX_WRT_INDEX + i < s1.MSVDX_COMMS_TO_MTX_WRT_INDEX
            ∨ s1.MSVDX_COMMS_TO_MTX_WRT_INDEX + ms.flatten.length
              ≤ s.MSVDX_COMMS_TO_MTX_WRT_INDEX + i := by
          rw [c1, hmod]; split <;> omega
        rw [i4 _ (by omega) hk]
        unfold ring_word
        rw [hoff1, c5 i him, Nat.zero_add, rd32_aligned]
      · have hw1 : s1.MSVDX_COMMS_TO_MTX_WRT_INDEX
            = s.MSVDX_COMMS_TO_MTX_WRT_INDEX + m.length := by
          rw [c1, hmod, if_pos (by omega)]
        have := i3 (i - m.length) (by omega)
        rw [hw1] at this
        have e : s.MSVDX_COMMS_TO_MTX_WRT_INDEX + m.length + (i - m.length)
            = s.MSVDX_COMMS_TO_MTX_WRT_INDEX + i := by omega
        rw [e] at this
        rw [this, List.getD_append_right _ _ _ _ (by omega)]
    · intro k hk hout
      have hk1 : k < s1.MSVDX_COMMS_TO_MTX_WRT_INDEX
          ∨ s1.MSVDX_COMMS_TO_MTX_WRT_INDEX + ms.flatten.length ≤ k := by
        rw [c1, hmod]; split <;> omega
      rw [i4 k hk hk1]
      unfold ring_word
      rw [hoff1, c6 k hk (by omega)]
    · exact ring_frame_trans (ring_frame_trans (by simp [ring_frame]) c4) i5

/-! ## The patch of a deblock message -/

theorem sub32_self (a : Nat) : sub32 a a = 0 := by
  unfold sub32 U32
  omega

/-- The patch of a deblock message standing on its own: the flags field, and
the message-type field. -/
theorem patch_deblock_fields (L : Layout) (s : Dev) (m : List Nat) (sequence id : Nat)
    (hfw : L.deblock_flags.word < m.length)
    (hf : L.deblock_flags.shift + L.deblock_flags.width ≤ 32)
    (htw : L.deblock_msg_type.word < m.length)
    (ht : L.deblock_msg_type.shift + L.deblock_msg_type.width ≤ 32) :
    (L.deblock_flags.disjoint L.deblock_msg_type → L.deblock_flags.disjoint L.deblock_msg_fence →
      L.deblock_flags.disjoint L.deblock_mmu_ptd →
      MEMIO_READ_FIELD (patch_deblock L s m 0 sequence id).2 0 L.deblock_flags
        = if s.msvdx_mmu_invaldc = 1 then
            (MEMIO_READ_FIELD m 0 L.deblock_flags ||| L.FW_DEVA_INVALIDATE_MMU)
              % 2 ^ L.deblock_flags.width
          else MEMIO_READ_FIELD m 0 L.deblock_flags) ∧
    (L.deblock_msg_type.disjoint L.deblock_msg_fence →
      L.deblock_msg_type.disjoint L.deblock_mmu_ptd →
      MEMIO_READ_FIELD (patch_deblock L s m 0 sequence id).2 0 L.deblock_msg_type
        = ((sub32 id L.VA_MSGID_DEBLOCK_MFLD + L.VA_MSGID_DEBLOCK) % U32)
            % 2 ^ L.deblock_msg_type.width) := by
  unfold patch_deblock cmpxchg_mmu_invaldc
  simp only
  constructor
  · intro d1 d2 d3
    rw [read_write_disjoint0 _ _ _ _ (Field.disjoint_symm d3) hf,
      read_write_disjoint0 _ _ _ _ (Field.disjoint_symm d2) hf,
      read_write_disjoint0 _ _ _ _ (Field.disjoint_symm d1) hf]
    split
    · rw [read_write_same0 _ _ _ hfw hf]
    · rfl
  · intro d1 d2
    rw [read_write_disjoint0 _ _ _ _ (Field.disjoint_symm d2) ht,
      read_write_disjoint0 _ _ _ _ (Field.disjoint_symm d1) ht,
      read_write_same0 _ _ _ (by split <;> first | exact htw | (rw [length_write_field]; exact htw)) ht]

theorem deblock_fields_ok (L : Layout) (hL : L.patch_ok) (m : List Nat) (hm : deblock_ok L m) :
    (L.deblock_flags.word < m.length ∧ L.deblock_flags.shift + L.deblock_flags.width ≤ 32) ∧
    (L.deblock_msg_type.word < m.length ∧
      L.deblock_msg_type.shift + L.deblock_msg_type.width ≤ 32) ∧
    (L.deblock_msg_fence.word < m.length ∧
      L.deblock_msg_fence.shift + L.deblock_msg_fence.width ≤ 32) ∧
    (L.deblock_mmu_ptd.word < m.length ∧
      L.deblock_mmu_ptd.shift + L.deblock_mmu_ptd.width ≤ 32) := by
  have h := hL.2.2.2.2.2.2.2.2
  unfold Layout.deblock_fields at h
  simp only [List.mem_cons, List.mem_singleton, List.not_mem_nil, or_false, forall_eq_or_imp,
    forall_eq] at h
  obtain ⟨⟨a1, a2, _⟩, ⟨b1, b2, _⟩, ⟨c1, c2, _⟩, ⟨d1, d2, _⟩⟩ := h
  have := hm.2.2
  exact ⟨⟨by omega, a2⟩, ⟨by omega, b2⟩, ⟨by omega, c2⟩, ⟨by omega, d2⟩⟩

theorem mod_mod_pow_U32 (x w : Nat) (hw : w ≤ 32) : (x % U32) % 2 ^ w = x % 2 ^ w := by
  have hd : 2 ^ w ∣ U32 := by
    have : U32 = 2 ^ 32 := by unfold U32; norm_num
    rw [this]
    exact Nat.pow_dvd_pow 2 hw
  exact Nat.mod_mod_of_dvd x hd

/-- The value written into the message-type field, reduced to the width of
the field, tells two ids of that width apart. -/
theorem deblock_type_injective (w a b c D : Nat) (hw : w ≤ 32) (ha : a < 2 ^ w)
    (hb : b < 2 ^ w) (hab : a ≠ b) :
    ((sub32 a c + D) % U32) % 2 ^ w ≠ ((sub32 b c + D) % U32) % 2 ^ w := by
  intro h
  have hc : c % U32 < U32 := Nat.mod_lt _ (by unfold U32; omega)
  have key : ∀ x, ((sub32 x c + D) % U32) % 2 ^ w = (x + (U32 - c % U32 + D)) % 2 ^ w := by
    intro x
    unfold sub32
    rw [mod_mod_pow_U32 _ _ hw, Nat.add_mod, mod_mod_pow_U32 _ _ hw, ← Nat.add_mod]
    congr 1
    omega
  rw [key a, key b] at h
  have h2 : a ≡ b [MOD 2 ^ w] := Nat.ModEq.add_right_cancel' _ h
  unfold Nat.ModEq at h2
  rw [Nat.mod_eq_of_lt ha, Nat.mod_eq_of_lt hb] at h2
  exact hab h2

/-- C12: for a deblock-family sub-message `m` of the correct size that stands
in a command buffer behind supported sub-messages `pre_msgs` (message-type
field disjoint from the fields written after it), `psb_msvdx_map_command`
returns, and in the buffer it leaves the message-type field of `m` holds
`id - VA_MSGID_DEBLOCK_MFLD + VA_MSGID_DEBLOCK` (as a 32-bit value, cut to the
width of the field), where `id` is the id `m` was submitted with. For
`VA_MSGID_DEBLOCK_MFLD` that is `VA_MSGID_DEBLOCK`; for `VA_MSGID_OOLD_MFLD`
it is the id at the same distance from `VA_MSGID_DEBLOCK`, which differs from
`VA_MSGID_DEBLOCK` whenever the two submitted ids differ and the ids fit the
field. -/
theorem C12_deblock_type_is_shifted_id (L : Layout) (hL : L.patch_ok)
    (hdis : L.msg_type_apart)
    (F : Nat) (s : Dev) (pre_msgs : List (List Nat)) (m post : List Nat)
    (cmd_offset cmd_size : Nat) (alloc_ok : Bool) (sequence : Nat) (copy_cmd : Bool)
    (hpre : ∀ x ∈ pre_msgs, submsg_ok L x) (hm : deblock_ok L m)
    (hin : 4 * (pre_msgs.flatten.length + m.length) ≤ cmd_size)
    (hpage : cmd_size ≤ PAGE_SIZE ∧ cmd_size + cmd_offset % PAGE_SIZE ≤ PAGE_SIZE)
    (hr : s.MSVDX_COMMS_TO_MTX_RD_INDEX < to_mtx_capacity s)
    (hw : s.MSVDX_COMMS_TO_MTX_WRT_INDEX < to_mtx_capacity s)
    (hF : cmd_size < F + 2) :
    ∃ r, psb_msvdx_map_command L (F + 2) s (pre_msgs.flatten ++ (m ++ post)) cmd_offset
        cmd_size 0 alloc_ok sequence copy_cmd = some r ∧
      MEMIO_READ_FIELD r.mem (4 * pre_msgs.flatten.length) L.deblock_msg_type
        = ((sub32 (MEMIO_READ_FIELD m 0 L.FWRK_GENMSG_ID) L.VA_MSGID_DEBLOCK_MFLD
              + L.VA_MSGID_DEBLOCK) % U32) % 2 ^ L.deblock_msg_type.width ∧
      (MEMIO_READ_FIELD m 0 L.FWRK_GENMSG_ID = L.VA_MSGID_DEBLOCK_MFLD →
        L.VA_MSGID_DEBLOCK < 2 ^ L.deblock_msg_type.width →
        MEMIO_READ_FIELD r.mem (4 * pre_msgs.flatten.length) L.deblock_msg_type
          = L.VA_MSGID_DEBLOCK) ∧
      (MEMIO_READ_FIELD m 0 L.FWRK_GENMSG_ID = L.VA_MSGID_OOLD_MFLD →
        L.VA_MSGID_OOLD_MFLD ≠ L.VA_MSGID_DEBLOCK_MFLD →
        L.VA_MSGID_OOLD_MFLD < 2 ^ L.deblock_msg_type.width →
        L.VA_MSGID_DEBLOCK_MFLD < 2 ^ L.deblock_msg_type.width →
        L.VA_MSGID_DEBLOCK < 2 ^ L.deblock_msg_type.width →
        MEMIO_READ_FIELD r.mem (4 * pre_msgs.flatten.length) L.deblock_msg_type
          ≠ L.VA_MSGID_DEBLOCK) := by
  obtain ⟨r, hres, hmem⟩ := map_command_total L hL F s (pre_msgs.flatten ++ (m ++ post))
    cmd_offset cmd_size 0 alloc_ok sequence copy_cmd hr hw hF
  obtain ⟨⟨s1, mem1, ex⟩, hloop⟩ := map_command_loop_total L hL sequence (F + 2)
    { s with trace := s.trace ++ [Event.kmap] } (pre_msgs.flatten ++ (m ++ post)) 0 cmd_size hF
  have hrm := hmem s1 mem1 ex hloop hpage rfl
  have hplace := loop_patches_in_place L hL sequence (F + 2) _ pre_msgs m post cmd_size hpre
    (Or.inr hm) hin hF s1 mem1 ex hloop
  obtain ⟨⟨f1, f2⟩, ⟨t1, t2⟩, _, _⟩ := deblock_fields_ok L hL m hm
  have hne : MEMIO_READ_FIELD m 0 L.FWRK_GENMSG_ID ≠ L.VA_MSGID_RENDER := by
    rcases hm.2.1 with h | h
    · rw [h]; exact Ne.symm hL.2.2.2.2.2.1
    · rw [h]; exact Ne.symm hL.2.2.2.2.2.2.1
  have hpm : patch_msg L sequence
      (patch_all L sequence { s with trace := s.trace ++ [Event.kmap] } pre_msgs).1 m
      = patch_deblock L
          (patch_all L sequence { s with trace := s.trace ++ [Event.kmap] } pre_msgs).1 m 0
          sequence (MEMIO_READ_FIELD m 0 L.FWRK_GENMSG_ID) := by
    unfold patch_msg; rw [if_neg hne]
  have hty := (patch_deblock_fields L
    (patch_all L sequence { s with trace := s.trace ++ [Event.kmap] } pre_msgs).1 m sequence
    (MEMIO_READ_FIELD m 0 L.FWRK_GENMSG_ID) f1 f2 t1 t2).2 hdis.1 hdis.2
  have hval : MEMIO_READ_FIELD r.mem (4 * pre_msgs.flatten.length) L.deblock_msg_type
      = ((sub32 (MEMIO_READ_FIELD m 0 L.FWRK_GENMSG_ID) L.VA_MSGID_DEBLOCK_MFLD
            + L.VA_MSGID_DEBLOCK) % U32) % 2 ^ L.deblock_msg_type.width := by
    rw [hrm, hplace _ t1, hpm, hty]
  have hself : ∀ D, D < 2 ^ L.deblock_msg_type.width →
      ((sub32 L.VA_MSGID_DEBLOCK_MFLD L.VA_MSGID_DEBLOCK_MFLD + D) % U32)
        % 2 ^ L.deblock_msg_type.width = D := by
    intro D hD
    rw [sub32_self, Nat.zero_add, mod_mod_pow_U32 _ _ (by omega), Nat.mod_eq_of_lt hD]
  refine ⟨r, hres, hval, ?_, ?_⟩
  · intro hid hD
    rw [hval, hid, hself _ hD]
  · intro hid hdiff ho hd hD heq
    rw [hval, hid] at heq
    have := deblock_type_injective L.deblock_msg_type.width L.VA_MSGID_OOLD_MFLD
      L.VA_MSGID_DEBLOCK_MFLD L.VA_MSGID_DEBLOCK_MFLD L.VA_MSGID_DEBLOCK (by omega) ho hd hdiff
    rw [hself _ hD] at this
    exact this heq

/-- Witness of C12: a message with the id `VA_MSGID_DEBLOCK_MFLD` behind a
render message, on the sample device. -/
theorem C12_deblock_type_is_shifted_id_witness :
    ∃ r, psb_msvdx_map_command sampleLayout (63 + 2) idleDev
        ([sampleRender].flatten ++ (sampleDeblock ++ sampleUnsupported)) 0 64 0 true 5 false
        = some r ∧
      MEMIO_READ_FIELD r.mem (4 * [sampleRender].flatten.length) sampleLayout.deblock_msg_type
        = ((sub32 (MEMIO_READ_FIELD sampleDeblock 0 sampleLayout.FWRK_GENMSG_ID)
              sampleLayout.VA_MSGID_DEBLOCK_MFLD
              + sampleLayout.VA_MSGID_DEBLOCK) % U32) % 2 ^ sampleLayout.deblock_msg_type.width ∧
      (MEMIO_READ_FIELD sampleDeblock 0 sampleLayout.FWRK_GENMSG_ID
          = sampleLayout.VA_MSGID_DEBLOCK_MFLD →
        sampleLayout.VA_MSGID_DEBLOCK < 2 ^ sampleLayout.deblock_msg_type.width →
        MEMIO_READ_FIELD r.mem (4 * [sampleRender].flatten.length) sampleLayout.deblock_msg_type
          = sampleLayout.VA_MSGID_DEBLOCK) ∧
      (MEMIO_READ_FIELD sampleDeblock 0 sampleLayout.FWRK_GENMSG_ID
          = sampleLayout.VA_MSGID_OOLD_MFLD →
        sampleLayout.VA_MSGID_OOLD_MFLD ≠ sampleLayout.VA_MSGID_DEBLOCK_MFLD →
        sampleLayout.VA_MSGID_OOLD_MFLD < 2 ^ sampleLayout.deblock_msg_type.width →
        sampleLayout.VA_MSGID_DEBLOCK_MFLD < 2 ^ sampleLayout.deblock_msg_type.width →
        sampleLayout.VA_MSGID_DEBLOCK < 2 ^ sampleLayout.deblock_msg_type.width →
        MEMIO_READ_FIELD r.mem (4 * [sampleRender].flatten.length) sampleLayout.deblock_msg_type
          ≠ sampleLayout.VA_MSGID_DEBLOCK) :=
  C12_deblock_type_is_shifted_id sampleLayout (by decide) (by decide) 63 idleDev [sampleRender]
    sampleDeblock sampleUnsupported 0 64 true 5 false (by decide) (by decide) (by decide)
    (by decide) (by decide) (by decide) (by decide)

/-- Counterexample to C12 as stated: the sub-message `sampleOold` has the id
`VA_MSGID_OOLD_MFLD` and the correct size, the buffer that consists of it is
accepted (`psb_msvdx_map_command` returns 0), and its message-type field then
holds 132, which is not `VA_MSGID_DEBLOCK` (131). -/
theorem C12_oold_is_not_rewritten_to_deblock :
    deblock_ok sampleLayout sampleOold ∧
    MEMIO_READ_FIELD sampleOold 0 sampleLayout.FWRK_GENMSG_ID = sampleLayout.VA_MSGID_OOLD_MFLD ∧
    (psb_msvdx_map_command sampleLayout 6 idleDev sampleOold 0 16 0 true 5 false).map
        (fun r => (r.ret, MEMIO_READ_FIELD r.mem 0 sampleLayout.deblock_msg_type))
      = some (0, 132) ∧
    sampleLayout.VA_MSGID_DEBLOCK = 131 := by
  refine ⟨by decide, by decide, by decide, rfl⟩

/-! ## The MMU-invalidate flag -/

theorem lor_land_left (a b : Nat) : (a ||| b) &&& a = a := by
  apply Nat.eq_of_testBit_eq
  intro i
  simp only [Nat.testBit_and, Nat.testBit_or]
  cases a.testBit i <;> cases b.testBit i <;> rfl

theorem read_field_lt (m : List Nat) (off : Nat) (f : Field) :
    MEMIO_READ_FIELD m off f < 2 ^ f.width := by
  unfold MEMIO_READ_FIELD getBits
  exact Nat.mod_lt _ (Nat.two_pow_pos _)

theorem lor_mod_ne (x b w : Nat) (hx : x < 2 ^ w) (hb : b < 2 ^ w) (hb0 : b ≠ 0)
    (hc : x &&& b = 0) : (x ||| b) % 2 ^ w ≠ x := by
  intro h
  rw [Nat.mod_eq_of_lt (Nat.or_lt_two_pow hx hb)] at h
  have h1 : (b ||| x) &&& b = b := lor_land_left b x
  rw [Nat.lor_comm, h, hc] at h1
  exact hb0 h1.symm

theorem lor_one_mod_ne (pd w : Nat) (hw : 0 < w) (hpd : pd % 2 = 0) :
    (pd ||| 1) % 2 ^ w ≠ pd % 2 ^ w := by
  intro h
  have hd : 2 ∣ 2 ^ w := dvd_pow_self 2 (by omega)
  have h1 : ((pd ||| 1) % 2 ^ w) % 2 = (pd % 2 ^ w) % 2 := by rw [h]
  rw [Nat.mod_mod_of_dvd _ hd, Nat.mod_mod_of_dvd _ hd, Nat.or_mod_two_eq_one.mpr (Or.inr rfl),
    hpd] at h1
  exact absurd h1 (by decide)

/-- On a sub-message that does not carry the MMU-invalidate bit yet, getting
the bit ORed in and getting nothing ORed in exclude each other. -/
theorem invalidate_exclusive (L : Layout) (hi : L.invalidate_ok) (pd : Nat) (m m' : List Nat)
    (hc : invalidate_clear L pd m) (ho : invalidate_ored L pd m m') :
    ¬ invalidate_absent L pd m m' := by
  obtain ⟨i0, i1, i2, i3⟩ := hi
  unfold invalidate_clear at hc
  unfold invalidate_ored at ho
  unfold invalidate_absent
  split at hc
  · rename_i hid
    rw [if_pos hid] at ho ⊢
    split at hc
    · rename_i hu
      rw [if_pos hu] at ho ⊢
      rw [ho]
      exact lor_mod_ne _ _ _ (read_field_lt _ _ _) i1 i0 hc
    · rename_i hu
      rw [if_neg hu] at ho ⊢
      rw [ho]
      exact lor_one_mod_ne _ _ i3 hc
  · rename_i hid
    rw [if_neg hid] at ho ⊢
    rw [ho]
    exact lor_mod_ne _ _ _ (read_field_lt _ _ _) i2 i0 hc

/-- What patching one sub-message does to the MMU-invalidate flag: a pending
flag (value 1) is consumed, any other value stays; the page-directory address
is not touched. -/
theorem patch_msg_flag (L : Layout) (sequence : Nat) (s : Dev) (m : List Nat) :
    (patch_msg L sequence s m).1.msvdx_mmu_invaldc
      = (if s.msvdx_mmu_invaldc = 1 then 0 else s.msvdx_mmu_invaldc) ∧
    (patch_msg L sequence s m).1.default_pd_addr = s.default_pd_addr := by
  unfold patch_msg patch_render patch_deblock cmpxchg_mmu_invaldc
  by_cases hp : s.msvdx_mmu_invaldc = 1 <;> by_cases hu : L.mdfld_fw_updated = true <;>
    by_cases hr : MEMIO_READ_FIELD m 0 L.FWRK_GENMSG_ID = L.VA_MSGID_RENDER <;>
    simp [hp, hu, hr]

/-- The flags field of a render message patched for the updated firmware. -/
theorem patch_render_updated_flags (L : Layout) (hupd : L.mdfld_fw_updated = true) (s : Dev)
    (m : List Nat) (sequence : Nat)
    (hfw : L.FW_DEVA_DECODE_FLAGS.word < m.length)
    (hf : L.FW_DEVA_DECODE_FLAGS.shift + L.FW_DEVA_DECODE_FLAGS.width ≤ 32)
    (d1 : L.FW_DEVA_DECODE_FLAGS.disjoint L.FW_VA_DECODE_MSG_ID)
    (d2 : L.FW_DEVA_DECODE_FLAGS.disjoint L.FW_VA_DECODE_MMUPTD) :
    MEMIO_READ_FIELD (patch_render L s m 0 sequence).2 0 L.FW_DEVA_DECODE_FLAGS
      = if s.msvdx_mmu_invaldc = 1 then
          (MEMIO_READ_FIELD m 0 L.FW_DEVA_DECODE_FLAGS ||| L.FW_DEVA_INVALIDATE_MMU)
            % 2 ^ L.FW_DEVA_DECODE_FLAGS.width
        else MEMIO_READ_FIELD m 0 L.FW_DEVA_DECODE_FLAGS := by
  unfold patch_render cmpxchg_mmu_invaldc
  simp only [hupd, if_true, not_true_eq_false, if_false]
  rw [read_write_disjoint0 _ _ _ _ (Field.disjoint_symm d2) hf]
  by_cases hp : s.msvdx_mmu_invaldc = 1
  · simp only [hp, if_true]
    rw [read_write_same0 _ _ _ (by rw [length_write_field]; exact hfw) hf,
      read_write_disjoint0 _ _ _ _ (Field.disjoint_symm d1) hf]
  · simp only [hp, if_false]
    rw [read_write_disjoint0 _ _ _ _ (Field.disjoint_symm d1) hf]

/-- The page-table-directory field of a render message patched for the
legacy firmware. -/
theorem patch_render_legacy_ptd (L : Layout) (hleg : L.mdfld_fw_updated = false) (s : Dev)
    (m : List Nat) (sequence : Nat)
    (hp1 : L.FW_VA_RENDER_MMUPTD.word < m.length)
    (hp2 : L.FW_VA_RENDER_MMUPTD.shift + L.FW_VA_RENDER_MMUPTD.width ≤ 32) :
    MEMIO_READ_FIELD (patch_render L s m 0 sequence).2 0 L.FW_VA_RENDER_MMUPTD
      = (if s.msvdx_mmu_invaldc = 1 then s.default_pd_addr ||| 1 else s.default_pd_addr)
          % 2 ^ L.FW_VA_RENDER_MMUPTD.width := by
  have key : (patch_render L s m 0 sequence).2
      = MEMIO_WRITE_FIELD (MEMIO_WRITE_FIELD m 0 L.FW_VA_RENDER_FENCE_VALUE sequence) 0
          L.FW_VA_RENDER_MMUPTD
          (if s.msvdx_mmu_invaldc = 1 then s.default_pd_addr ||| 1 else s.default_pd_addr) := by
    unfold patch_render cmpxchg_mmu_invaldc
    simp only [hleg, Bool.false_eq_true, if_false, not_false_eq_true, if_true]
    split <;> rfl
  rw [key, read_write_same0 _ _ _ (by rw [length_write_field]; exact hp1) hp2]

/-- Whether the patch of one supported sub-message ORs the MMU-invalidate bit
in is decided by the flag alone. -/
theorem patch_msg_invalidate (L : Layout) (hL : L.patch_ok) (hfa : L.flags_apart)
    (sequence : Nat) (s : Dev) (m : List Nat) (hm : submsg_ok L m) :
    (s.msvdx_mmu_invaldc = 1 →
      invalidate_ored L s.default_pd_addr m (patch_msg L sequence s m).2) ∧
    (s.msvdx_mmu_invaldc ≠ 1 →
      invalidate_absent L s.default_pd_addr m (patch_msg L sequence s m).2) := by
  obtain ⟨a1, a2, a3, a4, a5⟩ := hfa
  rcases hm with hm | hm
  · have hid := hm.2.1
    have hlen := hm.2.2
    have hrf := hL.2.2.2.2.2.2.2.1
    unfold Layout.render_fields at hrf
    unfold patch_msg invalidate_ored invalidate_absent
    rw [if_pos hid, if_pos hid, if_pos hid]
    by_cases hu : L.mdfld_fw_updated = true
    · rw [hu] at hrf
      simp only [if_true, List.mem_cons, List.mem_singleton, List.not_mem_nil, or_false,
        forall_eq_or_imp, forall_eq] at hrf
      obtain ⟨_, ⟨f1, f2, _⟩, _⟩ := hrf
      have := patch_render_updated_flags L hu s m sequence (by omega) f2 a1 a2
      rw [if_pos hu, if_pos hu, this]
      exact ⟨fun hp => by rw [if_pos hp], fun hp => by rw [if_neg hp]⟩
    · have hleg : L.mdfld_fw_updated = false := by simpa using hu
      rw [hleg] at hrf
      simp only [Bool.false_eq_true, if_false, List.mem_cons, List.mem_singleton,
        List.not_mem_nil, or_false, forall_eq_or_imp, forall_eq] at hrf
      obtain ⟨_, ⟨p1, p2, _⟩⟩ := hrf
      have := patch_render_legacy_ptd L hleg s m sequence (by omega) p2
      rw [if_neg hu, if_neg hu, this]
      exact ⟨fun hp => by rw [if_pos hp], fun hp => by rw [if_neg hp]⟩
  · have hne : MEMIO_READ_FIELD m 0 L.FWRK_GENMSG_ID ≠ L.VA_MSGID_RENDER := by
      rcases hm.2.1 with h | h
      · rw [h]; exact Ne.symm hL.2.2.2.2.2.1
      · rw [h]; exact Ne.symm hL.2.2.2.2.2.2.1
    obtain ⟨⟨f1, f2⟩, ⟨t1, t2⟩, _, _⟩ := deblock_fields_ok L hL m hm
    have := (patch_deblock_fields L s m sequence (MEMIO_READ_FIELD m 0 L.FWRK_GENMSG_ID)
      f1 f2 t1 t2).1 a3 a4 a5
    unfold patch_msg invalidate_ored invalidate_absent
    rw [if_neg hne, if_neg hne, if_neg hne, this]
    exact ⟨fun hp => by rw [if_pos hp], fun hp => by rw [if_neg hp]⟩

/-- With no MMU invalidate pending, no sub-message of a buffer gets the bit
and the flag is left as it is. -/
theorem patch_all_not_pending (L : Layout) (hL : L.patch_ok) (hfa : L.flags_apart)
    (sequence : Nat) :
    ∀ (msgs : List (List Nat)) (s : Dev), s.msvdx_mmu_invaldc ≠ 1 →
      (∀ m ∈ msgs, submsg_ok L m) →
      List.Forall₂ (fun m m' => m'.length = m.length ∧
          invalidate_absent L s.default_pd_addr m m') msgs (patch_all L sequence s msgs).2 ∧
      (patch_all L sequence s msgs).1.msvdx_mmu_invaldc = s.msvdx_mmu_invaldc := by
  intro msgs
  induction msgs with
  | nil => intro s _ _; exact ⟨List.Forall₂.nil, rfl⟩
  | cons m ms ih =>
    intro s hp h
    have hm := h m (List.mem_cons_self _ _)
    obtain ⟨hflag, hpd⟩ := patch_msg_flag L sequence s m
    rw [if_neg hp] at hflag
    obtain ⟨i1, i2⟩ := ih (patch_msg L sequence s m).1 (by rw [hflag]; exact hp)
      (fun x hx => h x (List.mem_cons_of_mem _ hx))
    rw [hpd] at i1
    simp only [patch_all]
    exact ⟨List.Forall₂.cons ⟨(patch_msg_local L hL sequence s m hm).1,
      (patch_msg_invalidate L hL hfa sequence s m hm).2 hp⟩ i1, by rw [i2, hflag]⟩

/-- With the ring indices below the capacity, the sends of `send_all`
return. -/
theorem send_all_total (L : Layout) (hL : L.header_ok) (F : Nat) :
    ∀ (msgs : List (List Nat)) (s : Dev),
      s.MSVDX_COMMS_TO_MTX_RD_INDEX < to_mtx_capacity s →
      s.MSVDX_COMMS_TO_MTX_WRT_INDEX < to_mtx_capacity s →
      ∃ res, send_all L (F + 2) s msgs = some res := by
  intro msgs
  induction msgs with
  | nil => intro s _ _; exact ⟨_, rfl⟩
  | cons m ms ih =>
    intro s hr hw
    obtain ⟨s1, ret, hsend⟩ := psb_mtx_send_total L hL F s m 0 hw
    obtain ⟨hf, hw1, _⟩ := psb_mtx_send_post L _ s m 0 s1 ret hr hw hsend
    have hc1 : to_mtx_capacity s1 = to_mtx_capacity s := to_mtx_capacity_congr hf.1
    simp only [send_all, hsend]
    by_cases hret : ret ≠ 0
    · rw [if_pos hret]; exact ⟨_, rfl⟩
    · rw [if_neg hret]
      exact ih s1 (by rw [hc1, hf.2.1]; exact hr) (by rw [hc1]; exact hw1)

/-- Function `psb_msvdx_map_command` on a well-formed buffer, in either mode:
it returns, the buffer holds the patched sub-messages, and the
MMU-invalidate flag is as the patches left it. -/
theorem map_command_wellformed (L : Layout) (hL : L.patch_ok) (F : Nat) (s : Dev)
    (msgs : List (List Nat)) (cmd_offset sequence : Nat) (alloc_ok copy_cmd : Bool)
    (hmsgs : ∀ m ∈ msgs, submsg_ok L m)
    (hpage : 4 * msgs.flatten.length ≤ PAGE_SIZE ∧
      4 * msgs.flatten.length + cmd_offset % PAGE_SIZE ≤ PAGE_SIZE)
    (hr : s.MSVDX_COMMS_TO_MTX_RD_INDEX < to_mtx_capacity s)
    (hw : s.MSVDX_COMMS_TO_MTX_WRT_INDEX < to_mtx_capacity s)
    (hF : msgs.length < F + 2) :
    ∃ r, psb_msvdx_map_command L (F + 2) s msgs.flatten cmd_offset (4 * msgs.flatten.length) 0
        alloc_ok sequence copy_cmd = some r ∧
      r.mem = (patch_all L sequence { s with trace := s.trace ++ [Event.kmap] } msgs).2.flatten ∧
      r.dev.msvdx_mmu_invaldc
        = (patch_all L sequence { s with trace := s.trace ++ [Event.kmap] }
            msgs).1.msvdx_mmu_invaldc := by
  cases copy_cmd
  · rw [map_command_send_wellformed L hL (F + 2) s msgs cmd_offset sequence alloc_ok hmsgs
      hpage hF]
    obtain ⟨a, t, hfr⟩ := patch_all_frame L sequence msgs
      { s with trace := s.trace ++ [Event.kmap] }
    obtain ⟨⟨s2, ret⟩, hsend⟩ := send_all_total L hL.1 F
      (patch_all L sequence { s with trace := s.trace ++ [Event.kmap] } msgs).2
      (patch_all L sequence { s with trace := s.trace ++ [Event.kmap] } msgs).1
      (by rw [hfr]; exact hr) (by rw [hfr]; exact hw)
    have hsf := send_all_frame L _ _ _ _ _ hsend
    rw [hsend]
    exact ⟨_, rfl, rfl, hsf.2.2.2.2.2.2.2.2.2.2.2.2.1⟩
  · unfold psb_msvdx_map_command
    simp only
    rw [if_neg (by omega), if_neg (by simp), loop_on_wellformed L hL sequence msgs _ _ hmsgs hF]
    simp only [if_true]
    split <;> exact ⟨_, rfl, rfl, rfl⟩

/-- C11: a command buffer that consists of the supported sub-messages
`m0 :: rest` of the correct sizes (so that validation accepts it; flags fields
disjoint from the fields written after them). `psb_msvdx_map_command` returns
and leaves the buffer as the patched sub-messages `p0 :: ps`, of the same
lengths. If the MMU-invalidate flag is 1 on entry, the first sub-message gets
the MMU-invalidate bit ORed in, none of the others does, and the flag is 0
afterwards. If the flag is 0 on entry, no sub-message gets the bit and the
flag is still 0. On a sub-message that does not carry the bit when it is
submitted, getting the bit and getting nothing exclude each other, so that
the bit goes to exactly one sub-message. -/
theorem C11_invalidate_goes_to_first_submessage (L : Layout) (hL : L.patch_ok)
    (hfa : L.flags_apart) (F : Nat) (s : Dev) (m0 : List Nat) (rest : List (List Nat))
    (cmd_offset sequence : Nat) (alloc_ok copy_cmd : Bool)
    (hmsgs : ∀ m ∈ m0 :: rest, submsg_ok L m)
    (hpage : 4 * (m0 :: rest).flatten.length ≤ PAGE_SIZE ∧
      4 * (m0 :: rest).flatten.length + cmd_offset % PAGE_SIZE ≤ PAGE_SIZE)
    (hr : s.MSVDX_COMMS_TO_MTX_RD_INDEX < to_mtx_capacity s)
    (hw : s.MSVDX_COMMS_TO_MTX_WRT_INDEX < to_mtx_capacity s)
    (hF : (m0 :: rest).length < F + 2) :
    ∃ r p0 ps, psb_msvdx_map_command L (F + 2) s (m0 :: rest).flatten cmd_offset
        (4 * (m0 :: rest).flatten.length) 0 alloc_ok sequence copy_cmd = some r ∧
      r.mem = (p0 :: ps).flatten ∧ p0.length = m0.length ∧
      (s.msvdx_mmu_invaldc = 1 →
        invalidate_ored L s.default_pd_addr m0 p0 ∧
        List.Forall₂ (fun m m' => m'.length = m.length ∧
          invalidate_absent L s.default_pd_addr m m') rest ps ∧
        r.dev.msvdx_mmu_invaldc = 0) ∧
      (s.msvdx_mmu_invaldc = 0 →
        invalidate_absent L s.default_pd_addr m0 p0 ∧
        List.Forall₂ (fun m m' => m'.length = m.length ∧
          invalidate_absent L s.default_pd_addr m m') rest ps ∧
        r.dev.msvdx_mmu_invaldc = 0) ∧
      (L.invalidate_ok → ∀ m m', invalidate_clear L s.default_pd_addr m →
        invalidate_ored L s.default_pd_addr m m' →
        ¬ invalidate_absent L s.default_pd_addr m m') := by
  obtain ⟨r, hres, hmem, hflag⟩ := map_command_wellformed L hL F s (m0 :: rest) cmd_offset
    sequence alloc_ok copy_cmd hmsgs hpage hr hw hF
  have hm0 := hmsgs m0 (List.mem_cons_self _ _)
  have hrest : ∀ m ∈ rest, submsg_ok L m := fun x hx => hmsgs x (List.mem_cons_of_mem _ hx)
  simp only [patch_all] at hmem hflag
  obtain ⟨hf0, hpd0⟩ := patch_msg_flag L sequence { s with trace := s.trace ++ [Event.kmap] } m0
  have hinv := patch_msg_invalidate L hL hfa sequence
    { s with trace := s.trace ++ [Event.kmap] } m0 hm0
  have hl0 := (patch_msg_local L hL sequence { s with trace := s.trace ++ [Event.kmap] } m0
    hm0).1
  simp only at hf0 hpd0 hinv
  refine ⟨r, _, _, hres, hmem, hl0, ?_, ?_,
    fun hi m m' hc ho => invalidate_exclusive L hi _ m m' hc ho⟩
  · intro hp
    rw [if_pos hp] at hf0
    obtain ⟨i1, i2⟩ := patch_all_not_pending L hL hfa sequence rest
      (patch_msg L sequence { s with trace := s.trace ++ [Event.kmap] } m0).1
      (by rw [hf0]; decide) hrest
    rw [hpd0] at i1
    exact ⟨hinv.1 hp, i1, by rw [hflag, i2, hf0]⟩
  · intro hp
    have hp1 : s.msvdx_mmu_invaldc ≠ 1 := by omega
    rw [if_neg hp1] at hf0
    obtain ⟨i1, i2⟩ := patch_all_not_pending L hL hfa sequence rest
      (patch_msg L sequence { s with trace := s.trace ++ [Event.kmap] } m0).1
      (by rw [hf0]; exact hp1) hrest
    rw [hpd0] at i1
    exact ⟨hinv.2 hp1, i1, by rw [hflag, i2, hf0, hp]⟩

/-- Witness of C11: a deblock, a render and a deblock message submitted to
the sample device, whose MMU-invalidate flag is 1. -/
theorem C11_invalidate_goes_to_first_submessage_witness :
    ∃ r p0 ps, psb_msvdx_map_command sampleLayout (2 + 2) idleDev
        (sampleDeblock :: [sampleRender, sampleDeblock]).flatten 0
        (4 * (sampleDeblock :: [sampleRender, sampleDeblock]).flatten.length) 0 true 5 false
        = some r ∧
      r.mem = (p0 :: ps).flatten ∧ p0.length = sampleDeblock.length ∧
      (idleDev.msvdx_mmu_invaldc = 1 →
        invalidate_ored sampleLayout idleDev.default_pd_addr sampleDeblock p0 ∧
        List.Forall₂ (fun m m' => m'.length = m.length ∧
          invalidate_absent sampleLayout idleDev.default_pd_addr m m')
          [sampleRender, sampleDeblock] ps ∧
        r.dev.msvdx_mmu_invaldc = 0) ∧
      (idleDev.msvdx_mmu_invaldc = 0 →
        invalidate_absent sampleLayout idleDev.default_pd_addr sampleDeblock p0 ∧
        List.Forall₂ (fun m m' => m'.length = m.length ∧
          invalidate_absent sampleLayout idleDev.default_pd_addr m m')
          [sampleRender, sampleDeblock] ps ∧
        r.dev.msvdx_mmu_invaldc = 0) ∧
      (sampleLayout.invalidate_ok → ∀ m m',
        invalidate_clear sampleLayout idleDev.default_pd_addr m →
        invalidate_ored sampleLayout idleDev.default_pd_addr m m' →
        ¬ invalidate_absent sampleLayout idleDev.default_pd_addr m m') :=
  C11_invalidate_goes_to_first_submessage sampleLayout (by decide) (by decide) 2 idleDev
    sampleDeblock [sampleRender, sampleDeblock] 0 5 true false (by decide) (by decide)
    (by decide) (by decide) (by decide)

/-! ## The command queue -/

theorem psb_msvdx_send_frame (L : Layout) (F : Nat) :
    ∀ (fuel : Nat) (s : Dev) (mem : List Nat) (off n : Nat) (s' : Dev) (r : Int),
      psb_msvdx_send L F fuel s mem off n = some (s', r) → ring_frame s s' := by
  intro fuel
  induction fuel with
  | zero => intro s mem off n s' r h; simp [psb_msvdx_send] at h
  | succ fuel ih =>
    intro s mem off n s' r h
    rw [psb_msvdx_send] at h
    simp only at h
    split at h
    · split at h
      · simp only [Option.some.injEq, Prod.mk.injEq] at h
        rw [← h.1]; exact ring_frame_refl s
      · cases hs : psb_mtx_send L F s mem off with
        | none => rw [hs] at h; simp at h
        | some p =>
          obtain ⟨s1, ret⟩ := p
          rw [hs] at h
          simp only at h
          have hf := psb_mtx_send_frame L F s mem off s1 ret hs
          split at h
          · simp only [Option.some.injEq, Prod.mk.injEq] at h
            rw [← h.1]; exact hf
          · exact ring_frame_trans hf (ih _ _ _ _ _ _ h)
    · simp only [Option.some.injEq, Prod.mk.injEq] at h
      rw [← h.1]; exact ring_frame_refl s

/-- The sends of `send_all` keep the ring indices below the capacity. -/
theorem send_all_post (L : Layout) (F : Nat) :
    ∀ (msgs : List (List Nat)) (s s' : Dev) (r : Int),
      s.MSVDX_COMMS_TO_MTX_RD_INDEX < to_mtx_capacity s →
      s.MSVDX_COMMS_TO_MTX_WRT_INDEX < to_mtx_capacity s →
      send_all L F s msgs = some (s', r) →
      ring_frame s s' ∧ s'.MSVDX_COMMS_TO_MTX_WRT_INDEX < to_mtx_capacity s := by
  intro msgs
  induction msgs with
  | nil =>
    intro s s' r _ hw h
    simp only [send_all, Option.some.injEq, Prod.mk.injEq] at h
    rw [← h.1]; exact ⟨ring_frame_refl s, hw⟩
  | cons m ms ih =>
    intro s s' r hr hw h
    simp only [send_all] at h
    cases hs : psb_mtx_send L F s m 0 with
    | none => rw [hs] at h; simp at h
    | some p =>
      obtain ⟨s1, ret⟩ := p
      rw [hs] at h
      simp only at h
      obtain ⟨hf, hw1, _⟩ := psb_mtx_send_post L _ s m 0 s1 ret hr hw hs
      have hc1 : to_mtx_capacity s1 = to_mtx_capacity s := to_mtx_capacity_congr hf.1
      split at h
      · simp only [Option.some.injEq, Prod.mk.injEq] at h
        rw [← h.1]; exact ⟨hf, hw1⟩
      · obtain ⟨g1, g2⟩ := ih s1 s' r (by rw [hc1, hf.2.1]; exact hr) (by rw [hc1]; exact hw1) h
        exact ⟨ring_frame_trans hf g1, by rw [← hc1]; exact g2⟩

/-- Function `psb_msvdx_dequeue_send` on an empty queue. -/
theorem dequeue_send_empty (L : Layout) (F : Nat) (s : Dev) (h : s.msvdx_queue = []) :
    psb_msvdx_dequeue_send L F s = some ({ s with msvdx_busy := 0 }, -EINVAL) := by
  unfold psb_msvdx_dequeue_send
  rw [h]

/-- Function `psb_msvdx_dequeue_send` on a queue whose head holds a validated
command buffer: the call returns, the head is gone from the queue, its
sub-messages `msgs` were handed to `psb_mtx_send` in order, and nothing but
the ring has changed. -/
theorem dequeue_send_head (L : Layout) (hL : L.header_ok) (F : Nat) (s : Dev)
    (e : CmdQueueEntry) (rest : List CmdQueueEntry) (msgs : List (List Nat))
    (hq : s.msvdx_queue = e :: rest)
    (hsz : ∀ m ∈ msgs, MEMIO_READ_FIELD m 0 L.FWRK_GENMSG_SIZE = 4 * m.length ∧ 0 < m.length)
    (hcmd : e.cmd = msgs.flatten) (hsize : e.cmd_size = 4 * msgs.flatten.length)
    (hF : msgs.length < F + 2)
    (hr : s.MSVDX_COMMS_TO_MTX_RD_INDEX < to_mtx_capacity s)
    (hw : s.MSVDX_COMMS_TO_MTX_WRT_INDEX < to_mtx_capacity s) :
    ∃ s2 ret, send_all L (F + 2) { s with msvdx_queue := rest } msgs = some (s2, ret) ∧
      psb_msvdx_dequeue_send L (F + 2) s = some (s2, if ret ≠ 0 then -EINVAL else 0) ∧
      ring_frame { s with msvdx_queue := rest } s2 ∧
      s2.MSVDX_COMMS_TO_MTX_WRT_INDEX < to_mtx_capacity s := by
  obtain ⟨⟨s2, ret⟩, hsend⟩ := send_all_total L hL F msgs { s with msvdx_queue := rest } hr hw
  obtain ⟨hf, hw2⟩ := send_all_post L _ msgs { s with msvdx_queue := rest } s2 ret hr hw hsend
  obtain ⟨fuel, hfuel⟩ : ∃ fuel, F + 2 = fuel + msgs.length + 1 := ⟨F + 1 - msgs.length, by omega⟩
  have hs := psb_msvdx_send_on_messages L hL (F + 2) msgs fuel { s with msvdx_queue := rest }
    [] [] hsz
  simp only [List.nil_append, List.append_nil, List.length_nil, Nat.mul_zero] at hs
  rw [← hfuel] at hs
  refine ⟨s2, ret, hsend, ?_, hf, hw2⟩
  unfold psb_msvdx_dequeue_send
  rw [hq]
  simp only
  rw [hcmd, hsize, hs, hsend]

theorem mtx_send_commit_ok_stores (L : Layout) (s : Dev) (msg : List Nat) (off n ridx widx bs
    bo : Nat) (s' : Dev) (h : mtx_send_commit L s msg off n ridx widx bs bo = (s', 0)) :
    s'.ring_stores = s.ring_stores + n := by
  unfold mtx_send_commit at h
  split at h
  · simp only [Prod.mk.injEq] at h
    exact absurd h.2 neg_EINVAL_ne_zero
  · simp only [Prod.mk.injEq, and_true] at h
    rw [← h]

/-- A send that returns 0 has stored every word of the message. -/
theorem psb_mtx_send_ok_stores (L : Layout) (fuel : Nat) (s : Dev) (msg : List Nat) (off : Nat)
    (s' : Dev)
    (hr : s.MSVDX_COMMS_TO_MTX_RD_INDEX < to_mtx_capacity s)
    (hw : s.MSVDX_COMMS_TO_MTX_WRT_INDEX < to_mtx_capacity s)
    (h : psb_mtx_send L fuel s msg off = some (s', 0)) :
    s.ring_stores + msg_num_of L msg off ≤ s'.ring_stores := by
  cases fuel with
  | zero => simp [psb_mtx_send] at h
  | succ fuel =>
    rw [psb_mtx_send] at h
    simp only at h
    split at h
    · simp only [Option.some.injEq, Prod.mk.injEq] at h
      exact absurd h.2 neg_EINVAL_ne_zero
    · split at h
      · split at h
        · simp only [Option.some.injEq, Prod.mk.injEq] at h
          exact absurd h.2 neg_EINVAL_ne_zero
        · cases hp : psb_mtx_send L fuel { s with MSVDX_MAN_CLK_ENABLE := L.clk_enable_all }
              (pad_msg_memory L s.pad_msg_behind
                (to_mtx_capacity { s with MSVDX_MAN_CLK_ENABLE := L.clk_enable_all })
                s.MSVDX_COMMS_TO_MTX_WRT_INDEX) 0 with
          | none => rw [hp] at h; simp at h
          | some p =>
            obtain ⟨s1, r1⟩ := p
            rw [hp] at h
            simp only [Option.some.injEq] at h
            have hpost := psb_mtx_send_post L fuel
              { s with MSVDX_MAN_CLK_ENABLE := L.clk_enable_all } _ 0 s1 r1 hr hw hp
            have := mtx_send_commit_ok_stores L s1 msg off _ _ _ _ _ s' h
            have h3 := hpost.2.2.1
            simp only at h3
            omega
      · simp only [Option.some.injEq] at h
        have := mtx_send_commit_ok_stores L _ msg off _ _ _ _ _ s' h
        simp only at this
        omega

/-- The word count that `psb_mtx_send` computes for a message as long as its
size field says. -/
theorem msg_num_of_eq (L : Layout) (hL : L.header_ok) (m : List Nat)
    (h : MEMIO_READ_FIELD m 0 L.FWRK_GENMSG_SIZE = 4 * m.length) :
    msg_num_of L m 0 = m.length := by
  have hlt := read_field_lt m 0 L.FWRK_GENMSG_SIZE
  have hw : L.FWRK_GENMSG_SIZE.width ≤ 32 := by
    have := hL.2.2.1
    have := hL.2.2.2.1
    omega
  have hpow : 2 ^ L.FWRK_GENMSG_SIZE.width ≤ 2 ^ 32 := Nat.pow_le_pow_right (by decide) hw
  unfold msg_num_of U32
  rw [h] at hlt ⊢
  omega

/-- Sends that all return 0 have stored every word of every sub-message. -/
theorem send_all_ok_stores (L : Layout) (hL : L.header_ok) (F : Nat) :
    ∀ (msgs : List (List Nat)) (s s' : Dev),
      (∀ m ∈ msgs, MEMIO_READ_FIELD m 0 L.FWRK_GENMSG_SIZE = 4 * m.length ∧ 0 < m.length) →
      s.MSVDX_COMMS_TO_MTX_RD_INDEX < to_mtx_capacity s →
      s.MSVDX_COMMS_TO_MTX_WRT_INDEX < to_mtx_capacity s →
      send_all L F s msgs = some (s', 0) →
      s.ring_stores + msgs.flatten.length ≤ s'.ring_stores := by
  intro msgs
  induction msgs with
  | nil =>
    intro s s' _ _ _ h
    simp only [send_all, Option.some.injEq, Prod.mk.injEq, and_true] at h
    rw [← h]; simp
  | cons m ms ih =>
    intro s s' hsz hr hw h
    simp only [send_all] at h
    cases hs : psb_mtx_send L F s m 0 with
    | none => rw [hs] at h; simp at h
    | some p =>
      obtain ⟨s1, ret⟩ := p
      rw [hs] at h
      simp only at h
      obtain ⟨hf, hw1, _⟩ := psb_mtx_send_post L _ s m 0 s1 ret hr hw hs
      have hc1 : to_mtx_capacity s1 = to_mtx_capacity s := to_mtx_capacity_congr hf.1
      split at h
      · rename_i hret
        simp only [Option.some.injEq, Prod.mk.injEq] at h
        exact absurd h.2 hret
      · rename_i hret
        have hret0 : ret = 0 := by simpa using hret
        subst hret0
        have h1 := psb_mtx_send_ok_stores L F s m 0 s1 hr hw hs
        have hnum := msg_num_of_eq L hL m (hsz m (List.mem_cons_self _ _)).1
        have h2 := ih s1 s' (fun x hx => hsz x (List.mem_cons_of_mem _ hx))
          (by rw [hc1, hf.2.1]; exact hr) (by rw [hc1]; exact hw1) h
        simp only [List.flatten_cons, List.length_append]
        omega

/-- C20: the queue of `s` has the validated entry `e` (sub-messages `msgs`)
at its head. `psb_msvdx_dequeue_send` returns and removes `e`; nothing is
reported to the fence registry, whatever the outcome. Either every
sub-message was accepted by `psb_mtx_send` and the call returns 0, with every
word of the entry stored in the ring; or a send was refused, and the call
returns `-EINVAL` with the entry gone all the same. -/
theorem C20_dequeued_entry_is_sent_or_dropped (L : Layout) (hL : L.header_ok) (F : Nat)
    (s : Dev) (e : CmdQueueEntry) (rest : List CmdQueueEntry) (msgs : List (List Nat))
    (hq : s.msvdx_queue = e :: rest)
    (hsz : ∀ m ∈ msgs, MEMIO_READ_FIELD m 0 L.FWRK_GENMSG_SIZE = 4 * m.length ∧ 0 < m.length)
    (hcmd : e.cmd = msgs.flatten) (hsize : e.cmd_size = 4 * msgs.flatten.length)
    (hF : msgs.length < F + 2)
    (hr : s.MSVDX_COMMS_TO_MTX_RD_INDEX < to_mtx_capacity s)
    (hw : s.MSVDX_COMMS_TO_MTX_WRT_INDEX < to_mtx_capacity s) :
    ∃ s2 ret, psb_msvdx_dequeue_send L (F + 2) s = some (s2, ret) ∧
      s2.msvdx_queue = rest ∧ s2.trace = s.trace ∧
      ((ret = 0 ∧ send_all L (F + 2) { s with msvdx_queue := rest } msgs = some (s2, 0) ∧
          s.ring_stores + msgs.flatten.length ≤ s2.ring_stores) ∨
        (ret = -EINVAL ∧
          ∃ r0, r0 ≠ 0 ∧ send_all L (F + 2) { s with msvdx_queue := rest } msgs
            = some (s2, r0))) := by
  obtain ⟨s2, r0, h1, h2, h3, _⟩ := dequeue_send_head L hL F s e rest msgs hq hsz hcmd hsize hF
    hr hw
  refine ⟨s2, _, h2, h3.2.2.2.2.2.2.2.2.1, h3.2.2.2.2.2.2.2.2.2.2.2.2.2.2.2.2.2, ?_⟩
  by_cases hret : r0 ≠ 0
  · rw [if_pos hret]
    exact Or.inr ⟨rfl, r0, hret, h1⟩
  · rw [if_neg hret]
    have h0 : r0 = 0 := by simpa using hret
    subst h0
    exact Or.inl ⟨rfl, h1,
      send_all_ok_stores L hL _ msgs { s with msvdx_queue := rest } s2 hsz hr hw h1⟩

/-- Witness of C20: the busy sample device with one render message queued. -/
theorem C20_dequeued_entry_is_sent_or_dropped_witness :
    ∃ s2 ret, psb_msvdx_dequeue_send sampleLayout (0 + 2)
        { busyDev with msvdx_queue := [{ cmd := sampleRender, cmd_size := 32, sequence := 7 }] }
        = some (s2, ret) ∧
      s2.msvdx_queue = [] ∧ s2.trace = busyDev.trace ∧
      ((ret = 0 ∧ send_all sampleLayout (0 + 2) { busyDev with msvdx_queue := [] }
            [sampleRender] = some (s2, 0) ∧
          busyDev.ring_stores + [sampleRender].flatten.length ≤ s2.ring_stores) ∨
        (ret = -EINVAL ∧
          ∃ r0, r0 ≠ 0 ∧ send_all sampleLayout (0 + 2) { busyDev with msvdx_queue := [] }
            [sampleRender] = some (s2, r0))) :=
  C20_dequeued_entry_is_sent_or_dropped sampleLayout (by decide) 0
    { busyDev with msvdx_queue := [{ cmd := sampleRender, cmd_size := 32, sequence := 7 }] }
    { cmd := sampleRender, cmd_size := 32, sequence := 7 } [] [sampleRender] rfl (by decide) rfl
    rfl (by decide) (by decide) (by decide)

/-- Counterexample to C20 as stated: the ring of `smallRingDev` has 4 words
and the queued render message has 8, so `psb_mtx_send` refuses it (line 448).
`psb_msvdx_dequeue_send` returns `-EINVAL`; the entry has left the queue, no
word of it was stored in the ring, and no call was made on the fence
registry. -/
theorem C20_refused_entry_is_dropped_unreported :
    smallRingDev.msvdx_queue = [{ cmd := sampleRender, cmd_size := 32, sequence := 7 }] ∧
    (psb_msvdx_dequeue_send sampleLayout 2 smallRingDev).map
        (fun p => (p.2, p.1.msvdx_queue, p.1.ring_stores, p.1.mtx_kicks, p.1.trace))
      = some (-EINVAL, [], 0, 0, []) := by
  refine ⟨rfl, by decide⟩

/-! ## One turn of the interrupt handler -/

/-- One turn of the loop of the interrupt handler with a message waiting and
`msvdx_needs_reset` zero: the message is read and dispatched, and at the
label `done` the loop goes round again exactly when the read index, now past
the message, differs from the write index. -/
theorem mtx_interrupt_loop_turn (L : Layout) (F fuel : Nat) (s s2 : Dev)
    (hne : s.MSVDX_COMMS_TO_HOST_RD_INDEX ≠ s.MSVDX_COMMS_TO_HOST_WRT_INDEX)
    (hreset : s.msvdx_needs_reset = 0)
    (hd : mtx_interrupt_dispatch L F (to_host_read L s) (received L s) = some s2) :
    mtx_interrupt_loop L F (fuel + 1) s
      = if (to_host_read L s).MSVDX_COMMS_TO_HOST_RD_INDEX ≠ s.MSVDX_COMMS_TO_HOST_WRT_INDEX
        then mtx_interrupt_loop L F fuel s2 else some s2 := by
  have hr1 : (to_host_read L s).msvdx_needs_reset = 0 := hreset
  unfold received at hd
  rw [mtx_interrupt_loop]
  simp only
  rw [if_neg hne, if_neg (by rw [hr1]; simp), hd]

/-- The case `VA_MSGID_CMD_COMPLETED` with the host-interrupt flag set, on a
state whose queue is empty or has a validated entry at its head. -/
theorem mtx_interrupt_completed_host_int (L : Layout) (hL : L.header_ok) (F : Nat) (s : Dev)
    (buf : List Nat)
    (hint : MEMIO_READ_FIELD buf 0 L.FW_VA_CMD_COMPLETED_FLAGS &&& L.FW_VA_RENDER_HOST_INT ≠ 0)
    (hq : ∀ e, s.msvdx_queue.head? = some e → entry_ok L (F + 2) e)
    (hr : s.MSVDX_COMMS_TO_MTX_RD_INDEX < to_mtx_capacity s)
    (hw : s.MSVDX_COMMS_TO_MTX_WRT_INDEX < to_mtx_capacity s) :
    ∃ s2, mtx_interrupt_completed L (F + 2) s buf = some s2 ∧
      s2.msvdx_current_sequence
        = (if L.mdfld_fw_updated then MEMIO_READ_FIELD buf 0 L.FW_VA_CMD_COMPLETED_MSG_ID
            else MEMIO_READ_FIELD buf 0 L.FW_VA_CMD_COMPLETED_FENCE_VALUE) ∧
      s2.trace = s.trace ++ [Event.fence_handler] ∧
      s2.msvdx_needs_reset = s.msvdx_needs_reset ∧
      (s.msvdx_queue = [] →
        s2.msvdx_busy = 0 ∧ s2.msvdx_queue = [] ∧ s2.vlr = s.vlr ∧
        s2.MSVDX_COMMS_TO_MTX_WRT_INDEX = s.MSVDX_COMMS_TO_MTX_WRT_INDEX ∧
        s2.ring_stores = s.ring_stores ∧ s2.mtx_kicks = s.mtx_kicks) ∧
      (∀ e rest, s.msvdx_queue = e :: rest →
        s2.msvdx_queue = rest ∧ s2.msvdx_busy = s.msvdx_busy ∧
        ∃ msgs ret, e.cmd = msgs.flatten ∧
          send_all L (F + 2)
            { s with msvdx_current_sequence :=
                       (if L.mdfld_fw_updated then
                          MEMIO_READ_FIELD buf 0 L.FW_VA_CMD_COMPLETED_MSG_ID
                        else MEMIO_READ_FIELD buf 0 L.FW_VA_CMD_COMPLETED_FENCE_VALUE)
                     trace := s.trace ++ [Event.fence_handler]
                     msvdx_queue := rest } msgs = some (s2, ret)) := by
  unfold mtx_interrupt_completed psb_fence_handler
  simp only
  rw [if_pos hint]
  obtain hqq | ⟨e, rest, hqq⟩ : s.msvdx_queue = [] ∨ ∃ e rest, s.msvdx_queue = e :: rest := by
    cases s.msvdx_queue <;> simp
  · have hd := dequeue_send_empty L (F + 2)
      { s with msvdx_current_sequence :=
                 (if L.mdfld_fw_updated then MEMIO_READ_FIELD buf 0 L.FW_VA_CMD_COMPLETED_MSG_ID
                  else MEMIO_READ_FIELD buf 0 L.FW_VA_CMD_COMPLETED_FENCE_VALUE)
               trace := s.trace ++ [Event.fence_handler] } hqq
    rw [hd]
    refine ⟨_, rfl, rfl, rfl, rfl, fun _ => ⟨rfl, hqq, rfl, rfl, rfl, rfl⟩, ?_⟩
    intro e rest h; rw [hqq] at h; simp at h
  · obtain ⟨msgs, m1, m2, m3, m4⟩ := hq e (by rw [hqq]; rfl)
    obtain ⟨s2, ret, k1, k2, k3, _⟩ := dequeue_send_head L hL F
      { s with msvdx_current_sequence :=
                 (if L.mdfld_fw_updated then MEMIO_READ_FIELD buf 0 L.FW_VA_CMD_COMPLETED_MSG_ID
                  else MEMIO_READ_FIELD buf 0 L.FW_VA_CMD_COMPLETED_FENCE_VALUE)
               trace := s.trace ++ [Event.fence_handler] }
      e rest msgs hqq m1 m2 m3 m4 hr hw
    rw [k2]
    refine ⟨s2, rfl, k3.2.2.2.2.2.2.2.2.2.1, k3.2.2.2.2.2.2.2.2.2.2.2.2.2.2.2.2.2,
      k3.2.2.2.2.2.2.1, fun h => by rw [hqq] at h; simp at h, ?_⟩
    intro e' rest' h
    rw [hqq] at h
    simp only [List.cons.injEq] at h
    obtain ⟨rfl, rfl⟩ := h
    exact ⟨k3.2.2.2.2.2.2.2.2.1, k3.2.2.2.2.2.1, msgs, ret, m2, k1⟩

theorem dispatch_completed (L : Layout) (hlab : L.labels_ok) (F : Nat) (s : Dev)
    (buf : List Nat)
    (hid : MEMIO_READ_FIELD buf 0 L.FWRK_GENMSG_ID = L.VA_MSGID_CMD_COMPLETED) :
    mtx_interrupt_dispatch L F s buf = mtx_interrupt_completed L F s buf := by
  unfold mtx_interrupt_dispatch
  simp only
  rw [if_neg (by rw [hid]; exact fun h => h.elim hlab.1 hlab.2.1), if_pos hid]

theorem lor_land_right (a b : Nat) : (a ||| b) &&& b = b := by
  rw [Nat.lor_comm]; exact lor_land_left b a

theorem lor_ne_zero (a b : Nat) (h : a ≠ 0 ∨ b ≠ 0) : a ||| b ≠ 0 := by
  intro h0
  have h1 := lor_land_left a b
  have h2 := lor_land_right a b
  rw [h0, Nat.zero_and] at h1 h2
  rcases h with h | h
  · exact h h1.symm
  · exact h h2.symm

/-- The unsigned test of line 657 in terms of the signed difference: it holds
when the difference is negative or above the threshold. -/
theorem unsigned_test_signed (a b : Nat) :
    sub32 a b > 268435455 ↔ signed32 (sub32 a b) < 0 ∨ signed32 (sub32 a b) > 268435455 := by
  have hlt : sub32 a b < U32 := by unfold sub32; exact Nat.mod_lt _ (by unfold U32; omega)
  unfold signed32
  rw [Nat.mod_eq_of_lt hlt]
  unfold U32 at *
  split <;> omega

theorem filter_fence_error_reports (q : List CmdQueueEntry) :
    (q.map (fun e => Event.queue_entry_failed e.sequence)).filter Event.is_fence_error = [] := by
  induction q with
  | nil => rfl
  | cons e q ih => simp only [List.map_cons, List.filter_cons, Event.is_fence_error]; exact ih

theorem filter_entry_failed_reports (q : List CmdQueueEntry) :
    (q.map (fun e => Event.queue_entry_failed e.sequence)).filter Event.is_entry_failed
      = q.map (fun e => Event.queue_entry_failed e.sequence) := by
  induction q with
  | nil => rfl
  | cons e q ih =>
    simp only [List.map_cons, List.filter_cons, Event.is_entry_failed, if_true]
    rw [ih]

/-- What lines 597-677 leave behind. -/
theorem mtx_interrupt_fault_post (L : Layout) (s : Dev) (buf : List Nat) (msg_id : Nat) :
    (mtx_interrupt_fault L s buf msg_id).msvdx_queue = [] ∧
    (mtx_interrupt_fault L s buf msg_id).msvdx_busy = 0 ∧
    (mtx_interrupt_fault L s buf msg_id).fw_status = 1 ∧
    (mtx_interrupt_fault L s buf msg_id).msvdx_needs_reset
      = (if L.is_d0 then s.msvdx_needs_reset |||
            (L.MSVDX_RESET_NEEDS_REUPLOAD_FW ||| L.MSVDX_RESET_NEEDS_INIT_FW)
          else 1) ∧
    (mtx_interrupt_fault L s buf msg_id).msvdx_current_sequence
      = (if msg_id = L.VA_MSGID_CMD_HW_PANIC then
          if sub32 s.msvdx_current_sequence s.sequence > 268435455 then
            (s.msvdx_current_sequence + 1) % U32
          else s.msvdx_current_sequence
        else if L.mdfld_fw_updated then MEMIO_READ_FIELD buf 0 L.FW_DEVA_CMD_FAILED_MSG_ID
        else MEMIO_READ_FIELD buf 0 L.FW_VA_CMD_FAILED_FENCE_VALUE) ∧
    (mtx_interrupt_fault L s buf msg_id).trace
      = s.trace ++ Event.fence_error (mtx_interrupt_fault L s buf msg_id).msvdx_current_sequence
          :: s.msvdx_queue.map (fun e => Event.queue_entry_failed e.sequence) := by
  unfold mtx_interrupt_fault psb_msvdx_flush_cmd_queue psb_fence_error
  by_cases hd : L.is_d0 = true <;> by_cases hp : msg_id = L.VA_MSGID_CMD_HW_PANIC <;>
    by_cases hu : L.mdfld_fw_updated = true <;>
    by_cases hx : sub32 s.msvdx_current_sequence s.sequence > 268435455 <;>
    simp [hd, hp, hu, hx]

theorem dispatch_fault (L : Layout) (F : Nat) (s : Dev) (buf : List Nat)
    (hid : MEMIO_READ_FIELD buf 0 L.FWRK_GENMSG_ID = L.VA_MSGID_CMD_HW_PANIC
      ∨ MEMIO_READ_FIELD buf 0 L.FWRK_GENMSG_ID = L.VA_MSGID_CMD_FAILED) :
    mtx_interrupt_dispatch L F s buf
      = some (mtx_interrupt_fault L s buf (MEMIO_READ_FIELD buf 0 L.FWRK_GENMSG_ID)) := by
  unfold mtx_interrupt_dispatch
  simp only
  rw [if_pos hid]

/-- C15: the interrupt handler, in a turn of its loop that starts with
`msvdx_needs_reset` zero and reads a `VA_MSGID_CMD_HW_PANIC` or
`VA_MSGID_CMD_FAILED` message, reaches the label `done` with the queue empty,
one report of failure made for each entry that was queued, in queue order and
no other such report, `msvdx_needs_reset` non-zero (on D0 given that one of
the two reset constants is non-zero), and the busy flag cleared. The flush of
the queue is the one the spec describes. -/
theorem C15_fault_message_flushes_queue (L : Layout)
    (hbits : L.is_d0 = true →
      L.MSVDX_RESET_NEEDS_REUPLOAD_FW ≠ 0 ∨ L.MSVDX_RESET_NEEDS_INIT_FW ≠ 0)
    (F fuel : Nat) (s : Dev)
    (hne : s.MSVDX_COMMS_TO_HOST_RD_INDEX ≠ s.MSVDX_COMMS_TO_HOST_WRT_INDEX)
    (hreset : s.msvdx_needs_reset = 0)
    (hid : MEMIO_READ_FIELD (received L s) 0 L.FWRK_GENMSG_ID = L.VA_MSGID_CMD_HW_PANIC
      ∨ MEMIO_READ_FIELD (received L s) 0 L.FWRK_GENMSG_ID = L.VA_MSGID_CMD_FAILED) :
    ∃ s2, mtx_interrupt_dispatch L F (to_host_read L s) (received L s) = some s2 ∧
      mtx_interrupt_loop L F (fuel + 1) s
        = (if (to_host_read L s).MSVDX_COMMS_TO_HOST_RD_INDEX ≠ s.MSVDX_COMMS_TO_HOST_WRT_INDEX
           then mtx_interrupt_loop L F fuel s2 else some s2) ∧
      s2.msvdx_queue = [] ∧
      (s2.trace.drop s.trace.length).filter Event.is_entry_failed
        = s.msvdx_queue.map (fun e => Event.queue_entry_failed e.sequence) ∧
      s2.msvdx_needs_reset ≠ 0 ∧ s2.msvdx_busy = 0 := by
  have hd := dispatch_fault L F (to_host_read L s) (received L s) hid
  obtain ⟨p1, p2, _, p4, _, p6⟩ := mtx_interrupt_fault_post L (to_host_read L s) (received L s)
    (MEMIO_READ_FIELD (received L s) 0 L.FWRK_GENMSG_ID)
  refine ⟨_, hd, mtx_interrupt_loop_turn L F fuel s _ hne hreset hd, p1, ?_, ?_, p2⟩
  · rw [p6]
    have e1 : (to_host_read L s).trace = s.trace := rfl
    have e2 : (to_host_read L s).msvdx_queue = s.msvdx_queue := rfl
    rw [e1, e2, List.drop_left, List.filter_cons]
    simp only [Event.is_entry_failed, Bool.false_eq_true, if_false]
    exact filter_entry_failed_reports _
  · rw [p4]
    have e1 : (to_host_read L s).msvdx_needs_reset = 0 := hreset
    by_cases h0 : L.is_d0 = true
    · rw [if_pos h0, e1, Nat.zero_or]
      exact lor_ne_zero _ _ (hbits h0)
    · rw [if_neg h0]; decide

/-- Witness of C15: a panic message delivered while a deblock and a render
message are queued. -/
theorem C15_fault_message_flushes_queue_witness :
    ∃ s2, mtx_interrupt_dispatch sampleLayout 2 (to_host_read sampleLayout panicDev)
        (received sampleLayout panicDev) = some s2 ∧
      mtx_interrupt_loop sampleLayout 2 (0 + 1) panicDev
        = (if (to_host_read sampleLayout panicDev).MSVDX_COMMS_TO_HOST_RD_INDEX
              ≠ panicDev.MSVDX_COMMS_TO_HOST_WRT_INDEX
           then mtx_interrupt_loop sampleLayout 2 0 s2 else some s2) ∧
      s2.msvdx_queue = [] ∧
      (s2.trace.drop panicDev.trace.length).filter Event.is_entry_failed
        = panicDev.msvdx_queue.map (fun e => Event.queue_entry_failed e.sequence) ∧
      s2.msvdx_needs_reset ≠ 0 ∧ s2.msvdx_busy = 0 :=
  C15_fault_message_flushes_queue sampleLayout (by decide) 2 0 panicDev (by decide) (by decide)
    (by decide)

/-- C16: the interrupt handler, in a turn of its loop that starts with
`msvdx_needs_reset` zero and reads a `VA_MSGID_CMD_HW_PANIC` or
`VA_MSGID_CMD_FAILED` message, reaches the label `done` with
`msvdx_needs_reset` holding both `MSVDX_RESET_NEEDS_REUPLOAD_FW` and
`MSVDX_RESET_NEEDS_INIT_FW` on D0 (hence non-zero when one of the two is),
and holding exactly 1 otherwise. -/
theorem C16_fault_message_sets_reset_bits (L : Layout) (F fuel : Nat) (s : Dev)
    (hne : s.MSVDX_COMMS_TO_HOST_RD_INDEX ≠ s.MSVDX_COMMS_TO_HOST_WRT_INDEX)
    (hreset : s.msvdx_needs_reset = 0)
    (hid : MEMIO_READ_FIELD (received L s) 0 L.FWRK_GENMSG_ID = L.VA_MSGID_CMD_HW_PANIC
      ∨ MEMIO_READ_FIELD (received L s) 0 L.FWRK_GENMSG_ID = L.VA_MSGID_CMD_FAILED) :
    ∃ s2, mtx_interrupt_dispatch L F (to_host_read L s) (received L s) = some s2 ∧
      mtx_interrupt_loop L F (fuel + 1) s
        = (if (to_host_read L s).MSVDX_COMMS_TO_HOST_RD_INDEX ≠ s.MSVDX_COMMS_TO_HOST_WRT_INDEX
           then mtx_interrupt_loop L F fuel s2 else some s2) ∧
      (L.is_d0 = true →
        s2.msvdx_needs_reset
          = L.MSVDX_RESET_NEEDS_REUPLOAD_FW ||| L.MSVDX_RESET_NEEDS_INIT_FW ∧
        s2.msvdx_needs_reset &&& L.MSVDX_RESET_NEEDS_REUPLOAD_FW
          = L.MSVDX_RESET_NEEDS_REUPLOAD_FW ∧
        s2.msvdx_needs_reset &&& L.MSVDX_RESET_NEEDS_INIT_FW = L.MSVDX_RESET_NEEDS_INIT_FW ∧
        (L.MSVDX_RESET_NEEDS_REUPLOAD_FW ≠ 0 ∨ L.MSVDX_RESET_NEEDS_INIT_FW ≠ 0 →
          s2.msvdx_needs_reset ≠ 0)) ∧
      (L.is_d0 = false → s2.msvdx_needs_reset = 1) := by
  have hd := dispatch_fault L F (to_host_read L s) (received L s) hid
  obtain ⟨_, _, _, p4, _, _⟩ := mtx_interrupt_fault_post L (to_host_read L s) (received L s)
    (MEMIO_READ_FIELD (received L s) 0 L.FWRK_GENMSG_ID)
  have e1 : (to_host_read L s).msvdx_needs_reset = 0 := hreset
  refine ⟨_, hd, mtx_interrupt_loop_turn L F fuel s _ hne hreset hd, ?_, ?_⟩
  · intro h0
    rw [p4, if_pos h0, e1, Nat.zero_or]
    exact ⟨rfl, lor_land_left _ _, lor_land_right _ _, lor_ne_zero _ _⟩
  · intro h0
    rw [p4, h0]
    rfl

/-- Witness of C16: a failed message delivered to the sample device as a
D0. -/
theorem C16_fault_message_sets_reset_bits_witness :
    ∃ s2, mtx_interrupt_dispatch sampleLayoutD0 2 (to_host_read sampleLayoutD0 failedDev)
        (received sampleLayoutD0 failedDev) = some s2 ∧
      mtx_interrupt_loop sampleLayoutD0 2 (0 + 1) failedDev
        = (if (to_host_read sampleLayoutD0 failedDev).MSVDX_COMMS_TO_HOST_RD_INDEX
              ≠ failedDev.MSVDX_COMMS_TO_HOST_WRT_INDEX
           then mtx_interrupt_loop sampleLayoutD0 2 0 s2 else some s2) ∧
      (sampleLayoutD0.is_d0 = true →
        s2.msvdx_needs_reset
          = sampleLayoutD0.MSVDX_RESET_NEEDS_REUPLOAD_FW
            ||| sampleLayoutD0.MSVDX_RESET_NEEDS_INIT_FW ∧
        s2.msvdx_needs_reset &&& sampleLayoutD0.MSVDX_RESET_NEEDS_REUPLOAD_FW
          = sampleLayoutD0.MSVDX_RESET_NEEDS_REUPLOAD_FW ∧
        s2.msvdx_needs_reset &&& sampleLayoutD0.MSVDX_RESET_NEEDS_INIT_FW
          = sampleLayoutD0.MSVDX_RESET_NEEDS_INIT_FW ∧
        (sampleLayoutD0.MSVDX_RESET_NEEDS_REUPLOAD_FW ≠ 0
            ∨ sampleLayoutD0.MSVDX_RESET_NEEDS_INIT_FW ≠ 0 →
          s2.msvdx_needs_reset ≠ 0)) ∧
      (sampleLayoutD0.is_d0 = false → s2.msvdx_needs_reset = 1) :=
  C16_fault_message_sets_reset_bits sampleLayoutD0 2 0 failedDev (by decide) (by decide)
    (by decide)

/-- C17: the interrupt handler, in a turn of its loop that starts with
`msvdx_needs_reset` zero and reads a fault message. On
`VA_MSGID_CMD_HW_PANIC` the failed fence is `msvdx_current_sequence + 1`
(modulo 2^32) exactly when the unsigned 32-bit difference of
`msvdx_current_sequence` and the last requested sequence exceeds
`0x0FFFFFFF`, which is when the signed difference is negative or exceeds
`0x0FFFFFFF`, and `msvdx_current_sequence` otherwise. On
`VA_MSGID_CMD_FAILED` it is the fence the message carries. In both cases
`msvdx_current_sequence` is set to that fence, and `psb_fence_error` is called
exactly once, with that fence. -/
theorem C17_fault_fence_is_reported_once (L : Layout) (hlab : L.labels_ok) (F fuel : Nat)
    (s : Dev)
    (hne : s.MSVDX_COMMS_TO_HOST_RD_INDEX ≠ s.MSVDX_COMMS_TO_HOST_WRT_INDEX)
    (hreset : s.msvdx_needs_reset = 0)
    (hid : MEMIO_READ_FIELD (received L s) 0 L.FWRK_GENMSG_ID = L.VA_MSGID_CMD_HW_PANIC
      ∨ MEMIO_READ_FIELD (received L s) 0 L.FWRK_GENMSG_ID = L.VA_MSGID_CMD_FAILED) :
    ∃ s2, mtx_interrupt_dispatch L F (to_host_read L s) (received L s) = some s2 ∧
      mtx_interrupt_loop L F (fuel + 1) s
        = (if (to_host_read L s).MSVDX_COMMS_TO_HOST_RD_INDEX ≠ s.MSVDX_COMMS_TO_HOST_WRT_INDEX
           then mtx_interrupt_loop L F fuel s2 else some s2) ∧
      (MEMIO_READ_FIELD (received L s) 0 L.FWRK_GENMSG_ID = L.VA_MSGID_CMD_HW_PANIC →
        s2.msvdx_current_sequence
          = (if sub32 s.msvdx_current_sequence s.sequence > 268435455 then
              (s.msvdx_current_sequence + 1) % U32
            else s.msvdx_current_sequence)) ∧
      (sub32 s.msvdx_current_sequence s.sequence > 268435455 ↔
        signed32 (sub32 s.msvdx_current_sequence s.sequence) < 0
          ∨ signed32 (sub32 s.msvdx_current_sequence s.sequence) > 268435455) ∧
      (MEMIO_READ_FIELD (received L s) 0 L.FWRK_GENMSG_ID = L.VA_MSGID_CMD_FAILED →
        s2.msvdx_current_sequence
          = (if L.mdfld_fw_updated then
              MEMIO_READ_FIELD (received L s) 0 L.FW_DEVA_CMD_FAILED_MSG_ID
            else MEMIO_READ_FIELD (received L s) 0 L.FW_VA_CMD_FAILED_FENCE_VALUE)) ∧
      (s2.trace.drop s.trace.length).filter Event.is_fence_error
        = [Event.fence_error s2.msvdx_current_sequence] := by
  have hd := dispatch_fault L F (to_host_read L s) (received L s) hid
  obtain ⟨_, _, _, _, p5, p6⟩ := mtx_interrupt_fault_post L (to_host_read L s) (received L s)
    (MEMIO_READ_FIELD (received L s) 0 L.FWRK_GENMSG_ID)
  have e1 : (to_host_read L s).trace = s.trace := rfl
  have e2 : (to_host_read L s).msvdx_current_sequence = s.msvdx_current_sequence := rfl
  have e3 : (to_host_read L s).sequence = s.sequence := rfl
  rw [e2, e3] at p5
  refine ⟨_, hd, mtx_interrupt_loop_turn L F fuel s _ hne hreset hd, ?_,
    unsigned_test_signed _ _, ?_, ?_⟩
  · intro hp
    rw [p5, if_pos hp]
  · intro hf
    rw [p5, if_neg (by rw [hf]; exact Ne.symm hlab.2.2)]
  · rw [p6, e1, List.drop_left, List.filter_cons]
    simp only [Event.is_fence_error, if_true]
    rw [filter_fence_error_reports]

/-- Witness of C17: a failed message with fence 9. -/
theorem C17_fault_fence_is_reported_once_witness :
    ∃ s2, mtx_interrupt_dispatch sampleLayout 2 (to_host_read sampleLayout failedDev)
        (received sampleLayout failedDev) = some s2 ∧
      mtx_interrupt_loop sampleLayout 2 (0 + 1) failedDev
        = (if (to_host_read sampleLayout failedDev).MSVDX_COMMS_TO_HOST_RD_INDEX
              ≠ failedDev.MSVDX_COMMS_TO_HOST_WRT_INDEX
           then mtx_interrupt_loop sampleLayout 2 0 s2 else some s2) ∧
      (MEMIO_READ_FIELD (received sampleLayout failedDev) 0 sampleLayout.FWRK_GENMSG_ID
          = sampleLayout.VA_MSGID_CMD_HW_PANIC →
        s2.msvdx_current_sequence
          = (if sub32 failedDev.msvdx_current_sequence failedDev.sequence > 268435455 then
              (failedDev.msvdx_current_sequence + 1) % U32
            else failedDev.msvdx_current_sequence)) ∧
      (sub32 failedDev.msvdx_current_sequence failedDev.sequence > 268435455 ↔
        signed32 (sub32 failedDev.msvdx_current_sequence failedDev.sequence) < 0
          ∨ signed32 (sub32 failedDev.msvdx_current_sequence failedDev.sequence) > 268435455) ∧
      (MEMIO_READ_FIELD (received sampleLayout failedDev) 0 sampleLayout.FWRK_GENMSG_ID
          = sampleLayout.VA_MSGID_CMD_FAILED →
        s2.msvdx_current_sequence
          = (if sampleLayout.mdfld_fw_updated then
              MEMIO_READ_FIELD (received sampleLayout failedDev) 0
                sampleLayout.FW_DEVA_CMD_FAILED_MSG_ID
            else MEMIO_READ_FIELD (received sampleLayout failedDev) 0
              sampleLayout.FW_VA_CMD_FAILED_FENCE_VALUE)) ∧
      (s2.trace.drop failedDev.trace.length).filter Event.is_fence_error
        = [Event.fence_error s2.msvdx_current_sequence] :=
  C17_fault_fence_is_reported_once sampleLayout (by decide) 2 0 failedDev (by decide)
    (by decide) (by decide)

/-- Counterexample to C17 as stated: on `panicDev` the last completed
sequence is 4 and the last requested one is 5, so the signed difference is -1,
of magnitude 1, which does not exceed `0x0FFFFFFF`; yet the panic message
makes the handler take 5, not 4, for the failed fence. -/
theorem C17_panic_behind_by_one_increments :
    panicDev.msvdx_current_sequence = 4 ∧ panicDev.sequence = 5 ∧
    panicDev.msvdx_needs_reset = 0 ∧
    MEMIO_READ_FIELD (received sampleLayout panicDev) 0 sampleLayout.FWRK_GENMSG_ID
      = sampleLayout.VA_MSGID_CMD_HW_PANIC ∧
    signed32 (sub32 panicDev.msvdx_current_sequence panicDev.sequence) = -1 ∧
    ¬ ((signed32 (sub32 panicDev.msvdx_current_sequence panicDev.sequence)).natAbs
        > 268435455) ∧
    (mtx_interrupt_dispatch sampleLayout 2 (to_host_read sampleLayout panicDev)
        (received sampleLayout panicDev)).map
        (fun s2 => (s2.msvdx_current_sequence, s2.trace.filter Event.is_fence_error))
      = some (5, [Event.fence_error 5]) := by
  refine ⟨rfl, rfl, rfl, by decide, by decide, by decide, by decide⟩

/-! ## Messages the handler does not know -/

theorem to_host_copy_ridx (vlr : Nat → Nat) (bo bs : Nat) (hbs : bs < 65536) :
    ∀ (n ofs : Nat) (buf : List Nat) (ridx : Nat), ridx < bs →
      (to_host_copy vlr bo bs n ofs buf ridx).2 = (ridx + n) % bs := by
  intro n
  induction n with
  | zero => intro ofs buf ridx h; simp [to_host_copy, Nat.mod_eq_of_lt h]
  | succ n ih =>
    intro ofs buf ridx h
    rw [to_host_copy]
    have e1 : (ridx + 1) % U32 = ridx + 1 := Nat.mod_eq_of_lt (by unfold U32; omega)
    rw [e1]
    by_cases hge : ridx + 1 ≥ bs
    · rw [if_pos hge, ih _ _ _ (by omega)]
      have e2 : ridx + (n + 1) = bs + n := by omega
      rw [e2, Nat.zero_add, Nat.add_mod_left]
    · rw [if_neg hge, ih _ _ _ (by omega)]
      congr 1
      omega

theorem to_host_capacity_lt (s : Dev) : to_host_capacity s < 65536 := by
  unfold to_host_capacity
  omega

/-- The read of one message moves the read index past it: by the number of
words that the handler computes from the first word, and by one word at
least, modulo the capacity of the ring. -/
theorem to_host_read_ridx (L : Layout) (s : Dev)
    (h : s.MSVDX_COMMS_TO_HOST_RD_INDEX < to_host_capacity s) :
    (to_host_read L s).MSVDX_COMMS_TO_HOST_RD_INDEX
      = (s.MSVDX_COMMS_TO_HOST_RD_INDEX + max 1 (to_host_num L s)) % to_host_capacity s := by
  have hc := to_host_capacity_lt s
  unfold to_host_read to_host_num
  simp only
  have h0 := to_host_copy_ridx s.vlr (to_host_offset s) (to_host_capacity s) hc 1 0
    s.mtx_interrupt_buf s.MSVDX_COMMS_TO_HOST_RD_INDEX h
  have hb : (to_host_copy s.vlr (to_host_offset s) (to_host_capacity s) 1 0
      s.mtx_interrupt_buf s.MSVDX_COMMS_TO_HOST_RD_INDEX).1
      = s.mtx_interrupt_buf.set 0
          (s.vlr (ring_addr (to_host_offset s) s.MSVDX_COMMS_TO_HOST_RD_INDEX)) := by
    rfl
  rw [to_host_copy_ridx s.vlr (to_host_offset s) (to_host_capacity s) hc _ _ _ _
    (by rw [h0]; exact Nat.mod_lt _ (by omega)), h0, hb, Nat.mod_add_mod]
  congr 1
  omega

theorem dispatch_unknown (L : Layout) (F : Nat) (s : Dev) (buf : List Nat)
    (h1 : MEMIO_READ_FIELD buf 0 L.FWRK_GENMSG_ID ≠ L.VA_MSGID_CMD_HW_PANIC)
    (h2 : MEMIO_READ_FIELD buf 0 L.FWRK_GENMSG_ID ≠ L.VA_MSGID_CMD_FAILED)
    (h3 : MEMIO_READ_FIELD buf 0 L.FWRK_GENMSG_ID ≠ L.VA_MSGID_CMD_COMPLETED) :
    mtx_interrupt_dispatch L F s buf = some s := by
  unfold mtx_interrupt_dispatch
  simp only
  rw [if_neg (fun h => h.elim h1 h2), if_neg h3]

/-- C18: the interrupt handler, in a turn of its loop that starts with
`msvdx_needs_reset` zero and reads a message whose id is none of
`VA_MSGID_CMD_COMPLETED`, `VA_MSGID_CMD_FAILED` and `VA_MSGID_CMD_HW_PANIC`.
The message is consumed: the read index moves past it, and nothing else of
the device state changes but the handler's own message buffer. At the label
`done` the handler goes round its loop again exactly when the read index
still differs from the write index, so that the messages behind the unknown
one are processed in the same invocation. -/
theorem C18_unknown_message_is_skipped (L : Layout) (F fuel : Nat) (s : Dev)
    (hne : s.MSVDX_COMMS_TO_HOST_RD_INDEX ≠ s.MSVDX_COMMS_TO_HOST_WRT_INDEX)
    (hreset : s.msvdx_needs_reset = 0)
    (hrd : s.MSVDX_COMMS_TO_HOST_RD_INDEX < to_host_capacity s)
    (h1 : MEMIO_READ_FIELD (received L s) 0 L.FWRK_GENMSG_ID ≠ L.VA_MSGID_CMD_HW_PANIC)
    (h2 : MEMIO_READ_FIELD (received L s) 0 L.FWRK_GENMSG_ID ≠ L.VA_MSGID_CMD_FAILED)
    (h3 : MEMIO_READ_FIELD (received L s) 0 L.FWRK_GENMSG_ID ≠ L.VA_MSGID_CMD_COMPLETED) :
    mtx_interrupt_dispatch L F (to_host_read L s) (received L s) = some (to_host_read L s) ∧
    to_host_read L s
      = { s with mtx_interrupt_buf := received L s
                 MSVDX_COMMS_TO_HOST_RD_INDEX :=
                   (s.MSVDX_COMMS_TO_HOST_RD_INDEX + max 1 (to_host_num L s))
                     % to_host_capacity s } ∧
    mtx_interrupt_loop L F (fuel + 1) s
      = (if (s.MSVDX_COMMS_TO_HOST_RD_INDEX + max 1 (to_host_num L s)) % to_host_capacity s
            ≠ s.MSVDX_COMMS_TO_HOST_WRT_INDEX
         then mtx_interrupt_loop L F fuel (to_host_read L s) else some (to_host_read L s)) := by
  have hd := dispatch_unknown L F (to_host_read L s) (received L s) h1 h2 h3
  have hri := to_host_read_ridx L s hrd
  refine ⟨hd, ?_, ?_⟩
  · rw [← hri]; rfl
  · rw [mtx_interrupt_loop_turn L F fuel s _ hne hreset hd, hri]

/-- Witness of C18: a message with the id 200 in front of a completed
message. -/
theorem C18_unknown_message_is_skipped_witness :
    mtx_interrupt_dispatch sampleLayout 2 (to_host_read sampleLayout unknownDev)
        (received sampleLayout unknownDev) = some (to_host_read sampleLayout unknownDev) ∧
    to_host_read sampleLayout unknownDev
      = { unknownDev with
          mtx_interrupt_buf := received sampleLayout unknownDev
          MSVDX_COMMS_TO_HOST_RD_INDEX :=
            (unknownDev.MSVDX_COMMS_TO_HOST_RD_INDEX + max 1 (to_host_num sampleLayout unknownDev))
              % to_host_capacity unknownDev } ∧
    mtx_interrupt_loop sampleLayout 2 (1 + 1) unknownDev
      = (if (unknownDev.MSVDX_COMMS_TO_HOST_RD_INDEX + max 1 (to_host_num sampleLayout unknownDev))
              % to_host_capacity unknownDev
            ≠ unknownDev.MSVDX_COMMS_TO_HOST_WRT_INDEX
         then mtx_interrupt_loop sampleLayout 2 1 (to_host_read sampleLayout unknownDev)
         else some (to_host_read sampleLayout unknownDev)) :=
  C18_unknown_message_is_skipped sampleLayout 2 1 unknownDev (by decide) (by decide) (by decide)
    (by decide) (by decide) (by decide)

/-- Counterexample to C18 as stated: in the ring of `unknownDev` a message with
the unknown id 200 stands in front of a completed message with fence 7 and the
host-interrupt flag. One invocation of the handler consumes the unknown
message (read index 1, write index 4) and then processes the completed
message as well: at the end the read index is 4, `msvdx_current_sequence` has
gone from 4 to 7, `psb_fence_handler` has been called, and the busy flag has
been cleared by `psb_msvdx_dequeue_send` on the empty queue. -/
theorem C18_handler_goes_on_after_unknown_message :
    unknownDev.msvdx_needs_reset = 0 ∧ unknownDev.msvdx_current_sequence = 4 ∧
    unknownDev.msvdx_busy = 1 ∧ unknownDev.MSVDX_COMMS_TO_HOST_WRT_INDEX = 4 ∧
    MEMIO_READ_FIELD (received sampleLayout unknownDev) 0 sampleLayout.FWRK_GENMSG_ID = 200 ∧
    (to_host_read sampleLayout unknownDev).MSVDX_COMMS_TO_HOST_RD_INDEX = 1 ∧
    (psb_msvdx_mtx_interrupt sampleLayout 3 unknownDev).map
        (fun s2 => (s2.MSVDX_COMMS_TO_HOST_RD_INDEX, s2.msvdx_current_sequence, s2.trace,
          s2.msvdx_busy))
      = some (4, 7, [Event.fence_handler], 0) := by
  refine ⟨rfl, rfl, rfl, rfl, by decide, by decide, by decide⟩

/-! ## The last completed sequence -/

theorem dequeue_send_keeps_sequence (L : Layout) (F : Nat) (s s2 : Dev) (r : Int)
    (h : psb_msvdx_dequeue_send L F s = some (s2, r)) :
    s2.msvdx_current_sequence = s.msvdx_current_sequence := by
  unfold psb_msvdx_dequeue_send at h
  split at h
  · simp only [Option.some.injEq, Prod.mk.injEq] at h
    rw [← h.1]
  · rename_i e rest _
    cases hs : psb_msvdx_send L F F { s with msvdx_queue := rest } e.cmd 0 e.cmd_size with
    | none => rw [hs] at h; simp at h
    | some p =>
      obtain ⟨s1, ret⟩ := p
      rw [hs] at h
      simp only [Option.some.injEq, Prod.mk.injEq] at h
      rw [← h.1]
      exact (psb_msvdx_send_frame L F F _ _ _ _ _ _ hs).2.2.2.2.2.2.2.2.2.1

theorem map_command_keeps_sequence (L : Layout) (hL : L.patch_ok) (F : Nat) (s : Dev)
    (mem : List Nat) (cmd_offset cmd_size : Nat) (kmap_ret : Int) (alloc_ok : Bool)
    (sequence : Nat) (copy_cmd : Bool) (r : MapResult)
    (h : psb_msvdx_map_command L F s mem cmd_offset cmd_size kmap_ret alloc_ok sequence copy_cmd
      = some r) :
    r.dev.msvdx_current_sequence = s.msvdx_current_sequence := by
  unfold psb_msvdx_map_command at h
  simp only at h
  split at h
  · simp only [Option.some.injEq] at h; rw [← h]
  · split at h
    · simp only [Option.some.injEq] at h; rw [← h]
    · cases hl : map_command_loop L sequence F { s with trace := s.trace ++ [Event.kmap] } mem 0
          cmd_size with
      | none => rw [hl] at h; simp at h
      | some res =>
        obtain ⟨s1, mem1, ex⟩ := res
        rw [hl] at h
        have hl' := hl
        have e0 : (0 : Nat) = 4 * 0 := rfl
        rw [e0] at hl'
        obtain ⟨⟨a, t, hfr⟩, _, _, hex⟩ := map_command_loop_post L hL sequence _ _ _ _ _ _ _ _ hl'
        have hs1 : s1.msvdx_current_sequence = s.msvdx_current_sequence := by rw [hfr]
        rcases hex with rfl | rfl | rfl
        · simp only at h
          cases copy_cmd
          · simp only [Bool.false_eq_true, if_false] at h
            cases hs : psb_msvdx_send L F F s1 mem1 0 cmd_size with
            | none => rw [hs] at h; simp at h
            | some p =>
              obtain ⟨s2, ret⟩ := p
              rw [hs] at h
              simp only [Option.some.injEq] at h
              rw [← h]
              simp only
              rw [(psb_msvdx_send_frame L F F _ _ _ _ _ _ hs).2.2.2.2.2.2.2.2.2.1, hs1]
          · simp only [if_true] at h
            split at h <;> (simp only [Option.some.injEq] at h; rw [← h]; exact hs1)
        · simp only [Option.some.injEq] at h; rw [← h]; exact hs1
        · simp only [Option.some.injEq] at h; rw [← h]; exact hs1

/-- A submission that needs neither a reset nor the firmware loaded leaves
`msvdx_current_sequence` alone. -/
theorem submit_keeps_sequence (L : Layout) (hL : L.patch_ok) (C : Collab) (F : Nat) (s : Dev)
    (mem : List Nat) (cmd_offset cmd_size : Nat) (kmap_ret : Int)
    (alloc_entry_ok alloc_copy_ok : Bool) (r : SubmitResult)
    (hreset : s.msvdx_needs_reset = 0) (hfw : s.msvdx_fw_loaded ≠ 0)
    (h : psb_submit_video_cmdbuf L C F s mem cmd_offset cmd_size kmap_ret alloc_entry_ok
      alloc_copy_ok = some r) :
    r.dev.msvdx_current_sequence = s.msvdx_current_sequence := by
  unfold psb_submit_video_cmdbuf at h
  simp only at h
  rw [submit_reset_none L C s hreset] at h
  simp only at h
  rw [submit_load_fw_none C s hfw] at h
  simp only at h
  split at h
  · cases hm : psb_msvdx_map_command L F { s with msvdx_busy := 1 } mem cmd_offset cmd_size
        kmap_ret true s.sequence false with
    | none => rw [hm] at h; simp at h
    | some q =>
      rw [hm] at h
      simp only [Option.some.injEq] at h
      rw [← h]
      exact map_command_keeps_sequence L hL F { s with msvdx_busy := 1 } mem cmd_offset cmd_size
        kmap_ret true s.sequence false q hm
  · split at h
    · simp only [Option.some.injEq] at h; rw [← h]
    · cases hm : psb_msvdx_map_command L F s mem cmd_offset cmd_size kmap_ret alloc_copy_ok
          s.sequence true with
      | none => rw [hm] at h; simp at h
      | some q =>
        rw [hm] at h
        have hq := map_command_keeps_sequence L hL F s mem cmd_offset cmd_size kmap_ret
          alloc_copy_ok s.sequence true q hm
        simp only at h
        split at h
        · simp only [Option.some.injEq] at h; rw [← h]; exact hq
        · split at h
          · cases hd : psb_msvdx_dequeue_send L F
                { q.dev with
                  msvdx_queue := q.dev.msvdx_queue ++
                    [{ cmd := q.copy.getD [], cmd_size := cmd_size, sequence := s.sequence }]
                  msvdx_busy := 1 } with
            | none => rw [hd] at h; simp at h
            | some p =>
              obtain ⟨s4, ret⟩ := p
              rw [hd] at h
              simp only [Option.some.injEq] at h
              rw [← h]
              simp only
              rw [dequeue_send_keeps_sequence L F _ s4 ret hd]
              exact hq
          · simp only [Option.some.injEq] at h; rw [← h]; exact hq

/-- The case `VA_MSGID_CMD_COMPLETED`, with or without the host-interrupt
flag: it returns and `msvdx_current_sequence` is the fence of the message. -/
theorem mtx_interrupt_completed_seq (L : Layout) (hL : L.header_ok) (F : Nat) (s : Dev)
    (buf : List Nat)
    (hq : ∀ e, s.msvdx_queue.head? = some e → entry_ok L (F + 2) e)
    (hr : s.MSVDX_COMMS_TO_MTX_RD_INDEX < to_mtx_capacity s)
    (hw : s.MSVDX_COMMS_TO_MTX_WRT_INDEX < to_mtx_capacity s) :
    ∃ s2, mtx_interrupt_completed L (F + 2) s buf = some s2 ∧
      s2.msvdx_current_sequence
        = (if L.mdfld_fw_updated then MEMIO_READ_FIELD buf 0 L.FW_VA_CMD_COMPLETED_MSG_ID
            else MEMIO_READ_FIELD buf 0 L.FW_VA_CMD_COMPLETED_FENCE_VALUE) := by
  by_cases hint : MEMIO_READ_FIELD buf 0 L.FW_VA_CMD_COMPLETED_FLAGS
      &&& L.FW_VA_RENDER_HOST_INT ≠ 0
  · obtain ⟨s2, h1, h2, _⟩ := mtx_interrupt_completed_host_int L hL F s buf hint hq hr hw
    exact ⟨s2, h1, h2⟩
  · unfold mtx_interrupt_completed psb_fence_handler
    simp only
    rw [if_neg hint]
    exact ⟨_, rfl, rfl⟩

theorem signed32_step (c : Nat) : signed32 (sub32 ((c + 1) % U32) c) = 1 := by
  unfold signed32 sub32 U32
  split <;> omega

theorem signed32_stay (c : Nat) : signed32 (sub32 c c) = 0 := by
  rw [sub32_self]
  rfl

/-- C19: the interrupt handler, in a turn of its loop that starts with
`msvdx_needs_reset` zero (the queue being empty or having a validated entry
at its head), reaches the label `done` in a state `s2`. On a
`VA_MSGID_CMD_HW_PANIC` message `msvdx_current_sequence` has moved by 0 or by
1 as a signed 32-bit difference. On a `VA_MSGID_CMD_FAILED` and on a
`VA_MSGID_CMD_COMPLETED` message it holds the fence that the message carries,
whatever that is. On any other message it is as before. The read of a message
leaves it alone, and so does a submission made in state `s` with the
firmware loaded. -/
theorem C19_sequence_follows_firmware_fence (L : Layout) (hL : L.patch_ok) (hlab : L.labels_ok)
    (F fuel : Nat) (s : Dev)
    (hne : s.MSVDX_COMMS_TO_HOST_RD_INDEX ≠ s.MSVDX_COMMS_TO_HOST_WRT_INDEX)
    (hreset : s.msvdx_needs_reset = 0)
    (hq : ∀ e, s.msvdx_queue.head? = some e → entry_ok L (F + 2) e)
    (hr : s.MSVDX_COMMS_TO_MTX_RD_INDEX < to_mtx_capacity s)
    (hw : s.MSVDX_COMMS_TO_MTX_WRT_INDEX < to_mtx_capacity s) :
    ∃ s2, mtx_interrupt_dispatch L (F + 2) (to_host_read L s) (received L s) = some s2 ∧
      mtx_interrupt_loop L (F + 2) (fuel + 1) s
        = (if (to_host_read L s).MSVDX_COMMS_TO_HOST_RD_INDEX ≠ s.MSVDX_COMMS_TO_HOST_WRT_INDEX
           then mtx_interrupt_loop L (F + 2) fuel s2 else some s2) ∧
      (MEMIO_READ_FIELD (received L s) 0 L.FWRK_GENMSG_ID = L.VA_MSGID_CMD_HW_PANIC →
        signed32 (sub32 s2.msvdx_current_sequence s.msvdx_current_sequence) = 0
          ∨ signed32 (sub32 s2.msvdx_current_sequence s.msvdx_current_sequence) = 1) ∧
      (MEMIO_READ_FIELD (received L s) 0 L.FWRK_GENMSG_ID = L.VA_MSGID_CMD_FAILED →
        s2.msvdx_current_sequence
          = (if L.mdfld_fw_updated then
              MEMIO_READ_FIELD (received L s) 0 L.FW_DEVA_CMD_FAILED_MSG_ID
            else MEMIO_READ_FIELD (received L s) 0 L.FW_VA_CMD_FAILED_FENCE_VALUE)) ∧
      (MEMIO_READ_FIELD (received L s) 0 L.FWRK_GENMSG_ID = L.VA_MSGID_CMD_COMPLETED →
        s2.msvdx_current_sequence
          = (if L.mdfld_fw_updated then
              MEMIO_READ_FIELD (received L s) 0 L.FW_VA_CMD_COMPLETED_MSG_ID
            else MEMIO_READ_FIELD (received L s) 0 L.FW_VA_CMD_COMPLETED_FENCE_VALUE)) ∧
      (MEMIO_READ_FIELD (received L s) 0 L.FWRK_GENMSG_ID ≠ L.VA_MSGID_CMD_HW_PANIC →
        MEMIO_READ_FIELD (received L s) 0 L.FWRK_GENMSG_ID ≠ L.VA_MSGID_CMD_FAILED →
        MEMIO_READ_FIELD (received L s) 0 L.FWRK_GENMSG_ID ≠ L.VA_MSGID_CMD_COMPLETED →
        s2.msvdx_current_sequence = s.msvdx_current_sequence) ∧
      (to_host_read L s).msvdx_current_sequence = s.msvdx_current_sequence ∧
      (∀ (C : Collab) (mem : List Nat) (cmd_offset cmd_size : Nat) (kmap_ret : Int)
          (alloc_entry_ok alloc_copy_ok : Bool) (r : SubmitResult),
        s.msvdx_fw_loaded ≠ 0 →
        psb_submit_video_cmdbuf L C (F + 2) s mem cmd_offset cmd_size kmap_ret alloc_entry_ok
          alloc_copy_ok = some r →
        r.dev.msvdx_current_sequence = s.msvdx_current_sequence) := by
  have hsub : ∀ (C : Collab) (mem : List Nat) (cmd_offset cmd_size : Nat) (kmap_ret : Int)
      (alloc_entry_ok alloc_copy_ok : Bool) (r : SubmitResult),
      s.msvdx_fw_loaded ≠ 0 →
      psb_submit_video_cmdbuf L C (F + 2) s mem cmd_offset cmd_size kmap_ret alloc_entry_ok
        alloc_copy_ok = some r →
      r.dev.msvdx_current_sequence = s.msvdx_current_sequence :=
    fun C mem cmd_offset cmd_size kmap_ret a1 a2 r hfw h =>
      submit_keeps_sequence L hL C _ s mem cmd_offset cmd_size kmap_ret a1 a2 r hreset hfw h
  have e2 : (to_host_read L s).msvdx_current_sequence = s.msvdx_current_sequence := rfl
  have e3 : (to_host_read L s).sequence = s.sequence := rfl
  by_cases hfault : MEMIO_READ_FIELD (received L s) 0 L.FWRK_GENMSG_ID = L.VA_MSGID_CMD_HW_PANIC
      ∨ MEMIO_READ_FIELD (received L s) 0 L.FWRK_GENMSG_ID = L.VA_MSGID_CMD_FAILED
  · have hd := dispatch_fault L (F + 2) (to_host_read L s) (received L s) hfault
    obtain ⟨_, _, _, _, p5, _⟩ := mtx_interrupt_fault_post L (to_host_read L s) (received L s)
      (MEMIO_READ_FIELD (received L s) 0 L.FWRK_GENMSG_ID)
    rw [e2, e3] at p5
    refine ⟨_, hd, mtx_interrupt_loop_turn L _ fuel s _ hne hreset hd, ?_, ?_, ?_, ?_, e2, hsub⟩
    · intro hp
      rw [p5, if_pos hp]
      split
      · exact Or.inr (signed32_step _)
      · exact Or.inl (signed32_stay _)
    · intro hf
      rw [p5, if_neg (by rw [hf]; exact Ne.symm hlab.2.2)]
    · intro hc
      rcases hfault with h | h
      · rw [hc] at h; exact absurd h hlab.1
      · rw [hc] at h; exact absurd h hlab.2.1
    · intro n1 n2 _
      exact absurd hfault (fun h => h.elim n1 n2)
  · have n1 : MEMIO_READ_FIELD (received L s) 0 L.FWRK_GENMSG_ID ≠ L.VA_MSGID_CMD_HW_PANIC :=
      fun h => hfault (Or.inl h)
    have n2 : MEMIO_READ_FIELD (received L s) 0 L.FWRK_GENMSG_ID ≠ L.VA_MSGID_CMD_FAILED :=
      fun h => hfault (Or.inr h)
    by_cases hc : MEMIO_READ_FIELD (received L s) 0 L.FWRK_GENMSG_ID = L.VA_MSGID_CMD_COMPLETED
    · obtain ⟨s2, h1, h2⟩ := mtx_interrupt_completed_seq L hL.1 F (to_host_read L s)
        (received L s) hq hr hw
      have hd : mtx_interrupt_dispatch L (F + 2) (to_host_read L s) (received L s) = some s2 := by
        rw [dispatch_completed L hlab _ _ _ hc, h1]
      exact ⟨s2, hd, mtx_interrupt_loop_turn L _ fuel s s2 hne hreset hd,
        fun h => absurd h n1, fun h => absurd h n2, fun _ => h2, fun _ _ h => absurd hc h, e2,
        hsub⟩
    · have hd := dispatch_unknown L (F + 2) (to_host_read L s) (received L s) n1 n2 hc
      exact ⟨_, hd, mtx_interrupt_loop_turn L _ fuel s _ hne hreset hd,
        fun h => absurd h n1, fun h => absurd h n2, fun h => absurd h hc, fun _ _ _ => e2, e2,
        hsub⟩

/-- Witness of C19: a panic message delivered while the last completed
sequence is one behind the last requested one. -/
theorem C19_sequence_follows_firmware_fence_witness :
    ∃ s2, mtx_interrupt_dispatch sampleLayout (0 + 2) (to_host_read sampleLayout (hostDev panicMsg 2))
        (received sampleLayout (hostDev panicMsg 2)) = some s2 ∧
      mtx_interrupt_loop sampleLayout (0 + 2) (0 + 1) (hostDev panicMsg 2)
        = (if (to_host_read sampleLayout (hostDev panicMsg 2)).MSVDX_COMMS_TO_HOST_RD_INDEX
              ≠ (hostDev panicMsg 2).MSVDX_COMMS_TO_HOST_WRT_INDEX
           then mtx_interrupt_loop sampleLayout (0 + 2) 0 s2 else some s2) ∧
      (MEMIO_READ_FIELD (received sampleLayout (hostDev panicMsg 2)) 0
          sampleLayout.FWRK_GENMSG_ID = sampleLayout.VA_MSGID_CMD_HW_PANIC →
        signed32 (sub32 s2.msvdx_current_sequence (hostDev panicMsg 2).msvdx_current_sequence) = 0
          ∨ signed32 (sub32 s2.msvdx_current_sequence
              (hostDev panicMsg 2).msvdx_current_sequence) = 1) ∧
      (MEMIO_READ_FIELD (received sampleLayout (hostDev panicMsg 2)) 0
          sampleLayout.FWRK_GENMSG_ID = sampleLayout.VA_MSGID_CMD_FAILED →
        s2.msvdx_current_sequence
          = (if sampleLayout.mdfld_fw_updated then
              MEMIO_READ_FIELD (received sampleLayout (hostDev panicMsg 2)) 0
                sampleLayout.FW_DEVA_CMD_FAILED_MSG_ID
            else MEMIO_READ_FIELD (received sampleLayout (hostDev panicMsg 2)) 0
              sampleLayout.FW_VA_CMD_FAILED_FENCE_VALUE)) ∧
      (MEMIO_READ_FIELD (received sampleLayout (hostDev panicMsg 2)) 0
          sampleLayout.FWRK_GENMSG_ID = sampleLayout.VA_MSGID_CMD_COMPLETED →
        s2.msvdx_current_sequence
          = (if sampleLayout.mdfld_fw_updated then
              MEMIO_READ_FIELD (received sampleLayout (hostDev panicMsg 2)) 0
                sampleLayout.FW_VA_CMD_COMPLETED_MSG_ID
            else MEMIO_READ_FIELD (received sampleLayout (hostDev panicMsg 2)) 0
              sampleLayout.FW_VA_CMD_COMPLETED_FENCE_VALUE)) ∧
      (MEMIO_READ_FIELD (received sampleLayout (hostDev panicMsg 2)) 0
          sampleLayout.FWRK_GENMSG_ID ≠ sampleLayout.VA_MSGID_CMD_HW_PANIC →
        MEMIO_READ_FIELD (received sampleLayout (hostDev panicMsg 2)) 0
          sampleLayout.FWRK_GENMSG_ID ≠ sampleLayout.VA_MSGID_CMD_FAILED →
        MEMIO_READ_FIELD (received sampleLayout (hostDev panicMsg 2)) 0
          sampleLayout.FWRK_GENMSG_ID ≠ sampleLayout.VA_MSGID_CMD_COMPLETED →
        s2.msvdx_current_sequence = (hostDev panicMsg 2).msvdx_current_sequence) ∧
      (to_host_read sampleLayout (hostDev panicMsg 2)).msvdx_current_sequence
        = (hostDev panicMsg 2).msvdx_current_sequence ∧
      (∀ (C : Collab) (mem : List Nat) (cmd_offset cmd_size : Nat) (kmap_ret : Int)
          (alloc_entry_ok alloc_copy_ok : Bool) (r : SubmitResult),
        (hostDev panicMsg 2).msvdx_fw_loaded ≠ 0 →
        psb_submit_video_cmdbuf sampleLayout C (0 + 2) (hostDev panicMsg 2) mem cmd_offset
          cmd_size kmap_ret alloc_entry_ok alloc_copy_ok = some r →
        r.dev.msvdx_current_sequence = (hostDev panicMsg 2).msvdx_current_sequence) :=
  C19_sequence_follows_firmware_fence sampleLayout (by decide) (by decide) 0 0
    (hostDev panicMsg 2) (by decide) (by decide)
    (fun e h => by simp [hostDev, busyDev, idleDev] at h) (by decide) (by decide)

/-- Counterexample to C19 as stated: the last completed sequence of `staleDev`
is 4 and the firmware delivers a completed message with fence 3. The handler
sets `msvdx_current_sequence` to 3, so the update, as a signed 32-bit
difference of new and old, is -1. -/
theorem C19_completed_fence_goes_back :
    staleDev.msvdx_current_sequence = 4 ∧ staleDev.msvdx_needs_reset = 0 ∧
    MEMIO_READ_FIELD (received sampleLayout staleDev) 0 sampleLayout.FWRK_GENMSG_ID
      = sampleLayout.VA_MSGID_CMD_COMPLETED ∧
    (psb_msvdx_mtx_interrupt sampleLayout 2 staleDev).map
        (fun s2 => (s2.msvdx_current_sequence,
          signed32 (sub32 s2.msvdx_current_sequence staleDev.msvdx_current_sequence)))
      = some (3, -1) := by
  refine ⟨rfl, rfl, by decide, by decide⟩

/-! ## The generic header read back -/

theorem header_fields_apart (L : Layout) (hL : L.header_ok) :
    L.FWRK_GENMSG_SIZE.disjoint L.FWRK_GENMSG_ID ∧
    L.FWRK_GENMSG_SIZE.shift + L.FWRK_GENMSG_SIZE.width ≤ 32 ∧
    L.FWRK_GENMSG_ID.shift + L.FWRK_GENMSG_ID.width ≤ 32 := by
  obtain ⟨_, _, h3, h4, _, _⟩ := hL
  exact ⟨Or.inr (Or.inl h3), by omega, h4⟩

/-- C24: for a buffer `m` that holds the header word of a message at word
`k`, and a size and an id that fit their fields (the two fields lying in the
header word as the wire format has them): after the size and then the id are
written, as lines 488-491 do, both read back as written; a write of the size
leaves the id as it was and a write of the id leaves the size as it was. The
pad message that `psb_mtx_send` builds reads back with the padding id and
with its size, cut to the width of the size field. -/
theorem C24_header_round_trip (L : Layout) (hL : L.header_ok) (m : List Nat) (k size id : Nat)
    (hk : k < m.length) (hs : size < 2 ^ L.FWRK_GENMSG_SIZE.width)
    (hi : id < 2 ^ L.FWRK_GENMSG_ID.width) :
    MEMIO_READ_FIELD
        (MEMIO_WRITE_FIELD (MEMIO_WRITE_FIELD m (4 * k) L.FWRK_GENMSG_SIZE size) (4 * k)
          L.FWRK_GENMSG_ID id) (4 * k) L.FWRK_GENMSG_SIZE = size ∧
    MEMIO_READ_FIELD
        (MEMIO_WRITE_FIELD (MEMIO_WRITE_FIELD m (4 * k) L.FWRK_GENMSG_SIZE size) (4 * k)
          L.FWRK_GENMSG_ID id) (4 * k) L.FWRK_GENMSG_ID = id ∧
    MEMIO_READ_FIELD (MEMIO_WRITE_FIELD m (4 * k) L.FWRK_GENMSG_SIZE size) (4 * k)
        L.FWRK_GENMSG_ID = MEMIO_READ_FIELD m (4 * k) L.FWRK_GENMSG_ID ∧
    MEMIO_READ_FIELD (MEMIO_WRITE_FIELD m (4 * k) L.FWRK_GENMSG_ID id) (4 * k)
        L.FWRK_GENMSG_SIZE = MEMIO_READ_FIELD m (4 * k) L.FWRK_GENMSG_SIZE ∧
    (∀ buf_size widx,
      MEMIO_READ_FIELD (pad_msg L buf_size widx) 0 L.FWRK_GENMSG_ID = L.FWRK_MSGID_PADDING ∧
      MEMIO_READ_FIELD (pad_msg L buf_size widx) 0 L.FWRK_GENMSG_SIZE
        = ((sub32 buf_size widx * 4) % U32) % 2 ^ L.FWRK_GENMSG_SIZE.width) := by
  obtain ⟨hd, hs32, hi32⟩ := header_fields_apart L hL
  have hsw : k + L.FWRK_GENMSG_SIZE.word < m.length := by rw [hL.1]; exact hk
  have hiw : k + L.FWRK_GENMSG_ID.word < m.length := by rw [hL.2.1]; exact hk
  refine ⟨?_, ?_, ?_, ?_, fun bs widx => ⟨pad_msg_id L hL bs widx, pad_msg_size L hL bs widx⟩⟩
  · rw [read_write_disjoint _ _ _ _ _ (Field.disjoint_symm hd) hs32,
      read_write_same _ _ _ _ hsw hs32, Nat.mod_eq_of_lt hs]
  · rw [read_write_same _ _ _ _ (by rw [length_write_field]; exact hiw) hi32,
      Nat.mod_eq_of_lt hi]
  · exact read_write_disjoint _ _ _ _ _ hd hi32
  · exact read_write_disjoint _ _ _ _ _ (Field.disjoint_symm hd) hs32

/-- Witness of C24: the size 16 and the id 131 written into the header of the
sample render message. -/
theorem C24_header_round_trip_witness :
    MEMIO_READ_FIELD
        (MEMIO_WRITE_FIELD (MEMIO_WRITE_FIELD sampleRender (4 * 0)
          sampleLayout.FWRK_GENMSG_SIZE 16) (4 * 0) sampleLayout.FWRK_GENMSG_ID 131) (4 * 0)
        sampleLayout.FWRK_GENMSG_SIZE = 16 ∧
    MEMIO_READ_FIELD
        (MEMIO_WRITE_FIELD (MEMIO_WRITE_FIELD sampleRender (4 * 0)
          sampleLayout.FWRK_GENMSG_SIZE 16) (4 * 0) sampleLayout.FWRK_GENMSG_ID 131) (4 * 0)
        sampleLayout.FWRK_GENMSG_ID = 131 ∧
    MEMIO_READ_FIELD (MEMIO_WRITE_FIELD sampleRender (4 * 0) sampleLayout.FWRK_GENMSG_SIZE 16)
        (4 * 0) sampleLayout.FWRK_GENMSG_ID
      = MEMIO_READ_FIELD sampleRender (4 * 0) sampleLayout.FWRK_GENMSG_ID ∧
    MEMIO_READ_FIELD (MEMIO_WRITE_FIELD sampleRender (4 * 0) sampleLayout.FWRK_GENMSG_ID 131)
        (4 * 0) sampleLayout.FWRK_GENMSG_SIZE
      = MEMIO_READ_FIELD sampleRender (4 * 0) sampleLayout.FWRK_GENMSG_SIZE ∧
    (∀ buf_size widx,
      MEMIO_READ_FIELD (pad_msg sampleLayout buf_size widx) 0 sampleLayout.FWRK_GENMSG_ID
        = sampleLayout.FWRK_MSGID_PADDING ∧
      MEMIO_READ_FIELD (pad_msg sampleLayout buf_size widx) 0 sampleLayout.FWRK_GENMSG_SIZE
        = ((sub32 buf_size widx * 4) % U32) % 2 ^ sampleLayout.FWRK_GENMSG_SIZE.width) :=
  C24_header_round_trip sampleLayout (by decide) sampleRender 0 16 131 (by decide) (by decide)
    (by decide)

/-! ## `psb_msvdx_check_reset_fw` -/

theorem testBit_not32 (x i : Nat) : (not32 x).testBit i = (decide (i < 32) && !x.testBit i) := by
  unfold not32
  have h : x % U32 < 2 ^ 32 := Nat.mod_lt _ (by decide)
  have e : U32 - 1 - x % U32 = 2 ^ 32 - (x % U32 + 1) := by unfold U32; omega
  rw [e, Nat.testBit_two_pow_sub_succ h]
  have e2 : U32 = 2 ^ 32 := by unfold U32; norm_num
  rw [e2, Nat.testBit_mod_two_pow]
  cases hd : decide (i < 32) <;> simp

theorem land_not32_land (x r : Nat) : (x &&& not32 r) &&& r = 0 := by
  apply Nat.eq_of_testBit_eq
  intro i
  simp only [Nat.testBit_and, testBit_not32, Nat.zero_testBit]
  cases x.testBit i <;> cases r.testBit i <;> cases decide (i < 32) <;> rfl

theorem land_not32_testBit (x r i : Nat) (hi : i < 32) (hr : r.testBit i = false) :
    (x &&& not32 r).testBit i = x.testBit i := by
  simp only [Nat.testBit_and, testBit_not32, hr, hi, decide_True, Bool.not_false, Bool.and_self,
    Bool.and_true]

/-- C23: `psb_msvdx_check_reset_fw` returns 0. It calls
`ospm_power_island_down` exactly when `msvdx_needs_reset` has a bit in common
with `MSVDX_RESET_NEEDS_REUPLOAD_FW` on entry. On return no bit of
`MSVDX_RESET_NEEDS_REUPLOAD_FW` is set in `msvdx_needs_reset`, every other bit
of the 32 is as it was, and nothing else of the device state has changed. A
second call right after the first changes nothing and does not power down. -/
theorem C23_check_reset_fw_clears_reupload_bit (L : Layout) (s : Dev) :
    (psb_msvdx_check_reset_fw L s).2 = 0 ∧
    (psb_msvdx_check_reset_fw L s).1.trace
      = (if s.msvdx_needs_reset &&& L.MSVDX_RESET_NEEDS_REUPLOAD_FW ≠ 0 then
          s.trace ++ [Event.power_island_down]
        else s.trace) ∧
    (psb_msvdx_check_reset_fw L s).1.msvdx_needs_reset &&& L.MSVDX_RESET_NEEDS_REUPLOAD_FW = 0 ∧
    (∀ i, i < 32 → L.MSVDX_RESET_NEEDS_REUPLOAD_FW.testBit i = false →
      (psb_msvdx_check_reset_fw L s).1.msvdx_needs_reset.testBit i
        = s.msvdx_needs_reset.testBit i) ∧
    (psb_msvdx_check_reset_fw L s).1
      = { s with msvdx_needs_reset := (psb_msvdx_check_reset_fw L s).1.msvdx_needs_reset
                 trace := (psb_msvdx_check_reset_fw L s).1.trace } ∧
    psb_msvdx_check_reset_fw L (psb_msvdx_check_reset_fw L s).1
      = ((psb_msvdx_check_reset_fw L s).1, 0) := by
  have hclear : (psb_msvdx_check_reset_fw L s).1.msvdx_needs_reset
      &&& L.MSVDX_RESET_NEEDS_REUPLOAD_FW = 0 := by
    unfold psb_msvdx_check_reset_fw
    split
    · exact land_not32_land _ _
    · rename_i h
      simpa using h
  refine ⟨?_, ?_, hclear, ?_, ?_, ?_⟩
  · unfold psb_msvdx_check_reset_fw; split <;> rfl
  · unfold psb_msvdx_check_reset_fw; split <;> rfl
  · intro i hi hr
    unfold psb_msvdx_check_reset_fw
    split
    · exact land_not32_testBit _ _ _ hi hr
    · rfl
  · unfold psb_msvdx_check_reset_fw; split <;> rfl
  · generalize psb_msvdx_check_reset_fw L s = p at hclear
    unfold psb_msvdx_check_reset_fw
    rw [if_neg (by rw [hclear]; simp)]

/-! ## `psb_msvdx_lockup` -/

/-- The second of two calls of `psb_msvdx_lockup` in a row reports a lockup
exactly when the test of line 819 holds: the signed difference of the last
completed and the last requested sequence exceeds `0x0FFFFFFF`. -/
theorem lockup_second_call (s : Dev) :
    (psb_msvdx_lockup (psb_msvdx_lockup s).1).2.1 = 1 ↔
      signed32 (sub32 s.msvdx_current_sequence s.sequence) > 268435455 := by
  by_cases h : signed32 (sub32 s.msvdx_current_sequence s.sequence) > 268435455
  · by_cases h2 : s.msvdx_current_sequence = s.msvdx_last_sequence
    · have e1 : psb_msvdx_lockup s = (s, 1, 1) := by
        unfold psb_msvdx_lockup
        simp only
        rw [if_pos h, if_pos h2]
      rw [e1, e1]
      exact ⟨fun _ => h, fun _ => rfl⟩
    · have e1 : psb_msvdx_lockup s
          = ({ s with msvdx_last_sequence := s.msvdx_current_sequence }, 0, 0) := by
        unfold psb_msvdx_lockup
        simp only
        rw [if_pos h, if_neg h2]
      have e2 : psb_msvdx_lockup { s with msvdx_last_sequence := s.msvdx_current_sequence }
          = ({ s with msvdx_last_sequence := s.msvdx_current_sequence }, 1, 1) := by
        unfold psb_msvdx_lockup
        simp only
        rw [if_pos h]
        simp only [if_true]
      rw [e1, e2]
      exact ⟨fun _ => h, fun _ => rfl⟩
  · have e1 : psb_msvdx_lockup s = (s, 0, 1) := by
      unfold psb_msvdx_lockup
      simp only
      rw [if_neg h]
    rw [e1, e1]
    exact ⟨fun h0 => by simp at h0, fun h0 => absurd h0 h⟩

/-- C21: work is outstanding on `s`, the last requested sequence being `k`
ahead of the last completed one (`k` between 1 and 2^31). Both of two calls of
`psb_msvdx_lockup` in a row report no lockup (and an idle device), and leave
the state as it is: the difference of line 816, read as an `int`, is negative
and so never exceeds `0x0FFFFFFF`. -/
theorem C21_lockup_unreported_when_completion_is_behind (s : Dev) (k : Nat)
    (hk : 0 < k) (hk2 : k ≤ 2147483648)
    (hseq : s.sequence = (s.msvdx_current_sequence + k) % U32) :
    s.msvdx_current_sequence ≠ s.sequence ∧
    psb_msvdx_lockup s = (s, 0, 1) ∧
    psb_msvdx_lockup (psb_msvdx_lockup s).1 = (s, 0, 1) := by
  have hd : ¬ signed32 (sub32 s.msvdx_current_sequence s.sequence) > 268435455 := by
    rw [hseq]
    unfold signed32 sub32 U32 at *
    split <;> omega
  have h1 : psb_msvdx_lockup s = (s, 0, 1) := by
    unfold psb_msvdx_lockup
    simp only
    rw [if_neg hd]
  refine ⟨?_, h1, ?_⟩
  · rw [hseq]; unfold U32 at *; omega
  · rw [h1]; exact h1

/-- Witness of C21: the last completed sequence is 4 and the last requested
one is 5. -/
theorem C21_lockup_unreported_when_completion_is_behind_witness :
    (hostDev [] 0).msvdx_current_sequence ≠ (hostDev [] 0).sequence ∧
    psb_msvdx_lockup (hostDev [] 0) = (hostDev [] 0, 0, 1) ∧
    psb_msvdx_lockup (psb_msvdx_lockup (hostDev [] 0)).1 = (hostDev [] 0, 0, 1) :=
  C21_lockup_unreported_when_completion_is_behind (hostDev [] 0) 1 (by decide) (by decide)
    (by decide)

/-! ## The copy of one message out of the firmware-to-host ring -/

theorem to_host_copy_length (vlr : Nat → Nat) (bo bs : Nat) :
    ∀ (n ofs : Nat) (buf : List Nat) (ridx : Nat),
      (to_host_copy vlr bo bs n ofs buf ridx).1.length = buf.length := by
  intro n
  induction n with
  | zero => intro ofs buf ridx; rfl
  | succ n ih =>
    intro ofs buf ridx
    rw [to_host_copy, ih, List.length_set]

theorem to_host_copy_buf (vlr : Nat → Nat) (bo bs : Nat) (hbs : bs < 65536) :
    ∀ (n ofs : Nat) (buf : List Nat) (ridx : Nat), ridx < bs → ofs + n ≤ buf.length →
      ∀ j, (to_host_copy vlr bo bs n ofs buf ridx).1.getD j 0
        = if ofs ≤ j ∧ j < ofs + n then vlr (ring_addr bo ((ridx + (j - ofs)) % bs))
          else buf.getD j 0 := by
  intro n
  induction n with
  | zero =>
    intro ofs buf ridx _ _ j
    rw [if_neg (by omega)]
    rfl
  | succ n ih =>
    intro ofs buf ridx h hlen j
    rw [to_host_copy]
    have e1 : (ridx + 1) % U32 = ridx + 1 := Nat.mod_eq_of_lt (by unfold U32; omega)
    have e2 : (if (ridx + 1) % U32 ≥ bs then 0 else (ridx + 1) % U32) = (ridx + 1) % bs := by
      rw [e1]
      by_cases hge : ridx + 1 ≥ bs
      · rw [if_pos hge]
        have : ridx + 1 = bs := by omega
        rw [this, Nat.mod_self]
      · rw [if_neg hge, Nat.mod_eq_of_lt (by omega)]
    rw [e2, ih _ _ _ (Nat.mod_lt _ (by omega)) (by rw [List.length_set]; omega), getD_set_eq]
    by_cases hj : ofs = j
    · subst hj
      rw [if_neg (by omega), if_pos ⟨rfl, by omega⟩, if_pos ⟨Nat.le_refl _, by omega⟩,
        Nat.sub_self, Nat.add_zero, Nat.mod_eq_of_lt h]
    · by_cases hin : ofs + 1 ≤ j ∧ j < ofs + 1 + n
      · rw [if_pos hin, if_pos ⟨by omega, by omega⟩, Nat.mod_add_mod]
        congr 3
        omega
      · rw [if_neg hin, if_neg (fun hc => hj hc.1), if_neg (by omega)]

theorem to_host_num_eq (L : Layout) (hL : L.header_ok) (s : Dev)
    (hbuf : 0 < s.mtx_interrupt_buf.length)
    (hn : (getBits (to_host_word s s.MSVDX_COMMS_TO_HOST_RD_INDEX) L.FWRK_GENMSG_SIZE + 3) / 4
      ≤ 128) :
    to_host_num L s
      = (getBits (to_host_word s s.MSVDX_COMMS_TO_HOST_RD_INDEX) L.FWRK_GENMSG_SIZE + 3) / 4 := by
  have hrd : MEMIO_READ_FIELD (s.mtx_interrupt_buf.set 0
      (s.vlr (ring_addr (to_host_offset s) s.MSVDX_COMMS_TO_HOST_RD_INDEX))) 0 L.FWRK_GENMSG_SIZE
      = getBits (to_host_word s s.MSVDX_COMMS_TO_HOST_RD_INDEX) L.FWRK_GENMSG_SIZE := by
    unfold MEMIO_READ_FIELD rd32 to_host_word
    rw [hL.1]
    simp only [Nat.mul_zero, Nat.add_zero, Nat.zero_mod, if_true, Nat.zero_div]
    rw [getD_set_eq, if_pos ⟨rfl, hbuf⟩]
  unfold to_host_num msg_num_of U32
  rw [hrd]
  omega

/-- C22: one turn of the drain loop on a firmware-to-host ring whose read
index is below the capacity and differs from the write index. The length `n`
in words is the declared byte size in the first ring word, rounded up to whole
words; when it is at most the 128 words of the scratch buffer, word `i` of the
buffer is the ring word at `(read_index + i) mod capacity` for every `i < n`,
the read-index register holds `(read_index + max 1 n) mod capacity`, nothing
else of the state is changed by the read, and what follows in the turn (the
test of `msvdx_needs_reset` and the dispatch) starts from the state that
already has the new read index. -/
theorem C22_drain_turn_copies_message (L : Layout) (hL : L.header_ok) (F fuel : Nat) (s : Dev)
    (hrd : s.MSVDX_COMMS_TO_HOST_RD_INDEX < to_host_capacity s)
    (hne : s.MSVDX_COMMS_TO_HOST_RD_INDEX ≠ s.MSVDX_COMMS_TO_HOST_WRT_INDEX)
    (hbuf : s.mtx_interrupt_buf.length = 128)
    (hn : (getBits (to_host_word s s.MSVDX_COMMS_TO_HOST_RD_INDEX) L.FWRK_GENMSG_SIZE + 3) / 4
      ≤ 128) :
    to_host_num L s
      = (getBits (to_host_word s s.MSVDX_COMMS_TO_HOST_RD_INDEX) L.FWRK_GENMSG_SIZE + 3) / 4 ∧
    (∀ i, i < to_host_num L s →
      (received L s).getD i 0
        = to_host_word s ((s.MSVDX_COMMS_TO_HOST_RD_INDEX + i) % to_host_capacity s)) ∧
    to_host_read L s
      = { s with mtx_interrupt_buf := received L s
                 MSVDX_COMMS_TO_HOST_RD_INDEX :=
                   (s.MSVDX_COMMS_TO_HOST_RD_INDEX + max 1 (to_host_num L s))
                     % to_host_capacity s } ∧
    mtx_interrupt_loop L F (fuel + 1) s
      = (if s.msvdx_needs_reset ≠ 0 then mtx_interrupt_loop L F fuel (to_host_read L s)
         else
           match mtx_interrupt_dispatch L F (to_host_read L s) (received L s) with
           | none => none
           | some s2 =>
             if (s.MSVDX_COMMS_TO_HOST_RD_INDEX + max 1 (to_host_num L s)) % to_host_capacity s
                 ≠ s.MSVDX_COMMS_TO_HOST_WRT_INDEX
             then mtx_interrupt_loop L F fuel s2 else some s2) := by
  have hc := to_host_capacity_lt s
  have hri := to_host_read_ridx L s hrd
  have hnum0 := to_host_num_eq L hL s (by omega) hn
  refine ⟨hnum0, ?_, ?_, ?_⟩
  · intro i hi
    rw [hnum0] at hi
    have h0 : (to_host_copy s.vlr (to_host_offset s) (to_host_capacity s) 1 0
        s.mtx_interrupt_buf s.MSVDX_COMMS_TO_HOST_RD_INDEX)
        = (s.mtx_interrupt_buf.set 0
            (s.vlr (ring_addr (to_host_offset s) s.MSVDX_COMMS_TO_HOST_RD_INDEX)),
           if (s.MSVDX_COMMS_TO_HOST_RD_INDEX + 1) % U32 ≥ to_host_capacity s then 0
           else (s.MSVDX_COMMS_TO_HOST_RD_INDEX + 1) % U32) := rfl
    have e1 : (s.MSVDX_COMMS_TO_HOST_RD_INDEX + 1) % U32 = s.MSVDX_COMMS_TO_HOST_RD_INDEX + 1 :=
      Nat.mod_eq_of_lt (by unfold U32; omega)
    have e2 : (if (s.MSVDX_COMMS_TO_HOST_RD_INDEX + 1) % U32 ≥ to_host_capacity s then 0
        else (s.MSVDX_COMMS_TO_HOST_RD_INDEX + 1) % U32)
        = (s.MSVDX_COMMS_TO_HOST_RD_INDEX + 1) % to_host_capacity s := by
      rw [e1]
      by_cases hge : s.MSVDX_COMMS_TO_HOST_RD_INDEX + 1 ≥ to_host_capacity s
      · rw [if_pos hge]
        have : s.MSVDX_COMMS_TO_HOST_RD_INDEX + 1 = to_host_capacity s := by omega
        rw [this, Nat.mod_self]
      · rw [if_neg hge, Nat.mod_eq_of_lt (by omega)]
    have hnum : msg_num_of L (s.mtx_interrupt_buf.set 0
        (s.vlr (ring_addr (to_host_offset s) s.MSVDX_COMMS_TO_HOST_RD_INDEX))) 0
        = to_host_num L s := rfl
    unfold received to_host_read
    simp only
    rw [h0]
    simp only
    rw [hnum, hnum0, e2, to_host_copy_buf s.vlr _ _ hc _ _ _ _ (Nat.mod_lt _ (by omega))
      (by rw [List.length_set]; omega), getD_set_eq]
    unfold to_host_word at hi ⊢
    by_cases hi0 : i = 0
    · subst hi0
      rw [if_neg (by omega), if_pos ⟨rfl, by omega⟩, Nat.add_zero, Nat.mod_eq_of_lt hrd]
    · rw [if_pos ⟨by omega, by omega⟩, Nat.mod_add_mod]
      congr 3
      omega
  · rw [← hri]; rfl
  · rw [mtx_interrupt_loop]
    simp only
    rw [if_neg hne, ← hri]
    rfl

/-- Witness of C22: the completed message of three words at the start of the
ring of `completedDev`. -/
theorem C22_drain_turn_copies_message_witness :
    to_host_num sampleLayout completedDev
      = (getBits (to_host_word completedDev completedDev.MSVDX_COMMS_TO_HOST_RD_INDEX)
          sampleLayout.FWRK_GENMSG_SIZE + 3) / 4 ∧
    (∀ i, i < to_host_num sampleLayout completedDev →
      (received sampleLayout completedDev).getD i 0
        = to_host_word completedDev
            ((completedDev.MSVDX_COMMS_TO_HOST_RD_INDEX + i) % to_host_capacity completedDev)) ∧
    to_host_read sampleLayout completedDev
      = { completedDev with
          mtx_interrupt_buf := received sampleLayout completedDev
          MSVDX_COMMS_TO_HOST_RD_INDEX :=
            (completedDev.MSVDX_COMMS_TO_HOST_RD_INDEX
              + max 1 (to_host_num sampleLayout completedDev)) % to_host_capacity completedDev } ∧
    mtx_interrupt_loop sampleLayout 2 (1 + 1) completedDev
      = (if completedDev.msvdx_needs_reset ≠ 0
         then mtx_interrupt_loop sampleLayout 2 1 (to_host_read sampleLayout completedDev)
         else
           match mtx_interrupt_dispatch sampleLayout 2 (to_host_read sampleLayout completedDev)
             (received sampleLayout completedDev) with
           | none => none
           | some s2 =>
             if (completedDev.MSVDX_COMMS_TO_HOST_RD_INDEX
                   + max 1 (to_host_num sampleLayout completedDev)) % to_host_capacity completedDev
                 ≠ completedDev.MSVDX_COMMS_TO_HOST_WRT_INDEX
             then mtx_interrupt_loop sampleLayout 2 1 s2 else some s2) :=
  C22_drain_turn_copies_message sampleLayout (by decide) 2 1 completedDev (by decide) (by decide)
    rfl (by decide)

/-! ## The interrupt handler while a reset is needed -/

theorem to_host_read_frame (L : Layout) (s : Dev) :
    to_host_read L s
      = { s with mtx_interrupt_buf := (to_host_read L s).mtx_interrupt_buf
                 MSVDX_COMMS_TO_HOST_RD_INDEX := (to_host_read L s).MSVDX_COMMS_TO_HOST_RD_INDEX } :=
  rfl

theorem loop_under_reset (L : Layout) (F : Nat) :
    ∀ (fuel : Nat) (s s2 : Dev), s.msvdx_needs_reset ≠ 0 →
      mtx_interrupt_loop L F fuel s = some s2 →
      s2.MSVDX_COMMS_TO_HOST_RD_INDEX = s.MSVDX_COMMS_TO_HOST_WRT_INDEX ∧
      ∃ b r, s2 = { s with mtx_interrupt_buf := b, MSVDX_COMMS_TO_HOST_RD_INDEX := r } := by
  intro fuel
  induction fuel with
  | zero => intro s s2 _ h; simp [mtx_interrupt_loop] at h
  | succ fuel ih =>
    intro s s2 hreset h
    rw [mtx_interrupt_loop] at h
    simp only at h
    by_cases hrw : s.MSVDX_COMMS_TO_HOST_RD_INDEX = s.MSVDX_COMMS_TO_HOST_WRT_INDEX
    · rw [if_pos hrw] at h
      injection h with h
      subst h
      exact ⟨hrw, s.mtx_interrupt_buf, s.MSVDX_COMMS_TO_HOST_RD_INDEX, rfl⟩
    · have hr1 : (to_host_read L s).msvdx_needs_reset ≠ 0 := hreset
      rw [if_neg hrw, if_pos hr1] at h
      obtain ⟨h1, b, r, h2⟩ := ih _ _ hr1 h
      refine ⟨h1, b, r, ?_⟩
      rw [h2, to_host_read_frame]

theorem holds_messages_congr (L : Layout) (s s1 : Dev) (hv : s1.vlr = s.vlr)
    (hb : s1.MSVDX_COMMS_TO_HOST_BUF_SIZE = s.MSVDX_COMMS_TO_HOST_BUF_SIZE)
    (hw : s1.MSVDX_COMMS_TO_HOST_WRT_INDEX = s.MSVDX_COMMS_TO_HOST_WRT_INDEX) :
    ∀ (k r : Nat), holds_messages L s1 k r = holds_messages L s k r := by
  intro k
  induction k with
  | zero => intro r; simp only [holds_messages, hw]
  | succ k ih =>
    intro r
    simp only [holds_messages, to_host_word_num, to_host_word, to_host_offset, to_host_capacity,
      hv, hb, hw, ih]

theorem to_host_num_word (L : Layout) (hL : L.header_ok) (s : Dev)
    (hbuf : 0 < s.mtx_interrupt_buf.length) :
    to_host_num L s = to_host_word_num L s s.MSVDX_COMMS_TO_HOST_RD_INDEX := by
  unfold to_host_num to_host_word_num msg_num_of MEMIO_READ_FIELD rd32 to_host_word
  rw [hL.1]
  simp only [Nat.mul_zero, Nat.add_zero, Nat.zero_mod, if_true, Nat.zero_div]
  rw [getD_set_eq, if_pos ⟨rfl, hbuf⟩]

theorem to_host_read_length (L : Layout) (s : Dev) :
    (to_host_read L s).mtx_interrupt_buf.length = s.mtx_interrupt_buf.length := by
  unfold to_host_read
  simp only
  rw [to_host_copy_length, to_host_copy_length]

theorem loop_under_reset_returns (L : Layout) (hL : L.header_ok) (F : Nat) :
    ∀ (k fuel : Nat) (s : Dev), k < fuel → s.msvdx_needs_reset ≠ 0 →
      s.MSVDX_COMMS_TO_HOST_RD_INDEX < to_host_capacity s →
      0 < s.mtx_interrupt_buf.length →
      holds_messages L s k s.MSVDX_COMMS_TO_HOST_RD_INDEX = true →
      ∃ s2, mtx_interrupt_loop L F fuel s = some s2 := by
  intro k
  induction k with
  | zero =>
    intro fuel s hf _ _ _ hk
    obtain ⟨f, rfl⟩ : ∃ f, fuel = f + 1 := ⟨fuel - 1, by omega⟩
    simp only [holds_messages, decide_eq_true_eq] at hk
    rw [mtx_interrupt_loop]
    simp only
    rw [if_pos hk]
    exact ⟨s, rfl⟩
  | succ k ih =>
    intro fuel s hf hreset hrd hbuf hk
    obtain ⟨f, rfl⟩ : ∃ f, fuel = f + 1 := ⟨fuel - 1, by omega⟩
    simp only [holds_messages, Bool.and_eq_true, decide_eq_true_eq] at hk
    have hr1 : (to_host_read L s).msvdx_needs_reset ≠ 0 := hreset
    have hc1 : to_host_capacity (to_host_read L s) = to_host_capacity s := rfl
    have hri := to_host_read_ridx L s hrd
    rw [to_host_num_word L hL s hbuf] at hri
    rw [mtx_interrupt_loop]
    simp only
    rw [if_neg hk.1, if_pos hr1]
    apply ih f (to_host_read L s) (by omega) hr1
    · rw [hc1, hri]
      exact Nat.mod_lt _ (by omega)
    · rw [to_host_read_length]; exact hbuf
    · rw [holds_messages_congr L s (to_host_read L s) rfl rfl rfl, hri]
      exact hk.2

theorem mtx_interrupt_pm_frame (L : Layout) (s : Dev) :
    ∃ p t, (t = s.trace ∨ t = s.trace ++ [Event.schedule_suspend]) ∧
      mtx_interrupt_pm L s = { s with drm_msvdx_pmpolicy := p, trace := t } := by
  unfold mtx_interrupt_pm
  simp only
  split <;> split <;> split <;>
    first
    | exact ⟨_, _, Or.inl rfl, rfl⟩
    | exact ⟨_, _, Or.inr rfl, rfl⟩

/-- C27: the interrupt handler entered with `msvdx_needs_reset` non-zero.
Whenever it returns, the read index of the firmware-to-host ring equals the
write index, `msvdx_current_sequence`, the command queue, the busy flag and
`msvdx_needs_reset` are as on entry, the host-to-firmware ring is untouched
(VEC local RAM, its write index, the stores and the kicks), and the trace of
collaborator calls has gained no fence call: it is as on entry or has one
`schedule_suspend` from the power policy at the end. And the handler does
return, with any fuel above `k`, when the ring holds `k` whole messages
between the read index and the write index. -/
theorem C27_messages_are_dropped_while_reset_is_needed (L : Layout) (hL : L.header_ok)
    (F : Nat) (s : Dev) (hreset : s.msvdx_needs_reset ≠ 0) :
    (∀ s2, psb_msvdx_mtx_interrupt L F s = some s2 →
      s2.MSVDX_COMMS_TO_HOST_RD_INDEX = s.MSVDX_COMMS_TO_HOST_WRT_INDEX ∧
      s2.MSVDX_COMMS_TO_HOST_WRT_INDEX = s.MSVDX_COMMS_TO_HOST_WRT_INDEX ∧
      s2.msvdx_current_sequence = s.msvdx_current_sequence ∧
      s2.msvdx_queue = s.msvdx_queue ∧
      s2.msvdx_busy = s.msvdx_busy ∧
      s2.msvdx_needs_reset = s.msvdx_needs_reset ∧
      s2.vlr = s.vlr ∧
      s2.MSVDX_COMMS_TO_MTX_WRT_INDEX = s.MSVDX_COMMS_TO_MTX_WRT_INDEX ∧
      s2.ring_stores = s.ring_stores ∧
      s2.mtx_kicks = s.mtx_kicks ∧
      (s2.trace = s.trace ∨ s2.trace = s.trace ++ [Event.schedule_suspend])) ∧
    (∀ k, k < F →
      s.MSVDX_COMMS_TO_HOST_RD_INDEX < to_host_capacity s →
      s.mtx_interrupt_buf.length = 128 →
      holds_messages L s k s.MSVDX_COMMS_TO_HOST_RD_INDEX = true →
      ∃ s2, psb_msvdx_mtx_interrupt L F s = some s2) := by
  constructor
  · intro s2 h
    unfold psb_msvdx_mtx_interrupt at h
    simp only at h
    split at h
    · exact absurd h (by simp)
    · rename_i s1 hl
      injection h with h
      obtain ⟨h1, b, r, h2⟩ := loop_under_reset L F F _ s1 (by exact hreset) hl
      obtain ⟨p, t, ht, h3⟩ := mtx_interrupt_pm_frame L s1
      rw [h3] at h
      subst h
      subst h2
      refine ⟨h1, rfl, rfl, rfl, rfl, rfl, rfl, rfl, rfl, rfl, ht⟩
  · intro k hk hrd hbuf hm
    obtain ⟨s1, h1⟩ := loop_under_reset_returns L hL F k F
      { s with MSVDX_MAN_CLK_ENABLE := L.clk_enable_all } hk hreset hrd
      (by show 0 < s.mtx_interrupt_buf.length; omega)
      (by
        rw [holds_messages_congr L s { s with MSVDX_MAN_CLK_ENABLE := L.clk_enable_all }
          rfl rfl rfl]
        exact hm)
    refine ⟨mtx_interrupt_pm L s1, ?_⟩
    unfold psb_msvdx_mtx_interrupt
    simp only
    rw [h1]

/-- Witness of C27: in `resetDev` a panic message and a completed message
wait in the ring (read index 0, write index 5) and `msvdx_needs_reset` is 1.
The handler returns with the read index at 5; the last completed sequence
stays 4, the two queued entries stay queued, the busy flag stays 1, and no
call is recorded. -/
theorem C27_messages_are_dropped_while_reset_is_needed_witness :
    resetDev.msvdx_needs_reset ≠ 0 ∧
    holds_messages sampleLayout resetDev 2 resetDev.MSVDX_COMMS_TO_HOST_RD_INDEX = true ∧
    (∃ s2, psb_msvdx_mtx_interrupt sampleLayout 3 resetDev = some s2) ∧
    (psb_msvdx_mtx_interrupt sampleLayout 3 resetDev).map
        (fun s2 => (s2.MSVDX_COMMS_TO_HOST_RD_INDEX, s2.msvdx_current_sequence,
          s2.msvdx_queue.length, s2.msvdx_busy, s2.msvdx_needs_reset, s2.ring_stores,
          s2.mtx_kicks, s2.trace))
      = some (5, 4, 2, 1, 1, 0, 0, []) :=
  ⟨by decide, by decide,
   (C27_messages_are_dropped_while_reset_is_needed sampleLayout (by decide) 3 resetDev
      (by decide)).2 2 (by decide) (by decide) rfl (by decide),
   rfl⟩

/-! ## What a refused send leaves behind -/

/-- C25 (amended): with both indices of the host-to-firmware ring below the
capacity, `psb_mtx_send` returns, and when it returns an error one of two
things has happened. Either nothing of the ring has changed: the state is
the entry state with the clocks enabled. Or the message had to wrap
(`write_index + len > capacity_words`) with the read index non-zero, and the
pad message that was sent first has stayed: the state is the one left by the
commit of the pad message, which succeeded, so that the firmware has been
kicked once, the write index has advanced by the length of the pad message
modulo the capacity, and as many words have been stored from the old write
index on: the words of the array `pad_msg` (the header first) as far as the
array goes, and behind them whatever the memory behind the array holds. -/
theorem C25_refused_send_may_leave_pad_message (L : Layout) (hL : L.header_ok) (fuel : Nat)
    (s : Dev) (msg : List Nat) (off : Nat)
    (hr : s.MSVDX_COMMS_TO_MTX_RD_INDEX < to_mtx_capacity s)
    (hw : s.MSVDX_COMMS_TO_MTX_WRT_INDEX < to_mtx_capacity s) :
    ∃ s2 r, psb_mtx_send L (fuel + 2) s msg off = some (s2, r) ∧
      (r ≠ 0 →
        s2 = { s with MSVDX_MAN_CLK_ENABLE := L.clk_enable_all } ∨
        (s.MSVDX_COMMS_TO_MTX_WRT_INDEX + msg_num_of L msg off > to_mtx_capacity s ∧
          s.MSVDX_COMMS_TO_MTX_RD_INDEX ≠ 0 ∧
          s2 = (mtx_send_commit L { s with MSVDX_MAN_CLK_ENABLE := L.clk_enable_all }
                  (pad_msg_memory L s.pad_msg_behind (to_mtx_capacity s)
                    s.MSVDX_COMMS_TO_MTX_WRT_INDEX) 0
                  (msg_num_of L (pad_msg L (to_mtx_capacity s) s.MSVDX_COMMS_TO_MTX_WRT_INDEX) 0)
                  s.MSVDX_COMMS_TO_MTX_RD_INDEX s.MSVDX_COMMS_TO_MTX_WRT_INDEX
                  (to_mtx_capacity s) (to_mtx_offset s)).1 ∧
          s2.MSVDX_COMMS_TO_MTX_WRT_INDEX
            = (s.MSVDX_COMMS_TO_MTX_WRT_INDEX
                + msg_num_of L (pad_msg L (to_mtx_capacity s) s.MSVDX_COMMS_TO_MTX_WRT_INDEX) 0)
              % to_mtx_capacity s ∧
          s2.ring_stores = s.ring_stores
            + msg_num_of L (pad_msg L (to_mtx_capacity s) s.MSVDX_COMMS_TO_MTX_WRT_INDEX) 0 ∧
          s2.mtx_kicks = s.mtx_kicks + 1 ∧
          (∀ i, i < msg_num_of L (pad_msg L (to_mtx_capacity s) s.MSVDX_COMMS_TO_MTX_WRT_INDEX) 0 →
            ring_word s2 (s.MSVDX_COMMS_TO_MTX_WRT_INDEX + i)
              = if i < L.FWRK_PADMSG_SIZE then
                  rd32 (pad_msg L (to_mtx_capacity s) s.MSVDX_COMMS_TO_MTX_WRT_INDEX) (4 * i)
                else s.pad_msg_behind (i - L.FWRK_PADMSG_SIZE)))) := by
  have hc := to_mtx_capacity_lt s
  have e : to_mtx_capacity { s with MSVDX_MAN_CLK_ENABLE := L.clk_enable_all }
      = to_mtx_capacity s := rfl
  have e2 : to_mtx_offset { s with MSVDX_MAN_CLK_ENABLE := L.clk_enable_all }
      = to_mtx_offset s := rfl
  have hcommit : ∀ (t : Dev) (m : List Nat) (o n ridx widx bs bo : Nat),
      (mtx_send_commit L t m o n ridx widx bs bo).2 ≠ 0 →
      (mtx_send_commit L t m o n ridx widx bs bo).1 = t := by
    intro t m o n ridx widx bs bo
    unfold mtx_send_commit
    split
    · intro _; rfl
    · intro h; exact absurd rfl h
  rw [psb_mtx_send]
  simp only [e, e2]
  by_cases h1 : msg_num_of L msg off > to_mtx_capacity s
  · rw [if_pos h1]
    exact ⟨_, _, rfl, fun _ => Or.inl rfl⟩
  · rw [if_neg h1]
    by_cases h2 : (s.MSVDX_COMMS_TO_MTX_WRT_INDEX + msg_num_of L msg off) % U32
        > to_mtx_capacity s
    · rw [if_pos h2]
      by_cases h3 : s.MSVDX_COMMS_TO_MTX_RD_INDEX = 0
      · rw [if_pos h3]
        exact ⟨_, _, rfl, fun _ => Or.inl rfl⟩
      · rw [if_neg h3]
        have hwrap : s.MSVDX_COMMS_TO_MTX_WRT_INDEX + msg_num_of L msg off
            > to_mtx_capacity s := by
          rw [Nat.mod_eq_of_lt (by unfold U32; omega)] at h2
          exact h2
        have hpad := pad_msg_num_le L hL (to_mtx_capacity s) s.MSVDX_COMMS_TO_MTX_WRT_INDEX hc hw
        have hnum := pad_msg_memory_num L hL s.pad_msg_behind (to_mtx_capacity s)
          s.MSVDX_COMMS_TO_MTX_WRT_INDEX
        have hnest : psb_mtx_send L (fuel + 1) { s with MSVDX_MAN_CLK_ENABLE := L.clk_enable_all }
            (pad_msg_memory L s.pad_msg_behind (to_mtx_capacity s)
              s.MSVDX_COMMS_TO_MTX_WRT_INDEX) 0
            = some (mtx_send_commit L { s with MSVDX_MAN_CLK_ENABLE := L.clk_enable_all }
                (pad_msg_memory L s.pad_msg_behind (to_mtx_capacity s)
                  s.MSVDX_COMMS_TO_MTX_WRT_INDEX) 0
                (msg_num_of L (pad_msg L (to_mtx_capacity s) s.MSVDX_COMMS_TO_MTX_WRT_INDEX) 0)
                s.MSVDX_COMMS_TO_MTX_RD_INDEX s.MSVDX_COMMS_TO_MTX_WRT_INDEX
                (to_mtx_capacity s) (to_mtx_offset s)) := by
          rw [psb_mtx_send_nowrap L fuel _ _ _ (by rw [e, hnum]; simp only; omega), hnum]
          rfl
        rw [hnest]
        rcases hc1 : mtx_send_commit L { s with MSVDX_MAN_CLK_ENABLE := L.clk_enable_all }
            (pad_msg_memory L s.pad_msg_behind (to_mtx_capacity s)
              s.MSVDX_COMMS_TO_MTX_WRT_INDEX) 0
            (msg_num_of L (pad_msg L (to_mtx_capacity s) s.MSVDX_COMMS_TO_MTX_WRT_INDEX) 0)
            s.MSVDX_COMMS_TO_MTX_RD_INDEX s.MSVDX_COMMS_TO_MTX_WRT_INDEX
            (to_mtx_capacity s) (to_mtx_offset s) with ⟨s1, r1⟩
        simp only
        have hcm := hcommit s1 msg off (msg_num_of L msg off) s.MSVDX_COMMS_TO_MTX_RD_INDEX
          s1.MSVDX_COMMS_TO_MTX_WRT_INDEX (to_mtx_capacity s) (to_mtx_offset s)
        generalize mtx_send_commit L s1 msg off (msg_num_of L msg off)
          s.MSVDX_COMMS_TO_MTX_RD_INDEX s1.MSVDX_COMMS_TO_MTX_WRT_INDEX (to_mtx_capacity s)
          (to_mtx_offset s) = c at hcm ⊢
        refine ⟨c.1, c.2, rfl, fun hne => ?_⟩
        rw [hcm hne]
        have hs1 : s1 = (mtx_send_commit L { s with MSVDX_MAN_CLK_ENABLE := L.clk_enable_all }
            (pad_msg_memory L s.pad_msg_behind (to_mtx_capacity s)
              s.MSVDX_COMMS_TO_MTX_WRT_INDEX) 0
            (msg_num_of L (pad_msg L (to_mtx_capacity s) s.MSVDX_COMMS_TO_MTX_WRT_INDEX) 0)
            s.MSVDX_COMMS_TO_MTX_RD_INDEX s.MSVDX_COMMS_TO_MTX_WRT_INDEX
            (to_mtx_capacity s) (to_mtx_offset s)).1 := by rw [hc1]
        by_cases h4 : msg_num_of L (pad_msg L (to_mtx_capacity s) s.MSVDX_COMMS_TO_MTX_WRT_INDEX) 0
            > words_free (to_mtx_capacity s) s.MSVDX_COMMS_TO_MTX_RD_INDEX
                s.MSVDX_COMMS_TO_MTX_WRT_INDEX
        · left
          rw [hs1, mtx_send_commit_full L _ _ _ _ _ _ _ _ h4]
        · right
          have hfit := mtx_send_commit_fit L { s with MSVDX_MAN_CLK_ENABLE := L.clk_enable_all }
            (pad_msg_memory L s.pad_msg_behind (to_mtx_capacity s)
              s.MSVDX_COMMS_TO_MTX_WRT_INDEX) 0
            (msg_num_of L (pad_msg L (to_mtx_capacity s) s.MSVDX_COMMS_TO_MTX_WRT_INDEX) 0)
            s.MSVDX_COMMS_TO_MTX_RD_INDEX s.MSVDX_COMMS_TO_MTX_WRT_INDEX
            (to_mtx_capacity s) (to_mtx_offset s) hc hw (by omega) (by omega)
          rw [← hs1] at hfit
          obtain ⟨_, f2, f3, f4, f5, f6, _⟩ := hfit
          refine ⟨hwrap, h3, rfl, f2, f3, f4, ?_⟩
          intro i hi
          have h6 := f6 i hi
          rw [Nat.zero_add, pad_msg_memory_word L _ _ _ i hc hw (by omega)] at h6
          unfold ring_word
          rw [to_mtx_offset_congr f5.1]
          exact h6
    · rw [if_neg h2]
      have hcm := hcommit { s with MSVDX_MAN_CLK_ENABLE := L.clk_enable_all } msg off
        (msg_num_of L msg off) s.MSVDX_COMMS_TO_MTX_RD_INDEX s.MSVDX_COMMS_TO_MTX_WRT_INDEX
        (to_mtx_capacity s) (to_mtx_offset s)
      generalize mtx_send_commit L { s with MSVDX_MAN_CLK_ENABLE := L.clk_enable_all } msg off
        (msg_num_of L msg off) s.MSVDX_COMMS_TO_MTX_RD_INDEX s.MSVDX_COMMS_TO_MTX_WRT_INDEX
        (to_mtx_capacity s) (to_mtx_offset s) = c at hcm ⊢
      exact ⟨c.1, c.2, rfl, fun hne => Or.inl (hcm hne)⟩

/-- Witness of C25: the ring of 8 words with read index 2 and write index 4,
the words 49164 and 5 behind the array `pad_msg`, and a message of 5 words.
The send is refused, and the four words left in the ring from index 4 on are
the two of the array and the two behind it. -/
theorem C25_refused_send_may_leave_pad_message_witness :
    (psb_mtx_send sampleLayout (0 + 2) ringBehind [20, 1, 2, 3, 4] 0).map
        (fun p => (p.2, (List.range 4).map (fun i => ring_word p.1 (4 + i))))
      = some (-EINVAL, [16, 0, 49164, 5]) ∧
    ∃ s2 r, psb_mtx_send sampleLayout (0 + 2) ringBehind [20, 1, 2, 3, 4] 0 = some (s2, r) ∧
      (r ≠ 0 →
        s2 = { ringBehind with MSVDX_MAN_CLK_ENABLE := sampleLayout.clk_enable_all } ∨
        (ringBehind.MSVDX_COMMS_TO_MTX_WRT_INDEX + msg_num_of sampleLayout [20, 1, 2, 3, 4] 0
            > to_mtx_capacity ringBehind ∧
          ringBehind.MSVDX_COMMS_TO_MTX_RD_INDEX ≠ 0 ∧
          s2 = (mtx_send_commit sampleLayout
                  { ringBehind with MSVDX_MAN_CLK_ENABLE := sampleLayout.clk_enable_all }
                  (pad_msg_memory sampleLayout ringBehind.pad_msg_behind
                    (to_mtx_capacity ringBehind) ringBehind.MSVDX_COMMS_TO_MTX_WRT_INDEX) 0
                  (msg_num_of sampleLayout
                    (pad_msg sampleLayout (to_mtx_capacity ringBehind)
                      ringBehind.MSVDX_COMMS_TO_MTX_WRT_INDEX) 0)
                  ringBehind.MSVDX_COMMS_TO_MTX_RD_INDEX ringBehind.MSVDX_COMMS_TO_MTX_WRT_INDEX
                  (to_mtx_capacity ringBehind) (to_mtx_offset ringBehind)).1 ∧
          s2.MSVDX_COMMS_TO_MTX_WRT_INDEX
            = (ringBehind.MSVDX_COMMS_TO_MTX_WRT_INDEX
                + msg_num_of sampleLayout
                    (pad_msg sampleLayout (to_mtx_capacity ringBehind)
                      ringBehind.MSVDX_COMMS_TO_MTX_WRT_INDEX) 0)
              % to_mtx_capacity ringBehind ∧
          s2.ring_stores = ringBehind.ring_stores
            + msg_num_of sampleLayout
                (pad_msg sampleLayout (to_mtx_capacity ringBehind)
                  ringBehind.MSVDX_COMMS_TO_MTX_WRT_INDEX) 0 ∧
          s2.mtx_kicks = ringBehind.mtx_kicks + 1 ∧
          (∀ i, i < msg_num_of sampleLayout
                (pad_msg sampleLayout (to_mtx_capacity ringBehind)
                  ringBehind.MSVDX_COMMS_TO_MTX_WRT_INDEX) 0 →
            ring_word s2 (ringBehind.MSVDX_COMMS_TO_MTX_WRT_INDEX + i)
              = if i < sampleLayout.FWRK_PADMSG_SIZE then
                  rd32 (pad_msg sampleLayout (to_mtx_capacity ringBehind)
                    ringBehind.MSVDX_COMMS_TO_MTX_WRT_INDEX) (4 * i)
                else ringBehind.pad_msg_behind (i - sampleLayout.FWRK_PADMSG_SIZE)))) :=
  ⟨by decide,
   C25_refused_send_may_leave_pad_message sampleLayout (by decide) 0 ringBehind [20, 1, 2, 3, 4] 0
    (by decide) (by decide)⟩

/-- Counterexample to C25 as stated: ring of 8 words, read index 2, write
index 4, ring word 4 holding 0. A message of 5 words has to wrap; the pad
message of 4 words is sent, and the message is then refused with `-EINVAL`
because only one slot is free behind the pad message. On return the write
index is 0 instead of 4, four words have been stored, the firmware has been
kicked once, and ring word 4 holds the header of the pad message (size 16). -/
theorem C25_refused_send_leaves_pad_message :
    ringB.MSVDX_COMMS_TO_MTX_WRT_INDEX = 4 ∧ ring_word ringB 4 = 0 ∧
    (psb_mtx_send sampleLayout 2 ringB [20, 1, 2, 3, 4] 0).map
        (fun p => (p.2, p.1.MSVDX_COMMS_TO_MTX_WRT_INDEX, p.1.ring_stores, p.1.mtx_kicks,
          ring_word p.1 4))
      = some (-EINVAL, 0, 4, 1, 16) := by
  refine ⟨rfl, rfl, by decide⟩

/-! ## The unmapping of the command page -/

theorem patch_render_kunmap (L : Layout) (s : Dev) (mem : List Nat) (off sequence : Nat) :
    (patch_render L s mem off sequence).1.trace.count Event.kunmap
      = s.trace.count Event.kunmap := by
  unfold patch_render cmpxchg_mmu_invaldc
  simp only
  split_ifs <;> simp

theorem patch_deblock_kunmap (L : Layout) (s : Dev) (mem : List Nat) (off sequence id : Nat) :
    (patch_deblock L s mem off sequence id).1.trace.count Event.kunmap
      = s.trace.count Event.kunmap := by
  unfold patch_deblock cmpxchg_mmu_invaldc
  simp only
  split_ifs <;> rfl

theorem map_command_loop_kunmap (L : Layout) (sequence : Nat) :
    ∀ (fuel : Nat) (s : Dev) (mem : List Nat) (off n : Nat) (s1 : Dev) (mem1 : List Nat)
      (e : LoopExit),
      map_command_loop L sequence fuel s mem off n = some (s1, mem1, e) →
      s1.trace.count Event.kunmap = s.trace.count Event.kunmap ∧
      (∀ ret, e = LoopExit.returned ret → ret = -EINVAL) ∧
      (∀ ret, e = LoopExit.goto_out ret → ret = -EINVAL) := by
  intro fuel
  induction fuel with
  | zero => intro s mem off n s1 mem1 e h; simp [map_command_loop] at h
  | succ fuel ih =>
    intro s mem off n s1 mem1 e h
    rw [map_command_loop] at h
    simp only at h
    split_ifs at h
    all_goals
      first
      | (simp only [Option.some.injEq, Prod.mk.injEq] at h
         obtain ⟨h1, _, h3⟩ := h
         subst h1; subst h3
         refine ⟨rfl, ?_, ?_⟩ <;> intro ret hr <;> first | cases hr; rfl | cases hr)
      | (obtain ⟨i1, i2, i3⟩ := ih _ _ _ _ _ _ _ h
         rw [patch_render_kunmap] at i1
         exact ⟨i1, i2, i3⟩)
      | (obtain ⟨i1, i2, i3⟩ := ih _ _ _ _ _ _ _ h
         rw [patch_deblock_kunmap] at i1
         exact ⟨i1, i2, i3⟩)

theorem patch_render_kmap (L : Layout) (s : Dev) (mem : List Nat) (off sequence : Nat) :
    (patch_render L s mem off sequence).1.trace.count Event.kmap
      = s.trace.count Event.kmap := by
  unfold patch_render cmpxchg_mmu_invaldc
  simp only
  split_ifs <;> simp

theorem patch_deblock_kmap (L : Layout) (s : Dev) (mem : List Nat) (off sequence id : Nat) :
    (patch_deblock L s mem off sequence id).1.trace.count Event.kmap
      = s.trace.count Event.kmap := by
  unfold patch_deblock cmpxchg_mmu_invaldc
  simp only
  split_ifs <;> rfl

theorem map_command_loop_kmap (L : Layout) (sequence : Nat) :
    ∀ (fuel : Nat) (s : Dev) (mem : List Nat) (off n : Nat) (s1 : Dev) (mem1 : List Nat)
      (e : LoopExit),
      map_command_loop L sequence fuel s mem off n = some (s1, mem1, e) →
      s1.trace.count Event.kmap = s.trace.count Event.kmap := by
  intro fuel
  induction fuel with
  | zero => intro s mem off n s1 mem1 e h; simp [map_command_loop] at h
  | succ fuel ih =>
    intro s mem off n s1 mem1 e h
    rw [map_command_loop] at h
    simp only at h
    split_ifs at h
    all_goals
      first
      | (simp only [Option.some.injEq, Prod.mk.injEq] at h
         obtain ⟨h1, _, _⟩ := h
         subst h1
         rfl)
      | (have i1 := ih _ _ _ _ _ _ _ h
         rw [patch_render_kmap] at i1
         exact i1)
      | (have i1 := ih _ _ _ _ _ _ _ h
         rw [patch_deblock_kmap] at i1
         exact i1)

theorem psb_msvdx_send_trace (L : Layout) (F : Nat) :
    ∀ (fuel : Nat) (s : Dev) (mem : List Nat) (off n : Nat) (s2 : Dev) (r : Int),
      psb_msvdx_send L F fuel s mem off n = some (s2, r) → s2.trace = s.trace := by
  intro fuel
  induction fuel with
  | zero => intro s mem off n s2 r h; simp [psb_msvdx_send] at h
  | succ fuel ih =>
    intro s mem off n s2 r h
    rw [psb_msvdx_send] at h
    simp only at h
    split_ifs at h with h1 h2
    · simp only [Option.some.injEq, Prod.mk.injEq] at h
      rw [← h.1]
    · split at h
      · exact absurd h (by simp)
      · rename_i s1 ret hs
        have hf := psb_mtx_send_frame L F s mem off s1 ret hs
        have ht : s1.trace = s.trace := hf.2.2.2.2.2.2.2.2.2.2.2.2.2.2.2.2.2
        split_ifs at h
        · simp only [Option.some.injEq, Prod.mk.injEq] at h
          rw [← h.1, ht]
        · rw [ih _ _ _ _ _ _ h, ht]
    · simp only [Option.some.injEq, Prod.mk.injEq] at h
      rw [← h.1]

/-- C26: `psb_msvdx_map_command` on a buffer that passes the page check and
whose page is mapped (`ttm_bo_kmap` returns 0). Whenever it returns, either
`ttm_bo_kunmap` has been called exactly once, or it has not been called at
all, and then the validation loop was left through the `return -EINVAL` of
line 109 (fewer bytes remaining than a generic header) and the function
returns `-EINVAL`. The second case occurs: when the buffer is shorter than a
generic header the function returns `-EINVAL` with the page mapped and not
unmapped. -/
theorem C26_kunmap_is_skipped_on_short_tail (L : Layout) (F : Nat) (s : Dev) (mem : List Nat)
    (cmd_offset cmd_size : Nat) (alloc_ok : Bool) (sequence : Nat) (copy_cmd : Bool)
    (hsize : cmd_size ≤ PAGE_SIZE) (hpage : cmd_size + cmd_offset % PAGE_SIZE ≤ PAGE_SIZE) :
    (∀ r, psb_msvdx_map_command L F s mem cmd_offset cmd_size 0 alloc_ok sequence copy_cmd
        = some r →
      r.dev.trace.count Event.kmap = s.trace.count Event.kmap + 1 ∧
      (r.dev.trace.count Event.kunmap = s.trace.count Event.kunmap + 1 ∨
        (r.dev.trace.count Event.kunmap = s.trace.count Event.kunmap ∧ r.ret = -EINVAL ∧
          ∃ s1 mem1, map_command_loop L sequence F
              { s with trace := s.trace ++ [Event.kmap] } mem 0 cmd_size
            = some (s1, mem1, LoopExit.returned (-EINVAL))))) ∧
    (0 < cmd_size → cmd_size < L.FWRK_GENMSG_HEADER_SIZE →
      psb_msvdx_map_command L (F + 1) s mem cmd_offset cmd_size 0 alloc_ok sequence copy_cmd
        = some ⟨{ s with trace := s.trace ++ [Event.kmap] }, mem, -EINVAL, none⟩) := by
  constructor
  · intro r h
    unfold psb_msvdx_map_command at h
    simp only at h
    rw [if_neg (by omega), if_neg (by simp)] at h
    rcases hl : map_command_loop L sequence F { s with trace := s.trace ++ [Event.kmap] } mem 0
        cmd_size with _ | ⟨s1, mem1, e⟩
    · rw [hl] at h
      exact absurd h (by simp)
    · rw [hl] at h
      obtain ⟨k1, k2, _⟩ := map_command_loop_kunmap L sequence F _ _ _ _ _ _ _ hl
      have k0 := map_command_loop_kmap L sequence F _ _ _ _ _ _ _ hl
      have t0 : ({ s with trace := s.trace ++ [Event.kmap] } : Dev).trace.count Event.kunmap
          = s.trace.count Event.kunmap := by simp
      have t1 : ({ s with trace := s.trace ++ [Event.kmap] } : Dev).trace.count Event.kmap
          = s.trace.count Event.kmap + 1 := by simp
      rw [t0] at k1
      rw [t1] at k0
      cases e with
      | finished =>
        simp only at h
        split_ifs at h
        · injection h with h
          subst h
          exact ⟨by simp [k0], Or.inl (by simp [k1])⟩
        · injection h with h
          subst h
          exact ⟨by simp [k0], Or.inl (by simp [k1])⟩
        · split at h
          · exact absurd h (by simp)
          · rename_i s2 ret hs
            have ht := psb_msvdx_send_trace L F F _ _ _ _ _ _ hs
            injection h with h
            subst h
            exact ⟨by simp [k0, ht], Or.inl (by simp [k1, ht])⟩
      | goto_out ret =>
        simp only at h
        injection h with h
        subst h
        exact ⟨by simp [k0], Or.inl (by simp [k1])⟩
      | returned ret =>
        simp only at h
        injection h with h
        subst h
        have hret := k2 ret rfl
        subst hret
        exact ⟨k0, Or.inr ⟨k1, rfl, s1, mem1, rfl⟩⟩
  · intro h0 h1
    unfold psb_msvdx_map_command
    simp only
    rw [if_neg (by omega), if_neg (by simp), map_command_loop]
    simp only
    rw [if_pos h0, if_pos h1]

/-- Witness of C26: a buffer of one byte, shorter than the generic header of
two bytes. -/
theorem C26_kunmap_is_skipped_on_short_tail_witness :
    (1 ≤ PAGE_SIZE ∧ 1 + 0 % PAGE_SIZE ≤ PAGE_SIZE ∧ 0 < 1 ∧
      1 < sampleLayout.FWRK_GENMSG_HEADER_SIZE) ∧
    (∀ r, psb_msvdx_map_command sampleLayout 3 idleDev [1] 0 1 0 true 5 false = some r →
      r.dev.trace.count Event.kmap = idleDev.trace.count Event.kmap + 1 ∧
      (r.dev.trace.count Event.kunmap = idleDev.trace.count Event.kunmap + 1 ∨
        (r.dev.trace.count Event.kunmap = idleDev.trace.count Event.kunmap ∧ r.ret = -EINVAL ∧
          ∃ s1 mem1, map_command_loop sampleLayout 5 3
              { idleDev with trace := idleDev.trace ++ [Event.kmap] } [1] 0 1
            = some (s1, mem1, LoopExit.returned (-EINVAL))))) ∧
    psb_msvdx_map_command sampleLayout (3 + 1) idleDev [1] 0 1 0 true 5 false
      = some ⟨{ idleDev with trace := idleDev.trace ++ [Event.kmap] }, [1], -EINVAL, none⟩ :=
  ⟨by decide,
   (C26_kunmap_is_skipped_on_short_tail sampleLayout 3 idleDev [1] 0 1 true 5 false
      (by decide) (by decide)).1,
   (C26_kunmap_is_skipped_on_short_tail sampleLayout 3 idleDev [1] 0 1 true 5 false
      (by decide) (by decide)).2 (by decide) (by decide)⟩

/-- The failing input of C26: a render message of 32 bytes followed by one
more byte. The page is mapped, the render message is accepted and patched,
and with one byte remaining the function returns `-EINVAL` from inside the
loop: the trace has `kmap` and no `kunmap`. -/
theorem C26_short_tail_leaves_page_mapped :
    33 ≤ PAGE_SIZE ∧
    (psb_msvdx_map_command sampleLayout 3 idleDev (sampleRender ++ [0]) 0 33 0 true 5 false).map
        (fun r => (r.ret, r.dev.trace.count Event.kmap, r.dev.trace.count Event.kunmap))
      = some (-EINVAL, 1, 0) := by
  refine ⟨by decide, by decide⟩

/-! ## The MMU-invalidate flag when a buffer is refused -/

theorem patch_at_flag (L : Layout) (sequence : Nat) (s : Dev) (mem : List Nat) (off : Nat) :
    (patch_at L sequence s mem off).1.msvdx_mmu_invaldc
      = if s.msvdx_mmu_invaldc = 1 then 0 else s.msvdx_mmu_invaldc := by
  unfold patch_at patch_render patch_deblock cmpxchg_mmu_invaldc
  simp only
  split_ifs <;> rfl

theorem map_command_loop_flag (L : Layout) (hL : L.patch_ok) (sequence : Nat) :
    ∀ (fuel : Nat) (s : Dev) (mem : List Nat) (off n : Nat) (s1 : Dev) (mem1 : List Nat)
      (e : LoopExit),
      map_command_loop L sequence fuel s mem off n = some (s1, mem1, e) →
      s1.msvdx_mmu_invaldc
        = if s.msvdx_mmu_invaldc = 1 ∧ acceptable L mem off n then 0
          else s.msvdx_mmu_invaldc := by
  intro fuel
  induction fuel with
  | zero => intro s mem off n s1 mem1 e h; simp [map_command_loop] at h
  | succ fuel ih =>
    intro s mem off n s1 mem1 e h
    rcases loop_cases L hL sequence fuel s mem off n with ⟨h0, e0⟩ | ⟨_, hna, e0 | e0⟩ |
      ⟨_, ha, e0⟩
    · rw [e0] at h
      simp only [Option.some.injEq, Prod.mk.injEq] at h
      have hna : ¬ acceptable L mem off n := by
        intro ha
        have := acceptable_pos L hL mem off n ha
        omega
      rw [← h.1, if_neg (fun hc => hna hc.2)]
    · rw [e0] at h
      simp only [Option.some.injEq, Prod.mk.injEq] at h
      rw [← h.1, if_neg (fun hc => hna hc.2)]
    · rw [e0] at h
      simp only [Option.some.injEq, Prod.mk.injEq] at h
      rw [← h.1, if_neg (fun hc => hna hc.2)]
    · rw [e0] at h
      have i1 := ih _ _ _ _ _ _ _ h
      rw [patch_at_flag] at i1
      rw [i1]
      by_cases hf : s.msvdx_mmu_invaldc = 1
      · simp [hf, ha]
      · simp [hf]

/-- C29 (amended): `psb_msvdx_map_command` returns once its fuel exceeds the
byte count, and whatever it returns, error or not, the MMU-invalidate-pending
flag is `0` when it was `1` on entry and the first sub-message of the buffer
was accepted by the validation loop (the page check passed, the page was
mapped, and the sub-message at offset 0 passed every check), and has its entry
value otherwise. A later sub-message that is refused, or a send that fails,
does not put the flag back. -/
theorem C29_flag_is_consumed_by_first_accepted_submessage (L : Layout) (hL : L.patch_ok)
    (F : Nat) (s : Dev) (mem : List Nat) (cmd_offset cmd_size : Nat) (kmap_ret : Int)
    (alloc_ok : Bool) (sequence : Nat) (copy_cmd : Bool)
    (hr : s.MSVDX_COMMS_TO_MTX_RD_INDEX < to_mtx_capacity s)
    (hw : s.MSVDX_COMMS_TO_MTX_WRT_INDEX < to_mtx_capacity s)
    (hF : cmd_size < F + 2) :
    ∃ r, psb_msvdx_map_command L (F + 2) s mem cmd_offset cmd_size kmap_ret alloc_ok sequence
        copy_cmd = some r ∧
      r.dev.msvdx_mmu_invaldc
        = if s.msvdx_mmu_invaldc = 1 ∧ cmd_size ≤ PAGE_SIZE ∧
              cmd_size + cmd_offset % PAGE_SIZE ≤ PAGE_SIZE ∧ kmap_ret = 0 ∧
              acceptable L mem 0 cmd_size
          then 0 else s.msvdx_mmu_invaldc := by
  obtain ⟨r, h, _⟩ := map_command_total L hL F s mem cmd_offset cmd_size kmap_ret alloc_ok
    sequence copy_cmd hr hw hF
  refine ⟨r, h, ?_⟩
  unfold psb_msvdx_map_command at h
  simp only at h
  by_cases hp : cmd_size > PAGE_SIZE ∨ cmd_size + cmd_offset % PAGE_SIZE > PAGE_SIZE
  · rw [if_pos hp] at h
    injection h with h
    subst h
    rw [if_neg (by intro hc; omega)]
  · rw [if_neg hp] at h
    by_cases hk : kmap_ret ≠ 0
    · rw [if_pos hk] at h
      injection h with h
      subst h
      rw [if_neg (fun hc => hk hc.2.2.2.1)]
    · rw [if_neg hk] at h
      have hcond : (s.msvdx_mmu_invaldc = 1 ∧ cmd_size ≤ PAGE_SIZE ∧
            cmd_size + cmd_offset % PAGE_SIZE ≤ PAGE_SIZE ∧ kmap_ret = 0 ∧
            acceptable L mem 0 cmd_size)
          ↔ (s.msvdx_mmu_invaldc = 1 ∧ acceptable L mem 0 cmd_size) := by
        constructor
        · intro hc; exact ⟨hc.1, hc.2.2.2.2⟩
        · intro hc
          exact ⟨hc.1, by omega, by omega, by simpa using hk, hc.2⟩
      simp only [hcond]
      rcases hl : map_command_loop L sequence (F + 2) { s with trace := s.trace ++ [Event.kmap] }
          mem 0 cmd_size with _ | ⟨s1, mem1, e⟩
      · rw [hl] at h
        exact absurd h (by simp)
      · rw [hl] at h
        have hfl := map_command_loop_flag L hL sequence _ _ _ _ _ _ _ _ hl
        cases e with
        | finished =>
          simp only at h
          split_ifs at h
          · injection h with h
            subst h
            exact hfl
          · injection h with h
            subst h
            exact hfl
          · split at h
            · exact absurd h (by simp)
            · rename_i s2 ret hs
              have hf := psb_msvdx_send_frame L (F + 2) (F + 2) _ _ _ _ _ _ hs
              have hm : s2.msvdx_mmu_invaldc = s1.msvdx_mmu_invaldc :=
                hf.2.2.2.2.2.2.2.2.2.2.2.2.1
              injection h with h
              subst h
              exact hm.trans hfl
        | goto_out ret =>
          simp only at h
          injection h with h
          subst h
          exact hfl
        | returned ret =>
          simp only at h
          injection h with h
          subst h
          exact hfl

/-- Witness of C29: a render message followed by a message with an
unsupported id, on a device with an MMU invalidate pending. -/
theorem C29_flag_is_consumed_by_first_accepted_submessage_witness :
    ∃ r, psb_msvdx_map_command sampleLayout (47 + 2) idleDev (sampleRender ++ sampleUnsupported)
        0 48 0 true 5 false = some r ∧
      r.dev.msvdx_mmu_invaldc
        = if idleDev.msvdx_mmu_invaldc = 1 ∧ 48 ≤ PAGE_SIZE ∧
              48 + 0 % PAGE_SIZE ≤ PAGE_SIZE ∧ (0 : Int) = 0 ∧
              acceptable sampleLayout (sampleRender ++ sampleUnsupported) 0 48
          then 0 else idleDev.msvdx_mmu_invaldc :=
  C29_flag_is_consumed_by_first_accepted_submessage sampleLayout (by decide) 47 idleDev
    (sampleRender ++ sampleUnsupported) 0 48 0 true 5 false (by decide) (by decide) (by decide)

/-- Counterexample to C29 as stated: an idle device with an MMU invalidate
pending (flag 1), and a buffer of 48 bytes made of a valid render message
followed by a message with an unsupported id. The render message is accepted
and patched, which consumes the flag; the second message is refused, and the
function returns `-EINVAL` with the flag at 0 and nothing sent to the ring. -/
theorem C29_refused_buffer_consumes_invalidate :
    idleDev.msvdx_mmu_invaldc = 1 ∧
    (psb_msvdx_map_command sampleLayout 3 idleDev (sampleRender ++ sampleUnsupported) 0 48 0
        true 5 false).map
        (fun r => (r.ret, r.dev.msvdx_mmu_invaldc, r.dev.ring_stores, r.dev.mtx_kicks, r.copy))
      = some (-EINVAL, 0, 0, 0, none) := by
  refine ⟨rfl, by decide⟩

/-! ## Termination of the two loops -/

theorem map_command_loop_returns (L : Layout) (hrs : 0 < L.FW_VA_RENDER_SIZE)
    (hds : 0 < L.FW_VA_DEBLOCK_SIZE) (sequence : Nat) :
    ∀ (fuel : Nat) (s : Dev) (mem : List Nat) (off n : Nat), n < fuel →
      ∃ res, map_command_loop L sequence fuel s mem off n = some res := by
  intro fuel
  induction fuel with
  | zero => intro s mem off n h; omega
  | succ fuel ih =>
    intro s mem off n h
    rw [map_command_loop]
    simp only
    split_ifs
    all_goals
      first
      | exact ⟨_, rfl⟩
      | (apply ih; omega)

/-- C30: with the render and deblock message sizes positive, the validation
loop of `psb_msvdx_map_command` returns on every buffer, from every state and
offset, once its fuel exceeds the byte count: each turn either leaves the loop
or takes an accepted sub-message of positive size off the remaining bytes.
And when the loop has accepted the whole buffer, `psb_msvdx_send` returns on
the buffer as the loop left it, from every state whose ring indices are below
the capacity, with the same bound on its turns; this part uses that the
patches do not touch the size field of a sub-message (`patch_ok`). -/
theorem C30_validation_and_send_terminate (L : Layout) (sequence fuel : Nat) (s : Dev)
    (mem : List Nat) (cmd_size : Nat)
    (hrs : 0 < L.FW_VA_RENDER_SIZE) (hds : 0 < L.FW_VA_DEBLOCK_SIZE)
    (hfuel : cmd_size < fuel) :
    (∃ res, map_command_loop L sequence fuel s mem 0 cmd_size = some res) ∧
    (L.patch_ok → ∀ s1 mem1,
      map_command_loop L sequence fuel s mem 0 cmd_size = some (s1, mem1, LoopExit.finished) →
      ∀ (F : Nat) (t : Dev),
        t.MSVDX_COMMS_TO_MTX_RD_INDEX < to_mtx_capacity t →
        t.MSVDX_COMMS_TO_MTX_WRT_INDEX < to_mtx_capacity t →
        ∃ res, psb_msvdx_send L (F + 2) fuel t mem1 0 cmd_size = some res) := by
  refine ⟨map_command_loop_returns L hrs hds sequence fuel s mem 0 cmd_size hfuel, ?_⟩
  intro hL s1 mem1 h F t hr hw
  exact send_total_after_loop L hL sequence F fuel s mem 0 cmd_size s1 mem1 h fuel t hfuel hr hw

/-- Witness of C30: a render message followed by a deblock message, 48 bytes
in all, with 49 turns of fuel. -/
theorem C30_validation_and_send_terminate_witness :
    ((map_command_loop sampleLayout 5 49 idleDev (sampleRender ++ sampleDeblock) 0 48).map
        (fun res => res.2.2) = some LoopExit.finished ∧ sampleLayout.patch_ok) ∧
    (∃ res, map_command_loop sampleLayout 5 49 idleDev (sampleRender ++ sampleDeblock) 0 48
        = some res) ∧
    (sampleLayout.patch_ok → ∀ s1 mem1,
      map_command_loop sampleLayout 5 49 idleDev (sampleRender ++ sampleDeblock) 0 48
        = some (s1, mem1, LoopExit.finished) →
      ∀ (F : Nat) (t : Dev),
        t.MSVDX_COMMS_TO_MTX_RD_INDEX < to_mtx_capacity t →
        t.MSVDX_COMMS_TO_MTX_WRT_INDEX < to_mtx_capacity t →
        ∃ res, psb_msvdx_send sampleLayout (F + 2) 49 t mem1 0 48 = some res) :=
  ⟨⟨by decide, by decide⟩,
   C30_validation_and_send_terminate sampleLayout 5 49 idleDev (sampleRender ++ sampleDeblock) 48
    (by decide) (by decide) (by decide)⟩

/-! ## Queued work and the busy flag -/

end Msvdx
